import Mathlib

/-!
Interference helper of the ns-3 wifi module (802.11ax fork).

A shallow embedding of `src/wifi/model/interference-helper.cc`.

Conventions of the embedding:
* `double` values are rationals (exact arithmetic);
* `ns3::Time` is an integer tick count (64-bit overflow is not modelled);
* `std::map` is an association list kept in key order, `std::multimap` a list
  ordered by insertion, and an iterator of a multimap is an index into that list
  (`end ()` is the length of the list);
* undefined behaviour and a failing `NS_ASSERT` are the value `none`.
-/

namespace ns3

/-- Simulation time (`ns3::Time`), a signed tick count. -/
abbrev Time := Int

/-- A frequency band, `typedef std::pair<uint32_t, uint32_t> WifiSpectrumBand`. -/
abbrev WifiSpectrumBand := Nat × Nat

/-- Received power per band, iterated in order and searched by key (`find`). -/
abbrev RxPowerWattPerChannelBand := List (WifiSpectrumBand × ℚ)

/-- Handle of a `WifiTxVector`; the class is declared outside the embedded sources,
everything read from it goes through `Collaborators`. -/
structure WifiTxVector where
  handle : Nat
deriving DecidableEq, Repr

/-- Handle of a `WifiMode` (declared outside the embedded sources). -/
structure WifiMode where
  handle : Nat
deriving DecidableEq, Repr

/-- Preamble families (`enum WifiPreamble`) named in interference-helper.cc. -/
inductive WifiPreamble where
  | WIFI_PREAMBLE_LONG
  | WIFI_PREAMBLE_SHORT
  | WIFI_PREAMBLE_HT_MF
  | WIFI_PREAMBLE_HT_GF
  | WIFI_PREAMBLE_VHT
  | WIFI_PREAMBLE_HE_SU
  | WIFI_PREAMBLE_OTHER
deriving DecidableEq, Repr

/-- Modulation classes (`enum WifiModulationClass`) named in interference-helper.cc. -/
inductive WifiModulationClass where
  | WIFI_MOD_CLASS_HT
  | WIFI_MOD_CLASS_VHT
  | WIFI_MOD_CLASS_HE
  | WIFI_MOD_CLASS_OTHER
deriving DecidableEq, Repr

/-- Signal event for a PPDU (`class Event`). `addr` is the identity of the heap
object behind `Ptr<Event>`; `m_ppdu` is the PPDU pointer. -/
structure Event where
  addr : Nat
  m_ppdu : Nat
  m_txVector : WifiTxVector
  m_startTime : Time
  m_endTime : Time
  m_rxPowerW : RxPowerWattPerChannelBand
deriving DecidableEq, Repr

/-- Constructor `Event::Event`: the start time is `Simulator::Now ()`. -/
def Event.create (now : Time) (addr ppdu : Nat) (txVector : WifiTxVector) (duration : Time)
    (rxPower : RxPowerWattPerChannelBand) : Event :=
  { addr := addr, m_ppdu := ppdu, m_txVector := txVector,
    m_startTime := now, m_endTime := now + duration, m_rxPowerW := rxPower }

def Event.GetStartTime (e : Event) : Time := e.m_startTime

def Event.GetEndTime (e : Event) : Time := e.m_endTime

def Event.GetDuration (e : Event) : Time := e.m_endTime - e.m_startTime

/-- Embedding of `std::map::find` on an association list: the value stored under `band`. -/
def mapFind {V : Type} (m : List (WifiSpectrumBand × V)) (band : WifiSpectrumBand) : Option V :=
  match m with
  | [] => none
  | (k, v) :: rest => if k = band then some v else mapFind rest band

/-- Key order of `std::pair<uint32_t, uint32_t>` (lexicographic). -/
def bandLess (a b : WifiSpectrumBand) : Bool :=
  decide (a.1 < b.1) || (decide (a.1 = b.1) && decide (a.2 < b.2))

/-- Embedding of `std::map::insert`: no effect when the key is present, otherwise the entry is
placed in key order. -/
def mapInsert {V : Type} (m : List (WifiSpectrumBand × V)) (band : WifiSpectrumBand) (v : V) :
    List (WifiSpectrumBand × V) :=
  match m with
  | [] => [(band, v)]
  | (k, w) :: rest =>
    if k = band then (k, w) :: rest
    else if bandLess band k then (band, v) :: (k, w) :: rest
    else (k, w) :: mapInsert rest band v

/-- Assignment through the iterator returned by `find`: `m.find (band)->second = v`. -/
def mapAssign {V : Type} (m : List (WifiSpectrumBand × V)) (band : WifiSpectrumBand) (v : V) :
    List (WifiSpectrumBand × V) :=
  match m with
  | [] => []
  | (k, w) :: rest => if k = band then (k, v) :: rest else (k, w) :: mapAssign rest band v

/-- Embedding of `Event::GetRxPowerW (band)`: `find` followed by `NS_ASSERT (it != end)`. -/
def Event.GetRxPowerW (e : Event) (band : WifiSpectrumBand) : Option ℚ :=
  mapFind e.m_rxPowerW band

/-- Noise and interference change (`class NiChange`). -/
structure NiChange where
  m_power : ℚ
  m_event : Option Event
deriving DecidableEq, Repr

def NiChange.GetPower (c : NiChange) : ℚ := c.m_power

def NiChange.AddPower (c : NiChange) (power : ℚ) : NiChange :=
  { c with m_power := c.m_power + power }

def NiChange.GetEvent (c : NiChange) : Option Event := c.m_event

/-- Embedding of `typedef std::multimap<Time, NiChange> NiChanges`. -/
abbrev NiChanges := List (Time × NiChange)

/-- Embedding of `typedef std::map<WifiSpectrumBand, NiChanges> NiChangesPerBand`. -/
abbrev NiChangesPerBand := List (WifiSpectrumBand × NiChanges)

/-- Embedding of `std::multimap::upper_bound`: position of the first record later than `moment`. -/
def upper_bound (l : NiChanges) (moment : Time) : Nat :=
  match l with
  | [] => 0
  | x :: rest => if moment < x.1 then 0 else upper_bound rest moment + 1

/-- Embedding of `std::multimap::find`: position of the first record stamped `t` (the
one the tree search of libstdc++ and libc++ returns), `end ()` if there is none. -/
def multimapFind (l : NiChanges) (t : Time) : Nat :=
  match l with
  | [] => 0
  | x :: rest => if x.1 = t then 0 else multimapFind rest t + 1

/-- Embedding of `std::multimap::insert (hint, value)` with a hint obtained from `upper_bound`:
the record is placed right before position `pos`. -/
def insertAt (l : NiChanges) (pos : Nat) (x : Time × NiChange) : NiChanges :=
  l.take pos ++ x :: l.drop pos

/-- Embedding of `std::multimap::erase (first, last)`. -/
def eraseRange (l : NiChanges) (first last : Nat) : NiChanges :=
  l.take first ++ l.drop last

/-- The loop `for (auto i = first; i != last; ++i) i->second.AddPower (power)`. -/
def addPowerRange (l : NiChanges) (first last : Nat) (power : ℚ) : NiChanges :=
  l.take first ++ ((l.take last).drop first).map (fun r => (r.1, r.2.AddPower power))
    ++ l.drop last

/-- State of `class InterferenceHelper`. The error rate model (`m_errorRateModel`) is
passed to the PER computations inside `Collaborators`. -/
structure InterferenceHelper where
  m_noiseFigure : ℚ
  m_numRxAntennas : Nat
  m_niChangesPerBand : NiChangesPerBand
  m_firstPowerPerBand : List (WifiSpectrumBand × ℚ)
  m_rxing : Bool
deriving DecidableEq, Repr

/-- Constructor `InterferenceHelper::InterferenceHelper`; `m_noiseFigure` is not
initialised by it, so its value is a parameter. -/
def InterferenceHelper.create (noiseFigure : ℚ) : InterferenceHelper :=
  { m_noiseFigure := noiseFigure, m_numRxAntennas := 1, m_niChangesPerBand := [],
    m_firstPowerPerBand := [], m_rxing := false }

namespace InterferenceHelper

def RemoveBands (h : InterferenceHelper) : InterferenceHelper :=
  { h with m_niChangesPerBand := [], m_firstPowerPerBand := [] }

def SetNoiseFigure (h : InterferenceHelper) (value : ℚ) : InterferenceHelper :=
  { h with m_noiseFigure := value }

def SetNumberOfReceiveAntennas (h : InterferenceHelper) (rx : Nat) : InterferenceHelper :=
  { h with m_numRxAntennas := rx }

/-- Embedding of `GetNextPosition`: `NS_ASSERT (it != end)`, then `upper_bound (moment)`. -/
def GetNextPosition (h : InterferenceHelper) (moment : Time) (band : WifiSpectrumBand) :
    Option Nat :=
  match mapFind h.m_niChangesPerBand band with
  | none => none
  | some ni => some (upper_bound ni moment)

/-- Embedding of `GetPreviousPosition`: `--it` on the result of `GetNextPosition`; decrementing
`begin ()` is undefined. -/
def GetPreviousPosition (h : InterferenceHelper) (moment : Time) (band : WifiSpectrumBand) :
    Option Nat :=
  match GetNextPosition h moment band with
  | none => none
  | some it => if it = 0 then none else some (it - 1)

/-- Embedding of `AddNiChangeEvent`: insert `(moment, change)` at `GetNextPosition (moment, band)` and
return the position of the new record. -/
def AddNiChangeEvent (h : InterferenceHelper) (moment : Time) (change : NiChange)
    (band : WifiSpectrumBand) : Option (InterferenceHelper × Nat) :=
  match mapFind h.m_niChangesPerBand band with
  | none => none
  | some ni =>
    match GetNextPosition h moment band with
    | none => none
    | some pos =>
      some ({ h with m_niChangesPerBand :=
                (mapAssign h.m_niChangesPerBand band (insertAt ni pos (moment, change))) }, pos)

/-- Embedding of `AddBand`: asserts that the band is new, registers an empty timeline, inserts the
zero power record at time 0 and sets the first power to 0. -/
def AddBand (h : InterferenceHelper) (band : WifiSpectrumBand) : Option InterferenceHelper :=
  match mapFind h.m_niChangesPerBand band with
  | some _ => none
  | none =>
    let h1 := { h with m_niChangesPerBand := mapInsert h.m_niChangesPerBand band [] }
    match AddNiChangeEvent h1 0 { m_power := 0, m_event := none } band with
    | none => none
    | some (h2, _) =>
      some { h2 with m_firstPowerPerBand := mapInsert h2.m_firstPowerPerBand band 0 }

/-- Power of the record `GetPreviousPosition (moment, band)` points to. -/
def previousPower (h : InterferenceHelper) (moment : Time) (band : WifiSpectrumBand) :
    Option ℚ :=
  match mapFind h.m_niChangesPerBand band, GetPreviousPosition h moment band with
  | some ni, some i => (ni.get? i).map (fun r => r.2.GetPower)
  | _, _ => none

/-- The `if (!m_rxing)` block of `AppendEvent`: the first power becomes
`previousPowerStart` and the records from the second one up to
`GetNextPosition (start)` are erased. -/
def pruneBeforeStart (h : InterferenceHelper) (event : Event) (band : WifiSpectrumBand)
    (previousPowerStart : ℚ) : Option InterferenceHelper :=
  match mapFind h.m_firstPowerPerBand band, mapFind h.m_niChangesPerBand band,
      GetNextPosition h event.GetStartTime band with
  | some _, some ni, some next =>
    if ni = [] ∨ next < 1 then none
    else some { h with
      m_firstPowerPerBand := mapAssign h.m_firstPowerPerBand band previousPowerStart
      m_niChangesPerBand := mapAssign h.m_niChangesPerBand band (eraseRange ni 1 next) }
  | _, _, _ => none

/-- Body of the loop of `AppendEvent` for one entry `it` of the power map. -/
def appendEventBand (event : Event) (h : InterferenceHelper) (it : WifiSpectrumBand × ℚ) :
    Option InterferenceHelper :=
  let band := it.1
  match mapFind h.m_niChangesPerBand band with
  | none => none
  | some _ =>
    match previousPower h event.GetStartTime band, previousPower h event.GetEndTime band with
    | some previousPowerStart, some previousPowerEnd =>
      match (if !h.m_rxing then pruneBeforeStart h event band previousPowerStart else some h) with
      | none => none
      | some h1 =>
        match AddNiChangeEvent h1 event.GetStartTime
            { m_power := previousPowerStart, m_event := some event } band with
        | none => none
        | some (h2, first) =>
          match AddNiChangeEvent h2 event.GetEndTime
              { m_power := previousPowerEnd, m_event := some event } band with
          | none => none
          | some (h3, last) =>
            if last ≤ first then none
            else
              match mapFind h3.m_niChangesPerBand band with
              | none => none
              | some ni3 =>
                some { h3 with m_niChangesPerBand :=
                  (mapAssign h3.m_niChangesPerBand band (addPowerRange ni3 first last it.2)) }
    | _, _ => none

/-- Embedding of `AppendEvent`: the loop over the entries of the power map of the event. -/
def AppendEvent (h : InterferenceHelper) (event : Event) : Option InterferenceHelper :=
  event.m_rxPowerW.foldlM (appendEventBand event) h

/-- Embedding of `Add`: create the event at time `now` and append it. -/
def Add (h : InterferenceHelper) (now : Time) (addr ppdu : Nat) (txVector : WifiTxVector)
    (duration : Time) (rxPowerW : RxPowerWattPerChannelBand) :
    Option (InterferenceHelper × Event) :=
  let event := Event.create now addr ppdu txVector duration rxPowerW
  match AppendEvent h event with
  | none => none
  | some h1 => some (h1, event)

def NotifyRxStart (h : InterferenceHelper) : InterferenceHelper :=
  { h with m_rxing := true }

/-- Body of the loop of `NotifyRxEnd` for one entry `ni` (a copy) of the band map:
`find (now)`, `it--`, then the first power of the band becomes the power there. -/
def notifyRxEndBand (now : Time) (h : InterferenceHelper) (ni : WifiSpectrumBand × NiChanges) :
    Option InterferenceHelper :=
  let it := multimapFind ni.2 now
  if it = 0 then none
  else
    match ni.2.get? (it - 1), mapFind h.m_firstPowerPerBand ni.1 with
    | some r, some _ =>
      some { h with m_firstPowerPerBand := mapAssign h.m_firstPowerPerBand ni.1 r.2.GetPower }
    | _, _ => none

/-- Embedding of `NotifyRxEnd` called at simulation time `now`. -/
def NotifyRxEnd (h : InterferenceHelper) (now : Time) : Option InterferenceHelper :=
  let h0 := { h with m_rxing := false }
  h0.m_niChangesPerBand.foldlM (notifyRxEndBand now) h0

/-- Body of the loop `for (auto it : m_niChangesPerBand)` of `EraseEvents`. The loop
variable `it` is a copy of the map entry: `it.second.clear ()` empties the copy, then
`AddNiChangeEvent` works on the timeline stored in the helper and `at` resets the
first power. -/
def eraseEventsBand (h : InterferenceHelper) (it : WifiSpectrumBand × NiChanges) :
    Option InterferenceHelper :=
  let it : WifiSpectrumBand × NiChanges := (it.1, [])
  match AddNiChangeEvent h 0 { m_power := 0, m_event := none } it.1 with
  | none => none
  | some (h1, _) =>
    match mapFind h1.m_firstPowerPerBand it.1 with
    | none => none
    | some _ => some { h1 with m_firstPowerPerBand := mapAssign h1.m_firstPowerPerBand it.1 0 }

/-- Embedding of `EraseEvents`. -/
def EraseEvents (h : InterferenceHelper) : Option InterferenceHelper :=
  match h.m_niChangesPerBand.foldlM eraseEventsBand h with
  | none => none
  | some h1 => some { h1 with m_rxing := false }

/-- Embedding of `CalculateSnr` in exact arithmetic. -/
def CalculateSnr (h : InterferenceHelper) (signal noiseInterference : ℚ) (channelWidth : Nat) :
    ℚ :=
  let BOLTZMANN : ℚ := 13803 / 10 ^ 27
  let Nt : ℚ := BOLTZMANN * 290 * channelWidth * 10 ^ 6
  let noiseFloor : ℚ := h.m_noiseFigure * Nt
  let noise : ℚ := noiseFloor + noiseInterference
  let snr : ℚ := signal / noise
  snr

end InterferenceHelper

/-- Power of the record before `upper_bound (t)` in one timeline: what
`GetPreviousPosition (t, band)->second.GetPower ()` reads. -/
def timelinePower (ni : NiChanges) (t : Time) : Option ℚ :=
  if upper_bound ni t = 0 then none
  else (ni.get? (upper_bound ni t - 1)).map (fun r => r.2.GetPower)

/-- Effect of one pass of the loop of `AppendEvent` on the timeline of its band. -/
def appendTimeline (rxing : Bool) (event : Event) (power : ℚ) (ni : NiChanges) :
    Option NiChanges :=
  match timelinePower ni event.GetStartTime, timelinePower ni event.GetEndTime with
  | some previousPowerStart, some previousPowerEnd =>
    let ni1 := if rxing then ni else eraseRange ni 1 (upper_bound ni event.GetStartTime)
    let first := upper_bound ni1 event.GetStartTime
    let ni2 := insertAt ni1 first
      (event.GetStartTime, { m_power := previousPowerStart, m_event := some event })
    let last := upper_bound ni2 event.GetEndTime
    let ni3 := insertAt ni2 last
      (event.GetEndTime, { m_power := previousPowerEnd, m_event := some event })
    if last ≤ first then none else some (addPowerRange ni3 first last power)
  | _, _ => none

/-- One call of `Add` for a single band, made while the reception flag has the value
`rxing`. -/
structure AddCall where
  rxing : Bool
  now : Time
  duration : Time
  powerW : ℚ
  addr : Nat
  ppdu : Nat
  txVector : WifiTxVector
deriving DecidableEq, Repr

/-- The calls are made in time order with disjoint intervals: each event starts at or
after `t0` (the end of the previous one) and has a duration that is not negative. -/
def orderedCalls (t0 : Time) : List AddCall → Prop
  | [] => True
  | c :: cs => t0 ≤ c.now ∧ 0 ≤ c.duration ∧ orderedCalls (c.now + c.duration) cs

/-- Run the calls on `band` one after the other; for each `Add` record the power read at
the start of the event just before the call and the power read at the end of the event
right after the call (both through `GetPreviousPosition`). -/
def addTrace (band : WifiSpectrumBand) (h : InterferenceHelper) :
    List AddCall → Option (List (ℚ × ℚ))
  | [] => some []
  | c :: cs =>
    let h0 := { h with m_rxing := c.rxing }
    match h0.previousPower c.now band with
    | none => none
    | some before =>
      match h0.Add c.now c.addr c.ppdu c.txVector c.duration [(band, c.powerW)] with
      | none => none
      | some (h1, event) =>
        match h1.previousPower event.GetEndTime band with
        | none => none
        | some after =>
          match addTrace band h1 cs with
          | none => none
          | some rest => some ((before, after) :: rest)

/-- A timeline starts with the zero power record at time 0 that has no event. -/
def HeadOK (ni : NiChanges) : Prop :=
  ni.head? = some (0, { m_power := 0, m_event := none })

/-- Every registered band has a timeline that starts with the zero power record. -/
def SentinelInv (h : InterferenceHelper) : Prop :=
  ∀ band ni, mapFind h.m_niChangesPerBand band = some ni → HeadOK ni

/-- States reached from a newly constructed helper by successful calls of `AddBand`,
`Add` (at a time `now ≥ 0` with a duration `≥ 0`), `NotifyRxStart`, `NotifyRxEnd` and
`EraseEvents`. -/
inductive Reachable : InterferenceHelper → Prop where
  | create (noiseFigure : ℚ) : Reachable (InterferenceHelper.create noiseFigure)
  | addBand (h h1 : InterferenceHelper) (band : WifiSpectrumBand) :
      Reachable h → h.AddBand band = some h1 → Reachable h1
  | add (h h1 : InterferenceHelper) (now : Time) (addr ppdu : Nat) (txVector : WifiTxVector)
      (duration : Time) (rxPowerW : RxPowerWattPerChannelBand) (event : Event) :
      Reachable h → 0 ≤ now → 0 ≤ duration →
      h.Add now addr ppdu txVector duration rxPowerW = some (h1, event) → Reachable h1
  | notifyRxStart (h : InterferenceHelper) : Reachable h → Reachable h.NotifyRxStart
  | notifyRxEnd (h h1 : InterferenceHelper) (now : Time) :
      Reachable h → h.NotifyRxEnd now = some h1 → Reachable h1
  | eraseEvents (h h1 : InterferenceHelper) :
      Reachable h → h.EraseEvents = some h1 → Reachable h1

def Event.GetTxVector (e : Event) : WifiTxVector := e.m_txVector

/-- Power of two with an integer exponent, as a rational. -/
def pow2 (q : Int) : ℚ :=
  if 0 ≤ q then ((2 ^ q.toNat : Nat) : ℚ) else 1 / ((2 ^ (-q).toNat : Nat) : ℚ)

/-- Position of the leading bit of `n` (0 for `n < 2`); the first argument bounds the number
of halvings and is given as `n` itself. -/
def bitLog : Nat → Nat → Nat
  | 0, _ => 0
  | fuel + 1, n => if n < 2 then 0 else bitLog fuel (n / 2) + 1

/-- Binary exponent of a positive rational `a`: the integer `e` with `2 ^ e ≤ a < 2 ^ (e + 1)`. -/
def log2Floor (a : ℚ) : Int :=
  let e0 : Int := (bitLog a.num.natAbs a.num.natAbs : Int) - (bitLog a.den a.den : Int)
  if pow2 e0 ≤ a then e0 else e0 - 1

/-- Rounding of C++ `double` arithmetic (IEEE 754 binary64, round to nearest, ties to the
even significand): the double nearest to the real `x`. A significand has 53 bits and the
least exponent of a unit in the last place is -1074 (subnormal range); the theorem
`roundDouble_nearest` states this. Values beyond the largest finite double are not given
an image: the rounded rational is returned. -/
def roundDouble (x : ℚ) : ℚ :=
  if x = 0 then 0
  else
    let a : ℚ := if x < 0 then -x else x
    let q : Int := max (log2Floor a - 52) (-1074)
    let scaled : ℚ := a / pow2 q
    let m : Int := Rat.floor scaled
    let n : Int :=
      if scaled - m < 1 / 2 then m
      else if 1 / 2 < scaled - m then m + 1
      else if m % 2 = 0 then m else m + 1
    if x < 0 then -((n : ℚ) * pow2 q) else (n : ℚ) * pow2 q

/-- What interference-helper.cc reads from classes that are not part of the embedded
sources: `WifiTxVector`, `WifiMode`, the static duration functions of `WifiPhy`,
`Time::GetSeconds` and the error rate model held in `m_errorRateModel`. -/
structure Collaborators where
  GetChannelWidth : WifiTxVector → Nat
  GetPreambleType : WifiTxVector → WifiPreamble
  GetMode : WifiTxVector → Nat → WifiMode
  GetNss : WifiTxVector → Nat → Nat
  GetNTx : WifiTxVector → Nat
  GetPhyRate : WifiMode → WifiTxVector → Nat → Nat
  GetPhyRateForWidth : WifiMode → Nat → Nat
  GetModulationClass : WifiMode → WifiModulationClass
  GetSeconds : Time → ℚ
  GetPlcpPreambleDuration : WifiTxVector → Time
  GetPlcpHeaderDuration : WifiTxVector → Time
  GetPlcpHtSigHeaderDuration : WifiPreamble → Time
  GetPlcpSigA1Duration : WifiPreamble → Time
  GetPlcpSigA2Duration : WifiPreamble → Time
  GetPlcpTrainingSymbolDuration : WifiTxVector → Time
  GetPlcpSigBDuration : WifiTxVector → Time
  GetChunkSuccessRate : WifiMode → WifiTxVector → ℚ → Nat → ℚ

namespace InterferenceHelper

/-- Embedding of `CalculateChunkSuccessRate`. In `rate * duration.GetSeconds ()` the
`uint64_t` rate is converted to `double` and the product is a `double`: both are rounded by
`roundDouble`. `GetSeconds` stands for `Time::GetSeconds`, whose result is a `double`: it
is rounded as well, which changes nothing when the collaborator returns a double.
`static_cast<uint64_t>` truncates, which is the floor for a product that is not negative;
the cast of a negative product is undefined in C++ and is given 0 bits here. -/
def CalculateChunkSuccessRate (_h : InterferenceHelper) (c : Collaborators) (snir : ℚ)
    (duration : Time) (mode : WifiMode) (txVector : WifiTxVector) : ℚ :=
  if duration = 0 then 1
  else
    let rate : Nat := c.GetPhyRateForWidth mode (c.GetChannelWidth txVector)
    let nbits : Nat :=
      Int.toNat (Rat.floor
        (roundDouble (roundDouble (rate : ℚ) * roundDouble (c.GetSeconds duration))))
    let csr := c.GetChunkSuccessRate mode txVector snir nbits
    csr

/-- Embedding of `CalculatePayloadChunkSuccessRate`; the bit count is computed as in
`CalculateChunkSuccessRate`. For the classes HT, VHT and HE the source executes
`nbits /= txVector.GetNss (staId)`, an integer division that is undefined (a trap) when the
number of spatial streams is 0: the value of this function in that branch is the one of
the source only for a number of spatial streams that is not 0. -/
def CalculatePayloadChunkSuccessRate (h : InterferenceHelper) (c : Collaborators) (snir : ℚ)
    (duration : Time) (txVector : WifiTxVector) (staId : Nat) : ℚ :=
  if duration = 0 then 1
  else
    let mode := c.GetMode txVector staId
    let rate : Nat := c.GetPhyRate mode txVector staId
    let nbits : Nat :=
      Int.toNat (Rat.floor
        (roundDouble (roundDouble (rate : ℚ) * roundDouble (c.GetSeconds duration))))
    if c.GetModulationClass mode = WifiModulationClass.WIFI_MOD_CLASS_HT
        ∨ c.GetModulationClass mode = WifiModulationClass.WIFI_MOD_CLASS_VHT
        ∨ c.GetModulationClass mode = WifiModulationClass.WIFI_MOD_CLASS_HE then
      let nbits := nbits / c.GetNss txVector staId
      let gain : ℚ := ((c.GetNTx txVector * h.m_numRxAntennas : Nat) : ℚ)
      let snir := snir * gain
      c.GetChunkSuccessRate mode txVector snir nbits
    else
      c.GetChunkSuccessRate mode txVector snir nbits

/-- The `while (++j != ni_it.end ())` loop of `CalculatePayloadPer`; the argument list
holds the records from `j` on, and the result is the packet success rate `psr`. -/
def payloadPerLoop (h : InterferenceHelper) (c : Collaborators) (txVector : WifiTxVector)
    (staId : Nat) (channelWidth : Nat) (windowStart windowEnd : Time) (powerW : ℚ) :
    NiChanges → Time → ℚ → ℚ → Option ℚ
  | [], _, _, psr => some psr
  | j :: rest, previous, noiseInterferenceW, psr =>
    let current := j.1
    if current < previous then none
    else
      let psr :=
        if previous ≥ windowStart then
          psr * h.CalculatePayloadChunkSuccessRate c
            (h.CalculateSnr powerW noiseInterferenceW channelWidth)
            (current - previous) txVector staId
        else if current ≥ windowStart then
          psr * h.CalculatePayloadChunkSuccessRate c
            (h.CalculateSnr powerW noiseInterferenceW channelWidth)
            (current - windowStart) txVector staId
        else psr
      let noiseInterferenceW := j.2.GetPower - powerW
      let previous := j.1
      if previous > windowEnd then some psr
      else payloadPerLoop h c txVector staId channelWidth windowStart windowEnd powerW
        rest previous noiseInterferenceW psr

/-- Embedding of `CalculatePayloadPer`. -/
def CalculatePayloadPer (h : InterferenceHelper) (c : Collaborators) (event : Event)
    (nis : NiChangesPerBand) (band : WifiSpectrumBand) (staId : Nat) (window : Time × Time) :
    Option ℚ :=
  let txVector := event.GetTxVector
  let channelWidth := c.GetChannelWidth txVector
  match mapFind nis band with
  | none => none
  | some [] => none
  | some (j :: rest) =>
    let previous := j.1
    let preamble := c.GetPreambleType txVector
    let plcpHeaderStart := j.1 + c.GetPlcpPreambleDuration txVector
    let plcpHsigHeaderStart := plcpHeaderStart + c.GetPlcpHeaderDuration txVector
    let plcpTrainingSymbolsStart := plcpHsigHeaderStart + c.GetPlcpHtSigHeaderDuration preamble
      + c.GetPlcpSigA1Duration preamble + c.GetPlcpSigA2Duration preamble
    let plcpPayloadStart := plcpTrainingSymbolsStart + c.GetPlcpTrainingSymbolDuration txVector
      + c.GetPlcpSigBDuration txVector
    let windowStart := plcpPayloadStart + window.1
    let windowEnd := plcpPayloadStart + window.2
    match mapFind h.m_firstPowerPerBand band, event.GetRxPowerW band with
    | some noiseInterferenceW, some powerW =>
      match payloadPerLoop h c txVector staId channelWidth windowStart windowEnd powerW
          rest previous noiseInterferenceW 1 with
      | none => none
      | some psr =>
        let per := 1 - psr
        some per
    | _, _ => none

end InterferenceHelper

/-- The part of a timeline from the start record of `event` on, right after `event` was
appended with power `p`: the start record (the power `ps` read before, plus `p`), the old
records stamped after the start and not after the end with `p` added, the end record
(the power `pe` read before) and the old records stamped after the end. -/
def recordsFromStart (event : Event) (p ps pe : ℚ) (ni : NiChanges) : NiChanges :=
  (event.GetStartTime, { m_power := ps + p, m_event := some event }) ::
    ((ni.filter (fun r => decide (event.GetStartTime < r.1 ∧ r.1 ≤ event.GetEndTime))).map
        (fun r => (r.1, r.2.AddPower p)) ++
      (event.GetEndTime, { m_power := pe, m_event := some event }) ::
        ni.filter (fun r => decide (event.GetEndTime < r.1)))

/-- Sample band used in the concrete evaluations below. -/
def sampleBand : WifiSpectrumBand := (0, 1)

/-- Sample helper: noise figure 1 and `sampleBand` just registered. -/
def sampleFresh : InterferenceHelper :=
  { m_noiseFigure := 1, m_numRxAntennas := 1,
    m_niChangesPerBand := [(sampleBand, [(0, { m_power := 0, m_event := none })])],
    m_firstPowerPerBand := [(sampleBand, 0)], m_rxing := false }

/-- Sample event: 3 W on `sampleBand` during [5, 15). -/
def sampleEvent : Event := Event.create 5 1 1 { handle := 0 } 10 [(sampleBand, 3)]

/-- Sample timeline: the one of `sampleBand` after `sampleEvent` was added. -/
def sampleTimeline : NiChanges :=
  [(0, { m_power := 0, m_event := none }), (5, { m_power := 3, m_event := some sampleEvent }),
   (15, { m_power := 0, m_event := some sampleEvent })]

/-- Sample helper: `sampleFresh` after `sampleEvent` was added. -/
def sampleAfterAdd : InterferenceHelper :=
  { m_noiseFigure := 1, m_numRxAntennas := 1,
    m_niChangesPerBand := [(sampleBand, sampleTimeline)],
    m_firstPowerPerBand := [(sampleBand, 0)], m_rxing := false }

/-- Sample calls: [5, 15) with 3 W while idle, then [15, 20) with 4 W while receiving. -/
def sampleCalls : List AddCall :=
  [{ rxing := false, now := 5, duration := 10, powerW := 3, addr := 1, ppdu := 1,
     txVector := { handle := 0 } },
   { rxing := true, now := 15, duration := 5, powerW := 4, addr := 2, ppdu := 2,
     txVector := { handle := 0 } }]

/-- Sample collaborators: one bit per tick, a preamble of 16 ticks and a header of 4
ticks (the payload starts 20 ticks after the PPDU), no other field, and an error rate
model whose success rate for `nbits` bits is `1 / (nbits + 1)`. -/
def sampleCollaborators : Collaborators :=
  { GetChannelWidth := fun _ => 20
    GetPreambleType := fun _ => WifiPreamble.WIFI_PREAMBLE_LONG
    GetMode := fun _ _ => { handle := 0 }
    GetNss := fun _ _ => 1
    GetNTx := fun _ => 1
    GetPhyRate := fun _ _ _ => 1
    GetPhyRateForWidth := fun _ _ => 1
    GetModulationClass := fun _ => WifiModulationClass.WIFI_MOD_CLASS_OTHER
    GetSeconds := fun t => (t : ℚ)
    GetPlcpPreambleDuration := fun _ => 16
    GetPlcpHeaderDuration := fun _ => 4
    GetPlcpHtSigHeaderDuration := fun _ => 0
    GetPlcpSigA1Duration := fun _ => 0
    GetPlcpSigA2Duration := fun _ => 0
    GetPlcpTrainingSymbolDuration := fun _ => 0
    GetPlcpSigBDuration := fun _ => 0
    GetChunkSuccessRate := fun _ _ _ nbits => 1 / ((nbits : ℚ) + 1) }

/-- Sample PPDU: 3 W on `sampleBand` during [0, 100). -/
def samplePpdu : Event := Event.create 0 7 7 { handle := 0 } 100 [(sampleBand, 3)]

/-- Local timeline of `samplePpdu` when no other signal overlaps it, as built by
`CalculateNoiseInterferenceW`: the start record and the end record. -/
def sampleLocal : NiChangesPerBand :=
  [(sampleBand, [(0, { m_power := 0, m_event := some samplePpdu }),
                 (100, { m_power := 0, m_event := some samplePpdu })])]

/-- Sample interferer: 2 W on `sampleBand` during [30, 60). -/
def sampleInterferer : Event := Event.create 30 8 8 { handle := 0 } 30 [(sampleBand, 2)]

/-- Local timeline of `samplePpdu` when `sampleInterferer` overlaps it: the records of
the interferer at 30 (the end of the window (0, 10)) and at 60 lie between the start
record and the end record. -/
def sampleLocalSplit : NiChangesPerBand :=
  [(sampleBand, [(0, { m_power := 0, m_event := some samplePpdu }),
                 (30, { m_power := 5, m_event := some sampleInterferer }),
                 (60, { m_power := 3, m_event := some sampleInterferer }),
                 (100, { m_power := 0, m_event := some samplePpdu })])]

/-- Sample helper: `sampleAfterAdd` after `sampleInterferer` was added at time 30 with the
flag not set; the records at 5 and 15 are gone. -/
def samplePruned : InterferenceHelper :=
  { m_noiseFigure := 1, m_numRxAntennas := 1,
    m_niChangesPerBand := [(sampleBand,
      [(0, { m_power := 0, m_event := none }),
       (30, { m_power := 2, m_event := some sampleInterferer }),
       (60, { m_power := 0, m_event := some sampleInterferer })])],
    m_firstPowerPerBand := [(sampleBand, 0)], m_rxing := false }

namespace InterferenceHelper

/-- The `for (; i != end; ++i)` loop of `GetEnergyDuration`: the argument list holds the
records from `i` on, `endTime` is the variable `end`, and the result is its value when
the loop is left (at the first record whose power is below `energyW`, or at the end). -/
def energyScan (energyW : ℚ) : NiChanges → Time → Time
  | [], endTime => endTime
  | i :: rest, _ =>
    let noiseInterferenceW := i.2.GetPower
    let endTime := i.1
    if noiseInterferenceW < energyW then endTime
    else energyScan energyW rest endTime

/-- Embedding of `GetEnergyDuration` called at simulation time `now`. -/
def GetEnergyDuration (h : InterferenceHelper) (now : Time) (energyW : ℚ)
    (band : WifiSpectrumBand) : Option Time :=
  match h.GetPreviousPosition now band, mapFind h.m_niChangesPerBand band with
  | some i, some ni =>
    match ni.get? i with
    | none => none
    | some r =>
      let endTime := energyScan energyW (ni.drop i) r.1
      some (if endTime > now then endTime - now else 0)
  | _, _ => none

end InterferenceHelper

/-- Records removed by `erase (++begin, GetNextPosition (start))` in `AppendEvent`: those
from the second one up to the first record stamped later than `start`. -/
def prunedRecords (ni : NiChanges) (start : Time) : NiChanges :=
  (ni.take (upper_bound ni start)).drop 1

/-- Sample timeline: the one of `sampleBand` after `samplePpdu` was added at time 0. -/
def sampleInFlightTimeline : NiChanges :=
  [(0, { m_power := 0, m_event := none }),
   (0, { m_power := 3, m_event := some samplePpdu }),
   (100, { m_power := 0, m_event := some samplePpdu })]

/-- Sample helper: `sampleFresh` after `samplePpdu` (3 W during [0, 100)) was added at
time 0 with the flag not set. -/
def sampleInFlight : InterferenceHelper :=
  { m_noiseFigure := 1, m_numRxAntennas := 1,
    m_niChangesPerBand := [(sampleBand, sampleInFlightTimeline)],
    m_firstPowerPerBand := [(sampleBand, 0)], m_rxing := false }

/-- Sample event: 2 W on `sampleBand` during [10, 50), starting while `samplePpdu` is
still in flight. -/
def sampleOverlap : Event := Event.create 10 9 9 { handle := 0 } 40 [(sampleBand, 2)]

/-- Sample helper: `sampleInFlight` after `sampleOverlap` was added at time 10 with the
flag not set; the start record of `samplePpdu` is gone. -/
def sampleInFlightPruned : InterferenceHelper :=
  { m_noiseFigure := 1, m_numRxAntennas := 1,
    m_niChangesPerBand := [(sampleBand,
      [(0, { m_power := 0, m_event := none }),
       (10, { m_power := 5, m_event := some sampleOverlap }),
       (50, { m_power := 3, m_event := some sampleOverlap }),
       (100, { m_power := 0, m_event := some samplePpdu })])],
    m_firstPowerPerBand := [(sampleBand, 3)], m_rxing := false }

/-- Sample event: 3 W on `sampleBand` during [0, 10). -/
def sampleFirst : Event := Event.create 0 3 3 { handle := 0 } 10 [(sampleBand, 3)]

/-- Sample event: 4 W on `sampleBand` during [10, 20), starting when `sampleFirst` ends. -/
def sampleSecond : Event := Event.create 10 4 4 { handle := 0 } 10 [(sampleBand, 4)]

/-- Sample timeline: `sampleFirst` added at time 0, then `sampleSecond` added at time 10
while receiving: the end record of the first and the start record of the second are both
stamped 10. -/
def sampleBackToBackTimeline : NiChanges :=
  [(0, { m_power := 0, m_event := none }),
   (0, { m_power := 3, m_event := some sampleFirst }),
   (10, { m_power := 0, m_event := some sampleFirst }),
   (10, { m_power := 4, m_event := some sampleSecond }),
   (20, { m_power := 0, m_event := some sampleSecond })]

/-- Sample helper whose band has the timeline `sampleBackToBackTimeline`. -/
def sampleBackToBack : InterferenceHelper :=
  { m_noiseFigure := 1, m_numRxAntennas := 1,
    m_niChangesPerBand := [(sampleBand, sampleBackToBackTimeline)],
    m_firstPowerPerBand := [(sampleBand, 0)], m_rxing := true }

/-- What the PHY header walks of interference-helper.cc read from code that is not part
of the embedded sources: the preamble tests `IsHt`, `IsVht`, `IsHe` (wifi-utils), the
header modes of `WifiPhy`, and the default constructed `WifiMode ()`. -/
structure PhyHeaderModes where
  IsHt : WifiPreamble → Bool
  IsVht : WifiPreamble → Bool
  IsHe : WifiPreamble → Bool
  GetPlcpHeaderMode : WifiTxVector → WifiMode
  GetHtPlcpHeaderMode : WifiMode
  GetVhtPlcpHeaderMode : WifiMode
  GetHePlcpHeaderMode : WifiMode
  defaultMode : WifiMode

/-- The preamble is LONG or SHORT: the condition under which
`NS_ASSERT ((preamble != WIFI_PREAMBLE_LONG) && (preamble != WIFI_PREAMBLE_SHORT))`
fails. -/
def isLongOrShort (preamble : WifiPreamble) : Bool :=
  decide (preamble = WifiPreamble.WIFI_PREAMBLE_LONG
    ∨ preamble = WifiPreamble.WIFI_PREAMBLE_SHORT)

/-- Body of the loop of `CalculateLegacyPhyHeaderPer` for one interval
[previous, current): the chunks (duration, mode) whose success rates are multiplied into
`psr`, in the order of the `psr *=` statements (`psr *= 1` contributes no chunk), or
`none` when an `NS_ASSERT` on the preamble fails. -/
def legacyHeaderChunks (preamble : WifiPreamble) (headerMode : WifiMode)
    (plcpHeaderStart plcpHsigHeaderStart plcpTrainingSymbolsStart plcpPayloadStart : Time)
    (previous current : Time) : Option (List (Time × WifiMode)) :=
  if previous ≥ plcpPayloadStart then some []
  else if previous ≥ plcpTrainingSymbolsStart then
    if isLongOrShort preamble then none else some []
  else if previous ≥ plcpHsigHeaderStart then
    if isLongOrShort preamble then none else some []
  else if previous ≥ plcpHeaderStart then
    if preamble = WifiPreamble.WIFI_PREAMBLE_HT_GF then none
    else if current ≥ plcpPayloadStart then
      some [(plcpHsigHeaderStart - previous, headerMode)]
    else if current ≥ plcpTrainingSymbolsStart then
      if isLongOrShort preamble then none
      else some [(plcpHsigHeaderStart - previous, headerMode)]
    else if current ≥ plcpHsigHeaderStart then
      if isLongOrShort preamble then none
      else some [(plcpHsigHeaderStart - previous, headerMode)]
    else some [(current - previous, headerMode)]
  else
    if current ≥ plcpPayloadStart then
      some [(plcpHsigHeaderStart - plcpHeaderStart, headerMode)]
    else if current ≥ plcpTrainingSymbolsStart then
      if isLongOrShort preamble then none
      else some [(plcpHsigHeaderStart - plcpHeaderStart, headerMode)]
    else if current ≥ plcpHsigHeaderStart then
      if isLongOrShort preamble then none
      else some [(plcpHsigHeaderStart - plcpHeaderStart, headerMode)]
    else if current ≥ plcpHeaderStart then
      if preamble = WifiPreamble.WIFI_PREAMBLE_HT_GF then none
      else some [(current - plcpHeaderStart, headerMode)]
    else some []

/-- Body of the loop of `CalculateNonLegacyPhyHeaderPer` for one interval
[previous, current): the chunks (duration, mode) whose success rates are multiplied into
`psr`, in the order of the `psr *=` statements, or `none` when an `NS_ASSERT` on the
preamble fails. -/
def nonLegacyHeaderChunks (m : PhyHeaderModes) (preamble : WifiPreamble)
    (mcsHeaderMode headerMode : WifiMode)
    (plcpHeaderStart plcpHsigHeaderStart plcpTrainingSymbolsStart plcpPayloadStart : Time)
    (previous current : Time) : Option (List (Time × WifiMode)) :=
  if previous ≥ plcpPayloadStart then some []
  else if previous ≥ plcpTrainingSymbolsStart then
    if isLongOrShort preamble then none
    else if current ≥ plcpPayloadStart then
      some [(plcpPayloadStart - previous, mcsHeaderMode)]
    else some [(current - previous, mcsHeaderMode)]
  else if previous ≥ plcpHsigHeaderStart then
    if isLongOrShort preamble then none
    else if current ≥ plcpPayloadStart then
      if m.IsVht preamble || m.IsHe preamble then
        some [(plcpPayloadStart - plcpTrainingSymbolsStart, mcsHeaderMode),
              (plcpTrainingSymbolsStart - previous, headerMode)]
      else
        some [(plcpPayloadStart - plcpTrainingSymbolsStart, mcsHeaderMode),
              (plcpTrainingSymbolsStart - previous, mcsHeaderMode)]
    else if current ≥ plcpTrainingSymbolsStart then
      if m.IsVht preamble || m.IsHe preamble then
        some [(current - plcpTrainingSymbolsStart, mcsHeaderMode),
              (plcpTrainingSymbolsStart - previous, headerMode)]
      else
        some [(current - plcpTrainingSymbolsStart, mcsHeaderMode),
              (plcpTrainingSymbolsStart - previous, mcsHeaderMode)]
    else
      if m.IsVht preamble || m.IsHe preamble then
        some [(current - previous, headerMode)]
      else
        some [(current - previous, mcsHeaderMode)]
  else if previous ≥ plcpHeaderStart then
    if preamble = WifiPreamble.WIFI_PREAMBLE_HT_GF then none
    else if current ≥ plcpPayloadStart then
      if isLongOrShort preamble then some []
      else if m.IsVht preamble || m.IsHe preamble then
        some [(plcpPayloadStart - plcpTrainingSymbolsStart, mcsHeaderMode),
              (plcpTrainingSymbolsStart - plcpHsigHeaderStart, headerMode)]
      else
        some [(plcpPayloadStart - plcpHsigHeaderStart, mcsHeaderMode)]
    else if current ≥ plcpTrainingSymbolsStart then
      if isLongOrShort preamble then none
      else if m.IsVht preamble || m.IsHe preamble then
        some [(current - plcpTrainingSymbolsStart, mcsHeaderMode),
              (plcpTrainingSymbolsStart - plcpHsigHeaderStart, headerMode)]
      else
        some [(current - plcpHsigHeaderStart, mcsHeaderMode)]
    else if current ≥ plcpHsigHeaderStart then
      if isLongOrShort preamble then none
      else if m.IsVht preamble || m.IsHe preamble then
        some [(current - plcpHsigHeaderStart, headerMode)]
      else
        some [(current - plcpHsigHeaderStart, mcsHeaderMode)]
    else some []
  else
    if current ≥ plcpPayloadStart then
      if isLongOrShort preamble then some []
      else if m.IsVht preamble || m.IsHe preamble then
        some [(plcpPayloadStart - plcpTrainingSymbolsStart, mcsHeaderMode),
              (plcpTrainingSymbolsStart - plcpHsigHeaderStart, headerMode)]
      else
        some [(plcpPayloadStart - plcpHsigHeaderStart, mcsHeaderMode)]
    else if current ≥ plcpTrainingSymbolsStart then
      if isLongOrShort preamble then none
      else if m.IsVht preamble || m.IsHe preamble then
        some [(current - plcpTrainingSymbolsStart, mcsHeaderMode),
              (plcpTrainingSymbolsStart - plcpHsigHeaderStart, headerMode)]
      else
        some [(current - plcpHsigHeaderStart, mcsHeaderMode)]
    else if current ≥ plcpHsigHeaderStart then
      if isLongOrShort preamble then none
      else if m.IsVht preamble || m.IsHe preamble then
        some [(current - plcpHsigHeaderStart, headerMode)]
      else
        some [(current - plcpHsigHeaderStart, mcsHeaderMode)]
    else if current ≥ plcpHeaderStart then
      if preamble = WifiPreamble.WIFI_PREAMBLE_HT_GF then none
      else some []
    else some []

/-- Selection of `mcsHeaderMode` at the top of `CalculateNonLegacyPhyHeaderPer`; the
variable keeps its default constructed value when no test applies. -/
def selectMcsHeaderMode (m : PhyHeaderModes) (preamble : WifiPreamble) : WifiMode :=
  if m.IsHt preamble then m.GetHtPlcpHeaderMode
  else if m.IsVht preamble then m.GetVhtPlcpHeaderMode
  else if m.IsHe preamble then m.GetHePlcpHeaderMode
  else m.defaultMode

namespace InterferenceHelper

/-- The `while (++j != ni_it.end ())` loop shared by `CalculateLegacyPhyHeaderPer` and
`CalculateNonLegacyPhyHeaderPer`: `chunks` is the body of the loop for one interval, the
argument list holds the records from `j` on, and the result is `psr`. -/
def phyHeaderPerLoop (h : InterferenceHelper) (c : Collaborators) (txVector : WifiTxVector)
    (channelWidth : Nat) (powerW : ℚ)
    (chunks : Time → Time → Option (List (Time × WifiMode))) :
    NiChanges → Time → ℚ → ℚ → Option ℚ
  | [], _, _, psr => some psr
  | j :: rest, previous, noiseInterferenceW, psr =>
    let current := j.1
    if current < previous then none
    else
      match chunks previous current with
      | none => none
      | some l =>
        let psr := l.foldl (fun acc ch => acc * h.CalculateChunkSuccessRate c
          (h.CalculateSnr powerW noiseInterferenceW channelWidth) ch.1 ch.2 txVector) psr
        let noiseInterferenceW := j.2.GetPower - powerW
        let previous := j.1
        phyHeaderPerLoop h c txVector channelWidth powerW chunks rest previous
          noiseInterferenceW psr

/-- Embedding of `CalculateLegacyPhyHeaderPer`. -/
def CalculateLegacyPhyHeaderPer (h : InterferenceHelper) (c : Collaborators)
    (m : PhyHeaderModes) (event : Event) (nis : NiChangesPerBand) (band : WifiSpectrumBand) :
    Option ℚ :=
  let txVector := event.GetTxVector
  let channelWidth := if c.GetChannelWidth txVector ≥ 40 then 20 else c.GetChannelWidth txVector
  match mapFind nis band with
  | none => none
  | some [] => none
  | some (j :: rest) =>
    let previous := j.1
    let preamble := c.GetPreambleType txVector
    let headerMode := m.GetPlcpHeaderMode txVector
    let plcpHeaderStart := j.1 + c.GetPlcpPreambleDuration txVector
    let plcpHsigHeaderStart := plcpHeaderStart + c.GetPlcpHeaderDuration txVector
    let plcpTrainingSymbolsStart := plcpHsigHeaderStart + c.GetPlcpHtSigHeaderDuration preamble
      + c.GetPlcpSigA1Duration preamble + c.GetPlcpSigA2Duration preamble
    let plcpPayloadStart := plcpTrainingSymbolsStart + c.GetPlcpTrainingSymbolDuration txVector
      + c.GetPlcpSigBDuration txVector
    match mapFind h.m_firstPowerPerBand band, event.GetRxPowerW band with
    | some noiseInterferenceW, some powerW =>
      match phyHeaderPerLoop h c txVector channelWidth powerW
          (legacyHeaderChunks preamble headerMode plcpHeaderStart plcpHsigHeaderStart
            plcpTrainingSymbolsStart plcpPayloadStart)
          rest previous noiseInterferenceW 1 with
      | none => none
      | some psr =>
        let per := 1 - psr
        some per
    | _, _ => none

/-- Embedding of `CalculateNonLegacyPhyHeaderPer`. -/
def CalculateNonLegacyPhyHeaderPer (h : InterferenceHelper) (c : Collaborators)
    (m : PhyHeaderModes) (event : Event) (nis : NiChangesPerBand) (band : WifiSpectrumBand) :
    Option ℚ :=
  let txVector := event.GetTxVector
  let channelWidth := if c.GetChannelWidth txVector ≥ 40 then 20 else c.GetChannelWidth txVector
  match mapFind nis band with
  | none => none
  | some [] => none
  | some (j :: rest) =>
    let previous := j.1
    let preamble := c.GetPreambleType txVector
    let mcsHeaderMode := selectMcsHeaderMode m preamble
    let headerMode := m.GetPlcpHeaderMode txVector
    let plcpHeaderStart := j.1 + c.GetPlcpPreambleDuration txVector
    let plcpHsigHeaderStart := plcpHeaderStart + c.GetPlcpHeaderDuration txVector
    let plcpTrainingSymbolsStart := plcpHsigHeaderStart + c.GetPlcpHtSigHeaderDuration preamble
      + c.GetPlcpSigA1Duration preamble + c.GetPlcpSigA2Duration preamble
    let plcpPayloadStart := plcpTrainingSymbolsStart + c.GetPlcpTrainingSymbolDuration txVector
      + c.GetPlcpSigBDuration txVector
    match mapFind h.m_firstPowerPerBand band, event.GetRxPowerW band with
    | some noiseInterferenceW, some powerW =>
      match phyHeaderPerLoop h c txVector channelWidth powerW
          (nonLegacyHeaderChunks m preamble mcsHeaderMode headerMode plcpHeaderStart
            plcpHsigHeaderStart plcpTrainingSymbolsStart plcpPayloadStart)
          rest previous noiseInterferenceW 1 with
      | none => none
      | some psr =>
        let per := 1 - psr
        some per
    | _, _ => none

end InterferenceHelper

/-- Sample header modes: HT for the two HT preambles, VHT for the VHT one, HE for the HE
one; header mode 1, HT mode 2, VHT mode 3, HE mode 4. -/
def sampleModes : PhyHeaderModes :=
  { IsHt := fun p => decide (p = WifiPreamble.WIFI_PREAMBLE_HT_MF
      ∨ p = WifiPreamble.WIFI_PREAMBLE_HT_GF)
    IsVht := fun p => decide (p = WifiPreamble.WIFI_PREAMBLE_VHT)
    IsHe := fun p => decide (p = WifiPreamble.WIFI_PREAMBLE_HE_SU)
    GetPlcpHeaderMode := fun _ => { handle := 1 }
    GetHtPlcpHeaderMode := { handle := 2 }
    GetVhtPlcpHeaderMode := { handle := 3 }
    GetHePlcpHeaderMode := { handle := 4 }
    defaultMode := { handle := 0 } }

namespace InterferenceHelper

/-- The calls of `CalculatePayloadChunkSuccessRate` made by the loop of
`CalculatePayloadPer`, in order, each as (SNIR, duration); `none` when the loop aborts.
It follows `payloadPerLoop` step by step without multiplying. -/
def payloadPerWalk (h : InterferenceHelper) (channelWidth : Nat)
    (windowStart windowEnd : Time) (powerW : ℚ) :
    NiChanges → Time → ℚ → Option (List (ℚ × Time))
  | [], _, _ => some []
  | j :: rest, previous, noiseInterferenceW =>
    let current := j.1
    if current < previous then none
    else
      let here : List (ℚ × Time) :=
        if previous ≥ windowStart then
          [(h.CalculateSnr powerW noiseInterferenceW channelWidth, current - previous)]
        else if current ≥ windowStart then
          [(h.CalculateSnr powerW noiseInterferenceW channelWidth, current - windowStart)]
        else []
      if j.1 > windowEnd then some here
      else
        match payloadPerWalk h channelWidth windowStart windowEnd powerW rest j.1
            (j.2.GetPower - powerW) with
        | none => none
        | some w => some (here ++ w)

/-- The calls of `CalculateChunkSuccessRate` made by the loop of a PHY header walk, in
order, each as (SNIR, duration, mode); `none` when the loop aborts. It follows
`phyHeaderPerLoop` step by step without multiplying. -/
def phyHeaderWalk (h : InterferenceHelper) (channelWidth : Nat) (powerW : ℚ)
    (chunks : Time → Time → Option (List (Time × WifiMode))) :
    NiChanges → Time → ℚ → Option (List (ℚ × Time × WifiMode))
  | [], _, _ => some []
  | j :: rest, previous, noiseInterferenceW =>
    let current := j.1
    if current < previous then none
    else
      match chunks previous current with
      | none => none
      | some l =>
        match phyHeaderWalk h channelWidth powerW chunks rest j.1
            (j.2.GetPower - powerW) with
        | none => none
        | some w =>
          some (l.map (fun ch =>
            (h.CalculateSnr powerW noiseInterferenceW channelWidth, ch.1, ch.2)) ++ w)

/-- The chunk queries evaluated by `CalculatePayloadPer`. -/
def payloadPerQueries (h : InterferenceHelper) (c : Collaborators) (event : Event)
    (nis : NiChangesPerBand) (band : WifiSpectrumBand) (window : Time × Time) :
    Option (List (ℚ × Time)) :=
  let txVector := event.GetTxVector
  let preamble := c.GetPreambleType txVector
  match mapFind nis band, mapFind h.m_firstPowerPerBand band, event.GetRxPowerW band with
  | some (j :: rest), some noiseInterferenceW, some powerW =>
    let plcpPayloadStart := j.1 + c.GetPlcpPreambleDuration txVector
      + c.GetPlcpHeaderDuration txVector + c.GetPlcpHtSigHeaderDuration preamble
      + c.GetPlcpSigA1Duration preamble + c.GetPlcpSigA2Duration preamble
      + c.GetPlcpTrainingSymbolDuration txVector + c.GetPlcpSigBDuration txVector
    payloadPerWalk h (c.GetChannelWidth txVector) (plcpPayloadStart + window.1)
      (plcpPayloadStart + window.2) powerW rest j.1 noiseInterferenceW
  | _, _, _ => none

/-- The chunk queries evaluated by `CalculateLegacyPhyHeaderPer`. -/
def legacyHeaderQueries (h : InterferenceHelper) (c : Collaborators) (m : PhyHeaderModes)
    (event : Event) (nis : NiChangesPerBand) (band : WifiSpectrumBand) :
    Option (List (ℚ × Time × WifiMode)) :=
  let txVector := event.GetTxVector
  let preamble := c.GetPreambleType txVector
  match mapFind nis band, mapFind h.m_firstPowerPerBand band, event.GetRxPowerW band with
  | some (j :: rest), some noiseInterferenceW, some powerW =>
    let plcpHeaderStart := j.1 + c.GetPlcpPreambleDuration txVector
    let plcpHsigHeaderStart := plcpHeaderStart + c.GetPlcpHeaderDuration txVector
    let plcpTrainingSymbolsStart := plcpHsigHeaderStart + c.GetPlcpHtSigHeaderDuration preamble
      + c.GetPlcpSigA1Duration preamble + c.GetPlcpSigA2Duration preamble
    let plcpPayloadStart := plcpTrainingSymbolsStart + c.GetPlcpTrainingSymbolDuration txVector
      + c.GetPlcpSigBDuration txVector
    phyHeaderWalk h (if c.GetChannelWidth txVector ≥ 40 then 20 else c.GetChannelWidth txVector)
      powerW
      (legacyHeaderChunks preamble (m.GetPlcpHeaderMode txVector) plcpHeaderStart
        plcpHsigHeaderStart plcpTrainingSymbolsStart plcpPayloadStart)
      rest j.1 noiseInterferenceW
  | _, _, _ => none

/-- The chunk queries evaluated by `CalculateNonLegacyPhyHeaderPer`. -/
def nonLegacyHeaderQueries (h : InterferenceHelper) (c : Collaborators) (m : PhyHeaderModes)
    (event : Event) (nis : NiChangesPerBand) (band : WifiSpectrumBand) :
    Option (List (ℚ × Time × WifiMode)) :=
  let txVector := event.GetTxVector
  let preamble := c.GetPreambleType txVector
  match mapFind nis band, mapFind h.m_firstPowerPerBand band, event.GetRxPowerW band with
  | some (j :: rest), some noiseInterferenceW, some powerW =>
    let plcpHeaderStart := j.1 + c.GetPlcpPreambleDuration txVector
    let plcpHsigHeaderStart := plcpHeaderStart + c.GetPlcpHeaderDuration txVector
    let plcpTrainingSymbolsStart := plcpHsigHeaderStart + c.GetPlcpHtSigHeaderDuration preamble
      + c.GetPlcpSigA1Duration preamble + c.GetPlcpSigA2Duration preamble
    let plcpPayloadStart := plcpTrainingSymbolsStart + c.GetPlcpTrainingSymbolDuration txVector
      + c.GetPlcpSigBDuration txVector
    phyHeaderWalk h (if c.GetChannelWidth txVector ≥ 40 then 20 else c.GetChannelWidth txVector)
      powerW
      (nonLegacyHeaderChunks m preamble (selectMcsHeaderMode m preamble)
        (m.GetPlcpHeaderMode txVector) plcpHeaderStart plcpHsigHeaderStart
        plcpTrainingSymbolsStart plcpPayloadStart)
      rest j.1 noiseInterferenceW
  | _, _, _ => none

end InterferenceHelper

/-- Sample collaborators for an HT greenfield PPDU: preamble of 16 ticks, no L-SIG,
HT-SIG of 8 ticks, training of 4 ticks, and the error rate model of
`sampleCollaborators`. -/
def sampleGreenfieldCollaborators : Collaborators :=
  { sampleCollaborators with
    GetPreambleType := fun _ => WifiPreamble.WIFI_PREAMBLE_HT_GF
    GetPlcpHeaderDuration := fun _ => 0
    GetPlcpHtSigHeaderDuration := fun _ => 8
    GetPlcpTrainingSymbolDuration := fun _ => 4 }

/-- Sample collaborators whose error rate model returns 1 for the header mode (handle 1)
and `1 / (nbits + 1)` for every other mode. -/
def sampleCleanCollaborators : Collaborators :=
  { sampleCollaborators with
    GetChunkSuccessRate := fun mode _ _ nbits =>
      if mode = { handle := 1 } then 1 else 1 / ((nbits : ℚ) + 1) }

/-- Length of the intersection of the intervals [a, b) and [lo, hi). -/
def overlap (a b lo hi : Time) : Time := max 0 (min b hi - max a lo)

/-- Start of the first field after the legacy header (`plcpHsigHeaderStart` in the source)
of a PPDU whose first record is stamped `start`. -/
def sigStart (c : Collaborators) (txVector : WifiTxVector) (start : Time) : Time :=
  start + c.GetPlcpPreambleDuration txVector + c.GetPlcpHeaderDuration txVector

/-- Start of the training symbols (`plcpTrainingSymbolsStart` in the source). -/
def trainingStart (c : Collaborators) (txVector : WifiTxVector) (start : Time) : Time :=
  sigStart c txVector start + c.GetPlcpHtSigHeaderDuration (c.GetPreambleType txVector)
    + c.GetPlcpSigA1Duration (c.GetPreambleType txVector)
    + c.GetPlcpSigA2Duration (c.GetPreambleType txVector)

/-- Start of the payload (`plcpPayloadStart` in the source). -/
def payloadStart (c : Collaborators) (txVector : WifiTxVector) (start : Time) : Time :=
  trainingStart c txVector start + c.GetPlcpTrainingSymbolDuration txVector
    + c.GetPlcpSigBDuration txVector

namespace InterferenceHelper

/-- The intervals visited by the loop of a header walk over the records `rest`, each as
(previous, current, SNR of the interval): the SNR is computed from the noise plus
interference in force since the previous record. -/
def walkIntervals (h : InterferenceHelper) (channelWidth : Nat) (powerW : ℚ) :
    NiChanges → Time → ℚ → List (Time × Time × ℚ)
  | [], _, _ => []
  | j :: rest, previous, noiseInterferenceW =>
    (previous, j.1, h.CalculateSnr powerW noiseInterferenceW channelWidth)
      :: walkIntervals h channelWidth powerW rest j.1 (j.2.GetPower - powerW)

end InterferenceHelper

/-- The queries of one interval: its chunks, each at the SNR of the interval. -/
def groupQueries (g : (Time × Time × ℚ) × List (Time × WifiMode)) :
    List (ℚ × Time × WifiMode) :=
  g.2.map (fun ch => (g.1.2.2, ch.1, ch.2))

/-- Sample collaborators for a VHT PPDU: preamble of 16 ticks, L-SIG of 4 ticks, SIG-A of
4 + 4 ticks, training of 8 ticks and SIG-B of 4 ticks (SIG-A starts at 20, the training at
28 and the payload at 40), and the error rate model of `sampleCollaborators`. -/
def sampleVhtCollaborators : Collaborators :=
  { sampleCollaborators with
    GetPreambleType := fun _ => WifiPreamble.WIFI_PREAMBLE_VHT
    GetPlcpSigA1Duration := fun _ => 4
    GetPlcpSigA2Duration := fun _ => 4
    GetPlcpTrainingSymbolDuration := fun _ => 8
    GetPlcpSigBDuration := fun _ => 4 }

/-- Whether a chunk has a duration different from zero (a chunk of duration zero has
success rate 1 without any query of the error rate model). -/
def nonZeroChunk (ch : Time × WifiMode) : Bool := decide (ch.1 ≠ 0)

/-- Order of two records of a timeline, `a` coming before `b`: the timestamps do not
decrease, and among records that share a timestamp later than `T` the power does not
increase. -/
def endOrder (T : Time) (a b : Time × NiChange) : Prop :=
  a.1 ≤ b.1 ∧ (a.1 = b.1 → T < a.1 → b.2.m_power ≤ a.2.m_power)

/-- A timeline at simulation time `T`: it starts with the zero power record and its records
are in `endOrder`. -/
def TimelineInv (T : Time) (ni : NiChanges) : Prop :=
  HeadOK ni ∧ ni.Pairwise (endOrder T)

/-- Every registered band has a timeline that satisfies `TimelineInv` at time `T ≥ 0`. -/
def EnergyInv (T : Time) (h : InterferenceHelper) : Prop :=
  0 ≤ T ∧ ∀ band ni, mapFind h.m_niChangesPerBand band = some ni → TimelineInv T ni

namespace InterferenceHelper

/-- States reached at simulation time `T` from a helper constructed at time 0: time only
moves forward (`wait`), and every call is made at the current time, which `Add` and
`NotifyRxEnd` read from `Simulator::Now ()`. The events added have a duration and powers
that are not negative. -/
inductive ReachableAt : Time → InterferenceHelper → Prop where
  | create (noiseFigure : ℚ) : ReachableAt 0 (InterferenceHelper.create noiseFigure)
  | wait (h : InterferenceHelper) (T T1 : Time) : ReachableAt T h → T ≤ T1 → ReachableAt T1 h
  | addBand (h h1 : InterferenceHelper) (T : Time) (band : WifiSpectrumBand) :
      ReachableAt T h → h.AddBand band = some h1 → ReachableAt T h1
  | add (h h1 : InterferenceHelper) (T : Time) (addr ppdu : Nat) (txVector : WifiTxVector)
      (duration : Time) (rxPowerW : RxPowerWattPerChannelBand) (event : Event) :
      ReachableAt T h → 0 ≤ duration → (∀ it ∈ rxPowerW, 0 ≤ it.2) →
      h.Add T addr ppdu txVector duration rxPowerW = some (h1, event) → ReachableAt T h1
  | notifyRxStart (h : InterferenceHelper) (T : Time) :
      ReachableAt T h → ReachableAt T h.NotifyRxStart
  | notifyRxEnd (h h1 : InterferenceHelper) (T : Time) :
      ReachableAt T h → h.NotifyRxEnd T = some h1 → ReachableAt T h1
  | eraseEvents (h h1 : InterferenceHelper) (T : Time) :
      ReachableAt T h → h.EraseEvents = some h1 → ReachableAt T h1

end InterferenceHelper

/-- Sample helper: `sampleFresh` after `sampleFirst` was added at time 0. -/
def sampleAfterFirst : InterferenceHelper :=
  { m_noiseFigure := 1, m_numRxAntennas := 1,
    m_niChangesPerBand := [(sampleBand,
      [(0, { m_power := 0, m_event := none }),
       (0, { m_power := 3, m_event := some sampleFirst }),
       (10, { m_power := 0, m_event := some sampleFirst })])],
    m_firstPowerPerBand := [(sampleBand, 0)], m_rxing := false }

/-- Pointer comparison `change.GetEvent () == event`: the record refers to the heap object
of `event` (a record without event holds the null pointer). -/
def sameEvent (change : NiChange) (event : Event) : Bool :=
  match change.GetEvent with
  | none => false
  | some e => decide (e.addr = event.addr)

/-- First loop of `CalculateNoiseInterferenceW`,
`for (; it != end && it->first < Now; ++it)`: the argument list holds the records from `it`
on and the last argument is `noiseInterferenceW`. -/
def noiseScan (now : Time) (event : Event) (band : WifiSpectrumBand) :
    NiChanges → ℚ → Option ℚ
  | [], noiseInterferenceW => some noiseInterferenceW
  | it :: rest, noiseInterferenceW =>
    if it.1 < now then
      match event.GetRxPowerW band with
      | none => none
      | some powerW => noiseScan now event band rest (it.2.GetPower - powerW)
    else some noiseInterferenceW

/-- The loop `for (; it != end && it->second.GetEvent () != event; ++it);`: the records
after the first record of `event`, `none` when the loop leaves `it` at `end ()` (the
`++it` that follows is then undefined). -/
def skipToEvent (event : Event) : NiChanges → Option NiChanges
  | [] => none
  | it :: rest => if sameEvent it.2 event then some rest else skipToEvent event rest

/-- The loop `while (++it != end && it->second.GetEvent () != event) ni.insert (*it)`:
the argument list holds the records from `++it` on; `std::multimap::insert` places a
record after the records with a timestamp that is not later. -/
def copyUntilEvent (event : Event) : NiChanges → NiChanges → NiChanges
  | [], ni => ni
  | it :: rest, ni =>
    if sameEvent it.2 event then ni
    else copyUntilEvent event rest (insertAt ni (upper_bound ni it.1) it)

/-- The local timeline `ni` that `CalculateNoiseInterferenceW` builds from the timeline
`niBand` of the band: a zero power record at the start of the event, the records between
the first two records of the event, a zero power record at its end. -/
def localTimeline (event : Event) (niBand : NiChanges) : Option NiChanges :=
  let it := multimapFind niBand event.GetStartTime
  if it = niBand.length then none
  else
    match skipToEvent event (niBand.drop it) with
    | none => none
    | some rest =>
      let ni : NiChanges := []
      let ni := insertAt ni (upper_bound ni event.GetStartTime)
        (event.GetStartTime, { m_power := 0, m_event := some event })
      let ni := copyUntilEvent event rest ni
      some (insertAt ni (upper_bound ni event.GetEndTime)
        (event.GetEndTime, { m_power := 0, m_event := some event }))

namespace InterferenceHelper

/-- Embedding of `CalculateNoiseInterferenceW` called at simulation time `now`; the result
is the returned value and the map `*nis` after `nis->insert ({band, ni})`. -/
def CalculateNoiseInterferenceW (h : InterferenceHelper) (now : Time) (event : Event)
    (nis : NiChangesPerBand) (band : WifiSpectrumBand) : Option (ℚ × NiChangesPerBand) :=
  match mapFind h.m_firstPowerPerBand band with
  | none => none
  | some firstPower =>
    match mapFind h.m_niChangesPerBand band with
    | none => none
    | some niBand =>
      match noiseScan now event band
          (niBand.drop (multimapFind niBand event.GetStartTime)) firstPower with
      | none => none
      | some noiseInterferenceW =>
        match localTimeline event niBand with
        | none => none
        | some ni =>
          if noiseInterferenceW ≥ 0 then some (noiseInterferenceW, mapInsert nis band ni)
          else none

/-- Embedding of `CalculatePayloadSnrPer`: the pair (snr, per). -/
def CalculatePayloadSnrPer (h : InterferenceHelper) (c : Collaborators) (now : Time)
    (event : Event) (channelWidth : Nat) (band : WifiSpectrumBand) (staId : Nat)
    (relativeMpduStartStop : Time × Time) : Option (ℚ × ℚ) :=
  match h.CalculateNoiseInterferenceW now event [] band with
  | none => none
  | some (noiseInterferenceW, ni) =>
    match event.GetRxPowerW band with
    | none => none
    | some powerW =>
      let snr := h.CalculateSnr powerW noiseInterferenceW channelWidth
      match h.CalculatePayloadPer c event ni band staId relativeMpduStartStop with
      | none => none
      | some per => some (snr, per)

/-- Embedding of the overload `CalculateSnr (event, channelWidth, band)`. -/
def CalculateSnrOfEvent (h : InterferenceHelper) (now : Time) (event : Event)
    (channelWidth : Nat) (band : WifiSpectrumBand) : Option ℚ :=
  match h.CalculateNoiseInterferenceW now event [] band with
  | none => none
  | some (noiseInterferenceW, _) =>
    match event.GetRxPowerW band with
    | none => none
    | some powerW => some (h.CalculateSnr powerW noiseInterferenceW channelWidth)

/-- Embedding of `CalculateLegacyPhyHeaderSnrPer`: the pair (snr, per). -/
def CalculateLegacyPhyHeaderSnrPer (h : InterferenceHelper) (c : Collaborators)
    (m : PhyHeaderModes) (now : Time) (event : Event) (band : WifiSpectrumBand) :
    Option (ℚ × ℚ) :=
  let channelWidth :=
    if c.GetChannelWidth event.GetTxVector ≥ 40 then 20
    else c.GetChannelWidth event.GetTxVector
  match h.CalculateNoiseInterferenceW now event [] band with
  | none => none
  | some (noiseInterferenceW, ni) =>
    match event.GetRxPowerW band with
    | none => none
    | some powerW =>
      let snr := h.CalculateSnr powerW noiseInterferenceW channelWidth
      match h.CalculateLegacyPhyHeaderPer c m event ni band with
      | none => none
      | some per => some (snr, per)

/-- Embedding of `CalculateNonLegacyPhyHeaderSnrPer`: the pair (snr, per). -/
def CalculateNonLegacyPhyHeaderSnrPer (h : InterferenceHelper) (c : Collaborators)
    (m : PhyHeaderModes) (now : Time) (event : Event) (band : WifiSpectrumBand) :
    Option (ℚ × ℚ) :=
  let channelWidth :=
    if c.GetChannelWidth event.GetTxVector ≥ 40 then 20
    else c.GetChannelWidth event.GetTxVector
  match h.CalculateNoiseInterferenceW now event [] band with
  | none => none
  | some (noiseInterferenceW, ni) =>
    match event.GetRxPowerW band with
    | none => none
    | some powerW =>
      let snr := h.CalculateSnr powerW noiseInterferenceW channelWidth
      match h.CalculateNonLegacyPhyHeaderPer c m event ni band with
      | none => none
      | some per => some (snr, per)

end InterferenceHelper

/-- What `ConstantThresholdChannelBondingManager` reads from its `WifiPhy`, a class
outside the embedded sources: the channel width in MHz (`uint16_t`), the delay since the
channel of a given width is idle, and PIFS. -/
structure PhyView where
  GetChannelWidth : Nat
  GetDelaySinceChannelIsIdle : Nat → Time
  GetPifs : Time

/-- The loop `for (uint16_t width = m_phy->GetChannelWidth (); width > 20; )` of
`GetUsableChannelWidth`, entered with `width`; the result is `usableChannelWidth`. -/
def usableWidthLoop (phy : PhyView) (width : Nat) : Nat :=
  if width > 20 then
    if phy.GetDelaySinceChannelIsIdle width ≥ phy.GetPifs then width
    else usableWidthLoop phy (width / 2)
  else 20
termination_by width
decreasing_by omega

/-- Embedding of `ConstantThresholdChannelBondingManager::GetUsableChannelWidth`. -/
def GetUsableChannelWidth (phy : PhyView) : Nat :=
  if phy.GetChannelWidth < 40 then phy.GetChannelWidth
  else usableWidthLoop phy phy.GetChannelWidth

/-- The halving sequence width, width / 2, ... as long as the width is above 20 MHz. -/
def halvingSequence (width : Nat) : List Nat :=
  if width > 20 then width :: halvingSequence (width / 2) else []
termination_by width
decreasing_by omega

/-- The usable width as the claim words it: the width of the PHY when it is below 40 MHz,
otherwise the first width of the halving sequence for which the channel has been idle for
at least PIFS, and 20 when there is none. -/
def usableWidthSpec (phy : PhyView) : Nat :=
  if phy.GetChannelWidth < 40 then phy.GetChannelWidth
  else ((halvingSequence phy.GetChannelWidth).find?
    (fun w => decide (phy.GetDelaySinceChannelIsIdle w ≥ phy.GetPifs))).getD 20

/-- The two maps of the helper have the same keys: a band is in `m_niChangesPerBand`
exactly when it is in `m_firstPowerPerBand`. -/
def SameBands (h : InterferenceHelper) : Prop :=
  ∀ band, mapFind h.m_niChangesPerBand band = none ↔ mapFind h.m_firstPowerPerBand band = none

namespace InterferenceHelper

/-- States of a helper: those reached from a newly constructed helper by successful calls
of its mutators (`RemoveBands`, `AddBand`, `SetNoiseFigure`, `SetNumberOfReceiveAntennas`,
`Add`, `NotifyRxStart`, `NotifyRxEnd`, `EraseEvents`), with any arguments. -/
inductive Constructed : InterferenceHelper → Prop where
  | create (noiseFigure : ℚ) : Constructed (InterferenceHelper.create noiseFigure)
  | removeBands (h : InterferenceHelper) : Constructed h → Constructed h.RemoveBands
  | addBand (h h1 : InterferenceHelper) (band : WifiSpectrumBand) :
      Constructed h → h.AddBand band = some h1 → Constructed h1
  | setNoiseFigure (h : InterferenceHelper) (value : ℚ) :
      Constructed h → Constructed (h.SetNoiseFigure value)
  | setNumberOfReceiveAntennas (h : InterferenceHelper) (rx : Nat) :
      Constructed h → Constructed (h.SetNumberOfReceiveAntennas rx)
  | add (h h1 : InterferenceHelper) (now : Time) (addr ppdu : Nat) (txVector : WifiTxVector)
      (duration : Time) (rxPowerW : RxPowerWattPerChannelBand) (event : Event) :
      Constructed h → h.Add now addr ppdu txVector duration rxPowerW = some (h1, event) →
      Constructed h1
  | notifyRxStart (h : InterferenceHelper) : Constructed h → Constructed h.NotifyRxStart
  | notifyRxEnd (h h1 : InterferenceHelper) (now : Time) :
      Constructed h → h.NotifyRxEnd now = some h1 → Constructed h1
  | eraseEvents (h h1 : InterferenceHelper) :
      Constructed h → h.EraseEvents = some h1 → Constructed h1

end InterferenceHelper

/-- Sample helper with two registered bands, `sampleBand` and (2, 3), and no event. -/
def sampleTwoBands : InterferenceHelper :=
  { m_noiseFigure := 1, m_numRxAntennas := 1,
    m_niChangesPerBand := [(sampleBand, [(0, { m_power := 0, m_event := none })]),
                           ((2, 3), [(0, { m_power := 0, m_event := none })])],
    m_firstPowerPerBand := [(sampleBand, 0), ((2, 3), 0)], m_rxing := false }

/-- Sample helper: `sampleTwoBands` after `samplePpdu`, which has power on `sampleBand`
only, was added at time 0. -/
def sampleTwoBandsInFlight : InterferenceHelper :=
  { m_noiseFigure := 1, m_numRxAntennas := 1,
    m_niChangesPerBand := [(sampleBand, sampleInFlightTimeline),
                           ((2, 3), [(0, { m_power := 0, m_event := none })])],
    m_firstPowerPerBand := [(sampleBand, 0), ((2, 3), 0)], m_rxing := false }

/-- Sample timeline: `samplePpdu` (3 W during [0, 100)) added at time 0, then
`sampleInterferer` (2 W during [30, 60)) added at time 30 while receiving. -/
def sampleInterferedTimeline : NiChanges :=
  [(0, { m_power := 0, m_event := none }),
   (0, { m_power := 3, m_event := some samplePpdu }),
   (30, { m_power := 5, m_event := some sampleInterferer }),
   (60, { m_power := 3, m_event := some sampleInterferer }),
   (100, { m_power := 0, m_event := some samplePpdu })]

/-- Sample helper whose band has the timeline `sampleInterferedTimeline`. -/
def sampleInterfered : InterferenceHelper :=
  { m_noiseFigure := 1, m_numRxAntennas := 1,
    m_niChangesPerBand := [(sampleBand, sampleInterferedTimeline)],
    m_firstPowerPerBand := [(sampleBand, 0)], m_rxing := true }

/-- Power of the last record of a list of records. -/
def lastPower (l : NiChanges) : Option ℚ := l.getLast?.map (fun r => r.2.m_power)

/-- Power of an event on a band, 0 when its power map does not hold the band. -/
def bandPower (e : Event) (band : WifiSpectrumBand) : ℚ := (e.GetRxPowerW band).getD 0

/-- Sum of the band powers of the events of `log` in flight at `t`: those with
start <= t < end. -/
def activePower (log : List Event) (band : WifiSpectrumBand) (t : Time) : ℚ :=
  (log.map (fun e =>
    if e.GetStartTime ≤ t ∧ t < e.GetEndTime then bandPower e band else 0)).sum

/-- Sum of the band powers of the events of `log` with start < now <= end. -/
def activeBefore (log : List Event) (band : WifiSpectrumBand) (now : Time) : ℚ :=
  (log.map (fun e =>
    if e.GetStartTime < now ∧ now ≤ e.GetEndTime then bandPower e band else 0)).sum

namespace InterferenceHelper

/-- Runs on a band: the band is registered on a helper in any state, then time only moves
forward (`wait`) and `AddBand` (of other bands), `Add`, `NotifyRxStart` and `NotifyRxEnd`
are called at the current time; durations are not negative and a power map has one entry
per band. `BandRun band T S log kept h` holds when the run has reached time `T` and state
`h`; `log` lists the events added, latest first; `S` is the time of the latest Add that
erased records of the band (an Add with power on the band made while the flag is not set),
0 if there is none, and `kept` lists the events with power on the band added since, that
Add included. -/
inductive BandRun (band : WifiSpectrumBand) :
    Time → Time → List Event → List Event → InterferenceHelper → Prop where
  | start (h0 h : InterferenceHelper) :
      Constructed h0 → h0.AddBand band = some h → BandRun band 0 0 [] [] h
  | wait (h : InterferenceHelper) (T T1 S : Time) (log kept : List Event) :
      BandRun band T S log kept h → T ≤ T1 → BandRun band T1 S log kept h
  | addBand (h h1 : InterferenceHelper) (T S : Time) (log kept : List Event)
      (b : WifiSpectrumBand) :
      BandRun band T S log kept h → h.AddBand b = some h1 → BandRun band T S log kept h1
  | addOther (h h1 : InterferenceHelper) (T S : Time) (log kept : List Event)
      (addr ppdu : Nat) (txVector : WifiTxVector) (duration : Time)
      (rxPowerW : RxPowerWattPerChannelBand) (event : Event) :
      BandRun band T S log kept h → 0 ≤ duration → (∀ it ∈ rxPowerW, it.1 ≠ band) →
      h.Add T addr ppdu txVector duration rxPowerW = some (h1, event) →
      BandRun band T S (event :: log) kept h1
  | addKeep (h h1 : InterferenceHelper) (T S : Time) (log kept : List Event)
      (addr ppdu : Nat) (txVector : WifiTxVector) (duration : Time)
      (rxPowerW : RxPowerWattPerChannelBand) (event : Event) (p : ℚ) :
      BandRun band T S log kept h → 0 ≤ duration → (rxPowerW.map Prod.fst).Nodup →
      (band, p) ∈ rxPowerW → h.m_rxing = true →
      h.Add T addr ppdu txVector duration rxPowerW = some (h1, event) →
      BandRun band T S (event :: log) (event :: kept) h1
  | addPrune (h h1 : InterferenceHelper) (T S : Time) (log kept : List Event)
      (addr ppdu : Nat) (txVector : WifiTxVector) (duration : Time)
      (rxPowerW : RxPowerWattPerChannelBand) (event : Event) (p : ℚ) :
      BandRun band T S log kept h → 0 ≤ duration → (rxPowerW.map Prod.fst).Nodup →
      (band, p) ∈ rxPowerW → h.m_rxing = false →
      h.Add T addr ppdu txVector duration rxPowerW = some (h1, event) →
      BandRun band T T (event :: log) [event] h1
  | notifyRxStart (h : InterferenceHelper) (T S : Time) (log kept : List Event) :
      BandRun band T S log kept h → BandRun band T S log kept h.NotifyRxStart
  | notifyRxEnd (h h1 : InterferenceHelper) (T S : Time) (log kept : List Event) :
      BandRun band T S log kept h → h.NotifyRxEnd T = some h1 → BandRun band T S log kept h1

end InterferenceHelper

/-- What a run keeps true of the band: its timeline starts with the zero power record, is
ordered by timestamp, and from time `S` on the power read is the sum of the powers of the
events in flight; the events of `kept` are in the log, start at `S` or later, have power
on the band and still have their start record; `S` is not later than the latest Add. -/
def BandInv (band : WifiSpectrumBand) (T S : Time) (log kept : List Event)
    (h : InterferenceHelper) : Prop :=
  0 ≤ S ∧ S ≤ T ∧ (S = 0 ∨ ∃ e, log.head? = some e ∧ S ≤ e.GetStartTime) ∧
  ∃ ni f, mapFind h.m_niChangesPerBand band = some ni ∧
    mapFind h.m_firstPowerPerBand band = some f ∧
    HeadOK ni ∧ ni.Pairwise (fun a b => a.1 ≤ b.1) ∧
    (∀ t, S ≤ t → timelinePower ni t = some (activePower log band t)) ∧
    (∀ e ∈ kept, e ∈ log ∧ S ≤ e.GetStartTime ∧ (∃ p, e.GetRxPowerW band = some p) ∧
      ∃ r ∈ ni, r.1 = e.GetStartTime ∧ r.2.m_event = some e)

/-- Every timeline stored under the band holds powers that are not negative, and so is
the first power of the band; the timeline of the band is ordered by timestamp. -/
def NonNegInv (band : WifiSpectrumBand) (h : InterferenceHelper) : Prop :=
  (∀ entry ∈ h.m_niChangesPerBand, entry.1 = band → ∀ r ∈ entry.2, 0 ≤ r.2.m_power) ∧
  (∀ f, mapFind h.m_firstPowerPerBand band = some f → 0 ≤ f) ∧
  (∀ ni, mapFind h.m_niChangesPerBand band = some ni → ni.Pairwise (fun a b => a.1 ≤ b.1))

/-- Sample collaborators for a VHT PPDU sent over 80 MHz: as `sampleVhtCollaborators`
but with a channel width of 80. -/
def sampleWideCollaborators : Collaborators :=
  { sampleVhtCollaborators with GetChannelWidth := fun _ => 80 }

/-- Every timeline stored in the helper is ordered by timestamp. -/
def OrderedInv (h : InterferenceHelper) : Prop :=
  ∀ entry ∈ h.m_niChangesPerBand, entry.2.Pairwise (fun a b => a.1 ≤ b.1)

/-- Every record of every timeline stored in the helper has a power that is not negative,
and so is every first power stored. -/
def NonNegPowers (h : InterferenceHelper) : Prop :=
  (∀ entry ∈ h.m_niChangesPerBand, ∀ r ∈ entry.2, 0 ≤ r.2.m_power) ∧
  (∀ entry ∈ h.m_firstPowerPerBand, 0 ≤ entry.2)

namespace InterferenceHelper

/-- States reached from a newly constructed helper by successful calls of `AddBand`, `Add`,
`NotifyRxStart`, `NotifyRxEnd` and `EraseEvents`, where every added event has a power
that is not negative in every band of its power map. -/
inductive ReachedNonNeg : InterferenceHelper → Prop where
  | create (noiseFigure : ℚ) : ReachedNonNeg (InterferenceHelper.create noiseFigure)
  | addBand (h h1 : InterferenceHelper) (band : WifiSpectrumBand) :
      ReachedNonNeg h → h.AddBand band = some h1 → ReachedNonNeg h1
  | add (h h1 : InterferenceHelper) (now : Time) (addr ppdu : Nat) (txVector : WifiTxVector)
      (duration : Time) (rxPowerW : RxPowerWattPerChannelBand) (event : Event) :
      ReachedNonNeg h → (∀ it ∈ rxPowerW, 0 ≤ it.2) →
      h.Add now addr ppdu txVector duration rxPowerW = some (h1, event) → ReachedNonNeg h1
  | notifyRxStart (h : InterferenceHelper) : ReachedNonNeg h → ReachedNonNeg h.NotifyRxStart
  | notifyRxEnd (h h1 : InterferenceHelper) (now : Time) :
      ReachedNonNeg h → h.NotifyRxEnd now = some h1 → ReachedNonNeg h1
  | eraseEvents (h h1 : InterferenceHelper) :
      ReachedNonNeg h → h.EraseEvents = some h1 → ReachedNonNeg h1

end InterferenceHelper

/-- What a run keeps true of the records of the band: every record that refers to an
event refers to an added one, and every event of `kept` was added not later than `T` and
has its start record and its end record in the timeline, with no record before or between
them that refers to it, and with powers from the start record up to the end record that
are at least the power of the event on the band. -/
def TimelineSpan (band : WifiSpectrumBand) (T : Time) (log kept : List Event)
    (ni : NiChanges) : Prop :=
  (∀ r ∈ ni, ∀ e, r.2.m_event = some e → e ∈ log) ∧
  ∀ A ∈ kept, A.GetStartTime ≤ T ∧
    ∃ X sa M ea Y, ni = X ++ sa :: (M ++ ea :: Y) ∧
      sa.1 = A.GetStartTime ∧ ea.1 = A.GetEndTime ∧
      sa.2.m_event = some A ∧ ea.2.m_event = some A ∧
      (∀ r ∈ X, r.2.m_event ≠ some A) ∧ (∀ r ∈ M, r.2.m_event ≠ some A) ∧
      bandPower A band ≤ sa.2.m_power ∧ ∀ r ∈ M, bandPower A band ≤ r.2.m_power

open InterferenceHelper

/-! Lemmas on the containers and proofs of the claims. -/



theorem mapFind_mapAssign {V : Type} (m : List (WifiSpectrumBand × V)) (b b' : WifiSpectrumBand)
    (v : V) :
    mapFind (mapAssign m b v) b' =
      if b' = b then (mapFind m b).map (fun _ => v) else mapFind m b' := by
  induction m with
  | nil => simp [mapAssign, mapFind]
  | cons x rest ih =>
    obtain ⟨k, w⟩ := x
    by_cases hk : k = b
    · by_cases hb : b' = b
      · simp [mapAssign, mapFind, hk, hb]
      · have hb2 : ¬ b = b' := fun e => hb e.symm
        simp [mapAssign, mapFind, hk, hb, hb2]
    · by_cases hb : b' = b
      · subst hb
        simp [mapAssign, mapFind, hk, ih]
      · by_cases hkb : k = b'
        · simp [mapAssign, mapFind, hk, hb, hkb]
        · simp [mapAssign, mapFind, hk, hb, hkb, ih]

theorem mapFind_mapInsert_ne {V : Type} (m : List (WifiSpectrumBand × V))
    (b b' : WifiSpectrumBand) (v : V) (hne : b' ≠ b) :
    mapFind (mapInsert m b v) b' = mapFind m b' := by
  induction m with
  | nil =>
    have : ¬ b = b' := fun e => hne e.symm
    simp [mapInsert, mapFind, this]
  | cons x rest ih =>
    obtain ⟨k, w⟩ := x
    have hne2 : ¬ b = b' := fun e => hne e.symm
    by_cases hk : k = b
    · simp [mapInsert, mapFind, hk]
    · by_cases hl : bandLess b k = true
      · simp [mapInsert, mapFind, hk, hl, hne2]
      · by_cases hkb : k = b'
        · subst hkb
          simp [mapInsert, mapFind, hk, hl]
        · simp [mapInsert, mapFind, hk, hl, hkb, ih]

theorem mapFind_mapInsert_new {V : Type} (m : List (WifiSpectrumBand × V))
    (b : WifiSpectrumBand) (v : V) (hnone : mapFind m b = none) :
    mapFind (mapInsert m b v) b = some v := by
  induction m with
  | nil => simp [mapInsert, mapFind]
  | cons x rest ih =>
    obtain ⟨k, w⟩ := x
    by_cases hk : k = b
    · simp [mapFind, hk] at hnone
    · simp [mapFind, hk] at hnone
      by_cases hl : bandLess b k = true
      · simp [mapInsert, mapFind, hk, hl]
      · simp [mapInsert, mapFind, hk, hl, ih hnone]


theorem upper_bound_le_length (ni : NiChanges) (t : Time) : upper_bound ni t ≤ ni.length := by
  induction ni with
  | nil => simp [upper_bound]
  | cons x rest ih =>
    by_cases hx : t < x.1
    · simp [upper_bound, hx]
    · simp [upper_bound, hx, ih]

theorem upper_bound_pos (ni : NiChanges) (t : Time) (hh : HeadOK ni) (ht : 0 ≤ t) :
    1 ≤ upper_bound ni t := by
  cases ni with
  | nil => simp [HeadOK] at hh
  | cons x rest =>
    simp only [HeadOK, List.head?_cons, Option.some.injEq] at hh
    subst hh
    have : ¬ t < 0 := not_lt.mpr ht
    simp [upper_bound, this]

theorem HeadOK_insertAt (ni : NiChanges) (pos : Nat) (x : Time × NiChange) (hh : HeadOK ni)
    (hp : 1 ≤ pos) : HeadOK (insertAt ni pos x) := by
  cases ni with
  | nil => simp [HeadOK] at hh
  | cons y rest =>
    obtain ⟨n, rfl⟩ : ∃ n, pos = n + 1 := ⟨pos - 1, by omega⟩
    simpa [HeadOK, insertAt] using hh

theorem HeadOK_eraseRange (ni : NiChanges) (last : Nat) (hh : HeadOK ni) :
    HeadOK (eraseRange ni 1 last) := by
  cases ni with
  | nil => simp [HeadOK] at hh
  | cons y rest => simpa [HeadOK, eraseRange] using hh

theorem HeadOK_addPowerRange (ni : NiChanges) (first last : Nat) (p : ℚ) (hh : HeadOK ni)
    (hp : 1 ≤ first) : HeadOK (addPowerRange ni first last p) := by
  cases ni with
  | nil => simp [HeadOK] at hh
  | cons y rest =>
    obtain ⟨n, rfl⟩ : ∃ n, first = n + 1 := ⟨first - 1, by omega⟩
    simpa [HeadOK, addPowerRange] using hh

theorem AddNiChangeEvent_eq (h h1 : InterferenceHelper) (moment : Time) (change : NiChange)
    (band : WifiSpectrumBand) (pos : Nat)
    (hadd : AddNiChangeEvent h moment change band = some (h1, pos)) :
    ∃ ni, mapFind h.m_niChangesPerBand band = some ni ∧ pos = upper_bound ni moment ∧
      h1 = { h with m_niChangesPerBand :=
        (mapAssign h.m_niChangesPerBand band (insertAt ni pos (moment, change))) } := by
  unfold AddNiChangeEvent GetNextPosition at hadd
  cases hf : mapFind h.m_niChangesPerBand band with
  | none => simp [hf] at hadd
  | some ni =>
    simp only [hf, Option.some.injEq, Prod.mk.injEq] at hadd
    obtain ⟨h1eq, hpos⟩ := hadd
    exact ⟨ni, rfl, hpos.symm, by rw [← h1eq, hpos]⟩

theorem SentinelInv_assign (h : InterferenceHelper) (band : WifiSpectrumBand) (ni1 : NiChanges)
    (hinv : SentinelInv h) (hnew : HeadOK ni1) :
    SentinelInv { h with m_niChangesPerBand := (mapAssign h.m_niChangesPerBand band ni1) } := by
  intro b ni hb
  simp only [mapFind_mapAssign] at hb
  by_cases hbb : b = band
  · simp only [hbb, if_true] at hb
    cases hf : mapFind h.m_niChangesPerBand band with
    | none => simp [hf] at hb
    | some old =>
      simp [hf] at hb
      subst hb
      exact hnew
  · simp only [hbb, if_false] at hb
    exact hinv b ni hb

theorem SentinelInv_AddNiChangeEvent (h h1 : InterferenceHelper) (moment : Time)
    (change : NiChange) (band : WifiSpectrumBand) (pos : Nat) (hinv : SentinelInv h)
    (ht : 0 ≤ moment) (hadd : AddNiChangeEvent h moment change band = some (h1, pos)) :
    SentinelInv h1 ∧ 1 ≤ pos := by
  obtain ⟨ni, hf, hpos, rfl⟩ := AddNiChangeEvent_eq h h1 moment change band pos hadd
  have hh := hinv band ni hf
  have hp : 1 ≤ pos := hpos ▸ upper_bound_pos ni moment hh ht
  exact ⟨SentinelInv_assign h band _ hinv (HeadOK_insertAt ni pos _ hh hp), hp⟩

theorem mapAssign_mapAssign {V : Type} (m : List (WifiSpectrumBand × V)) (b : WifiSpectrumBand)
    (v w : V) : mapAssign (mapAssign m b v) b w = mapAssign m b w := by
  induction m with
  | nil => simp [mapAssign]
  | cons x rest ih =>
    obtain ⟨k, u⟩ := x
    by_cases hk : k = b
    · simp [mapAssign, hk]
    · simp [mapAssign, hk, ih]

theorem previousPower_eq (h : InterferenceHelper) (t : Time) (band : WifiSpectrumBand)
    (ni : NiChanges) (hf : mapFind h.m_niChangesPerBand band = some ni) :
    previousPower h t band = timelinePower ni t := by
  unfold previousPower GetPreviousPosition GetNextPosition timelinePower
  simp only [hf]
  by_cases h0 : upper_bound ni t = 0 <;> simp [h0]

theorem AddNiChangeEvent_some (h : InterferenceHelper) (moment : Time) (change : NiChange)
    (band : WifiSpectrumBand) (ni : NiChanges)
    (hf : mapFind h.m_niChangesPerBand band = some ni) :
    AddNiChangeEvent h moment change band =
      some ({ h with m_niChangesPerBand :=
        (mapAssign h.m_niChangesPerBand band
          (insertAt ni (upper_bound ni moment) (moment, change))) },
        upper_bound ni moment) := by
  unfold AddNiChangeEvent GetNextPosition
  simp [hf]

theorem timelinePower_some_pos (ni : NiChanges) (t : Time) (p : ℚ)
    (hp : timelinePower ni t = some p) : 1 ≤ upper_bound ni t ∧ ni ≠ [] := by
  unfold timelinePower at hp
  by_cases h0 : upper_bound ni t = 0
  · simp [h0] at hp
  · refine ⟨by omega, ?_⟩
    rintro rfl
    simp [upper_bound] at h0

/-- One pass of the loop of `AppendEvent`, expressed on the timeline of the band. -/
theorem appendEventBand_eq (event : Event) (h : InterferenceHelper) (band : WifiSpectrumBand)
    (p : ℚ) (ni : NiChanges) (hf : mapFind h.m_niChangesPerBand band = some ni) :
    appendEventBand event h (band, p) =
      match appendTimeline h.m_rxing event p ni, timelinePower ni event.GetStartTime with
      | some ni1, some ps =>
        if h.m_rxing then
          some { h with m_niChangesPerBand := (mapAssign h.m_niChangesPerBand band ni1) }
        else
          match mapFind h.m_firstPowerPerBand band with
          | none => none
          | some _ =>
            some { h with
              m_niChangesPerBand := (mapAssign h.m_niChangesPerBand band ni1)
              m_firstPowerPerBand := (mapAssign h.m_firstPowerPerBand band ps) }
      | _, _ => none := by
  unfold appendEventBand appendTimeline
  simp only [hf, previousPower_eq h _ band ni hf]
  cases hps : timelinePower ni event.GetStartTime with
  | none => simp
  | some ps =>
    cases hpe : timelinePower ni event.GetEndTime with
    | none => simp
    | some pe =>
      obtain ⟨hpos, hne⟩ := timelinePower_some_pos ni _ ps hps
      have hf2 : ∀ (g : NiChangesPerBand) (x y : NiChanges),
          mapFind g band = some x → mapFind (mapAssign g band y) band = some y := by
        intro g x y hg
        simp [mapFind_mapAssign, hg]
      have hf3 : ∀ y : NiChanges,
          mapFind (mapAssign h.m_niChangesPerBand band y) band = some y :=
        fun y => hf2 _ ni y hf
      cases hrx : h.m_rxing with
      | true =>
        simp only [Bool.not_true, Bool.false_eq_true, if_false, if_true]
        rw [AddNiChangeEvent_some h _ _ band ni hf]
        simp only []
        rw [AddNiChangeEvent_some _ _ _ band _ (hf2 _ ni _ hf)]
        simp only [mapAssign_mapAssign, hf3]
        by_cases hle : upper_bound (insertAt ni (upper_bound ni event.GetStartTime)
            (event.GetStartTime, { m_power := ps, m_event := some event })) event.GetEndTime
            ≤ upper_bound ni event.GetStartTime
        · simp [hle]
        · simp [hle, hrx]
      | false =>
        simp only [Bool.not_false, if_true, Bool.false_eq_true, if_false]
        unfold pruneBeforeStart GetNextPosition
        simp only [hf]
        cases hfp : mapFind h.m_firstPowerPerBand band with
        | none =>
          simp only []
          split <;> simp
        | some f =>
          have hlt : ¬ (ni = [] ∨ upper_bound ni event.GetStartTime < 1) := by
            rintro (h1 | h1)
            · exact hne h1
            · omega
          simp only [hlt, if_false]
          rw [AddNiChangeEvent_some _ _ _ band _ (hf2 _ ni _ hf)]
          simp only []
          rw [AddNiChangeEvent_some _ _ _ band _ (hf2 _ _ _ (hf2 _ ni _ hf))]
          simp only [mapAssign_mapAssign, hf3]
          by_cases hle : upper_bound (insertAt
              (eraseRange ni 1 (upper_bound ni event.GetStartTime))
              (upper_bound (eraseRange ni 1 (upper_bound ni event.GetStartTime))
                event.GetStartTime)
              (event.GetStartTime, { m_power := ps, m_event := some event })) event.GetEndTime
              ≤ upper_bound (eraseRange ni 1 (upper_bound ni event.GetStartTime))
                event.GetStartTime
          · simp [hle]
          · simp [hle, hrx]

theorem appendEventBand_spec (event : Event) (h h1 : InterferenceHelper)
    (it : WifiSpectrumBand × ℚ) (happ : appendEventBand event h it = some h1) :
    ∃ ni ni1 ps, mapFind h.m_niChangesPerBand it.1 = some ni ∧
      appendTimeline h.m_rxing event it.2 ni = some ni1 ∧
      timelinePower ni event.GetStartTime = some ps ∧
      h1.m_niChangesPerBand = mapAssign h.m_niChangesPerBand it.1 ni1 ∧
      h1.m_firstPowerPerBand =
        (if h.m_rxing then h.m_firstPowerPerBand
         else mapAssign h.m_firstPowerPerBand it.1 ps) ∧
      h1.m_rxing = h.m_rxing ∧ h1.m_noiseFigure = h.m_noiseFigure ∧
      h1.m_numRxAntennas = h.m_numRxAntennas ∧
      (h.m_rxing = false → ∃ f, mapFind h.m_firstPowerPerBand it.1 = some f) := by
  obtain ⟨band, p⟩ := it
  cases hf : mapFind h.m_niChangesPerBand band with
  | none => simp [appendEventBand, hf] at happ
  | some ni =>
    rw [appendEventBand_eq event h band p ni hf] at happ
    cases hat : appendTimeline h.m_rxing event p ni with
    | none => simp [hat] at happ
    | some ni1 =>
      cases hps : timelinePower ni event.GetStartTime with
      | none => simp [hat, hps] at happ
      | some ps =>
        simp only [hat, hps] at happ
        refine ⟨ni, ni1, ps, rfl, hat, hps, ?_⟩
        cases hrx : h.m_rxing with
        | true =>
          simp only [hrx, if_true, Option.some.injEq] at happ
          subst happ
          simp [hrx]
        | false =>
          simp only [hrx, Bool.false_eq_true, if_false] at happ
          cases hfp : mapFind h.m_firstPowerPerBand band with
          | none => simp [hfp] at happ
          | some f =>
            simp only [hfp, Option.some.injEq] at happ
            subst happ
            simp [hrx, hfp]

theorem foldlM_inv {α β : Type} (f : β → α → Option β) (P : β → Prop)
    (hstep : ∀ b a b1, P b → f b a = some b1 → P b1) :
    ∀ (l : List α) (b b1 : β), P b → l.foldlM f b = some b1 → P b1 := by
  intro l
  induction l with
  | nil =>
    intro b b1 hb hfold
    simp only [List.foldlM_nil, pure, Option.some.injEq] at hfold
    exact hfold ▸ hb
  | cons a rest ih =>
    intro b b1 hb hfold
    simp only [List.foldlM_cons, bind, Option.bind_eq_some] at hfold
    obtain ⟨b2, hb2, hrest⟩ := hfold
    exact ih b2 b1 (hstep b a b2 hb hb2) hrest

theorem SentinelInv_of_assign (h h1 : InterferenceHelper) (band : WifiSpectrumBand)
    (ni1 : NiChanges) (hinv : SentinelInv h) (hnew : HeadOK ni1)
    (heq : h1.m_niChangesPerBand = mapAssign h.m_niChangesPerBand band ni1) :
    SentinelInv h1 := by
  intro b ni hb
  rw [heq] at hb
  exact SentinelInv_assign h band ni1 hinv hnew b ni hb

theorem SentinelInv_of_same (h h1 : InterferenceHelper) (hinv : SentinelInv h)
    (heq : h1.m_niChangesPerBand = h.m_niChangesPerBand) : SentinelInv h1 := by
  intro b ni hb
  rw [heq] at hb
  exact hinv b ni hb

theorem HeadOK_appendTimeline (rxing : Bool) (event : Event) (p : ℚ) (ni ni1 : NiChanges)
    (hh : HeadOK ni) (hs : 0 ≤ event.GetStartTime)
    (happ : appendTimeline rxing event p ni = some ni1) : HeadOK ni1 := by
  unfold appendTimeline at happ
  cases hps : timelinePower ni event.GetStartTime with
  | none => simp [hps] at happ
  | some ps =>
    cases hpe : timelinePower ni event.GetEndTime with
    | none => simp [hps, hpe] at happ
    | some pe =>
      simp only [hps, hpe] at happ
      generalize hni0 : (if rxing = true then ni
          else eraseRange ni 1 (upper_bound ni event.GetStartTime)) = ni0 at happ
      have h1 : HeadOK ni0 := by
        rw [← hni0]
        split
        · exact hh
        · exact HeadOK_eraseRange ni _ hh
      have hfirst := upper_bound_pos _ event.GetStartTime h1 hs
      split at happ
      · simp at happ
      · simp only [Option.some.injEq] at happ
        subst happ
        apply HeadOK_addPowerRange _ _ _ _ _ hfirst
        apply HeadOK_insertAt _ _ _ (HeadOK_insertAt _ _ _ h1 hfirst)
        omega

theorem SentinelInv_appendEventBand (event : Event) (hs : 0 ≤ event.GetStartTime)
    (h : InterferenceHelper) (it : WifiSpectrumBand × ℚ) (h1 : InterferenceHelper)
    (hinv : SentinelInv h) (happ : appendEventBand event h it = some h1) : SentinelInv h1 := by
  obtain ⟨ni, ni1, ps, hf, hat, -, hni, -⟩ := appendEventBand_spec event h h1 it happ
  exact SentinelInv_of_assign h h1 it.1 ni1 hinv
    (HeadOK_appendTimeline _ event it.2 ni ni1 (hinv it.1 ni hf) hs hat) hni

theorem SentinelInv_AddBand (h h1 : InterferenceHelper) (band : WifiSpectrumBand)
    (hinv : SentinelInv h) (hadd : AddBand h band = some h1) : SentinelInv h1 := by
  unfold AddBand at hadd
  cases hf : mapFind h.m_niChangesPerBand band with
  | some x => simp [hf] at hadd
  | none =>
    simp only [hf] at hadd
    have hnew := mapFind_mapInsert_new h.m_niChangesPerBand band ([] : NiChanges) hf
    rw [AddNiChangeEvent_some _ _ _ band [] hnew] at hadd
    simp only [Option.some.injEq] at hadd
    subst hadd
    intro b ni hb
    simp only [mapFind_mapAssign] at hb
    by_cases hbb : b = band
    · simp only [hbb, if_true, hnew, Option.map_some', Option.some.injEq] at hb
      subst hb
      simp [HeadOK, insertAt, upper_bound]
    · simp only [hbb, if_false] at hb
      rw [mapFind_mapInsert_ne _ _ _ _ hbb] at hb
      exact hinv b ni hb

theorem SentinelInv_eraseEventsBand (h : InterferenceHelper) (it : WifiSpectrumBand × NiChanges)
    (h1 : InterferenceHelper) (hinv : SentinelInv h) (he : eraseEventsBand h it = some h1) :
    SentinelInv h1 := by
  unfold eraseEventsBand at he
  simp only [] at he
  cases hadd : AddNiChangeEvent h 0 { m_power := 0, m_event := none } it.1 with
  | none => simp [hadd] at he
  | some r =>
    obtain ⟨h2, pos⟩ := r
    simp only [hadd] at he
    have h2inv := (SentinelInv_AddNiChangeEvent h h2 0 _ it.1 pos hinv le_rfl hadd).1
    cases hfp : mapFind h2.m_firstPowerPerBand it.1 with
    | none => simp [hfp] at he
    | some f =>
      simp only [hfp, Option.some.injEq] at he
      subst he
      exact SentinelInv_of_same h2 _ h2inv rfl

theorem SentinelInv_notifyRxEndBand (now : Time) (h : InterferenceHelper)
    (ni : WifiSpectrumBand × NiChanges) (h1 : InterferenceHelper) (hinv : SentinelInv h)
    (he : notifyRxEndBand now h ni = some h1) : SentinelInv h1 := by
  unfold notifyRxEndBand at he
  simp only [] at he
  split at he
  · simp at he
  · split at he
    · simp only [Option.some.injEq] at he
      subst he
      exact SentinelInv_of_same h _ hinv rfl
    · simp at he

/-- C1: in every state reached from a newly constructed helper by successful calls of
AddBand, Add (time and duration not negative), NotifyRxStart, NotifyRxEnd and EraseEvents,
the timeline of every registered band is not empty and its first record has timestamp 0,
power 0 and no event. -/
theorem C1_first_record_is_zero_power_sentinel (h : InterferenceHelper) (hr : Reachable h)
    (band : WifiSpectrumBand) (ni : NiChanges)
    (hb : mapFind h.m_niChangesPerBand band = some ni) :
    ∃ rest, ni = (0, { m_power := 0, m_event := none }) :: rest := by
  have hinv : SentinelInv h := by
    clear hb
    induction hr with
    | create noiseFigure =>
      intro b x hx
      simp [InterferenceHelper.create, mapFind] at hx
    | addBand h h1 band _ hadd ih => exact SentinelInv_AddBand h h1 band ih hadd
    | add h h1 now addr ppdu txVector duration rxPowerW event _ hnow hdur hadd ih =>
      unfold InterferenceHelper.Add at hadd
      cases happ : AppendEvent h (Event.create now addr ppdu txVector duration rxPowerW) with
      | none => simp [happ] at hadd
      | some h2 =>
        simp only [happ, Option.some.injEq, Prod.mk.injEq] at hadd
        obtain ⟨rfl, -⟩ := hadd
        unfold AppendEvent at happ
        exact foldlM_inv _ SentinelInv
          (fun b a b1 hb hstep => SentinelInv_appendEventBand
            (Event.create now addr ppdu txVector duration rxPowerW) hnow b a b1 hb hstep)
          _ h h2 ih happ
    | notifyRxStart h _ ih => exact SentinelInv_of_same h _ ih rfl
    | notifyRxEnd h h1 now _ hend ih =>
      unfold NotifyRxEnd at hend
      exact foldlM_inv _ SentinelInv (SentinelInv_notifyRxEndBand now) _
        { h with m_rxing := false } h1 (SentinelInv_of_same h _ ih rfl) hend
    | eraseEvents h h1 _ herase ih =>
      unfold EraseEvents at herase
      cases hfold : List.foldlM eraseEventsBand h h.m_niChangesPerBand with
      | none => simp [hfold] at herase
      | some h2 =>
        simp only [hfold, Option.some.injEq] at herase
        subst herase
        exact SentinelInv_of_same h2 _
          (foldlM_inv _ SentinelInv SentinelInv_eraseEventsBand _ h h2 ih hfold) rfl
  have hh := hinv band ni hb
  cases ni with
  | nil => simp [HeadOK] at hh
  | cons x rest =>
    simp only [HeadOK, List.head?_cons, Option.some.injEq] at hh
    exact ⟨rest, by rw [hh]⟩

theorem upper_bound_take_le (ni : NiChanges) (t : Time) :
    ∀ r ∈ ni.take (upper_bound ni t), r.1 ≤ t := by
  induction ni with
  | nil => simp [upper_bound]
  | cons x rest ih =>
    by_cases hx : t < x.1
    · simp [upper_bound, hx]
    · intro r hr
      simp only [upper_bound, hx, if_false, List.take_succ_cons, List.mem_cons] at hr
      rcases hr with rfl | hr
      · exact not_lt.mp hx
      · exact ih r hr

theorem upper_bound_drop (ni : NiChanges) (t : Time) :
    upper_bound (ni.drop (upper_bound ni t)) t = 0 := by
  induction ni with
  | nil => simp [upper_bound]
  | cons x rest ih =>
    by_cases hx : t < x.1
    · simp [upper_bound, hx]
    · simpa [upper_bound, hx] using ih

theorem upper_bound_append (X Y : NiChanges) (t : Time) (hX : ∀ r ∈ X, r.1 ≤ t) :
    upper_bound (X ++ Y) t = X.length + upper_bound Y t := by
  induction X with
  | nil => simp
  | cons x rest ih =>
    have hx : ¬ t < x.1 := not_lt.mpr (hX x (List.mem_cons_self _ _))
    have := ih (fun r hr => hX r (List.mem_cons_of_mem _ hr))
    simp [upper_bound, hx, this]
    omega

theorem upper_bound_mono (ni : NiChanges) (s e : Time) (hse : s ≤ e) :
    upper_bound ni s ≤ upper_bound ni e := by
  induction ni with
  | nil => simp [upper_bound]
  | cons x rest ih =>
    by_cases hx : s < x.1
    · simp [upper_bound, hx]
    · have hx2 : ¬ e < x.1 := not_lt.mpr (le_trans (not_lt.mp hx) hse)
      simp [upper_bound, hx, hx2, ih]

theorem insertAt_append (X Y : NiChanges) (j : Nat) (x : Time × NiChange) :
    insertAt (X ++ Y) (X.length + j) x = X ++ insertAt Y j x := by
  induction X with
  | nil => simp [insertAt]
  | cons y rest ih =>
    have : (y :: rest).length + j = (rest.length + j) + 1 := by simp; omega
    rw [this]
    simp only [insertAt, List.cons_append, List.take_succ_cons, List.drop_succ_cons] at ih ⊢
    rw [ih]

theorem addPowerRange_append (X Y : NiChanges) (j : Nat) (p : ℚ) :
    addPowerRange (X ++ Y) X.length (X.length + j) p =
      X ++ ((Y.take j).map (fun r => (r.1, r.2.AddPower p)) ++ Y.drop j) := by
  induction X with
  | nil => simp [addPowerRange]
  | cons y rest ih =>
    have : (y :: rest).length + j = (rest.length + j) + 1 := by simp; omega
    rw [this]
    simp only [addPowerRange, List.cons_append, List.take_succ_cons, List.drop_succ_cons,
      List.length_cons, List.append_assoc] at ih ⊢
    rw [ih]

theorem timelinePower_of_pos (ni : NiChanges) (t : Time) (hn : 1 ≤ upper_bound ni t) :
    ∃ p, timelinePower ni t = some p := by
  unfold timelinePower
  have hlen := upper_bound_le_length ni t
  have h0 : ¬ upper_bound ni t = 0 := by omega
  have hlt : upper_bound ni t - 1 < ni.length := by omega
  simp only [h0, if_false]
  rw [List.get?_eq_get hlt]
  exact ⟨_, rfl⟩

/-- Closed form of one pass of the loop of `AppendEvent` on a timeline: with
`n = upper_bound (start)`, the records kept in front are the first one (flag not set) or
the first `n` ones (flag set), then come the start record, the later records up to the end
time with the power of the event added, the end record and the remaining records. -/
theorem appendTimeline_eq (rxing : Bool) (event : Event) (p : ℚ) (ni : NiChanges)
    (hse : event.GetStartTime ≤ event.GetEndTime)
    (hn : 1 ≤ upper_bound ni event.GetStartTime) :
    ∃ ps pe, timelinePower ni event.GetStartTime = some ps ∧
      timelinePower ni event.GetEndTime = some pe ∧
      appendTimeline rxing event p ni =
        some ((if rxing then ni.take (upper_bound ni event.GetStartTime) else ni.take 1) ++
          (event.GetStartTime, { m_power := ps + p, m_event := some event }) ::
          ((((ni.drop (upper_bound ni event.GetStartTime)).take
              (upper_bound (ni.drop (upper_bound ni event.GetStartTime)) event.GetEndTime)).map
              (fun r => (r.1, r.2.AddPower p))) ++
            (event.GetEndTime, { m_power := pe, m_event := some event }) ::
            (ni.drop (upper_bound ni event.GetStartTime)).drop
              (upper_bound (ni.drop (upper_bound ni event.GetStartTime)) event.GetEndTime))) := by
  obtain ⟨ps, hps⟩ := timelinePower_of_pos ni _ hn
  obtain ⟨pe, hpe⟩ := timelinePower_of_pos ni _
    (le_trans hn (upper_bound_mono ni _ _ hse))
  refine ⟨ps, pe, hps, hpe, ?_⟩
  unfold appendTimeline
  simp only [hps, hpe]
  generalize hs : event.GetStartTime = s at *
  generalize he : event.GetEndTime = e at *
  generalize hB : ni.drop (upper_bound ni s) = B
  generalize hX : (if rxing = true then ni.take (upper_bound ni s) else ni.take 1) = X
  have hXle : ∀ r ∈ X, r.1 ≤ s := by
    intro r hr
    rw [← hX] at hr
    split at hr
    · exact upper_bound_take_le ni s r hr
    · apply upper_bound_take_le ni s r
      exact (List.take_subset_take_left ni hn) hr
  have hni1 : (if rxing = true then ni else eraseRange ni 1 (upper_bound ni s)) = X ++ B := by
    rw [← hX, ← hB]
    split
    · exact (List.take_append_drop _ _).symm
    · rfl
  have hB0 : upper_bound B s = 0 := by rw [← hB]; exact upper_bound_drop ni s
  rw [hni1]
  have hfirst : upper_bound (X ++ B) s = X.length := by
    rw [upper_bound_append X B s hXle, hB0, Nat.add_zero]
  have hins0 := insertAt_append X B 0 (s, ({ m_power := ps, m_event := some event } : NiChange))
  rw [Nat.add_zero] at hins0
  rw [hfirst, hins0]
  simp only [insertAt, List.take_zero, List.nil_append, List.drop_zero]
  have hlast : upper_bound (X ++ (s, ({ m_power := ps, m_event := some event } : NiChange)) :: B) e
      = X.length + (upper_bound B e + 1) := by
    rw [upper_bound_append X _ e (fun r hr => le_trans (hXle r hr) hse)]
    have : ¬ e < s := not_lt.mpr hse
    simp [upper_bound, this]
  rw [hlast]
  have hnle : ¬ (X.length + (upper_bound B e + 1) ≤ X.length) := by omega
  simp only [hnle, if_false]
  have hins := insertAt_append X ((s, ({ m_power := ps, m_event := some event } : NiChange)) :: B)
    (upper_bound B e + 1) (e, { m_power := pe, m_event := some event })
  simp only [insertAt] at hins
  rw [hins]
  rw [addPowerRange_append]
  have hk := upper_bound_le_length B e
  simp [NiChange.AddPower, List.take_append_of_le_length, List.drop_append_of_le_length, hk]

theorem upper_bound_all_le (ni : NiChanges) (t : Time) (hall : ∀ r ∈ ni, r.1 ≤ t) :
    upper_bound ni t = ni.length := by
  have := upper_bound_append ni [] t hall
  simpa [upper_bound] using this

theorem timelinePower_all_le (ni : NiChanges) (t : Time) (r0 : Time × NiChange)
    (hall : ∀ r ∈ ni, r.1 ≤ t) (hlast : ni.getLast? = some r0) :
    timelinePower ni t = some r0.2.m_power := by
  unfold timelinePower
  rw [upper_bound_all_le ni t hall]
  have hne : ni ≠ [] := by
    rintro rfl
    simp at hlast
  have hlen : ¬ ni.length = 0 := by
    intro h0
    exact hne (List.length_eq_zero.mp h0)
  simp only [hlen, if_false]
  rw [List.getLast?_eq_getElem?] at hlast
  simp [List.get?_eq_getElem?, hlast, NiChange.GetPower]

/-- One pass of the loop of `AppendEvent` when no record of the timeline is later than the
start of the event. -/
theorem appendTimeline_allBefore (rxing : Bool) (event : Event) (p : ℚ) (ni : NiChanges)
    (r0 : Time × NiChange) (hse : event.GetStartTime ≤ event.GetEndTime)
    (hall : ∀ r ∈ ni, r.1 ≤ event.GetStartTime) (hlast : ni.getLast? = some r0) :
    timelinePower ni event.GetStartTime = some r0.2.m_power ∧
    appendTimeline rxing event p ni =
      some ((if rxing then ni else ni.take 1) ++
        [(event.GetStartTime, { m_power := r0.2.m_power + p, m_event := some event }),
         (event.GetEndTime, { m_power := r0.2.m_power, m_event := some event })]) := by
  have hps := timelinePower_all_le ni _ r0 hall hlast
  have hpe := timelinePower_all_le ni event.GetEndTime r0
    (fun r hr => le_trans (hall r hr) hse) hlast
  have hub := upper_bound_all_le ni _ hall
  have hne : ni ≠ [] := by
    rintro rfl
    simp at hlast
  have hpos : 1 ≤ upper_bound ni event.GetStartTime := by
    rw [hub]
    exact List.length_pos.mpr hne
  obtain ⟨ps, pe, hps2, hpe2, heq⟩ := appendTimeline_eq rxing event p ni hse hpos
  rw [hps] at hps2
  rw [hpe] at hpe2
  simp only [Option.some.injEq] at hps2 hpe2
  subst hps2 hpe2
  refine ⟨hps, ?_⟩
  rw [heq, hub]
  simp [upper_bound]

theorem AppendEvent_single (h : InterferenceHelper) (event : Event) (band : WifiSpectrumBand)
    (p : ℚ) (hrx : event.m_rxPowerW = [(band, p)]) :
    AppendEvent h event = appendEventBand event h (band, p) := by
  unfold AppendEvent
  rw [hrx]
  simp [List.foldlM]

theorem Event_create_start (now : Time) (addr ppdu : Nat) (txVector : WifiTxVector)
    (duration : Time) (rx : RxPowerWattPerChannelBand) :
    (Event.create now addr ppdu txVector duration rx).GetStartTime = now := rfl

theorem Event_create_end (now : Time) (addr ppdu : Nat) (txVector : WifiTxVector)
    (duration : Time) (rx : RxPowerWattPerChannelBand) :
    (Event.create now addr ppdu txVector duration rx).GetEndTime = now + duration := rfl

/-- Call of `AppendEvent` for a single-band event on a band whose timeline has no record later
than the start of the event: the call succeeds and the new timeline and first power are
known. -/
theorem AppendEvent_allBefore (h : InterferenceHelper) (band : WifiSpectrumBand)
    (ni : NiChanges) (f : ℚ) (r0 : Time × NiChange) (event : Event) (p : ℚ)
    (hrxp : event.m_rxPowerW = [(band, p)])
    (hreg : mapFind h.m_niChangesPerBand band = some ni)
    (hfp : mapFind h.m_firstPowerPerBand band = some f)
    (hse : event.GetStartTime ≤ event.GetEndTime)
    (hall : ∀ r ∈ ni, r.1 ≤ event.GetStartTime) (hlast : ni.getLast? = some r0) :
    ∃ h1 f1, h.AppendEvent event = some h1 ∧
      h.previousPower event.GetStartTime band = some r0.2.m_power ∧
      mapFind h1.m_niChangesPerBand band = some ((if h.m_rxing then ni else ni.take 1) ++
        [(event.GetStartTime, { m_power := r0.2.m_power + p, m_event := some event }),
         (event.GetEndTime, { m_power := r0.2.m_power, m_event := some event })]) ∧
      mapFind h1.m_firstPowerPerBand band = some f1 ∧
      (h.m_rxing = false → f1 = r0.2.m_power) ∧ (h.m_rxing = true → f1 = f) ∧
      h1.m_rxing = h.m_rxing := by
  obtain ⟨hps, hat⟩ := appendTimeline_allBefore h.m_rxing event p ni r0 hse hall hlast
  have hbody := appendEventBand_eq event h band p ni hreg
  rw [hat, hps] at hbody
  simp only [hfp] at hbody
  have hprev : h.previousPower event.GetStartTime band = some r0.2.m_power := by
    rw [previousPower_eq h _ band ni hreg]
    exact hps
  rw [AppendEvent_single h _ band p hrxp]
  cases hrx : h.m_rxing with
  | true =>
    simp only [hrx, if_true] at hbody
    rw [hbody]
    refine ⟨_, f, rfl, hprev, ?_, ?_, ?_, ?_, ?_⟩
    · simp [mapFind_mapAssign, hreg]
    · simpa using hfp
    · intro hc; cases hc
    · intro _; rfl
    · rfl
  | false =>
    simp only [hrx, Bool.false_eq_true, if_false] at hbody
    rw [hbody]
    refine ⟨_, r0.2.m_power, rfl, hprev, ?_, ?_, ?_, ?_, ?_⟩
    · simp [mapFind_mapAssign, hreg]
    · simp [mapFind_mapAssign, hfp]
    · intro _; rfl
    · intro hc; cases hc
    · rfl

theorem timelinePower_append_two (X : NiChanges) (a b : Time × NiChange) (t : Time)
    (hX : ∀ r ∈ X, r.1 ≤ t) (ha : a.1 ≤ t) (hb : t < b.1) :
    timelinePower (X ++ [a, b]) t = some a.2.m_power := by
  unfold timelinePower
  have hna : ¬ t < a.1 := not_lt.mpr ha
  have hub : upper_bound (X ++ [a, b]) t = X.length + 1 := by
    rw [upper_bound_append X _ t hX]
    simp [upper_bound, hna, hb]
  rw [hub]
  have h0 : ¬ X.length + 1 = 0 := by omega
  simp only [h0, if_false, Nat.add_sub_cancel, List.get?_eq_getElem?]
  rw [List.getElem?_append_right (le_refl _)]
  simp [NiChange.GetPower]

theorem kept_prefix_le (rxing : Bool) (ni : NiChanges) (t : Time) (hall : ∀ r ∈ ni, r.1 ≤ t) :
    ∀ r ∈ (if rxing = true then ni else ni.take 1), r.1 ≤ t := by
  intro r hr
  split at hr
  · exact hall r hr
  · exact hall r (List.mem_of_mem_take hr)

/-- C3: for Add calls on one band made in time order with disjoint intervals (durations not
negative), on a timeline that has no record later than the first start, every call
succeeds and right after each Add the power read at the end time of the event equals the
power read at its start just before the call. That power is the one of the last record of
the initial timeline, hence 0 on a fresh band. The reception flag of each call is
arbitrary. -/
theorem C3_power_returns_to_level_before_event (band : WifiSpectrumBand)
    (calls : List AddCall) (h : InterferenceHelper) (t0 : Time) (ni : NiChanges) (f : ℚ)
    (r0 : Time × NiChange)
    (hreg : mapFind h.m_niChangesPerBand band = some ni)
    (hfp : mapFind h.m_firstPowerPerBand band = some f)
    (hall : ∀ r ∈ ni, r.1 ≤ t0) (hlast : ni.getLast? = some r0)
    (hord : orderedCalls t0 calls) :
    ∃ tr, addTrace band h calls = some tr ∧ tr.length = calls.length ∧
      ∀ x ∈ tr, x.2 = x.1 ∧ x.1 = r0.2.m_power := by
  induction calls generalizing h t0 ni f r0 with
  | nil => exact ⟨[], rfl, rfl, by simp⟩
  | cons c cs ih =>
    obtain ⟨hnow, hdur, hrest⟩ := hord
    have hse : (Event.create c.now c.addr c.ppdu c.txVector c.duration
        [(band, c.powerW)]).GetStartTime ≤ (Event.create c.now c.addr c.ppdu c.txVector
        c.duration [(band, c.powerW)]).GetEndTime := by
      rw [Event_create_start, Event_create_end]
      exact le_add_of_nonneg_right hdur
    have hall1 : ∀ r ∈ ni, r.1 ≤ c.now := fun r hr => le_trans (hall r hr) hnow
    obtain ⟨h1, f1, happ, hprev, hni1, hfp1, -, -, -⟩ :=
      AppendEvent_allBefore { h with m_rxing := c.rxing } band ni f r0
        (Event.create c.now c.addr c.ppdu c.txVector c.duration [(band, c.powerW)])
        c.powerW rfl hreg hfp hse hall1 hlast
    rw [Event_create_start] at hprev
    rw [Event_create_start, Event_create_end] at hni1
    dsimp only at hni1
    have hall2 : ∀ r ∈ (if c.rxing = true then ni else ni.take 1) ++
        [(c.now, ({ m_power := r0.2.m_power + c.powerW, m_event := some (Event.create c.now
            c.addr c.ppdu c.txVector c.duration [(band, c.powerW)]) } : NiChange)),
         (c.now + c.duration, { m_power := r0.2.m_power, m_event := some (Event.create c.now
            c.addr c.ppdu c.txVector c.duration [(band, c.powerW)]) })],
        r.1 ≤ c.now + c.duration := by
      intro r hr
      rw [List.mem_append] at hr
      rcases hr with hr | hr
      · exact le_trans (kept_prefix_le c.rxing ni c.now hall1 r hr)
          (le_add_of_nonneg_right hdur)
      · simp only [List.mem_cons, List.mem_singleton, List.not_mem_nil, or_false] at hr
        rcases hr with rfl | rfl
        · exact le_add_of_nonneg_right hdur
        · exact le_refl _
    have hlast2 : ((if c.rxing = true then ni else ni.take 1) ++
        [(c.now, ({ m_power := r0.2.m_power + c.powerW, m_event := some (Event.create c.now
            c.addr c.ppdu c.txVector c.duration [(band, c.powerW)]) } : NiChange)),
         (c.now + c.duration, { m_power := r0.2.m_power, m_event := some (Event.create c.now
            c.addr c.ppdu c.txVector c.duration [(band, c.powerW)]) })]).getLast? =
        some (c.now + c.duration, { m_power := r0.2.m_power, m_event := some (Event.create
          c.now c.addr c.ppdu c.txVector c.duration [(band, c.powerW)]) }) := by
      simp [List.getLast?_append]
    have hafter : h1.previousPower (c.now + c.duration) band = some r0.2.m_power := by
      rw [previousPower_eq h1 _ band _ hni1]
      have hq := timelinePower_all_le _ _ _ hall2 hlast2
      exact hq
    obtain ⟨tr, htr, hlen, hvals⟩ := ih h1 (c.now + c.duration) _ f1 _ hni1 hfp1 hall2 hlast2
      hrest
    refine ⟨(r0.2.m_power, r0.2.m_power) :: tr, ?_, by simp [hlen], ?_⟩
    · unfold addTrace
      simp only [hprev]
      unfold InterferenceHelper.Add
      simp only [happ, Event_create_end, hafter, htr]
    · intro x hx
      rcases List.mem_cons.mp hx with rfl | hx
      · exact ⟨rfl, rfl⟩
      · exact hvals x hx

/-- C4: event A on [s, t) with power PA, then event B added at time t on [t, u), u > t,
with power PB, on the same fresh band: both calls succeed and the power read at the shared
instant t is PB, which differs from PA + PB when PA is not zero. The reception flag of
each call is arbitrary. -/
theorem C4_no_double_count_at_shared_instant (h : InterferenceHelper)
    (band : WifiSpectrumBand) (f : ℚ) (s t u : Time) (PA PB : ℚ) (flagA flagB : Bool)
    (addrA ppduA addrB ppduB : Nat) (txA txB : WifiTxVector)
    (hfresh : mapFind h.m_niChangesPerBand band = some [(0, { m_power := 0, m_event := none })])
    (hfp : mapFind h.m_firstPowerPerBand band = some f)
    (hs : 0 ≤ s) (hst : s ≤ t) (htu : t < u) :
    ∃ hA evA hB evB,
      InterferenceHelper.Add { h with m_rxing := flagA } s addrA ppduA txA (t - s)
        [(band, PA)] = some (hA, evA) ∧
      InterferenceHelper.Add { hA with m_rxing := flagB } t addrB ppduB txB (u - t)
        [(band, PB)] = some (hB, evB) ∧
      hB.previousPower t band = some PB ∧
      (PA ≠ 0 → hB.previousPower t band ≠ some (PA + PB)) := by
  have hdA : (0 : Time) ≤ t - s := sub_nonneg.mpr hst
  have hdB : (0 : Time) ≤ u - t := sub_nonneg.mpr (le_of_lt htu)
  have hendA : s + (t - s) = t := by ring
  have hendB : t + (u - t) = u := by ring
  obtain ⟨hA, fA, happA, -, hniA, hfpA, -, -, -⟩ :=
    AppendEvent_allBefore { h with m_rxing := flagA } band _ f (0, { m_power := 0, m_event := none })
      (Event.create s addrA ppduA txA (t - s) [(band, PA)]) PA rfl hfresh hfp
      (by rw [Event_create_start, Event_create_end]; exact le_add_of_nonneg_right hdA)
      (by
        intro r hr
        simp only [List.mem_singleton] at hr
        subst hr
        exact hs)
      rfl
  rw [Event_create_start, Event_create_end, hendA] at hniA
  dsimp only at hniA
  have hkeep : (if flagA = true then [((0 : Time), ({ m_power := 0, m_event := none } : NiChange))]
      else List.take 1 [((0 : Time), ({ m_power := 0, m_event := none } : NiChange))]) =
      [(0, { m_power := 0, m_event := none })] := by
    cases flagA <;> rfl
  rw [hkeep] at hniA
  have hallA : ∀ r ∈ ([(0, { m_power := 0, m_event := none })] : NiChanges) ++
      [(s, ({ m_power := 0 + PA, m_event := some (Event.create s addrA ppduA txA (t - s)
          [(band, PA)]) } : NiChange)),
       (t, { m_power := 0, m_event := some (Event.create s addrA ppduA txA (t - s)
          [(band, PA)]) })], r.1 ≤ t := by
    intro r hr
    simp only [List.mem_append, List.mem_cons, List.mem_singleton, List.not_mem_nil,
      or_false] at hr
    rcases hr with rfl | rfl | rfl
    · exact le_trans hs hst
    · exact hst
    · exact le_refl _
  obtain ⟨hB, fB, happB, -, hniB, -, -, -, -⟩ :=
    AppendEvent_allBefore { hA with m_rxing := flagB } band _ fA
      (t, { m_power := 0, m_event := some (Event.create s addrA ppduA txA (t - s)
        [(band, PA)]) })
      (Event.create t addrB ppduB txB (u - t) [(band, PB)]) PB rfl hniA hfpA
      (by rw [Event_create_start, Event_create_end]; exact le_add_of_nonneg_right hdB)
      (by rw [Event_create_start]; exact hallA)
      (by simp)
  rw [Event_create_start, Event_create_end, hendB] at hniB
  dsimp only at hniB
  have hread : hB.previousPower t band = some PB := by
    rw [previousPower_eq hB t band _ hniB]
    have hq := timelinePower_append_two
      (if flagB = true then ([(0, { m_power := 0, m_event := none })] : NiChanges) ++
        [(s, ({ m_power := 0 + PA, m_event := some (Event.create s addrA ppduA txA (t - s)
            [(band, PA)]) } : NiChange)),
         (t, { m_power := 0, m_event := some (Event.create s addrA ppduA txA (t - s)
            [(band, PA)]) })]
       else List.take 1 (([(0, { m_power := 0, m_event := none })] : NiChanges) ++
        [(s, ({ m_power := 0 + PA, m_event := some (Event.create s addrA ppduA txA (t - s)
            [(band, PA)]) } : NiChange)),
         (t, { m_power := 0, m_event := some (Event.create s addrA ppduA txA (t - s)
            [(band, PA)]) })]))
      (t, { m_power := 0 + PB, m_event := some (Event.create t addrB ppduB txB (u - t)
        [(band, PB)]) })
      (u, { m_power := 0, m_event := some (Event.create t addrB ppduB txB (u - t)
        [(band, PB)]) })
      t (kept_prefix_le flagB _ t hallA) (le_refl _) htu
    rw [hq]
    simp
  refine ⟨hA, Event.create s addrA ppduA txA (t - s) [(band, PA)], hB,
    Event.create t addrB ppduB txB (u - t) [(band, PB)], ?_, ?_, hread, ?_⟩
  · unfold InterferenceHelper.Add
    simp only [happA]
  · unfold InterferenceHelper.Add
    simp only [happB]
  · intro hPA hc
    rw [hread] at hc
    simp only [Option.some.injEq] at hc
    apply hPA
    linarith

/-- Witness of C1: `sampleAfterAdd` is reached by AddBand and Add, and the timeline of its
band starts with the zero power record. -/
theorem C1_first_record_is_zero_power_sentinel_witness :
    ∃ rest, sampleTimeline = (0, { m_power := 0, m_event := none }) :: rest :=
  C1_first_record_is_zero_power_sentinel sampleAfterAdd
    (Reachable.add sampleFresh sampleAfterAdd 5 1 1 { handle := 0 } 10 [(sampleBand, 3)]
      sampleEvent
      (Reachable.addBand (InterferenceHelper.create 1) sampleFresh sampleBand
        (Reachable.create 1) (by decide))
      (by decide) (by decide) (by decide!))
    sampleBand sampleTimeline (by decide)

/-- C2: in exact arithmetic CalculateSnr (s, i, w) is
s / (noiseFigure * 1.3803e-23 * 290 * w * 1e6 + i); in particular CalculateSnr (S, 0, 20)
is S / (F * 1.3803e-23 * 290 * 20e6) for the configured noise figure F. -/
theorem C2_CalculateSnr_is_signal_over_floor_plus_interference (h : InterferenceHelper)
    (s i : ℚ) (w : Nat) :
    h.CalculateSnr s i w = s / (h.m_noiseFigure * (13803 / 10 ^ 27) * 290 * w * 10 ^ 6 + i) ∧
    h.CalculateSnr s 0 20 = s / (h.m_noiseFigure * (13803 / 10 ^ 27) * 290 * (20 * 10 ^ 6)) := by
  constructor
  · unfold CalculateSnr
    ring
  · unfold CalculateSnr
    push_cast
    ring

/-- Witness of C3: the two sample calls on the fresh sample band. -/
theorem C3_power_returns_to_level_before_event_witness :
    ∃ tr, addTrace sampleBand sampleFresh sampleCalls = some tr ∧
      tr.length = sampleCalls.length ∧ ∀ x ∈ tr, x.2 = x.1 ∧ x.1 = 0 :=
  C3_power_returns_to_level_before_event sampleBand sampleCalls sampleFresh 0
    [(0, { m_power := 0, m_event := none })] 0 (0, { m_power := 0, m_event := none })
    (by decide) (by decide) (by decide) (by decide)
    ⟨by decide, by decide, by decide, by decide, trivial⟩

/-- Witness of C4: A on [5, 15) with 3 W, then B on [15, 20) with 4 W, flag set for B. -/
theorem C4_no_double_count_at_shared_instant_witness :
    ∃ hA evA hB evB,
      InterferenceHelper.Add { sampleFresh with m_rxing := false } 5 1 1 { handle := 0 }
        (15 - 5) [(sampleBand, 3)] = some (hA, evA) ∧
      InterferenceHelper.Add { hA with m_rxing := true } 15 2 2 { handle := 0 } (20 - 15)
        [(sampleBand, 4)] = some (hB, evB) ∧
      hB.previousPower 15 sampleBand = some 4 ∧
      ((3 : ℚ) ≠ 0 → hB.previousPower 15 sampleBand ≠ some (3 + 4)) :=
  C4_no_double_count_at_shared_instant sampleFresh sampleBand 0 5 15 20 3 4 false true
    1 1 2 2 { handle := 0 } { handle := 0 } (by decide) (by decide) (by decide) (by decide)
    (by decide)

theorem upper_bound_drop_gt (ni : NiChanges) (t : Time)
    (hsorted : ni.Pairwise (fun a b => a.1 ≤ b.1)) :
    ∀ r ∈ ni.drop (upper_bound ni t), t < r.1 := by
  induction ni with
  | nil => simp
  | cons x rest ih =>
    rw [List.pairwise_cons] at hsorted
    by_cases hx : t < x.1
    · intro r hr
      simp only [upper_bound, hx, if_true, List.drop_zero, List.mem_cons] at hr
      rcases hr with rfl | hr
      · exact hx
      · exact lt_of_lt_of_le hx (hsorted.1 r hr)
    · intro r hr
      simp only [upper_bound, hx, if_false, List.drop_succ_cons] at hr
      exact ih hsorted.2 r hr

theorem get?_mem_take (ni : NiChanges) (n i : Nat) (r : Time × NiChange) (hi : i < n)
    (hr : ni.get? i = some r) : r ∈ ni.take n := by
  rw [List.get?_eq_getElem?] at hr
  have : (ni.take n)[i]? = some r := by
    rw [List.getElem?_take_of_lt hi]
    exact hr
  exact List.getElem?_mem this

theorem get?_mem_drop (ni : NiChanges) (n j : Nat) (r : Time × NiChange) (hj : n ≤ j)
    (hr : ni.get? j = some r) : r ∈ ni.drop n := by
  rw [List.get?_eq_getElem?] at hr
  have : (ni.drop n)[j - n]? = some r := by
    rw [List.getElem?_drop]
    have : n + (j - n) = j := by omega
    rw [this]
    exact hr
  exact List.getElem?_mem this

/-- C5 (counterexample): on the sample timeline [(0, 0), (5, 3), (15, 0)] the query for
t = 5 returns position 1, the record stamped exactly 5 with power 3, although the last
record stamped strictly earlier than 5 is the one at position 0 with power 0. -/
theorem C5_counterexample :
    mapFind sampleAfterAdd.m_niChangesPerBand sampleBand = some sampleTimeline ∧
    sampleAfterAdd.GetPreviousPosition 5 sampleBand = some 1 ∧
    (sampleTimeline.get? 1).map (fun r => (r.1, r.2.m_power)) = some (5, 3) ∧
    sampleAfterAdd.previousPower 5 sampleBand = some 3 ∧
    ¬ (∀ i r, sampleAfterAdd.GetPreviousPosition 5 sampleBand = some i →
        sampleTimeline.get? i = some r → r.1 < 5) := by
  refine ⟨by decide, by decide, by decide, by decide, ?_⟩
  intro hc
  have := hc 1 (5, { m_power := 3, m_event := some sampleEvent }) (by decide) (by decide)
  exact absurd this (by decide)

/-- C5 (amended): on a timeline ordered by timestamp, the record returned by
GetPreviousPosition (t, band) is the last record whose timestamp is less than or equal to
t: its timestamp is at most t, every later record is stamped strictly after t, and the
power query reads its power. A record stamped exactly t is visible to a query for t. -/
theorem C5_previous_position_is_last_record_not_after (h : InterferenceHelper)
    (band : WifiSpectrumBand) (ni : NiChanges) (t : Time) (i : Nat)
    (hreg : mapFind h.m_niChangesPerBand band = some ni)
    (hsorted : ni.Pairwise (fun a b => a.1 ≤ b.1))
    (hpos : h.GetPreviousPosition t band = some i) :
    ∃ r, ni.get? i = some r ∧ r.1 ≤ t ∧ h.previousPower t band = some r.2.m_power ∧
      ∀ j r1, i < j → ni.get? j = some r1 → t < r1.1 := by
  have hpos0 := hpos
  unfold GetPreviousPosition GetNextPosition at hpos
  simp only [hreg] at hpos
  by_cases h0 : upper_bound ni t = 0
  · simp [h0] at hpos
  · simp only [h0, if_false, Option.some.injEq] at hpos
    have hlen := upper_bound_le_length ni t
    have hi : i < ni.length := by omega
    refine ⟨ni.get ⟨i, hi⟩, List.get?_eq_get hi, ?_, ?_, ?_⟩
    · exact upper_bound_take_le ni t _
        (get?_mem_take ni (upper_bound ni t) i _ (by omega) (List.get?_eq_get hi))
    · unfold previousPower
      simp only [hreg, hpos0, List.get?_eq_get hi, Option.map_some', NiChange.GetPower]
    · intro j r1 hij hj
      exact upper_bound_drop_gt ni t hsorted r1
        (get?_mem_drop ni (upper_bound ni t) j r1 (by omega) hj)

/-- Witness of C5: the query for t = 7 on the sample timeline. -/
theorem C5_previous_position_is_last_record_not_after_witness :
    ∃ r, sampleTimeline.get? 1 = some r ∧ r.1 ≤ 7 ∧
      sampleAfterAdd.previousPower 7 sampleBand = some r.2.m_power ∧
      ∀ j r1, 1 < j → sampleTimeline.get? j = some r1 → 7 < r1.1 :=
  C5_previous_position_is_last_record_not_after sampleAfterAdd sampleBand sampleTimeline 7 1
    (by decide) (by decide) (by decide)

/-- C6 (evaluation at the failing input): for the sample PPDU, alone on its band during
[0, 100) with the payload starting at 20, the zero-duration window (0, 0) yields
PER = 80/81: the chunk from the window start to the next record (80 ticks) is charged. -/
theorem C6_zero_window_payload_per_is_not_zero :
    sampleFresh.CalculatePayloadPer sampleCollaborators samplePpdu sampleLocal sampleBand 0
      (0, 0) = some (80 / 81) := by
  decide!

/-- C7 (evaluation at the failing input): with the window (0, 10), that is [20, 30),
the sample PPDU alone is charged one chunk of 80 ticks (PER = 80/81), and with the
interferer records at 30 and 60 it is charged the chunks [20, 30) and [30, 60), the second
one lying entirely after the window end (PER = 1 - 1/11 * 1/31 = 340/341). -/
theorem C7_payload_per_charges_beyond_window_end :
    sampleFresh.CalculatePayloadPer sampleCollaborators samplePpdu sampleLocal sampleBand 0
      (0, 10) = some (80 / 81) ∧
    sampleFresh.CalculatePayloadPer sampleCollaborators samplePpdu sampleLocalSplit sampleBand 0
      (0, 10) = some (340 / 341) := by
  decide!

/-- C8 (evaluation at the failing input): EraseEvents on the sample helper, whose band has
the timeline [(0, 0), (5, 3), (15, 0)], keeps the three records and inserts one more zero
power record after the first one; the first power is 0 and the flag is cleared. -/
theorem C8_EraseEvents_keeps_the_records :
    sampleAfterAdd.EraseEvents =
      some { m_noiseFigure := 1, m_numRxAntennas := 1,
             m_niChangesPerBand := [(sampleBand,
               [(0, { m_power := 0, m_event := none }), (0, { m_power := 0, m_event := none }),
                (5, { m_power := 3, m_event := some sampleEvent }),
                (15, { m_power := 0, m_event := some sampleEvent })])],
             m_firstPowerPerBand := [(sampleBand, 0)], m_rxing := false } := by
  decide!

/-- C9 (evaluation at the failing input): on the fresh sample helper one EraseEvents
leaves two zero power records on the band, a second call leaves three, so the state after
two calls differs from the state after one. -/
theorem C9_EraseEvents_twice_differs_from_once :
    (sampleFresh.EraseEvents.map fun h => mapFind h.m_niChangesPerBand sampleBand) =
      some (some [(0, { m_power := 0, m_event := none }),
                  (0, { m_power := 0, m_event := none })]) ∧
    ((sampleFresh.EraseEvents.bind EraseEvents).map
        fun h => mapFind h.m_niChangesPerBand sampleBand) =
      some (some [(0, { m_power := 0, m_event := none }),
                  (0, { m_power := 0, m_event := none }),
                  (0, { m_power := 0, m_event := none })]) ∧
    sampleFresh.EraseEvents.bind EraseEvents ≠ sampleFresh.EraseEvents := by
  decide!

theorem take_upper_bound_eq_filter (ni : NiChanges) (t : Time)
    (hsorted : ni.Pairwise (fun a b => a.1 ≤ b.1)) :
    ni.take (upper_bound ni t) = ni.filter (fun r => decide (r.1 ≤ t)) := by
  induction ni with
  | nil => simp [upper_bound]
  | cons x rest ih =>
    rw [List.pairwise_cons] at hsorted
    by_cases hx : t < x.1
    · have hx2 : ¬ x.1 ≤ t := not_le.mpr hx
      have hrest : rest.filter (fun r => decide (r.1 ≤ t)) = [] := by
        rw [List.filter_eq_nil_iff]
        intro r hr
        have := lt_of_lt_of_le hx (hsorted.1 r hr)
        simp [not_le.mpr this]
      simp [upper_bound, hx, List.filter_cons, hx2, hrest]
    · have hx2 : x.1 ≤ t := not_lt.mp hx
      simp [upper_bound, hx, List.filter_cons, hx2, ih hsorted.2]

theorem drop_upper_bound_eq_filter (ni : NiChanges) (t : Time)
    (hsorted : ni.Pairwise (fun a b => a.1 ≤ b.1)) :
    ni.drop (upper_bound ni t) = ni.filter (fun r => decide (t < r.1)) := by
  induction ni with
  | nil => simp [upper_bound]
  | cons x rest ih =>
    rw [List.pairwise_cons] at hsorted
    by_cases hx : t < x.1
    · have hrest : rest.filter (fun r => decide (t < r.1)) = rest := by
        rw [List.filter_eq_self]
        intro r hr
        have := lt_of_lt_of_le hx (hsorted.1 r hr)
        simp [this]
      simp [upper_bound, hx, List.filter_cons, hrest]
    · simp [upper_bound, hx, List.filter_cons, ih hsorted.2]

/-- The entries of the power map for other bands leave the timeline, the first power and
the flag seen for `band` unchanged. -/
theorem appendEventBand_fold_frame (event : Event) (band : WifiSpectrumBand) :
    ∀ (l : RxPowerWattPerChannelBand) (h h1 : InterferenceHelper),
      (∀ it ∈ l, it.1 ≠ band) → l.foldlM (appendEventBand event) h = some h1 →
      mapFind h1.m_niChangesPerBand band = mapFind h.m_niChangesPerBand band ∧
      mapFind h1.m_firstPowerPerBand band = mapFind h.m_firstPowerPerBand band ∧
      h1.m_rxing = h.m_rxing := by
  intro l
  induction l with
  | nil =>
    intro h h1 _ hfold
    simp only [List.foldlM_nil, pure, Option.some.injEq] at hfold
    subst hfold
    exact ⟨rfl, rfl, rfl⟩
  | cons it rest ih =>
    intro h h1 hne hfold
    simp only [List.foldlM_cons, bind, Option.bind_eq_some] at hfold
    obtain ⟨h2, hstep, hrest⟩ := hfold
    obtain ⟨hni, hfp, hrx⟩ := ih h2 h1 (fun x hx => hne x (List.mem_cons_of_mem _ hx)) hrest
    obtain ⟨ni, ni1, ps, -, -, -, hni2, hfp2, hrx2, -⟩ := appendEventBand_spec event h h2 it hstep
    have hb : ¬ band = it.1 := fun e => hne it (List.mem_cons_self _ _) e.symm
    refine ⟨?_, ?_, hrx.trans hrx2⟩
    · rw [hni, hni2, mapFind_mapAssign]
      simp [hb]
    · rw [hfp, hfp2]
      split
      · rfl
      · rw [mapFind_mapAssign]
        simp [hb]

theorem nodup_keys_split (l1 l2 : RxPowerWattPerChannelBand) (band : WifiSpectrumBand) (p : ℚ)
    (hkeys : ((l1 ++ (band, p) :: l2).map Prod.fst).Nodup) :
    (∀ it ∈ l1, it.1 ≠ band) ∧ (∀ it ∈ l2, it.1 ≠ band) := by
  simp only [List.map_append, List.map_cons] at hkeys
  rw [List.nodup_append] at hkeys
  obtain ⟨-, hright, hdisj⟩ := hkeys
  rw [List.nodup_cons] at hright
  constructor
  · intro it hit heq
    exact hdisj (List.mem_map_of_mem Prod.fst hit) (heq ▸ List.mem_cons_self _ _)
  · intro it hit heq
    exact hright.1 (heq ▸ List.mem_map_of_mem Prod.fst hit)

/-- Closed form of one pass of the loop of `AppendEvent` on a timeline ordered by
timestamp, with the kept and the retained records given by their timestamps. -/
theorem appendTimeline_sorted (rxing : Bool) (event : Event) (p : ℚ) (ni ni1 : NiChanges)
    (hse : event.GetStartTime ≤ event.GetEndTime)
    (hsorted : ni.Pairwise (fun a b => a.1 ≤ b.1))
    (happ : appendTimeline rxing event p ni = some ni1) :
    ∃ ps pe, timelinePower ni event.GetStartTime = some ps ∧
      timelinePower ni event.GetEndTime = some pe ∧
      ni1 = (if rxing then ni.filter (fun r => decide (r.1 ≤ event.GetStartTime))
        else ni.take 1) ++ recordsFromStart event p ps pe ni := by
  have hn : 1 ≤ upper_bound ni event.GetStartTime := by
    unfold appendTimeline at happ
    cases hps : timelinePower ni event.GetStartTime with
    | none => simp [hps] at happ
    | some ps => exact (timelinePower_some_pos ni _ ps hps).1
  obtain ⟨ps, pe, hps, hpe, heq⟩ := appendTimeline_eq rxing event p ni hse hn
  refine ⟨ps, pe, hps, hpe, ?_⟩
  rw [heq] at happ
  simp only [Option.some.injEq] at happ
  rw [← happ]
  have hB := drop_upper_bound_eq_filter ni event.GetStartTime hsorted
  have hBsorted : (ni.drop (upper_bound ni event.GetStartTime)).Pairwise
      (fun a b => a.1 ≤ b.1) := List.Pairwise.sublist (List.drop_sublist _ _) hsorted
  rw [take_upper_bound_eq_filter _ event.GetEndTime hBsorted,
    drop_upper_bound_eq_filter _ event.GetEndTime hBsorted, hB,
    take_upper_bound_eq_filter ni event.GetStartTime hsorted]
  unfold recordsFromStart
  simp only [List.filter_filter]
  have hf1 : (fun (r : Time × NiChange) =>
      (decide (r.1 ≤ event.GetEndTime) && decide (event.GetStartTime < r.1))) =
      (fun r => decide (event.GetStartTime < r.1 ∧ r.1 ≤ event.GetEndTime)) := by
    funext r
    simp [Bool.and_comm, Bool.decide_and]
  have hf2 : (fun (r : Time × NiChange) =>
      (decide (event.GetEndTime < r.1) && decide (event.GetStartTime < r.1))) =
      (fun r => decide (event.GetEndTime < r.1)) := by
    funext r
    by_cases he : event.GetEndTime < r.1
    · have hs : event.GetStartTime < r.1 := lt_of_le_of_lt hse he
      simp [he, hs]
    · simp [he]
  rw [hf1, hf2]

/-- C10: Add of an event whose power map (with one entry per band) gives power p to band b,
on a timeline of b ordered by timestamp. With the flag not set, the first power of b
becomes the power read at the start before the call and the new timeline is the first
record followed by the start record, the old records stamped after the start (with p added
up to the end time) and the end record: every other old record stamped at or before the
start is gone and every record stamped after it is kept. With the flag set, the first
power is unchanged and all old records stamped at or before the start are kept as well. -/
theorem C10_add_prunes_records_before_start (h h1 : InterferenceHelper) (now duration : Time)
    (addr ppdu : Nat) (txVector : WifiTxVector) (rxPowerW : RxPowerWattPerChannelBand)
    (event : Event) (band : WifiSpectrumBand) (p : ℚ) (ni : NiChanges)
    (hadd : h.Add now addr ppdu txVector duration rxPowerW = some (h1, event))
    (hdur : 0 ≤ duration)
    (hkeys : (rxPowerW.map Prod.fst).Nodup) (hmem : (band, p) ∈ rxPowerW)
    (hreg : mapFind h.m_niChangesPerBand band = some ni)
    (hsorted : ni.Pairwise (fun a b => a.1 ≤ b.1)) :
    event.GetStartTime = now ∧ event.GetEndTime = now + duration ∧
    ∃ ps pe, h.previousPower now band = some ps ∧
      h.previousPower (now + duration) band = some pe ∧
      (h.m_rxing = false →
        mapFind h1.m_firstPowerPerBand band = some ps ∧
        mapFind h1.m_niChangesPerBand band =
          some (ni.take 1 ++ recordsFromStart event p ps pe ni)) ∧
      (h.m_rxing = true →
        mapFind h1.m_firstPowerPerBand band = mapFind h.m_firstPowerPerBand band ∧
        mapFind h1.m_niChangesPerBand band =
          some (ni.filter (fun r => decide (r.1 ≤ now)) ++
            recordsFromStart event p ps pe ni)) := by
  unfold InterferenceHelper.Add at hadd
  cases happ : h.AppendEvent (Event.create now addr ppdu txVector duration rxPowerW) with
  | none => simp [happ] at hadd
  | some h2 =>
    simp only [happ, Option.some.injEq, Prod.mk.injEq] at hadd
    obtain ⟨rfl, rfl⟩ := hadd
    refine ⟨rfl, rfl, ?_⟩
    obtain ⟨l1, l2, hsplit⟩ := List.append_of_mem hmem
    subst hsplit
    obtain ⟨hl1, hl2⟩ := nodup_keys_split l1 l2 band p hkeys
    unfold AppendEvent at happ
    have hpow : (Event.create now addr ppdu txVector duration
        (l1 ++ (band, p) :: l2)).m_rxPowerW = l1 ++ (band, p) :: l2 := rfl
    rw [hpow, List.foldlM_append] at happ
    simp only [bind, Option.bind_eq_some, List.foldlM_cons] at happ
    obtain ⟨hA, hfoldA, hB, hstep, hfoldB⟩ := happ
    obtain ⟨hniA, hfpA, hrxA⟩ := appendEventBand_fold_frame _ band l1 h hA hl1 hfoldA
    obtain ⟨hniB, hfpB, -⟩ := appendEventBand_fold_frame _ band l2 hB h2 hl2 hfoldB
    obtain ⟨ni0, ni1, ps0, hreg0, hat, hps0, hni1, hfp1, -, -, -, hfpsome⟩ :=
      appendEventBand_spec _ hA hB (band, p) hstep
    rw [hniA, hreg] at hreg0
    simp only [Option.some.injEq] at hreg0
    subst hreg0
    have hse : (Event.create now addr ppdu txVector duration
        (l1 ++ (band, p) :: l2)).GetStartTime ≤ (Event.create now addr ppdu txVector duration
        (l1 ++ (band, p) :: l2)).GetEndTime := by
      rw [Event_create_start, Event_create_end]
      exact le_add_of_nonneg_right hdur
    obtain ⟨ps, pe, hps, hpe, hform⟩ := appendTimeline_sorted _ _ p ni ni1 hse hsorted hat
    have hpp : ps = ps0 := by
      rw [hps0] at hps
      exact (Option.some.inj hps).symm
    subst hpp
    have hfindB : mapFind hB.m_niChangesPerBand band = some ni1 := by
      rw [hni1, mapFind_mapAssign]
      simp [hniA, hreg]
    refine ⟨ps, pe, ?_, ?_, ?_, ?_⟩
    · rw [previousPower_eq h now band ni hreg]
      exact hps
    · rw [previousPower_eq h (now + duration) band ni hreg]
      exact hpe
    · intro hrx
      rw [hrxA, hrx] at hfp1 hform
      obtain ⟨f, hf⟩ := hfpsome (hrxA.trans hrx)
      simp only [Bool.false_eq_true, if_false] at hfp1 hform
      constructor
      · rw [hfpB, hfp1, mapFind_mapAssign]
        simp only [if_true, hf, Option.map_some']
      · rw [hniB, hfindB, hform]
    · intro hrx
      rw [hrxA, hrx] at hfp1 hform
      simp only [if_true] at hfp1 hform
      constructor
      · rw [hfpB, hfp1, hfpA]
      · rw [hniB, hfindB, hform]
        rfl

/-- Witness of C10: adding the sample interferer (2 W during [30, 60)) to the sample helper,
whose flag is not set and whose band has the timeline [(0, 0), (5, 3), (15, 0)]. -/
theorem C10_add_prunes_records_before_start_witness :
    sampleInterferer.GetStartTime = 30 ∧ sampleInterferer.GetEndTime = 30 + 30 ∧
    ∃ ps pe, sampleAfterAdd.previousPower 30 sampleBand = some ps ∧
      sampleAfterAdd.previousPower (30 + 30) sampleBand = some pe ∧
      (sampleAfterAdd.m_rxing = false →
        mapFind samplePruned.m_firstPowerPerBand sampleBand = some ps ∧
        mapFind samplePruned.m_niChangesPerBand sampleBand =
          some (sampleTimeline.take 1 ++ recordsFromStart sampleInterferer 2 ps pe
            sampleTimeline)) ∧
      (sampleAfterAdd.m_rxing = true →
        mapFind samplePruned.m_firstPowerPerBand sampleBand =
          mapFind sampleAfterAdd.m_firstPowerPerBand sampleBand ∧
        mapFind samplePruned.m_niChangesPerBand sampleBand =
          some (sampleTimeline.filter (fun r => decide (r.1 ≤ 30)) ++
            recordsFromStart sampleInterferer 2 ps pe sampleTimeline)) :=
  C10_add_prunes_records_before_start sampleAfterAdd samplePruned 30 30 8 8 { handle := 0 }
    [(sampleBand, 2)] sampleInterferer sampleBand 2 sampleTimeline
    (by decide!) (by decide) (by decide) (by decide) (by decide) (by decide)

/-- C20: for a positive noise figure, a positive channel width and an interference power
that is not negative, the total noise noiseFigure * 1.3803e-23 * 290 * width * 1e6 +
interference is strictly positive, CalculateSnr is the signal divided by that total, and
the result has the sign of the signal power. -/
theorem C20_total_noise_positive_and_snr_has_sign_of_signal (h : InterferenceHelper)
    (signal noiseInterference : ℚ) (channelWidth : Nat)
    (hF : 0 < h.m_noiseFigure) (hw : 0 < channelWidth) (hi : 0 ≤ noiseInterference) :
    0 < h.m_noiseFigure * ((13803 / 10 ^ 27 : ℚ) * 290 * channelWidth * 10 ^ 6)
        + noiseInterference ∧
    h.CalculateSnr signal noiseInterference channelWidth =
      signal / (h.m_noiseFigure * ((13803 / 10 ^ 27 : ℚ) * 290 * channelWidth * 10 ^ 6)
        + noiseInterference) ∧
    (0 < signal → 0 < h.CalculateSnr signal noiseInterference channelWidth) ∧
    (signal < 0 → h.CalculateSnr signal noiseInterference channelWidth < 0) ∧
    (signal = 0 → h.CalculateSnr signal noiseInterference channelWidth = 0) := by
  have hwq : (0 : ℚ) < (channelWidth : ℚ) := by exact_mod_cast hw
  have hNt : (0 : ℚ) < (13803 / 10 ^ 27 : ℚ) * 290 * channelWidth * 10 ^ 6 := by positivity
  have hnoise : 0 < h.m_noiseFigure * ((13803 / 10 ^ 27 : ℚ) * 290 * channelWidth * 10 ^ 6)
      + noiseInterference := by
    have := mul_pos hF hNt
    linarith
  refine ⟨hnoise, rfl, ?_, ?_, ?_⟩
  · intro hs
    exact div_pos hs hnoise
  · intro hs
    exact div_neg_of_neg_of_pos hs hnoise
  · intro hs
    unfold CalculateSnr
    simp [hs]

/-- Witness of C20: noise figure 1, width 20 MHz, interference 0, signal 3 W. -/
theorem C20_total_noise_positive_and_snr_has_sign_of_signal_witness :
    0 < sampleFresh.m_noiseFigure * ((13803 / 10 ^ 27 : ℚ) * 290 * (20 : Nat) * 10 ^ 6)
        + 0 ∧
    sampleFresh.CalculateSnr 3 0 20 =
      3 / (sampleFresh.m_noiseFigure * ((13803 / 10 ^ 27 : ℚ) * 290 * (20 : Nat) * 10 ^ 6)
        + 0) ∧
    ((0 : ℚ) < 3 → 0 < sampleFresh.CalculateSnr 3 0 20) ∧
    ((3 : ℚ) < 0 → sampleFresh.CalculateSnr 3 0 20 < 0) ∧
    ((3 : ℚ) = 0 → sampleFresh.CalculateSnr 3 0 20 = 0) :=
  C20_total_noise_positive_and_snr_has_sign_of_signal sampleFresh 3 0 20
    (by decide!) (by decide) (by decide)

/-- Effect of a successful `Add` on one band of the power map (one entry per band): the
timeline of the band goes through one pass of the loop of `AppendEvent`, and the first
power becomes the power read at the start when the flag is not set. -/
theorem Add_band_effect (h h1 : InterferenceHelper) (now duration : Time) (addr ppdu : Nat)
    (txVector : WifiTxVector) (rxPowerW : RxPowerWattPerChannelBand) (event : Event)
    (band : WifiSpectrumBand) (p : ℚ) (ni : NiChanges)
    (hadd : h.Add now addr ppdu txVector duration rxPowerW = some (h1, event))
    (hkeys : (rxPowerW.map Prod.fst).Nodup) (hmem : (band, p) ∈ rxPowerW)
    (hreg : mapFind h.m_niChangesPerBand band = some ni) :
    event = Event.create now addr ppdu txVector duration rxPowerW ∧
    ∃ ni1 ps, appendTimeline h.m_rxing event p ni = some ni1 ∧
      timelinePower ni now = some ps ∧
      mapFind h1.m_niChangesPerBand band = some ni1 ∧
      mapFind h1.m_firstPowerPerBand band =
        (if h.m_rxing then mapFind h.m_firstPowerPerBand band else some ps) := by
  unfold InterferenceHelper.Add at hadd
  cases happ : h.AppendEvent (Event.create now addr ppdu txVector duration rxPowerW) with
  | none => simp [happ] at hadd
  | some h2 =>
    simp only [happ, Option.some.injEq, Prod.mk.injEq] at hadd
    obtain ⟨rfl, rfl⟩ := hadd
    refine ⟨rfl, ?_⟩
    obtain ⟨l1, l2, hsplit⟩ := List.append_of_mem hmem
    subst hsplit
    obtain ⟨hl1, hl2⟩ := nodup_keys_split l1 l2 band p hkeys
    unfold AppendEvent at happ
    have hpow : (Event.create now addr ppdu txVector duration
        (l1 ++ (band, p) :: l2)).m_rxPowerW = l1 ++ (band, p) :: l2 := rfl
    rw [hpow, List.foldlM_append] at happ
    simp only [bind, Option.bind_eq_some, List.foldlM_cons] at happ
    obtain ⟨hA, hfoldA, hB, hstep, hfoldB⟩ := happ
    obtain ⟨hniA, hfpA, hrxA⟩ := appendEventBand_fold_frame _ band l1 h hA hl1 hfoldA
    obtain ⟨hniB, hfpB, -⟩ := appendEventBand_fold_frame _ band l2 hB h2 hl2 hfoldB
    obtain ⟨ni0, ni1, ps0, hreg0, hat, hps0, hni1, hfp1, -, -, -, hfpsome⟩ :=
      appendEventBand_spec _ hA hB (band, p) hstep
    rw [hniA, hreg] at hreg0
    simp only [Option.some.injEq] at hreg0
    subst hreg0
    rw [Event_create_start] at hps0
    rw [hrxA] at hat
    refine ⟨ni1, ps0, hat, hps0, ?_, ?_⟩
    · rw [hniB, hni1, mapFind_mapAssign]
      simp [hniA, hreg]
    · rw [hfpB, hfp1, hrxA]
      cases hrx : h.m_rxing with
      | true => simp [hfpA]
      | false =>
        obtain ⟨f, hf⟩ := hfpsome (hrxA.trans hrx)
        simp only [Bool.false_eq_true, if_false, mapFind_mapAssign, if_true, hf,
          Option.map_some']

theorem pruned_decomposition (ni : NiChanges) (start : Time)
    (hn : 1 ≤ upper_bound ni start) :
    ni = ni.take 1 ++ prunedRecords ni start ++ ni.drop (upper_bound ni start) := by
  unfold prunedRecords
  have h1 : ni.take 1 = (ni.take (upper_bound ni start)).take 1 := by
    rw [List.take_take, Nat.min_eq_left hn]
  rw [h1, List.take_append_drop, List.take_append_drop]

/-- C11 (counterexample): `samplePpdu` (3 W during [0, 100)) is added at time 0, then
`sampleOverlap` is added at time 10 with the flag not set. The second Add erases the start
record of `samplePpdu`, an event that ends at 100, later than the new start 10. -/
theorem C11_counterexample :
    sampleFresh.Add 0 7 7 { handle := 0 } 100 [(sampleBand, 3)] =
      some (sampleInFlight, samplePpdu) ∧
    sampleInFlight.m_rxing = false ∧
    sampleInFlight.Add 10 9 9 { handle := 0 } 40 [(sampleBand, 2)] =
      some (sampleInFlightPruned, sampleOverlap) ∧
    (mapFind sampleInFlight.m_niChangesPerBand sampleBand).map
        (fun ni => prunedRecords ni 10) =
      some [(0, { m_power := 3, m_event := some samplePpdu })] ∧
    ¬ (∀ r ∈ [((0 : Time), ({ m_power := 3, m_event := some samplePpdu } : NiChange))],
        ∃ e, r.2.m_event = some e ∧ e.GetEndTime ≤ 10) := by
  refine ⟨by decide!, by decide, by decide!, by decide!, ?_⟩
  intro hc
  obtain ⟨e, he, hle⟩ := hc _ (List.mem_singleton.mpr rfl)
  simp only [Option.some.injEq] at he
  subst he
  exact absurd hle (by decide)

/-- C11 (amended): when an Add with the flag not set prunes the timeline of a band, the
erased records are the ones from the second record up to the first record stamped later
than the new start; every erased record is stamped at or before the new start (it may be
the start record of an event still in flight), every record after them is kept (with the
power of the new event added up to its end), and the power in effect at the start is
carried into the new start record and into the first power. -/
theorem C11_pruned_records_are_not_later_than_start (h h1 : InterferenceHelper)
    (now duration : Time) (addr ppdu : Nat) (txVector : WifiTxVector)
    (rxPowerW : RxPowerWattPerChannelBand) (event : Event) (band : WifiSpectrumBand) (p : ℚ)
    (ni : NiChanges)
    (hadd : h.Add now addr ppdu txVector duration rxPowerW = some (h1, event))
    (hrx : h.m_rxing = false) (hdur : 0 ≤ duration)
    (hkeys : (rxPowerW.map Prod.fst).Nodup) (hmem : (band, p) ∈ rxPowerW)
    (hreg : mapFind h.m_niChangesPerBand band = some ni) :
    ni = ni.take 1 ++ prunedRecords ni now ++ ni.drop (upper_bound ni now) ∧
    (∀ r ∈ prunedRecords ni now, r.1 ≤ now) ∧
    ∃ ps pe k, h.previousPower now band = some ps ∧
      mapFind h1.m_firstPowerPerBand band = some ps ∧
      mapFind h1.m_niChangesPerBand band =
        some (ni.take 1 ++ (now, { m_power := ps + p, m_event := some event }) ::
          (((ni.drop (upper_bound ni now)).take k).map (fun r => (r.1, r.2.AddPower p)) ++
            (now + duration, { m_power := pe, m_event := some event }) ::
              (ni.drop (upper_bound ni now)).drop k)) := by
  obtain ⟨hev, ni1, ps, hat, hps, hni1, hfp1⟩ :=
    Add_band_effect h h1 now duration addr ppdu txVector rxPowerW event band p ni hadd hkeys
      hmem hreg
  have hs : event.GetStartTime = now := by rw [hev]; rfl
  have he : event.GetEndTime = now + duration := by rw [hev]; rfl
  have hn : 1 ≤ upper_bound ni now := (timelinePower_some_pos ni now ps hps).1
  have hse : event.GetStartTime ≤ event.GetEndTime := by
    rw [hs, he]
    exact le_add_of_nonneg_right hdur
  obtain ⟨ps2, pe, hps2, -, heq⟩ := appendTimeline_eq h.m_rxing event p ni hse (hs ▸ hn)
  rw [hs] at hps2
  rw [hps] at hps2
  simp only [Option.some.injEq] at hps2
  subst hps2
  rw [hat, hrx, hs, he] at heq
  simp only [Bool.false_eq_true, if_false, Option.some.injEq] at heq
  refine ⟨pruned_decomposition ni now hn, ?_, ps, pe,
    upper_bound (ni.drop (upper_bound ni now)) (now + duration), ?_, ?_, ?_⟩
  · intro r hr
    exact upper_bound_take_le ni now r (List.mem_of_mem_drop hr)
  · rw [previousPower_eq h now band ni hreg]
    exact hps
  · rw [hfp1, hrx]
    simp
  · rw [hni1, heq]

/-- Witness of C11 (amended): `sampleOverlap` added at time 10 to `sampleInFlight`. -/
theorem C11_pruned_records_are_not_later_than_start_witness :
    sampleInFlightTimeline = sampleInFlightTimeline.take 1 ++
        prunedRecords sampleInFlightTimeline 10 ++
        sampleInFlightTimeline.drop (upper_bound sampleInFlightTimeline 10) ∧
    (∀ r ∈ prunedRecords sampleInFlightTimeline 10, r.1 ≤ 10) ∧
    ∃ ps pe k, sampleInFlight.previousPower 10 sampleBand = some ps ∧
      mapFind sampleInFlightPruned.m_firstPowerPerBand sampleBand = some ps ∧
      mapFind sampleInFlightPruned.m_niChangesPerBand sampleBand =
        some (sampleInFlightTimeline.take 1 ++
          (10, { m_power := ps + 2, m_event := some sampleOverlap }) ::
          (((sampleInFlightTimeline.drop (upper_bound sampleInFlightTimeline 10)).take k).map
              (fun r => (r.1, r.2.AddPower 2)) ++
            (10 + 40, { m_power := pe, m_event := some sampleOverlap }) ::
              (sampleInFlightTimeline.drop (upper_bound sampleInFlightTimeline 10)).drop k)) :=
  C11_pruned_records_are_not_later_than_start sampleInFlight sampleInFlightPruned 10 40 9 9
    { handle := 0 } [(sampleBand, 2)] sampleOverlap sampleBand 2 sampleInFlightTimeline
    (by decide!) (by decide) (by decide) (by decide) (by decide) (by decide)

/-- C12 (evaluation at the failing input): `samplePpdu` (3 W during [0, 100)) is added at
time 0, its reception starts and is ended at time 50. No record is stamped 50, so `find`
returns `end ()` and the first power becomes the power of the last record of the
timeline, 0, although the last record stamped before 50 has power 3. -/
theorem C12_NotifyRxEnd_takes_last_record_of_timeline :
    Reachable sampleInFlight.NotifyRxStart ∧
    sampleInFlight.NotifyRxStart.NotifyRxEnd 50 =
      some { m_noiseFigure := 1, m_numRxAntennas := 1,
             m_niChangesPerBand := [(sampleBand, sampleInFlightTimeline)],
             m_firstPowerPerBand := [(sampleBand, 0)], m_rxing := false } ∧
    ((sampleInFlightTimeline.filter (fun r => decide (r.1 < 50))).getLast?.map
        (fun r => r.2.m_power)) = some 3 := by
  refine ⟨?_, by decide!, by decide!⟩
  exact Reachable.notifyRxStart _
    (Reachable.add sampleFresh sampleInFlight 0 7 7 { handle := 0 } 100 [(sampleBand, 3)]
      samplePpdu
      (Reachable.addBand (InterferenceHelper.create 1) sampleFresh sampleBand
        (Reachable.create 1) (by decide))
      (by decide) (by decide) (by decide!))

theorem timelinePower_append (X Y : NiChanges) (t : Time) (hX : ∀ r ∈ X, r.1 ≤ t)
    (hY : 1 ≤ upper_bound Y t) : timelinePower (X ++ Y) t = timelinePower Y t := by
  unfold timelinePower
  rw [upper_bound_append X Y t hX]
  have h1 : ¬ X.length + upper_bound Y t = 0 := by omega
  have h2 : ¬ upper_bound Y t = 0 := by omega
  simp only [h1, h2, if_false, List.get?_eq_getElem?]
  rw [List.getElem?_append_right (by omega)]
  congr 2
  omega

theorem timelinePower_cons_lt (r r1 : Time × NiChange) (B : NiChanges) (t : Time)
    (hr : r.1 ≤ t) (hlt : t < r1.1) :
    timelinePower (r :: r1 :: B) t = some r.2.m_power := by
  unfold timelinePower
  have h1 : ¬ t < r.1 := not_lt.mpr hr
  simp [upper_bound, h1, hlt, NiChange.GetPower]

theorem timelinePower_singleton (r : Time × NiChange) (t : Time) (hr : r.1 ≤ t) :
    timelinePower [r] t = some r.2.m_power := by
  unfold timelinePower
  have h1 : ¬ t < r.1 := not_lt.mpr hr
  simp [upper_bound, h1, NiChange.GetPower]

theorem upper_bound_cons_pos (r : Time × NiChange) (B : NiChanges) (t : Time)
    (hr : r.1 ≤ t) : 1 ≤ upper_bound (r :: B) t := by
  have h1 : ¬ t < r.1 := not_lt.mpr hr
  simp [upper_bound, h1]

/-- While the scan of `GetEnergyDuration` has not reached its final record, the power read
at time `t` is at least the threshold. -/
theorem energyScan_above (energyW : ℚ) :
    ∀ (B : NiChanges) (r : Time × NiChange) (e0 t : Time), r.1 ≤ t →
      t < energyScan energyW (r :: B) e0 →
      ∃ p, timelinePower (r :: B) t = some p ∧ energyW ≤ p := by
  intro B
  induction B with
  | nil =>
    intro r e0 t hr hlt
    unfold energyScan at hlt
    simp only [energyScan] at hlt
    split at hlt
    · exact absurd hlt (not_lt.mpr hr)
    · exact absurd hlt (not_lt.mpr hr)
  | cons r1 B ih =>
    intro r e0 t hr hlt
    unfold energyScan at hlt
    simp only [] at hlt
    by_cases hp : r.2.GetPower < energyW
    · simp only [hp, if_true] at hlt
      exact absurd hlt (not_lt.mpr hr)
    · simp only [hp, if_false] at hlt
      by_cases ht : t < r1.1
      · exact ⟨r.2.m_power, timelinePower_cons_lt r r1 B t hr ht, not_lt.mp hp⟩
      · have hr1 : r1.1 ≤ t := not_lt.mp ht
        obtain ⟨p, hpw, hpe⟩ := ih r1 r.1 t hr1 hlt
        refine ⟨p, ?_, hpe⟩
        have := timelinePower_append [r] (r1 :: B) t
          (by intro x hx; rw [List.mem_singleton] at hx; rw [hx]; exact hr)
          (upper_bound_cons_pos r1 B t hr1)
        simpa [hpw] using this

/-- Unfolding of `GetEnergyDuration` on a registered band: `r` is the record that
`GetPreviousPosition (now)` points to and `B` holds the records after it. -/
theorem GetEnergyDuration_eq (h : InterferenceHelper) (now : Time) (energyW : ℚ)
    (band : WifiSpectrumBand) (ni : NiChanges)
    (hreg : mapFind h.m_niChangesPerBand band = some ni)
    (hn : 1 ≤ upper_bound ni now) :
    ∃ r, ni = ni.take (upper_bound ni now - 1) ++ r :: ni.drop (upper_bound ni now) ∧
      r.1 ≤ now ∧ timelinePower ni now = some r.2.m_power ∧
      h.GetEnergyDuration now energyW band =
        some (if energyScan energyW (r :: ni.drop (upper_bound ni now)) r.1 > now
              then energyScan energyW (r :: ni.drop (upper_bound ni now)) r.1 - now
              else 0) := by
  have hlen := upper_bound_le_length ni now
  have hi : upper_bound ni now - 1 < ni.length := by omega
  have hdrop : ni.drop (upper_bound ni now - 1) =
      ni.get ⟨upper_bound ni now - 1, hi⟩ :: ni.drop (upper_bound ni now) := by
    rw [List.drop_eq_getElem_cons hi]
    congr 2
    omega
  refine ⟨ni.get ⟨upper_bound ni now - 1, hi⟩, ?_, ?_, ?_, ?_⟩
  · rw [← hdrop, List.take_append_drop]
  · exact upper_bound_take_le ni now _
      (get?_mem_take ni (upper_bound ni now) _ _ (by omega) (List.get?_eq_get hi))
  · unfold timelinePower
    have h0 : ¬ upper_bound ni now = 0 := by omega
    simp only [h0, if_false, List.get?_eq_get hi, Option.map_some', NiChange.GetPower]
  · unfold GetEnergyDuration GetPreviousPosition GetNextPosition
    have h0 : ¬ upper_bound ni now = 0 := by omega
    simp only [hreg, h0, if_false, List.get?_eq_get hi, hdrop]

/-- The duration returned by `GetEnergyDuration` is not negative and the power read stays
at or above the threshold during it. -/
theorem GetEnergyDuration_above (h : InterferenceHelper) (now : Time)
    (energyW : ℚ) (band : WifiSpectrumBand) (ni : NiChanges)
    (hreg : mapFind h.m_niChangesPerBand band = some ni)
    (hn : 1 ≤ upper_bound ni now) :
    ∃ d, h.GetEnergyDuration now energyW band = some d ∧ 0 ≤ d ∧
      ∀ t, now ≤ t → t < now + d →
        ∃ p, h.previousPower t band = some p ∧ energyW ≤ p := by
  obtain ⟨r, hni, hr, -, hd⟩ := GetEnergyDuration_eq h now energyW band ni hreg hn
  refine ⟨_, hd, ?_, ?_⟩
  · split
    · linarith
    · exact le_refl _
  · intro t hnow hlt
    by_cases hgt : energyScan energyW (r :: ni.drop (upper_bound ni now)) r.1 > now
    · simp only [hgt, if_true] at hlt
      have hlt2 : t < energyScan energyW (r :: ni.drop (upper_bound ni now)) r.1 := by
        linarith
      obtain ⟨p, hp, hpe⟩ := energyScan_above energyW _ r r.1 t (le_trans hr hnow) hlt2
      refine ⟨p, ?_, hpe⟩
      rw [previousPower_eq h t band ni hreg, hni]
      rw [timelinePower_append _ _ t ?_ (upper_bound_cons_pos r _ t (le_trans hr hnow))]
      · exact hp
      · intro x hx
        have hx2 : x ∈ ni.take (upper_bound ni now) :=
          (List.take_subset_take_left ni (Nat.sub_le _ _)) hx
        exact le_trans (upper_bound_take_le ni now x hx2) hnow
    · simp only [hgt, if_false] at hlt
      exact absurd hlt (by linarith)

/-- C18: on a registered band whose first record is not later than now,
GetEnergyDuration (E, band) returns a duration that is not negative, and for every t with
now <= t < now + duration the power read at t (the record GetPreviousPosition (t) points
to, which on a timeline ordered by timestamp is the last record with timestamp <= t) is
at least E. -/
theorem C18_energy_stays_above_threshold_for_duration (h : InterferenceHelper) (now : Time)
    (energyW : ℚ) (band : WifiSpectrumBand) (ni : NiChanges)
    (hreg : mapFind h.m_niChangesPerBand band = some ni)
    (hn : 1 ≤ upper_bound ni now) :
    ∃ d, h.GetEnergyDuration now energyW band = some d ∧ 0 ≤ d ∧
      ∀ t, now ≤ t → t < now + d →
        ∃ p, h.previousPower t band = some p ∧ energyW ≤ p :=
  GetEnergyDuration_above h now energyW band ni hreg hn

/-- Witness of C18: threshold 1 W at time 5 on `sampleInFlight`. -/
theorem C18_energy_stays_above_threshold_for_duration_witness :
    ∃ d, sampleInFlight.GetEnergyDuration 5 1 sampleBand = some d ∧ 0 ≤ d ∧
      ∀ t, 5 ≤ t → t < 5 + d →
        ∃ p, sampleInFlight.previousPower t sampleBand = some p ∧ 1 ≤ p :=
  C18_energy_stays_above_threshold_for_duration sampleInFlight 5 1 sampleBand
    sampleInFlightTimeline (by decide) (by decide)

theorem energyScan_first_below (energyW : ℚ) :
    ∀ (pre : NiChanges) (k : Time × NiChange) (suf : NiChanges) (e0 : Time),
      (∀ r ∈ pre, energyW ≤ r.2.m_power) → k.2.m_power < energyW →
      energyScan energyW (pre ++ k :: suf) e0 = k.1 := by
  intro pre
  induction pre with
  | nil =>
    intro k suf e0 _ hk
    simp [energyScan, NiChange.GetPower, hk]
  | cons r pre ih =>
    intro k suf e0 hpre hk
    have hr : ¬ r.2.m_power < energyW := not_lt.mpr (hpre r (List.mem_cons_self _ _))
    simp only [List.cons_append, energyScan, NiChange.GetPower, hr, if_false]
    exact ih k suf r.1 (fun x hx => hpre x (List.mem_cons_of_mem _ hx)) hk

theorem timelinePower_last_of_stamp (X : NiChanges) (k : Time × NiChange) (suf : NiChanges)
    (hX : ∀ a ∈ X, a.1 ≤ k.1) (hsuf : ∀ x ∈ suf, k.1 < x.1) :
    timelinePower (X ++ k :: suf) k.1 = some k.2.m_power := by
  have hub : upper_bound (k :: suf) k.1 = 1 := by
    cases suf with
    | nil => simp [upper_bound]
    | cons x rest =>
      have := hsuf x (List.mem_cons_self _ _)
      simp [upper_bound, this]
  rw [timelinePower_append X (k :: suf) k.1 hX (by omega)]
  unfold timelinePower
  simp [hub, NiChange.GetPower]

/-- On a registered band with a timeline ordered by timestamp, `GetEnergyDuration` is 0
when the power read at now is below the threshold. Otherwise, when some record after the
one read at now has power below the threshold, now + result is the timestamp of the first
such record, which is later than now, and the power read there is the power of that record
when no later record carries the same timestamp. In every case now + result is not later
than any time t >= now at which the power read is below the threshold. -/
theorem GetEnergyDuration_first_below (h : InterferenceHelper)
    (now : Time) (energyW : ℚ) (band : WifiSpectrumBand) (ni : NiChanges)
    (hreg : mapFind h.m_niChangesPerBand band = some ni)
    (hsorted : ni.Pairwise (fun a b => a.1 ≤ b.1))
    (hn : 1 ≤ upper_bound ni now) :
    ∃ d p, h.GetEnergyDuration now energyW band = some d ∧
      h.previousPower now band = some p ∧
      (p < energyW → d = 0) ∧
      (energyW ≤ p → ∀ pre k suf, ni.drop (upper_bound ni now) = pre ++ k :: suf →
        (∀ r ∈ pre, energyW ≤ r.2.m_power) → k.2.m_power < energyW →
        now + d = k.1 ∧ now < k.1 ∧
        ((∀ x ∈ suf, k.1 < x.1) → h.previousPower (now + d) band = some k.2.m_power)) ∧
      (∀ t, now ≤ t → (∃ q, h.previousPower t band = some q ∧ q < energyW) →
        now + d ≤ t) := by
  obtain ⟨r, hni, hr, hpow, hd⟩ := GetEnergyDuration_eq h now energyW band ni hreg hn
  obtain ⟨d, hd2, -, habove⟩ := GetEnergyDuration_above h now energyW band ni hreg hn
  refine ⟨d, r.2.m_power, hd2, ?_, ?_, ?_, ?_⟩
  · rw [previousPower_eq h now band ni hreg]
    exact hpow
  · intro hp
    rw [hd] at hd2
    simp only [Option.some.injEq] at hd2
    rw [← hd2]
    have hscan : energyScan energyW (r :: ni.drop (upper_bound ni now)) r.1 = r.1 := by
      simp [energyScan, NiChange.GetPower, hp]
    rw [hscan]
    have : ¬ r.1 > now := not_lt.mpr hr
    simp [this]
  · intro hp pre k suf hsplit hpre hk
    have hkmem : k ∈ ni.drop (upper_bound ni now) := by
      rw [hsplit]
      exact List.mem_append_right _ (List.mem_cons_self _ _)
    have hklt : now < k.1 := upper_bound_drop_gt ni now hsorted k hkmem
    have hscan : energyScan energyW (r :: ni.drop (upper_bound ni now)) r.1 = k.1 := by
      rw [hsplit]
      have := energyScan_first_below energyW (r :: pre) k suf r.1
        (by
          intro x hx
          rcases List.mem_cons.mp hx with rfl | hx
          · exact hp
          · exact hpre x hx)
        hk
      simpa using this
    rw [hd, hscan] at hd2
    simp only [Option.some.injEq] at hd2
    have hgt : k.1 > now := hklt
    simp only [hgt, if_true] at hd2
    have hsum : now + d = k.1 := by
      rw [← hd2]
      ring
    refine ⟨hsum, hklt, ?_⟩
    intro hsuf
    rw [hsum, previousPower_eq h k.1 band ni hreg]
    have hni2 : ni = (ni.take (upper_bound ni now - 1) ++ r :: pre) ++ k :: suf := by
      rw [List.append_assoc, List.cons_append, ← hsplit]
      exact hni
    have hbefore : ∀ a ∈ ni.take (upper_bound ni now - 1) ++ r :: pre, a.1 ≤ k.1 := by
      intro a ha
      have hpw := hsorted
      rw [hni2, List.pairwise_append] at hpw
      exact hpw.2.2 a ha k (List.mem_cons_self _ _)
    rw [hni2]
    exact timelinePower_last_of_stamp _ k suf hbefore hsuf
  · intro t hnow hq
    obtain ⟨q, hq1, hq2⟩ := hq
    by_contra hlt
    obtain ⟨p2, hp2, hp3⟩ := habove t hnow (not_le.mp hlt)
    rw [hq1] at hp2
    simp only [Option.some.injEq] at hp2
    subst hp2
    exact absurd hq2 (not_lt.mpr hp3)

theorem foldl_mul_eq_prod {α : Type} (f : α → ℚ) (l : List α) (psr : ℚ) :
    l.foldl (fun acc ch => acc * f ch) psr = psr * (l.map f).prod := by
  induction l generalizing psr with
  | nil => simp
  | cons a rest ih =>
    simp only [List.foldl_cons, List.map_cons, List.prod_cons]
    rw [ih]
    ring

theorem phyHeaderPerLoop_eq_walk (h : InterferenceHelper) (c : Collaborators)
    (txVector : WifiTxVector) (channelWidth : Nat) (powerW : ℚ)
    (chunks : Time → Time → Option (List (Time × WifiMode))) :
    ∀ (rest : NiChanges) (previous : Time) (noise psr : ℚ),
      h.phyHeaderPerLoop c txVector channelWidth powerW chunks rest previous noise psr =
        (h.phyHeaderWalk channelWidth powerW chunks rest previous noise).map
          (fun w => psr * (w.map (fun q =>
            h.CalculateChunkSuccessRate c q.1 q.2.1 q.2.2 txVector)).prod) := by
  intro rest
  induction rest with
  | nil =>
    intro previous noise psr
    simp [phyHeaderPerLoop, phyHeaderWalk]
  | cons j rest ih =>
    intro previous noise psr
    unfold phyHeaderPerLoop phyHeaderWalk
    by_cases hlt : j.1 < previous
    · simp [hlt]
    · simp only [hlt, if_false]
      cases hch : chunks previous j.1 with
      | none => simp
      | some l =>
        simp only []
        rw [ih]
        cases hw : h.phyHeaderWalk channelWidth powerW chunks rest j.1
            (j.2.GetPower - powerW) with
        | none => simp
        | some w =>
          simp only [Option.map_some', Option.some.injEq, List.map_append, List.prod_append,
            List.map_map]
          rw [foldl_mul_eq_prod]
          simp only [Function.comp_def]
          ring

theorem payloadPerLoop_eq_walk (h : InterferenceHelper) (c : Collaborators)
    (txVector : WifiTxVector) (staId : Nat) (channelWidth : Nat)
    (windowStart windowEnd : Time) (powerW : ℚ) :
    ∀ (rest : NiChanges) (previous : Time) (noise psr : ℚ),
      h.payloadPerLoop c txVector staId channelWidth windowStart windowEnd powerW rest
          previous noise psr =
        (h.payloadPerWalk channelWidth windowStart windowEnd powerW rest previous noise).map
          (fun w => psr * (w.map (fun q =>
            h.CalculatePayloadChunkSuccessRate c q.1 q.2 txVector staId)).prod) := by
  intro rest
  induction rest with
  | nil =>
    intro previous noise psr
    simp [payloadPerLoop, payloadPerWalk]
  | cons j rest ih =>
    intro previous noise psr
    unfold payloadPerLoop payloadPerWalk
    by_cases hlt : j.1 < previous
    · simp [hlt]
    · simp only [hlt, if_false]
      by_cases hend : j.1 > windowEnd
      · simp only [hend, if_true, Option.map_some', Option.some.injEq]
        by_cases h1 : previous ≥ windowStart
        · simp [h1]
        · by_cases h2 : j.1 ≥ windowStart
          · simp [h1, h2]
          · simp [h1, h2]
      · simp only [hend, if_false]
        rw [ih]
        cases hw : h.payloadPerWalk channelWidth windowStart windowEnd powerW rest j.1
            (j.2.GetPower - powerW) with
        | none => simp
        | some w =>
          simp only [Option.map_some', Option.some.injEq, List.map_append, List.prod_append]
          by_cases h1 : previous ≥ windowStart
          · simp [h1]
            ring
          · by_cases h2 : j.1 ≥ windowStart
            · simp [h1, h2]
              ring
            · simp [h1, h2]

theorem CalculatePayloadPer_eq_queries (h : InterferenceHelper) (c : Collaborators)
    (event : Event) (nis : NiChangesPerBand) (band : WifiSpectrumBand) (staId : Nat)
    (window : Time × Time) :
    h.CalculatePayloadPer c event nis band staId window =
      (h.payloadPerQueries c event nis band window).map (fun w => 1 - (w.map (fun q =>
        h.CalculatePayloadChunkSuccessRate c q.1 q.2 event.GetTxVector staId)).prod) := by
  unfold CalculatePayloadPer payloadPerQueries
  cases hn : mapFind nis band with
  | none => simp
  | some ni =>
    cases ni with
    | nil => simp
    | cons j rest =>
      cases hf : mapFind h.m_firstPowerPerBand band with
      | none => simp
      | some f =>
        cases hp : event.GetRxPowerW band with
        | none => simp
        | some powerW =>
          simp only [payloadPerLoop_eq_walk]
          cases hw : h.payloadPerWalk (c.GetChannelWidth event.GetTxVector)
            (j.1 + c.GetPlcpPreambleDuration event.GetTxVector
              + c.GetPlcpHeaderDuration event.GetTxVector
              + c.GetPlcpHtSigHeaderDuration (c.GetPreambleType event.GetTxVector)
              + c.GetPlcpSigA1Duration (c.GetPreambleType event.GetTxVector)
              + c.GetPlcpSigA2Duration (c.GetPreambleType event.GetTxVector)
              + c.GetPlcpTrainingSymbolDuration event.GetTxVector
              + c.GetPlcpSigBDuration event.GetTxVector + window.1)
            (j.1 + c.GetPlcpPreambleDuration event.GetTxVector
              + c.GetPlcpHeaderDuration event.GetTxVector
              + c.GetPlcpHtSigHeaderDuration (c.GetPreambleType event.GetTxVector)
              + c.GetPlcpSigA1Duration (c.GetPreambleType event.GetTxVector)
              + c.GetPlcpSigA2Duration (c.GetPreambleType event.GetTxVector)
              + c.GetPlcpTrainingSymbolDuration event.GetTxVector
              + c.GetPlcpSigBDuration event.GetTxVector + window.2)
            powerW rest j.1 f with
          | none => simp [hw]
          | some w => simp [hw]

theorem CalculateLegacyPhyHeaderPer_eq_queries (h : InterferenceHelper) (c : Collaborators)
    (m : PhyHeaderModes) (event : Event) (nis : NiChangesPerBand) (band : WifiSpectrumBand) :
    h.CalculateLegacyPhyHeaderPer c m event nis band =
      (h.legacyHeaderQueries c m event nis band).map (fun w => 1 - (w.map (fun q =>
        h.CalculateChunkSuccessRate c q.1 q.2.1 q.2.2 event.GetTxVector)).prod) := by
  unfold CalculateLegacyPhyHeaderPer legacyHeaderQueries
  cases hn : mapFind nis band with
  | none => simp
  | some ni =>
    cases ni with
    | nil => simp
    | cons j rest =>
      cases hf : mapFind h.m_firstPowerPerBand band with
      | none => simp
      | some f =>
        cases hp : event.GetRxPowerW band with
        | none => simp
        | some powerW =>
          simp only [phyHeaderPerLoop_eq_walk]
          generalize h.phyHeaderWalk _ powerW _ rest j.1 f = ow
          cases ow with
          | none => simp
          | some w => simp

theorem CalculateNonLegacyPhyHeaderPer_eq_queries (h : InterferenceHelper)
    (c : Collaborators) (m : PhyHeaderModes) (event : Event) (nis : NiChangesPerBand)
    (band : WifiSpectrumBand) :
    h.CalculateNonLegacyPhyHeaderPer c m event nis band =
      (h.nonLegacyHeaderQueries c m event nis band).map (fun w => 1 - (w.map (fun q =>
        h.CalculateChunkSuccessRate c q.1 q.2.1 q.2.2 event.GetTxVector)).prod) := by
  unfold CalculateNonLegacyPhyHeaderPer nonLegacyHeaderQueries
  cases hn : mapFind nis band with
  | none => simp
  | some ni =>
    cases ni with
    | nil => simp
    | cons j rest =>
      cases hf : mapFind h.m_firstPowerPerBand band with
      | none => simp
      | some f =>
        cases hp : event.GetRxPowerW band with
        | none => simp
        | some powerW =>
          simp only [phyHeaderPerLoop_eq_walk]
          generalize h.phyHeaderWalk _ powerW _ rest j.1 f = ow
          cases ow with
          | none => simp
          | some w => simp

theorem prod_mem_unit_interval (l : List ℚ) (hl : ∀ x ∈ l, 0 ≤ x ∧ x ≤ 1) :
    0 ≤ l.prod ∧ l.prod ≤ 1 := by
  induction l with
  | nil => simp
  | cons a rest ih =>
    obtain ⟨ha0, ha1⟩ := hl a (List.mem_cons_self _ _)
    obtain ⟨hr0, hr1⟩ := ih (fun x hx => hl x (List.mem_cons_of_mem _ hx))
    rw [List.prod_cons]
    exact ⟨mul_nonneg ha0 hr0, mul_le_one₀ ha1 hr0 hr1⟩

theorem CalculateChunkSuccessRate_unit (h : InterferenceHelper) (c : Collaborators)
    (hmodel : ∀ mode txVector snir nbits, 0 ≤ c.GetChunkSuccessRate mode txVector snir nbits
      ∧ c.GetChunkSuccessRate mode txVector snir nbits ≤ 1)
    (snir : ℚ) (duration : Time) (mode : WifiMode) (txVector : WifiTxVector) :
    0 ≤ h.CalculateChunkSuccessRate c snir duration mode txVector ∧
      h.CalculateChunkSuccessRate c snir duration mode txVector ≤ 1 := by
  unfold CalculateChunkSuccessRate
  split
  · exact ⟨zero_le_one, le_refl _⟩
  · exact hmodel _ _ _ _

theorem CalculatePayloadChunkSuccessRate_unit (h : InterferenceHelper) (c : Collaborators)
    (hmodel : ∀ mode txVector snir nbits, 0 ≤ c.GetChunkSuccessRate mode txVector snir nbits
      ∧ c.GetChunkSuccessRate mode txVector snir nbits ≤ 1)
    (snir : ℚ) (duration : Time) (txVector : WifiTxVector) (staId : Nat) :
    0 ≤ h.CalculatePayloadChunkSuccessRate c snir duration txVector staId ∧
      h.CalculatePayloadChunkSuccessRate c snir duration txVector staId ≤ 1 := by
  unfold CalculatePayloadChunkSuccessRate
  split
  · exact ⟨zero_le_one, le_refl _⟩
  · simp only []
    split
    · exact hmodel _ _ _ _
    · exact hmodel _ _ _ _

theorem one_sub_prod_unit {α : Type} (f : α → ℚ) (w : List α)
    (hf : ∀ q, 0 ≤ f q ∧ f q ≤ 1) :
    0 ≤ 1 - (w.map f).prod ∧ 1 - (w.map f).prod ≤ 1 := by
  have := prod_mem_unit_interval (w.map f) (by
    intro x hx
    obtain ⟨q, -, rfl⟩ := List.mem_map.mp hx
    exact hf q)
  constructor <;> linarith [this.1, this.2]

theorem isLongOrShort_ne_gf (preamble : WifiPreamble) (hp : isLongOrShort preamble = true) :
    preamble ≠ WifiPreamble.WIFI_PREAMBLE_HT_GF := by
  intro hgf
  subst hgf
  simp [isLongOrShort] at hp

/-- For a LONG or SHORT preamble without HT-SIG, SIG-A, training and SIG-B (the three
later phase starts coincide) no interval of the non-legacy walk is charged. -/
theorem nonLegacyHeaderChunks_legacy (m : PhyHeaderModes) (preamble : WifiPreamble)
    (mcsHeaderMode headerMode : WifiMode) (H S : Time)
    (hp : isLongOrShort preamble = true) (previous current : Time) :
    nonLegacyHeaderChunks m preamble mcsHeaderMode headerMode H S S S previous current =
      some [] := by
  have hgf := isLongOrShort_ne_gf preamble hp
  unfold nonLegacyHeaderChunks
  simp only [hp, hgf, if_true, if_false]
  split_ifs <;> rfl

/-- For an HT greenfield preamble without L-SIG (its start and its end coincide) every
chunk charged by the legacy walk has duration zero. -/
theorem legacyHeaderChunks_greenfield (headerMode : WifiMode) (H T P : Time)
    (previous current : Time) :
    ∃ l, legacyHeaderChunks WifiPreamble.WIFI_PREAMBLE_HT_GF headerMode H H T P
        previous current = some l ∧ ∀ ch ∈ l, ch.1 = 0 := by
  unfold legacyHeaderChunks
  have hls : isLongOrShort WifiPreamble.WIFI_PREAMBLE_HT_GF = false := by decide
  simp only [hls, if_true, if_false, Bool.false_eq_true]
  split_ifs <;> first
    | exact ⟨[], rfl, by simp⟩
    | exact ⟨_, rfl, by simp⟩

/-- For a LONG or SHORT preamble without HT-SIG, SIG-A, training and SIG-B every chunk
charged by the legacy walk is at the header mode. -/
theorem legacyHeaderChunks_legacy (preamble : WifiPreamble) (headerMode : WifiMode)
    (H S : Time) (hp : isLongOrShort preamble = true) (previous current : Time) :
    ∃ l, legacyHeaderChunks preamble headerMode H S S S previous current = some l ∧
      ∀ ch ∈ l, ch.2 = headerMode := by
  have hgf := isLongOrShort_ne_gf preamble hp
  unfold legacyHeaderChunks
  simp only [hp, hgf, if_true, if_false]
  split_ifs <;> first
    | exact ⟨[], rfl, by simp⟩
    | exact ⟨_, rfl, by simp⟩

/-- A header walk over a timeline ordered by timestamp does not abort when the body of
the loop never does, and every query it evaluates comes from a chunk of the body. -/
theorem phyHeaderWalk_total (h : InterferenceHelper) (channelWidth : Nat) (powerW : ℚ)
    (chunks : Time → Time → Option (List (Time × WifiMode)))
    (Q : Time × WifiMode → Prop)
    (hstep : ∀ previous current, ∃ l, chunks previous current = some l ∧ ∀ ch ∈ l, Q ch) :
    ∀ (rest : NiChanges) (previous : Time) (noise : ℚ),
      (∀ r ∈ rest, previous ≤ r.1) → rest.Pairwise (fun a b => a.1 ≤ b.1) →
      ∃ w, h.phyHeaderWalk channelWidth powerW chunks rest previous noise = some w ∧
        ∀ q ∈ w, Q (q.2.1, q.2.2) := by
  intro rest
  induction rest with
  | nil =>
    intro previous noise _ _
    exact ⟨[], rfl, by simp⟩
  | cons j rest ih =>
    intro previous noise hprev hsorted
    rw [List.pairwise_cons] at hsorted
    have hj : ¬ j.1 < previous := not_lt.mpr (hprev j (List.mem_cons_self _ _))
    obtain ⟨l, hl, hQ⟩ := hstep previous j.1
    obtain ⟨w, hw, hwQ⟩ := ih j.1 (j.2.GetPower - powerW) hsorted.1 hsorted.2
    refine ⟨l.map (fun ch => (h.CalculateSnr powerW noise channelWidth, ch.1, ch.2)) ++ w,
      ?_, ?_⟩
    · unfold phyHeaderWalk
      simp only [hj, if_false, hl, hw]
    · intro q hq
      rw [List.mem_append] at hq
      rcases hq with hq | hq
      · obtain ⟨ch, hch, rfl⟩ := List.mem_map.mp hq
        exact hQ ch hch
      · exact hwQ q hq

theorem prod_map_eq_one {α : Type} (f : α → ℚ) (w : List α) (hw : ∀ q ∈ w, f q = 1) :
    (w.map f).prod = 1 := by
  induction w with
  | nil => simp
  | cons a rest ih =>
    rw [List.map_cons, List.prod_cons, hw a (List.mem_cons_self _ _),
      ih (fun q hq => hw q (List.mem_cons_of_mem _ hq))]
    ring

theorem per_zero_of_walk {α : Type} (f : α → ℚ) (ow : Option (List α)) (w : List α)
    (hw : ow = some w) (h1 : ∀ q ∈ w, f q = 1) :
    ow.map (fun w => 1 - (w.map f).prod) = some 0 := by
  rw [hw, Option.map_some', prod_map_eq_one f w h1]
  norm_num

theorem isLongOrShort_of_eq (preamble : WifiPreamble)
    (hp : preamble = WifiPreamble.WIFI_PREAMBLE_LONG
      ∨ preamble = WifiPreamble.WIFI_PREAMBLE_SHORT) : isLongOrShort preamble = true := by
  simp [isLongOrShort, hp]

/-- C15: for a LONG or SHORT preamble, whose HT-SIG, SIG-A, training and SIG-B durations
are all zero, CalculateNonLegacyPhyHeaderPer returns exactly 0 on every local timeline
ordered by timestamp, whatever the error rate model. -/
theorem C15_non_legacy_header_per_is_zero_for_legacy_preamble (h : InterferenceHelper)
    (c : Collaborators) (m : PhyHeaderModes) (event : Event) (nis : NiChangesPerBand)
    (band : WifiSpectrumBand) (j : Time × NiChange) (rest : NiChanges) (f powerW : ℚ)
    (hp : c.GetPreambleType event.GetTxVector = WifiPreamble.WIFI_PREAMBLE_LONG
      ∨ c.GetPreambleType event.GetTxVector = WifiPreamble.WIFI_PREAMBLE_SHORT)
    (hHtSig : c.GetPlcpHtSigHeaderDuration (c.GetPreambleType event.GetTxVector) = 0)
    (hSigA1 : c.GetPlcpSigA1Duration (c.GetPreambleType event.GetTxVector) = 0)
    (hSigA2 : c.GetPlcpSigA2Duration (c.GetPreambleType event.GetTxVector) = 0)
    (hTraining : c.GetPlcpTrainingSymbolDuration event.GetTxVector = 0)
    (hSigB : c.GetPlcpSigBDuration event.GetTxVector = 0)
    (hnis : mapFind nis band = some (j :: rest))
    (hsorted : (j :: rest).Pairwise (fun a b => a.1 ≤ b.1))
    (hfp : mapFind h.m_firstPowerPerBand band = some f)
    (hpow : event.GetRxPowerW band = some powerW) :
    h.CalculateNonLegacyPhyHeaderPer c m event nis band = some 0 := by
  rw [List.pairwise_cons] at hsorted
  rw [CalculateNonLegacyPhyHeaderPer_eq_queries]
  unfold nonLegacyHeaderQueries
  simp only [hnis, hfp, hpow, hHtSig, hSigA1, hSigA2, hTraining, hSigB, add_zero]
  obtain ⟨w, hw, hQ⟩ := phyHeaderWalk_total h
    (if c.GetChannelWidth event.GetTxVector ≥ 40 then 20
      else c.GetChannelWidth event.GetTxVector) powerW
    (nonLegacyHeaderChunks m (c.GetPreambleType event.GetTxVector)
      (selectMcsHeaderMode m (c.GetPreambleType event.GetTxVector))
      (m.GetPlcpHeaderMode event.GetTxVector)
      (j.1 + c.GetPlcpPreambleDuration event.GetTxVector)
      (j.1 + c.GetPlcpPreambleDuration event.GetTxVector
        + c.GetPlcpHeaderDuration event.GetTxVector)
      (j.1 + c.GetPlcpPreambleDuration event.GetTxVector
        + c.GetPlcpHeaderDuration event.GetTxVector)
      (j.1 + c.GetPlcpPreambleDuration event.GetTxVector
        + c.GetPlcpHeaderDuration event.GetTxVector))
    (fun ch => ∀ snir, h.CalculateChunkSuccessRate c snir ch.1 ch.2 event.GetTxVector = 1)
    (fun previous current => ⟨[], nonLegacyHeaderChunks_legacy m _ _ _ _ _
      (isLongOrShort_of_eq _ hp) previous current, by simp⟩)
    rest j.1 f hsorted.1 hsorted.2
  exact per_zero_of_walk _ _ w hw (fun q hq => hQ q hq q.1)

/-- C16: for an HT greenfield preamble, whose L-SIG duration is zero,
CalculateLegacyPhyHeaderPer returns exactly 0 on every local timeline ordered by
timestamp, whatever the error rate model: every chunk it charges has duration zero. -/
theorem C16_legacy_header_per_is_zero_for_greenfield (h : InterferenceHelper)
    (c : Collaborators) (m : PhyHeaderModes) (event : Event) (nis : NiChangesPerBand)
    (band : WifiSpectrumBand) (j : Time × NiChange) (rest : NiChanges) (f powerW : ℚ)
    (hp : c.GetPreambleType event.GetTxVector = WifiPreamble.WIFI_PREAMBLE_HT_GF)
    (hLSig : c.GetPlcpHeaderDuration event.GetTxVector = 0)
    (hnis : mapFind nis band = some (j :: rest))
    (hsorted : (j :: rest).Pairwise (fun a b => a.1 ≤ b.1))
    (hfp : mapFind h.m_firstPowerPerBand band = some f)
    (hpow : event.GetRxPowerW band = some powerW) :
    h.CalculateLegacyPhyHeaderPer c m event nis band = some 0 := by
  rw [List.pairwise_cons] at hsorted
  rw [CalculateLegacyPhyHeaderPer_eq_queries]
  unfold legacyHeaderQueries
  simp only [hnis, hfp, hpow, hp, hLSig, add_zero]
  obtain ⟨w, hw, hQ⟩ := phyHeaderWalk_total h
    (if c.GetChannelWidth event.GetTxVector ≥ 40 then 20
      else c.GetChannelWidth event.GetTxVector) powerW
    (legacyHeaderChunks WifiPreamble.WIFI_PREAMBLE_HT_GF
      (m.GetPlcpHeaderMode event.GetTxVector)
      (j.1 + c.GetPlcpPreambleDuration event.GetTxVector)
      (j.1 + c.GetPlcpPreambleDuration event.GetTxVector)
      (j.1 + c.GetPlcpPreambleDuration event.GetTxVector
        + c.GetPlcpHtSigHeaderDuration WifiPreamble.WIFI_PREAMBLE_HT_GF
        + c.GetPlcpSigA1Duration WifiPreamble.WIFI_PREAMBLE_HT_GF
        + c.GetPlcpSigA2Duration WifiPreamble.WIFI_PREAMBLE_HT_GF)
      (j.1 + c.GetPlcpPreambleDuration event.GetTxVector
        + c.GetPlcpHtSigHeaderDuration WifiPreamble.WIFI_PREAMBLE_HT_GF
        + c.GetPlcpSigA1Duration WifiPreamble.WIFI_PREAMBLE_HT_GF
        + c.GetPlcpSigA2Duration WifiPreamble.WIFI_PREAMBLE_HT_GF
        + c.GetPlcpTrainingSymbolDuration event.GetTxVector
        + c.GetPlcpSigBDuration event.GetTxVector))
    (fun ch => ch.1 = 0)
    (fun previous current => legacyHeaderChunks_greenfield _ _ _ _ previous current)
    rest j.1 f hsorted.1 hsorted.2
  refine per_zero_of_walk _ _ w hw (fun q hq => ?_)
  have hz : q.2.1 = 0 := hQ q hq
  simp [CalculateChunkSuccessRate, hz]

/-- C17: for a LONG or SHORT preamble (HT-SIG, SIG-A, training and SIG-B durations zero),
if the error rate model returns success probability 1 for the header mode,
CalculateLegacyPhyHeaderPer returns exactly 0 on every local timeline ordered by
timestamp. -/
theorem C17_legacy_header_per_is_zero_when_header_mode_succeeds (h : InterferenceHelper)
    (c : Collaborators) (m : PhyHeaderModes) (event : Event) (nis : NiChangesPerBand)
    (band : WifiSpectrumBand) (j : Time × NiChange) (rest : NiChanges) (f powerW : ℚ)
    (hp : c.GetPreambleType event.GetTxVector = WifiPreamble.WIFI_PREAMBLE_LONG
      ∨ c.GetPreambleType event.GetTxVector = WifiPreamble.WIFI_PREAMBLE_SHORT)
    (hHtSig : c.GetPlcpHtSigHeaderDuration (c.GetPreambleType event.GetTxVector) = 0)
    (hSigA1 : c.GetPlcpSigA1Duration (c.GetPreambleType event.GetTxVector) = 0)
    (hSigA2 : c.GetPlcpSigA2Duration (c.GetPreambleType event.GetTxVector) = 0)
    (hTraining : c.GetPlcpTrainingSymbolDuration event.GetTxVector = 0)
    (hSigB : c.GetPlcpSigBDuration event.GetTxVector = 0)
    (hmodel : ∀ snir nbits, c.GetChunkSuccessRate (m.GetPlcpHeaderMode event.GetTxVector)
      event.GetTxVector snir nbits = 1)
    (hnis : mapFind nis band = some (j :: rest))
    (hsorted : (j :: rest).Pairwise (fun a b => a.1 ≤ b.1))
    (hfp : mapFind h.m_firstPowerPerBand band = some f)
    (hpow : event.GetRxPowerW band = some powerW) :
    h.CalculateLegacyPhyHeaderPer c m event nis band = some 0 := by
  rw [List.pairwise_cons] at hsorted
  rw [CalculateLegacyPhyHeaderPer_eq_queries]
  unfold legacyHeaderQueries
  simp only [hnis, hfp, hpow, hHtSig, hSigA1, hSigA2, hTraining, hSigB, add_zero]
  obtain ⟨w, hw, hQ⟩ := phyHeaderWalk_total h
    (if c.GetChannelWidth event.GetTxVector ≥ 40 then 20
      else c.GetChannelWidth event.GetTxVector) powerW
    (legacyHeaderChunks (c.GetPreambleType event.GetTxVector)
      (m.GetPlcpHeaderMode event.GetTxVector)
      (j.1 + c.GetPlcpPreambleDuration event.GetTxVector)
      (j.1 + c.GetPlcpPreambleDuration event.GetTxVector
        + c.GetPlcpHeaderDuration event.GetTxVector)
      (j.1 + c.GetPlcpPreambleDuration event.GetTxVector
        + c.GetPlcpHeaderDuration event.GetTxVector)
      (j.1 + c.GetPlcpPreambleDuration event.GetTxVector
        + c.GetPlcpHeaderDuration event.GetTxVector))
    (fun ch => ch.2 = m.GetPlcpHeaderMode event.GetTxVector)
    (fun previous current => legacyHeaderChunks_legacy _ _ _ _
      (isLongOrShort_of_eq _ hp) previous current)
    rest j.1 f hsorted.1 hsorted.2
  refine per_zero_of_walk _ _ w hw (fun q hq => ?_)
  have hmode : q.2.2 = m.GetPlcpHeaderMode event.GetTxVector := hQ q hq
  unfold CalculateChunkSuccessRate
  split
  · rfl
  · simp only [hmode, hmodel]

/-- Witness of C15: the sample PPDU (LONG preamble) alone on its band. -/
theorem C15_non_legacy_header_per_is_zero_for_legacy_preamble_witness :
    sampleFresh.CalculateNonLegacyPhyHeaderPer sampleCollaborators sampleModes samplePpdu
      sampleLocal sampleBand = some 0 :=
  C15_non_legacy_header_per_is_zero_for_legacy_preamble sampleFresh sampleCollaborators
    sampleModes samplePpdu sampleLocal sampleBand
    (0, { m_power := 0, m_event := some samplePpdu })
    [(100, { m_power := 0, m_event := some samplePpdu })] 0 3
    (by decide) (by decide) (by decide) (by decide) (by decide) (by decide) (by decide)
    (by decide) (by decide) (by decide)

/-- Witness of C16: the sample PPDU sent with an HT greenfield preamble. -/
theorem C16_legacy_header_per_is_zero_for_greenfield_witness :
    sampleFresh.CalculateLegacyPhyHeaderPer sampleGreenfieldCollaborators sampleModes
      samplePpdu sampleLocal sampleBand = some 0 :=
  C16_legacy_header_per_is_zero_for_greenfield sampleFresh sampleGreenfieldCollaborators
    sampleModes samplePpdu sampleLocal sampleBand
    (0, { m_power := 0, m_event := some samplePpdu })
    [(100, { m_power := 0, m_event := some samplePpdu })] 0 3
    (by decide) (by decide) (by decide) (by decide) (by decide) (by decide)

/-- Witness of C17: the sample PPDU with an error rate model that returns 1 for the
header mode. -/
theorem C17_legacy_header_per_is_zero_when_header_mode_succeeds_witness :
    sampleFresh.CalculateLegacyPhyHeaderPer sampleCleanCollaborators sampleModes samplePpdu
      sampleLocal sampleBand = some 0 :=
  C17_legacy_header_per_is_zero_when_header_mode_succeeds sampleFresh
    sampleCleanCollaborators sampleModes samplePpdu sampleLocal sampleBand
    (0, { m_power := 0, m_event := some samplePpdu })
    [(100, { m_power := 0, m_event := some samplePpdu })] 0 3
    (by decide) (by decide) (by decide) (by decide) (by decide) (by decide)
    (by intro snir nbits; rfl)
    (by decide) (by decide) (by decide) (by decide)

theorem chunks_shape_both (d1 d2 e1 e2 : Time) (mcs hdr : WifiMode) (h1 : e1 = d1)
    (h2 : e2 = d2) :
    [(d1, mcs), (d2, hdr)].filter nonZeroChunk = [(e1, mcs), (e2, hdr)].filter nonZeroChunk := by
  rw [h1, h2]

theorem chunks_shape_mcs (d1 e1 e2 : Time) (mcs hdr : WifiMode) (h1 : e1 = d1)
    (h2 : e2 = 0) :
    [(d1, mcs)].filter nonZeroChunk = [(e1, mcs), (e2, hdr)].filter nonZeroChunk := by
  rw [h1, h2]
  simp [List.filter, nonZeroChunk]

theorem chunks_shape_hdr (d2 e1 e2 : Time) (mcs hdr : WifiMode) (h1 : e1 = 0)
    (h2 : e2 = d2) :
    [(d2, hdr)].filter nonZeroChunk = [(e1, mcs), (e2, hdr)].filter nonZeroChunk := by
  rw [h1, h2]
  simp [List.filter, nonZeroChunk]

theorem chunks_shape_none (e1 e2 : Time) (mcs hdr : WifiMode) (h1 : e1 = 0) (h2 : e2 = 0) :
    ([] : List (Time × WifiMode)).filter nonZeroChunk =
      [(e1, mcs), (e2, hdr)].filter nonZeroChunk := by
  rw [h1, h2]
  simp [List.filter, nonZeroChunk]

set_option maxHeartbeats 4000000 in
/-- For a VHT or HE preamble the interval [previous, current) is charged one chunk at the
MCS header mode for its overlap with [training start, payload start) and one chunk at the
legacy header mode for its overlap with [SIG-A start, training start). -/
theorem nonLegacyHeaderChunks_vht_he (m : PhyHeaderModes) (preamble : WifiPreamble)
    (mcs hdr : WifiMode) (H S T P previous current : Time)
    (hv : (m.IsVht preamble || m.IsHe preamble) = true)
    (hnl : isLongOrShort preamble = false)
    (hgf : preamble = WifiPreamble.WIFI_PREAMBLE_HT_GF → H = S)
    (hHS : H ≤ S) (hST : S ≤ T) (hTP : T ≤ P) (hpc : previous ≤ current) :
    ∃ l, nonLegacyHeaderChunks m preamble mcs hdr H S T P previous current = some l ∧
      l.filter nonZeroChunk =
        [(overlap previous current T P, mcs), (overlap previous current S T, hdr)].filter
          nonZeroChunk := by
  unfold nonLegacyHeaderChunks
  simp only [hv, hnl, if_true, if_false, Bool.false_eq_true]
  split_ifs <;> first
    | (exfalso; have := hgf (by assumption); linarith)
    | exact ⟨_, rfl, chunks_shape_both _ _ _ _ _ _
        (by unfold overlap; simp only [max_def, min_def]; split_ifs <;> linarith)
        (by unfold overlap; simp only [max_def, min_def]; split_ifs <;> linarith)⟩
    | exact ⟨_, rfl, chunks_shape_mcs _ _ _ _ _
        (by unfold overlap; simp only [max_def, min_def]; split_ifs <;> linarith)
        (by unfold overlap; simp only [max_def, min_def]; split_ifs <;> linarith)⟩
    | exact ⟨_, rfl, chunks_shape_hdr _ _ _ _ _
        (by unfold overlap; simp only [max_def, min_def]; split_ifs <;> linarith)
        (by unfold overlap; simp only [max_def, min_def]; split_ifs <;> linarith)⟩
    | exact ⟨_, rfl, chunks_shape_none _ _ _ _
        (by unfold overlap; simp only [max_def, min_def]; split_ifs <;> linarith)
        (by unfold overlap; simp only [max_def, min_def]; split_ifs <;> linarith)⟩

theorem ht_shape_none (e : Time) (mcs : WifiMode) (h : e = 0) :
    (∀ ch ∈ ([] : List (Time × WifiMode)), ch.2 = mcs ∧ 0 ≤ ch.1) ∧
      (([] : List (Time × WifiMode)).map Prod.fst).sum = e := by
  rw [h]
  simp

theorem ht_shape_one (d e : Time) (mcs : WifiMode) (h0 : 0 ≤ d) (h : e = d) :
    (∀ ch ∈ [(d, mcs)], ch.2 = mcs ∧ 0 ≤ ch.1) ∧ ([(d, mcs)].map Prod.fst).sum = e := by
  rw [h]
  simp [h0]

theorem ht_shape_two (d1 d2 e : Time) (mcs : WifiMode) (h1 : 0 ≤ d1) (h2 : 0 ≤ d2)
    (h : e = d1 + d2) :
    (∀ ch ∈ [(d1, mcs), (d2, mcs)], ch.2 = mcs ∧ 0 ≤ ch.1) ∧
      ([(d1, mcs), (d2, mcs)].map Prod.fst).sum = e := by
  rw [h]
  simp [h1, h2]

set_option maxHeartbeats 4000000 in
/-- For a preamble that is neither VHT nor HE (nor LONG or SHORT) every chunk of the interval
[previous, current) is charged at the MCS header mode and the durations total the overlap of
the interval with [SIG start, payload start). -/
theorem nonLegacyHeaderChunks_ht (m : PhyHeaderModes) (preamble : WifiPreamble)
    (mcs hdr : WifiMode) (H S T P previous current : Time)
    (hv : (m.IsVht preamble || m.IsHe preamble) = false)
    (hnl : isLongOrShort preamble = false)
    (hgf : preamble = WifiPreamble.WIFI_PREAMBLE_HT_GF → H = S)
    (hHS : H ≤ S) (hST : S ≤ T) (hTP : T ≤ P) (hpc : previous ≤ current) :
    ∃ l, nonLegacyHeaderChunks m preamble mcs hdr H S T P previous current = some l ∧
      (∀ ch ∈ l, ch.2 = mcs ∧ 0 ≤ ch.1) ∧
      (l.map Prod.fst).sum = overlap previous current S P := by
  unfold nonLegacyHeaderChunks
  simp only [hv, hnl, if_false, Bool.false_eq_true]
  split_ifs <;> first
    | (exfalso; have := hgf (by assumption); linarith)
    | exact ⟨_, rfl, ht_shape_none _ _
        (by unfold overlap; simp only [max_def, min_def]; split_ifs <;> linarith)⟩
    | exact ⟨_, rfl, ht_shape_one _ _ _ (by linarith)
        (by unfold overlap; simp only [max_def, min_def]; split_ifs <;> linarith)⟩
    | exact ⟨_, rfl, ht_shape_two _ _ _ _ (by linarith) (by linarith)
        (by unfold overlap; simp only [max_def, min_def]; split_ifs <;> linarith)⟩

theorem overlap_nonneg (a b lo hi : Time) : 0 ≤ overlap a b lo hi := by
  unfold overlap
  exact le_max_left _ _

theorem overlap_add (a b c lo hi : Time) (hab : a ≤ b) (hbc : b ≤ c) (hlh : lo ≤ hi) :
    overlap a b lo hi + overlap b c lo hi = overlap a c lo hi := by
  unfold overlap
  simp only [max_def, min_def]
  split_ifs <;> linarith

theorem overlap_self (a lo hi : Time) : overlap a a lo hi = 0 := by
  unfold overlap
  simp only [max_def, min_def]
  split_ifs <;> linarith

theorem overlap_cover (a b lo hi : Time) (hlh : lo ≤ hi) (ha : a ≤ lo) (hb : hi ≤ b) :
    overlap a b lo hi = hi - lo := by
  unfold overlap
  simp only [max_def, min_def]
  split_ifs <;> linarith

/-- A header walk over a timeline ordered by timestamp visits the intervals of
`walkIntervals`; when the body of the loop never aborts on an interval with
previous ≤ current, the walk does not abort and its queries are, interval by interval, the
chunks of the body at the SNR of the interval. -/
theorem phyHeaderWalk_groups (h : InterferenceHelper) (channelWidth : Nat) (powerW : ℚ)
    (chunks : Time → Time → Option (List (Time × WifiMode)))
    (R : Time → Time → List (Time × WifiMode) → Prop)
    (hstep : ∀ previous current, previous ≤ current →
      ∃ l, chunks previous current = some l ∧ R previous current l) :
    ∀ (rest : NiChanges) (previous : Time) (noise : ℚ),
      (∀ r ∈ rest, previous ≤ r.1) → rest.Pairwise (fun a b => a.1 ≤ b.1) →
      ∃ gs : List ((Time × Time × ℚ) × List (Time × WifiMode)),
        gs.map Prod.fst = h.walkIntervals channelWidth powerW rest previous noise ∧
        h.phyHeaderWalk channelWidth powerW chunks rest previous noise =
          some (gs.flatMap groupQueries) ∧
        ∀ g ∈ gs, R g.1.1 g.1.2.1 g.2 := by
  intro rest
  induction rest with
  | nil =>
    intro previous noise _ _
    exact ⟨[], rfl, rfl, by simp⟩
  | cons j rest ih =>
    intro previous noise hprev hsorted
    rw [List.pairwise_cons] at hsorted
    have hpj : previous ≤ j.1 := hprev j (List.mem_cons_self _ _)
    have hj : ¬ j.1 < previous := not_lt.mpr hpj
    obtain ⟨l, hl, hR⟩ := hstep previous j.1 hpj
    obtain ⟨gs, hgi, hgw, hgR⟩ := ih j.1 (j.2.GetPower - powerW) hsorted.1 hsorted.2
    refine ⟨((previous, j.1, h.CalculateSnr powerW noise channelWidth), l) :: gs, ?_, ?_, ?_⟩
    · simp only [List.map_cons, walkIntervals, hgi]
    · unfold phyHeaderWalk
      simp only [hj, if_false, hl, hgw, List.flatMap_cons, groupQueries]
    · intro g hg
      rcases List.mem_cons.mp hg with rfl | hg
      · exact hR
      · exact hgR g hg

/-- The overlaps with a phase [lo, hi) of the consecutive intervals of a walk over a
timeline ordered by timestamp add up to the overlap of the whole span of the walk. -/
theorem walkIntervals_overlap_sum (h : InterferenceHelper) (channelWidth : Nat) (powerW : ℚ)
    (lo hi : Time) (hlh : lo ≤ hi) :
    ∀ (rest : NiChanges) (previous : Time) (noise : ℚ),
      (∀ x ∈ rest, previous ≤ x.1) → rest.Pairwise (fun a b => a.1 ≤ b.1) →
      ((h.walkIntervals channelWidth powerW rest previous noise).map
          (fun iv => overlap iv.1 iv.2.1 lo hi)).sum =
        overlap previous ((rest.getLast?.map Prod.fst).getD previous) lo hi := by
  intro rest
  induction rest with
  | nil =>
    intro previous noise _ _
    simp [walkIntervals, overlap_self]
  | cons j rest ih =>
    intro previous noise hhead htail
    rw [List.pairwise_cons] at htail
    have hpj : previous ≤ j.1 := hhead j (List.mem_cons_self _ _)
    have hlast : j.1 ≤ (rest.getLast?.map Prod.fst).getD j.1 := by
      cases hr : rest.getLast? with
      | none => simp
      | some x =>
        have hx : x ∈ rest := List.mem_of_getLast?_eq_some hr
        simpa using htail.1 x hx
    have hl2 : (((j :: rest).getLast?.map Prod.fst).getD previous) =
        ((rest.getLast?.map Prod.fst).getD j.1) := by
      cases rest with
      | nil => simp
      | cons k rest2 =>
        rw [List.getLast?_cons_cons]
        cases hr : (k :: rest2).getLast? with
        | none => simp at hr
        | some x => simp
    simp only [walkIntervals, List.map_cons, List.sum_cons]
    rw [ih j.1 (j.2.GetPower - powerW) htail.1 htail.2, hl2]
    exact overlap_add _ _ _ _ _ hpj hlast hlh

/-- Over a timeline ordered by timestamp that starts no later than a phase [lo, hi) and
ends no earlier, the overlaps of the intervals of the walk with the phase add up to the
length of the phase. -/
theorem walkIntervals_overlap_span (h : InterferenceHelper) (channelWidth : Nat) (powerW : ℚ)
    (lo hi : Time) (hlh : lo ≤ hi) (j last : Time × NiChange) (rest : NiChanges) (noise : ℚ)
    (hsorted : (j :: rest).Pairwise (fun a b => a.1 ≤ b.1))
    (hlast : (j :: rest).getLast? = some last) (hj : j.1 ≤ lo) (hl : hi ≤ last.1) :
    ((h.walkIntervals channelWidth powerW rest j.1 noise).map
        (fun iv => overlap iv.1 iv.2.1 lo hi)).sum = hi - lo := by
  rw [List.pairwise_cons] at hsorted
  rw [walkIntervals_overlap_sum h channelWidth powerW lo hi hlh rest j.1 noise hsorted.1
    hsorted.2]
  apply overlap_cover _ _ _ _ hlh hj
  cases rest with
  | nil =>
    simp only [List.getLast?_singleton, Option.some.injEq] at hlast
    subst hlast
    simpa using hl
  | cons k rest2 =>
    rw [List.getLast?_cons_cons] at hlast
    simpa [hlast] using hl

/-- C14: on a local timeline ordered by timestamp, for a preamble that is not LONG or SHORT,
CalculateNonLegacyPhyHeaderPer does not abort and evaluates, for each interval
[previous, current) of the timeline, the chunks of that interval at the SNR of that
interval. For a VHT or HE preamble the chunks of an interval are, up to chunks of duration
zero, one chunk at the MCS header mode for the overlap of the interval with
[training start, payload start) and one chunk at the legacy header mode for its overlap
with [SIG-A start, training start). Otherwise (HT) every chunk is charged at the MCS header
mode and the durations total the overlap with [HT-SIG start, payload start). When the
timeline spans the header, the overlaps of its intervals with each phase add up to the
length of the phase, so each portion is charged exactly once. The MCS header mode is the HT
header mode for an HT preamble, the VHT one for a VHT preamble that is not HT and the HE one
for an HE preamble that is neither. -/
theorem C14_non_legacy_header_charges_each_phase_at_its_mode (h : InterferenceHelper)
    (c : Collaborators) (m : PhyHeaderModes) (event : Event) (nis : NiChangesPerBand)
    (band : WifiSpectrumBand) (j : Time × NiChange) (rest : NiChanges) (f powerW : ℚ)
    (hnl : isLongOrShort (c.GetPreambleType event.GetTxVector) = false)
    (hgf : c.GetPreambleType event.GetTxVector = WifiPreamble.WIFI_PREAMBLE_HT_GF →
      c.GetPlcpHeaderDuration event.GetTxVector = 0)
    (hPre : 0 ≤ c.GetPlcpPreambleDuration event.GetTxVector)
    (hHdr : 0 ≤ c.GetPlcpHeaderDuration event.GetTxVector)
    (hSig : 0 ≤ c.GetPlcpHtSigHeaderDuration (c.GetPreambleType event.GetTxVector)
      + c.GetPlcpSigA1Duration (c.GetPreambleType event.GetTxVector)
      + c.GetPlcpSigA2Duration (c.GetPreambleType event.GetTxVector))
    (hTr : 0 ≤ c.GetPlcpTrainingSymbolDuration event.GetTxVector
      + c.GetPlcpSigBDuration event.GetTxVector)
    (hnis : mapFind nis band = some (j :: rest))
    (hsorted : (j :: rest).Pairwise (fun a b => a.1 ≤ b.1))
    (hfp : mapFind h.m_firstPowerPerBand band = some f)
    (hpow : event.GetRxPowerW band = some powerW) :
    ∃ gs : List ((Time × Time × ℚ) × List (Time × WifiMode)),
      gs.map Prod.fst = h.walkIntervals
        (if c.GetChannelWidth event.GetTxVector ≥ 40 then 20
          else c.GetChannelWidth event.GetTxVector) powerW rest j.1 f ∧
      h.nonLegacyHeaderQueries c m event nis band = some (gs.flatMap groupQueries) ∧
      h.CalculateNonLegacyPhyHeaderPer c m event nis band =
        some (1 - ((gs.flatMap groupQueries).map (fun q =>
          h.CalculateChunkSuccessRate c q.1 q.2.1 q.2.2 event.GetTxVector)).prod) ∧
      ((m.IsVht (c.GetPreambleType event.GetTxVector)
          || m.IsHe (c.GetPreambleType event.GetTxVector)) = true →
        ∀ g ∈ gs, g.2.filter nonZeroChunk =
          [(overlap g.1.1 g.1.2.1 (trainingStart c event.GetTxVector j.1)
              (payloadStart c event.GetTxVector j.1),
            selectMcsHeaderMode m (c.GetPreambleType event.GetTxVector)),
           (overlap g.1.1 g.1.2.1 (sigStart c event.GetTxVector j.1)
              (trainingStart c event.GetTxVector j.1),
            m.GetPlcpHeaderMode event.GetTxVector)].filter nonZeroChunk) ∧
      ((m.IsVht (c.GetPreambleType event.GetTxVector)
          || m.IsHe (c.GetPreambleType event.GetTxVector)) = false →
        ∀ g ∈ gs,
          (∀ ch ∈ g.2, ch.2 = selectMcsHeaderMode m (c.GetPreambleType event.GetTxVector)
            ∧ 0 ≤ ch.1) ∧
          (g.2.map Prod.fst).sum = overlap g.1.1 g.1.2.1 (sigStart c event.GetTxVector j.1)
            (payloadStart c event.GetTxVector j.1)) ∧
      (∀ last, (j :: rest).getLast? = some last →
        payloadStart c event.GetTxVector j.1 ≤ last.1 →
        ((gs.map Prod.fst).map (fun iv => overlap iv.1 iv.2.1
            (sigStart c event.GetTxVector j.1) (trainingStart c event.GetTxVector j.1))).sum
          = trainingStart c event.GetTxVector j.1 - sigStart c event.GetTxVector j.1 ∧
        ((gs.map Prod.fst).map (fun iv => overlap iv.1 iv.2.1
            (trainingStart c event.GetTxVector j.1) (payloadStart c event.GetTxVector j.1))).sum
          = payloadStart c event.GetTxVector j.1 - trainingStart c event.GetTxVector j.1) ∧
      (m.IsHt (c.GetPreambleType event.GetTxVector) = true →
        selectMcsHeaderMode m (c.GetPreambleType event.GetTxVector) = m.GetHtPlcpHeaderMode) ∧
      (m.IsHt (c.GetPreambleType event.GetTxVector) = false →
        m.IsVht (c.GetPreambleType event.GetTxVector) = true →
        selectMcsHeaderMode m (c.GetPreambleType event.GetTxVector) = m.GetVhtPlcpHeaderMode) ∧
      (m.IsHt (c.GetPreambleType event.GetTxVector) = false →
        m.IsVht (c.GetPreambleType event.GetTxVector) = false →
        m.IsHe (c.GetPreambleType event.GetTxVector) = true →
        selectMcsHeaderMode m (c.GetPreambleType event.GetTxVector) = m.GetHePlcpHeaderMode) := by
  have hHS : j.1 + c.GetPlcpPreambleDuration event.GetTxVector
      ≤ sigStart c event.GetTxVector j.1 := by
    unfold sigStart
    linarith
  have hjS : j.1 ≤ sigStart c event.GetTxVector j.1 := by
    unfold sigStart
    linarith
  have hST : sigStart c event.GetTxVector j.1 ≤ trainingStart c event.GetTxVector j.1 := by
    unfold trainingStart
    linarith
  have hTP : trainingStart c event.GetTxVector j.1 ≤ payloadStart c event.GetTxVector j.1 := by
    unfold payloadStart
    linarith
  have hgf2 : c.GetPreambleType event.GetTxVector = WifiPreamble.WIFI_PREAMBLE_HT_GF →
      j.1 + c.GetPlcpPreambleDuration event.GetTxVector = sigStart c event.GetTxVector j.1 := by
    intro hp
    unfold sigStart
    rw [hgf hp, add_zero]
  have hs := List.pairwise_cons.mp hsorted
  obtain ⟨gs, hgi, hgw, hgR⟩ := phyHeaderWalk_groups h
    (if c.GetChannelWidth event.GetTxVector ≥ 40 then 20
      else c.GetChannelWidth event.GetTxVector) powerW
    (nonLegacyHeaderChunks m (c.GetPreambleType event.GetTxVector)
      (selectMcsHeaderMode m (c.GetPreambleType event.GetTxVector))
      (m.GetPlcpHeaderMode event.GetTxVector)
      (j.1 + c.GetPlcpPreambleDuration event.GetTxVector)
      (sigStart c event.GetTxVector j.1) (trainingStart c event.GetTxVector j.1)
      (payloadStart c event.GetTxVector j.1))
    (fun previous current l =>
      ((m.IsVht (c.GetPreambleType event.GetTxVector)
          || m.IsHe (c.GetPreambleType event.GetTxVector)) = true →
        l.filter nonZeroChunk =
          [(overlap previous current (trainingStart c event.GetTxVector j.1)
              (payloadStart c event.GetTxVector j.1),
            selectMcsHeaderMode m (c.GetPreambleType event.GetTxVector)),
           (overlap previous current (sigStart c event.GetTxVector j.1)
              (trainingStart c event.GetTxVector j.1),
            m.GetPlcpHeaderMode event.GetTxVector)].filter nonZeroChunk) ∧
      ((m.IsVht (c.GetPreambleType event.GetTxVector)
          || m.IsHe (c.GetPreambleType event.GetTxVector)) = false →
        (∀ ch ∈ l, ch.2 = selectMcsHeaderMode m (c.GetPreambleType event.GetTxVector)
          ∧ 0 ≤ ch.1) ∧
        (l.map Prod.fst).sum = overlap previous current (sigStart c event.GetTxVector j.1)
          (payloadStart c event.GetTxVector j.1)))
    (by
      intro previous current hpc
      cases hv : (m.IsVht (c.GetPreambleType event.GetTxVector)
          || m.IsHe (c.GetPreambleType event.GetTxVector)) with
      | false =>
        obtain ⟨l, hl, hl2⟩ := nonLegacyHeaderChunks_ht m _
          (selectMcsHeaderMode m (c.GetPreambleType event.GetTxVector))
          (m.GetPlcpHeaderMode event.GetTxVector) _ _ _ _ previous current hv hnl hgf2 hHS hST
          hTP hpc
        exact ⟨l, hl, fun hc => by simp at hc, fun _ => hl2⟩
      | true =>
        obtain ⟨l, hl, hl2⟩ := nonLegacyHeaderChunks_vht_he m _
          (selectMcsHeaderMode m (c.GetPreambleType event.GetTxVector))
          (m.GetPlcpHeaderMode event.GetTxVector) _ _ _ _ previous current hv hnl hgf2 hHS hST
          hTP hpc
        exact ⟨l, hl, fun _ => hl2, fun hc => by simp at hc⟩)
    rest j.1 f hs.1 hs.2
  have hq : h.nonLegacyHeaderQueries c m event nis band = some (gs.flatMap groupQueries) := by
    unfold nonLegacyHeaderQueries
    simp only [hnis, hfp, hpow]
    exact hgw
  refine ⟨gs, hgi, hq, ?_, fun hv g hg => (hgR g hg).1 hv, fun hv g hg => (hgR g hg).2 hv,
    ?_, ?_, ?_, ?_⟩
  · rw [CalculateNonLegacyPhyHeaderPer_eq_queries, hq]
    rfl
  · intro last hlast hP
    rw [hgi]
    exact ⟨walkIntervals_overlap_span h _ powerW _ _ hST j last rest f hsorted hlast hjS
        (le_trans hTP hP),
      walkIntervals_overlap_span h _ powerW _ _ hTP j last rest f hsorted hlast
        (le_trans hjS hST) hP⟩
  · intro hht
    simp [selectMcsHeaderMode, hht]
  · intro hht hvht
    simp [selectMcsHeaderMode, hht, hvht]
  · intro hht hvht hhe
    simp [selectMcsHeaderMode, hht, hvht, hhe]

/-- Witness of C14: the sample PPDU sent with a VHT preamble (SIG-A on [20, 28), training
and SIG-B on [28, 40)) while the sample interferer overlaps it from 30 on. -/
theorem C14_non_legacy_header_charges_each_phase_at_its_mode_witness :
    ∃ gs : List ((Time × Time × ℚ) × List (Time × WifiMode)),
      gs.map Prod.fst = sampleFresh.walkIntervals
        (if sampleVhtCollaborators.GetChannelWidth samplePpdu.GetTxVector ≥ 40 then 20
          else sampleVhtCollaborators.GetChannelWidth samplePpdu.GetTxVector) 3
        [(30, { m_power := 5, m_event := some sampleInterferer }),
         (60, { m_power := 3, m_event := some sampleInterferer }),
         (100, { m_power := 0, m_event := some samplePpdu })]
        (0 : Time) 0 ∧
      sampleFresh.nonLegacyHeaderQueries sampleVhtCollaborators sampleModes samplePpdu
        sampleLocalSplit sampleBand = some (gs.flatMap groupQueries) ∧
      sampleFresh.CalculateNonLegacyPhyHeaderPer sampleVhtCollaborators sampleModes samplePpdu
          sampleLocalSplit sampleBand =
        some (1 - ((gs.flatMap groupQueries).map (fun q =>
          sampleFresh.CalculateChunkSuccessRate sampleVhtCollaborators q.1 q.2.1 q.2.2
            samplePpdu.GetTxVector)).prod) ∧
      ((sampleModes.IsVht (sampleVhtCollaborators.GetPreambleType samplePpdu.GetTxVector)
          || sampleModes.IsHe (sampleVhtCollaborators.GetPreambleType samplePpdu.GetTxVector))
          = true →
        ∀ g ∈ gs, g.2.filter nonZeroChunk =
          [(overlap g.1.1 g.1.2.1 (trainingStart sampleVhtCollaborators samplePpdu.GetTxVector 0)
              (payloadStart sampleVhtCollaborators samplePpdu.GetTxVector 0),
            selectMcsHeaderMode sampleModes
              (sampleVhtCollaborators.GetPreambleType samplePpdu.GetTxVector)),
           (overlap g.1.1 g.1.2.1 (sigStart sampleVhtCollaborators samplePpdu.GetTxVector 0)
              (trainingStart sampleVhtCollaborators samplePpdu.GetTxVector 0),
            sampleModes.GetPlcpHeaderMode samplePpdu.GetTxVector)].filter nonZeroChunk) ∧
      ((sampleModes.IsVht (sampleVhtCollaborators.GetPreambleType samplePpdu.GetTxVector)
          || sampleModes.IsHe (sampleVhtCollaborators.GetPreambleType samplePpdu.GetTxVector))
          = false →
        ∀ g ∈ gs,
          (∀ ch ∈ g.2, ch.2 = selectMcsHeaderMode sampleModes
              (sampleVhtCollaborators.GetPreambleType samplePpdu.GetTxVector)
            ∧ 0 ≤ ch.1) ∧
          (g.2.map Prod.fst).sum = overlap g.1.1 g.1.2.1
            (sigStart sampleVhtCollaborators samplePpdu.GetTxVector 0)
            (payloadStart sampleVhtCollaborators samplePpdu.GetTxVector 0)) ∧
      (∀ last, [((0 : Time), ({ m_power := 0, m_event := some samplePpdu } : NiChange)),
          (30, { m_power := 5, m_event := some sampleInterferer }),
          (60, { m_power := 3, m_event := some sampleInterferer }),
          (100, { m_power := 0, m_event := some samplePpdu })].getLast? = some last →
        payloadStart sampleVhtCollaborators samplePpdu.GetTxVector 0 ≤ last.1 →
        ((gs.map Prod.fst).map (fun iv => overlap iv.1 iv.2.1
            (sigStart sampleVhtCollaborators samplePpdu.GetTxVector 0)
            (trainingStart sampleVhtCollaborators samplePpdu.GetTxVector 0))).sum
          = trainingStart sampleVhtCollaborators samplePpdu.GetTxVector 0
            - sigStart sampleVhtCollaborators samplePpdu.GetTxVector 0 ∧
        ((gs.map Prod.fst).map (fun iv => overlap iv.1 iv.2.1
            (trainingStart sampleVhtCollaborators samplePpdu.GetTxVector 0)
            (payloadStart sampleVhtCollaborators samplePpdu.GetTxVector 0))).sum
          = payloadStart sampleVhtCollaborators samplePpdu.GetTxVector 0
            - trainingStart sampleVhtCollaborators samplePpdu.GetTxVector 0) ∧
      (sampleModes.IsHt (sampleVhtCollaborators.GetPreambleType samplePpdu.GetTxVector) = true →
        selectMcsHeaderMode sampleModes
          (sampleVhtCollaborators.GetPreambleType samplePpdu.GetTxVector)
          = sampleModes.GetHtPlcpHeaderMode) ∧
      (sampleModes.IsHt (sampleVhtCollaborators.GetPreambleType samplePpdu.GetTxVector) = false →
        sampleModes.IsVht (sampleVhtCollaborators.GetPreambleType samplePpdu.GetTxVector) = true →
        selectMcsHeaderMode sampleModes
          (sampleVhtCollaborators.GetPreambleType samplePpdu.GetTxVector)
          = sampleModes.GetVhtPlcpHeaderMode) ∧
      (sampleModes.IsHt (sampleVhtCollaborators.GetPreambleType samplePpdu.GetTxVector) = false →
        sampleModes.IsVht (sampleVhtCollaborators.GetPreambleType samplePpdu.GetTxVector) = false →
        sampleModes.IsHe (sampleVhtCollaborators.GetPreambleType samplePpdu.GetTxVector) = true →
        selectMcsHeaderMode sampleModes
          (sampleVhtCollaborators.GetPreambleType samplePpdu.GetTxVector)
          = sampleModes.GetHePlcpHeaderMode) :=
  C14_non_legacy_header_charges_each_phase_at_its_mode sampleFresh sampleVhtCollaborators
    sampleModes samplePpdu sampleLocalSplit sampleBand
    (0, { m_power := 0, m_event := some samplePpdu })
    [(30, { m_power := 5, m_event := some sampleInterferer }),
     (60, { m_power := 3, m_event := some sampleInterferer }),
     (100, { m_power := 0, m_event := some samplePpdu })] 0 3
    (by decide) (by decide) (by decide) (by decide) (by decide) (by decide) (by decide)
    (by decide) (by decide) (by decide)

/-- The walk of the payload loop does not abort on records ordered by timestamp. -/
theorem payloadPerWalk_total (h : InterferenceHelper) (channelWidth : Nat)
    (windowStart windowEnd : Time) (powerW : ℚ) :
    ∀ (rest : NiChanges) (previous : Time) (noise : ℚ),
      (∀ r ∈ rest, previous ≤ r.1) → rest.Pairwise (fun a b => a.1 ≤ b.1) →
      ∃ w, h.payloadPerWalk channelWidth windowStart windowEnd powerW rest previous noise
        = some w := by
  intro rest
  induction rest with
  | nil =>
    intro previous noise _ _
    exact ⟨[], rfl⟩
  | cons j rest ih =>
    intro previous noise hprev hsorted
    rw [List.pairwise_cons] at hsorted
    have hj : ¬ j.1 < previous := not_lt.mpr (hprev j (List.mem_cons_self _ _))
    obtain ⟨w, hw⟩ := ih j.1 (j.2.GetPower - powerW) hsorted.1 hsorted.2
    unfold payloadPerWalk
    simp only [hj, if_false, hw]
    split_ifs <;> exact ⟨_, rfl⟩

/-- C13: each of CalculatePayloadPer, CalculateLegacyPhyHeaderPer and
CalculateNonLegacyPhyHeaderPer returns 1 minus the product of the success rates of the
chunk queries it evaluated (and returns nothing exactly when its walk aborts); when the
error rate model returns values in [0, 1], every returned PER lies in [0, 1]. On a local
timeline ordered by timestamp CalculatePayloadPer does return, and so does each header
function as long as no assertion on the preamble fails in the body of its loop. -/
theorem C13_per_is_one_minus_product_of_chunk_rates (h : InterferenceHelper)
    (c : Collaborators) (m : PhyHeaderModes) (event : Event) (nis : NiChangesPerBand)
    (band : WifiSpectrumBand) (staId : Nat) (window : Time × Time)
    (hmodel : ∀ mode txVector snir nbits, 0 ≤ c.GetChunkSuccessRate mode txVector snir nbits
      ∧ c.GetChunkSuccessRate mode txVector snir nbits ≤ 1) :
    (h.CalculatePayloadPer c event nis band staId window =
      (h.payloadPerQueries c event nis band window).map (fun w => 1 - (w.map (fun q =>
        h.CalculatePayloadChunkSuccessRate c q.1 q.2 event.GetTxVector staId)).prod)) ∧
    (h.CalculateLegacyPhyHeaderPer c m event nis band =
      (h.legacyHeaderQueries c m event nis band).map (fun w => 1 - (w.map (fun q =>
        h.CalculateChunkSuccessRate c q.1 q.2.1 q.2.2 event.GetTxVector)).prod)) ∧
    (h.CalculateNonLegacyPhyHeaderPer c m event nis band =
      (h.nonLegacyHeaderQueries c m event nis band).map (fun w => 1 - (w.map (fun q =>
        h.CalculateChunkSuccessRate c q.1 q.2.1 q.2.2 event.GetTxVector)).prod)) ∧
    (∀ per, h.CalculatePayloadPer c event nis band staId window = some per →
      0 ≤ per ∧ per ≤ 1) ∧
    (∀ per, h.CalculateLegacyPhyHeaderPer c m event nis band = some per →
      0 ≤ per ∧ per ≤ 1) ∧
    (∀ per, h.CalculateNonLegacyPhyHeaderPer c m event nis band = some per →
      0 ≤ per ∧ per ≤ 1) ∧
    (∀ (j : Time × NiChange) (rest : NiChanges) (f powerW : ℚ),
      mapFind nis band = some (j :: rest) →
      (j :: rest).Pairwise (fun a b => a.1 ≤ b.1) →
      mapFind h.m_firstPowerPerBand band = some f →
      event.GetRxPowerW band = some powerW →
      (∃ per, h.CalculatePayloadPer c event nis band staId window = some per) ∧
      ((∀ previous current, previous ≤ current →
          ∃ l, legacyHeaderChunks (c.GetPreambleType event.GetTxVector)
            (m.GetPlcpHeaderMode event.GetTxVector)
            (j.1 + c.GetPlcpPreambleDuration event.GetTxVector)
            (sigStart c event.GetTxVector j.1) (trainingStart c event.GetTxVector j.1)
            (payloadStart c event.GetTxVector j.1) previous current = some l) →
        ∃ per, h.CalculateLegacyPhyHeaderPer c m event nis band = some per) ∧
      ((∀ previous current, previous ≤ current →
          ∃ l, nonLegacyHeaderChunks m (c.GetPreambleType event.GetTxVector)
            (selectMcsHeaderMode m (c.GetPreambleType event.GetTxVector))
            (m.GetPlcpHeaderMode event.GetTxVector)
            (j.1 + c.GetPlcpPreambleDuration event.GetTxVector)
            (sigStart c event.GetTxVector j.1) (trainingStart c event.GetTxVector j.1)
            (payloadStart c event.GetTxVector j.1) previous current = some l) →
        ∃ per, h.CalculateNonLegacyPhyHeaderPer c m event nis band = some per)) := by
  refine ⟨CalculatePayloadPer_eq_queries h c event nis band staId window,
    CalculateLegacyPhyHeaderPer_eq_queries h c m event nis band,
    CalculateNonLegacyPhyHeaderPer_eq_queries h c m event nis band, ?_, ?_, ?_, ?_⟩
  · intro per hper
    rw [CalculatePayloadPer_eq_queries] at hper
    obtain ⟨w, -, rfl⟩ := Option.map_eq_some'.mp hper
    exact one_sub_prod_unit _ w
      (fun q => CalculatePayloadChunkSuccessRate_unit h c hmodel _ _ _ _)
  · intro per hper
    rw [CalculateLegacyPhyHeaderPer_eq_queries] at hper
    obtain ⟨w, -, rfl⟩ := Option.map_eq_some'.mp hper
    exact one_sub_prod_unit _ w (fun q => CalculateChunkSuccessRate_unit h c hmodel _ _ _ _)
  · intro per hper
    rw [CalculateNonLegacyPhyHeaderPer_eq_queries] at hper
    obtain ⟨w, -, rfl⟩ := Option.map_eq_some'.mp hper
    exact one_sub_prod_unit _ w (fun q => CalculateChunkSuccessRate_unit h c hmodel _ _ _ _)
  · intro j rest f powerW hnis hsorted hfp hpow
    rw [List.pairwise_cons] at hsorted
    refine ⟨?_, ?_, ?_⟩
    · obtain ⟨w, hw⟩ := payloadPerWalk_total h (c.GetChannelWidth event.GetTxVector)
        (payloadStart c event.GetTxVector j.1 + window.1)
        (payloadStart c event.GetTxVector j.1 + window.2) powerW rest j.1 f hsorted.1
        hsorted.2
      have hq : h.payloadPerQueries c event nis band window = some w := by
        unfold payloadPerQueries
        simp only [hnis, hfp, hpow]
        exact hw
      rw [CalculatePayloadPer_eq_queries, hq]
      exact ⟨_, rfl⟩
    · intro hbody
      obtain ⟨gs, -, hgw, -⟩ := phyHeaderWalk_groups h
        (if c.GetChannelWidth event.GetTxVector ≥ 40 then 20
          else c.GetChannelWidth event.GetTxVector) powerW _ (fun _ _ _ => True)
        (fun previous current hpc => by
          obtain ⟨l, hl⟩ := hbody previous current hpc
          exact ⟨l, hl, trivial⟩)
        rest j.1 f hsorted.1 hsorted.2
      have hq : h.legacyHeaderQueries c m event nis band = some (gs.flatMap groupQueries) := by
        unfold legacyHeaderQueries
        simp only [hnis, hfp, hpow]
        exact hgw
      rw [CalculateLegacyPhyHeaderPer_eq_queries, hq]
      exact ⟨_, rfl⟩
    · intro hbody
      obtain ⟨gs, -, hgw, -⟩ := phyHeaderWalk_groups h
        (if c.GetChannelWidth event.GetTxVector ≥ 40 then 20
          else c.GetChannelWidth event.GetTxVector) powerW _ (fun _ _ _ => True)
        (fun previous current hpc => by
          obtain ⟨l, hl⟩ := hbody previous current hpc
          exact ⟨l, hl, trivial⟩)
        rest j.1 f hsorted.1 hsorted.2
      have hq : h.nonLegacyHeaderQueries c m event nis band
          = some (gs.flatMap groupQueries) := by
        unfold nonLegacyHeaderQueries
        simp only [hnis, hfp, hpow]
        exact hgw
      rw [CalculateNonLegacyPhyHeaderPer_eq_queries, hq]
      exact ⟨_, rfl⟩

/-- Witness of C13: the sample PPDU with the sample error rate model, whose success rate
`1 / (nbits + 1)` lies in [0, 1]. -/
theorem C13_per_is_one_minus_product_of_chunk_rates_witness :
    (sampleFresh.CalculatePayloadPer sampleCollaborators samplePpdu sampleLocalSplit
        sampleBand 0 (0, 10) =
      (sampleFresh.payloadPerQueries sampleCollaborators samplePpdu sampleLocalSplit
        sampleBand (0, 10)).map (fun w => 1 - (w.map (fun q =>
          sampleFresh.CalculatePayloadChunkSuccessRate sampleCollaborators q.1 q.2
            samplePpdu.GetTxVector 0)).prod)) ∧
    (sampleFresh.CalculateLegacyPhyHeaderPer sampleCollaborators sampleModes samplePpdu
        sampleLocalSplit sampleBand =
      (sampleFresh.legacyHeaderQueries sampleCollaborators sampleModes samplePpdu
        sampleLocalSplit sampleBand).map (fun w => 1 - (w.map (fun q =>
          sampleFresh.CalculateChunkSuccessRate sampleCollaborators q.1 q.2.1 q.2.2
            samplePpdu.GetTxVector)).prod)) ∧
    (sampleFresh.CalculateNonLegacyPhyHeaderPer sampleCollaborators sampleModes samplePpdu
        sampleLocalSplit sampleBand =
      (sampleFresh.nonLegacyHeaderQueries sampleCollaborators sampleModes samplePpdu
        sampleLocalSplit sampleBand).map (fun w => 1 - (w.map (fun q =>
          sampleFresh.CalculateChunkSuccessRate sampleCollaborators q.1 q.2.1 q.2.2
            samplePpdu.GetTxVector)).prod)) ∧
    (∀ per, sampleFresh.CalculatePayloadPer sampleCollaborators samplePpdu sampleLocalSplit
        sampleBand 0 (0, 10) = some per → 0 ≤ per ∧ per ≤ 1) ∧
    (∀ per, sampleFresh.CalculateLegacyPhyHeaderPer sampleCollaborators sampleModes
        samplePpdu sampleLocalSplit sampleBand = some per → 0 ≤ per ∧ per ≤ 1) ∧
    (∀ per, sampleFresh.CalculateNonLegacyPhyHeaderPer sampleCollaborators sampleModes
        samplePpdu sampleLocalSplit sampleBand = some per → 0 ≤ per ∧ per ≤ 1) ∧
    (∀ (j : Time × NiChange) (rest : NiChanges) (f powerW : ℚ),
      mapFind sampleLocalSplit sampleBand = some (j :: rest) →
      (j :: rest).Pairwise (fun a b => a.1 ≤ b.1) →
      mapFind sampleFresh.m_firstPowerPerBand sampleBand = some f →
      samplePpdu.GetRxPowerW sampleBand = some powerW →
      (∃ per, sampleFresh.CalculatePayloadPer sampleCollaborators samplePpdu sampleLocalSplit
        sampleBand 0 (0, 10) = some per) ∧
      ((∀ previous current, previous ≤ current →
          ∃ l, legacyHeaderChunks (sampleCollaborators.GetPreambleType samplePpdu.GetTxVector)
            (sampleModes.GetPlcpHeaderMode samplePpdu.GetTxVector)
            (j.1 + sampleCollaborators.GetPlcpPreambleDuration samplePpdu.GetTxVector)
            (sigStart sampleCollaborators samplePpdu.GetTxVector j.1)
            (trainingStart sampleCollaborators samplePpdu.GetTxVector j.1)
            (payloadStart sampleCollaborators samplePpdu.GetTxVector j.1) previous current
            = some l) →
        ∃ per, sampleFresh.CalculateLegacyPhyHeaderPer sampleCollaborators sampleModes
          samplePpdu sampleLocalSplit sampleBand = some per) ∧
      ((∀ previous current, previous ≤ current →
          ∃ l, nonLegacyHeaderChunks sampleModes
            (sampleCollaborators.GetPreambleType samplePpdu.GetTxVector)
            (selectMcsHeaderMode sampleModes
              (sampleCollaborators.GetPreambleType samplePpdu.GetTxVector))
            (sampleModes.GetPlcpHeaderMode samplePpdu.GetTxVector)
            (j.1 + sampleCollaborators.GetPlcpPreambleDuration samplePpdu.GetTxVector)
            (sigStart sampleCollaborators samplePpdu.GetTxVector j.1)
            (trainingStart sampleCollaborators samplePpdu.GetTxVector j.1)
            (payloadStart sampleCollaborators samplePpdu.GetTxVector j.1) previous current
            = some l) →
        ∃ per, sampleFresh.CalculateNonLegacyPhyHeaderPer sampleCollaborators sampleModes
          samplePpdu sampleLocalSplit sampleBand = some per)) :=
  C13_per_is_one_minus_product_of_chunk_rates sampleFresh sampleCollaborators sampleModes
    samplePpdu sampleLocalSplit sampleBand 0 (0, 10)
    (by
      intro mode txVector snir nbits
      have hpos : (0 : ℚ) < (nbits : ℚ) + 1 := by positivity
      have hval : sampleCollaborators.GetChunkSuccessRate mode txVector snir nbits
          = 1 / ((nbits : ℚ) + 1) := rfl
      rw [hval]
      constructor
      · exact div_nonneg zero_le_one (le_of_lt hpos)
      · rw [div_le_one hpos]
        linarith [(Nat.cast_nonneg nbits : (0 : ℚ) ≤ (nbits : ℚ))])

theorem endOrder_mono (T T1 : Time) (hT : T ≤ T1) (a b : Time × NiChange)
    (hab : endOrder T a b) : endOrder T1 a b :=
  ⟨hab.1, fun he hlt => hab.2 he (lt_of_le_of_lt hT hlt)⟩

theorem endOrder_sorted (T : Time) (ni : NiChanges) (hp : ni.Pairwise (endOrder T)) :
    ni.Pairwise (fun a b => a.1 ≤ b.1) :=
  hp.imp (fun hab => hab.1)

theorem TimelineInv_mono (T T1 : Time) (hT : T ≤ T1) (ni : NiChanges)
    (hinv : TimelineInv T ni) : TimelineInv T1 ni :=
  ⟨hinv.1, hinv.2.imp (fun hab => endOrder_mono T T1 hT _ _ hab)⟩

/-- On a timeline ordered by timestamp the record read at `t` splits the timeline into the
records before it (not later than `t`), itself, and the records later than `t`. -/
theorem timelinePower_split (ni : NiChanges) (t : Time) (q : ℚ)
    (hsorted : ni.Pairwise (fun a b => a.1 ≤ b.1)) (hq : timelinePower ni t = some q) :
    ∃ X z Y, ni = X ++ z :: Y ∧ z.2.m_power = q ∧ (∀ r ∈ X, r.1 ≤ t) ∧ z.1 ≤ t ∧
      ∀ r ∈ Y, t < r.1 := by
  have hn : 1 ≤ upper_bound ni t := (timelinePower_some_pos ni t q hq).1
  have hlen := upper_bound_le_length ni t
  have hi : upper_bound ni t - 1 < ni.length := by omega
  have hdrop : ni.drop (upper_bound ni t - 1) =
      ni.get ⟨upper_bound ni t - 1, hi⟩ :: ni.drop (upper_bound ni t) := by
    rw [List.drop_eq_getElem_cons hi]
    congr 2
    omega
  refine ⟨ni.take (upper_bound ni t - 1), ni.get ⟨upper_bound ni t - 1, hi⟩,
    ni.drop (upper_bound ni t), ?_, ?_, ?_, ?_, ?_⟩
  · rw [← hdrop, List.take_append_drop]
  · unfold timelinePower at hq
    have h0 : ¬ upper_bound ni t = 0 := by omega
    simp only [h0, if_false, List.get?_eq_get hi, Option.map_some', NiChange.GetPower,
      Option.some.injEq] at hq
    exact hq
  · intro r hr
    exact upper_bound_take_le ni t r ((List.take_subset_take_left ni (Nat.sub_le _ _)) hr)
  · exact upper_bound_take_le ni t _
      (get?_mem_take ni (upper_bound ni t) _ _ (by omega) (List.get?_eq_get hi))
  · exact upper_bound_drop_gt ni t hsorted

/-- One pass of the loop of `AppendEvent` for an event that starts at `s`, not earlier than
`T`, with a power that is not negative, takes a timeline that satisfies `TimelineInv` at
`T` to one that satisfies it at `s`: the end record carries the power read at the end
before the call, which is not above the power of any record stamped with the end time. -/
theorem appendTimeline_TimelineInv (T : Time) (rxing : Bool) (event : Event) (p : ℚ)
    (ni ni1 : NiChanges) (hinv : TimelineInv T ni) (h0 : 0 ≤ event.GetStartTime)
    (hT : T ≤ event.GetStartTime) (hse : event.GetStartTime ≤ event.GetEndTime)
    (hp : 0 ≤ p) (happ : appendTimeline rxing event p ni = some ni1) :
    TimelineInv event.GetStartTime ni1 := by
  refine ⟨HeadOK_appendTimeline rxing event p ni ni1 hinv.1 h0 happ, ?_⟩
  have hsorted := endOrder_sorted T ni hinv.2
  have hR : ni.Pairwise (endOrder event.GetStartTime) :=
    hinv.2.imp (fun hab => endOrder_mono T _ hT _ _ hab)
  obtain ⟨ps, pe, hps, hpe, rfl⟩ := appendTimeline_sorted rxing event p ni ni1 hse hsorted happ
  generalize hs : event.GetStartTime = s at *
  generalize he : event.GetEndTime = e at *
  have hn : 1 ≤ upper_bound ni s := (timelinePower_some_pos ni s ps hps).1
  obtain ⟨X, z, Y, hsplit, hz, hX, hzle, hY⟩ := timelinePower_split ni e pe hsorted hpe
  have hend : ∀ a ∈ ni, a.1 = e → s < a.1 → pe ≤ a.2.m_power := by
    intro a ha hae hsa
    have hTa : T < a.1 := lt_of_le_of_lt hT hsa
    have hpw := hinv.2
    rw [hsplit] at ha hpw
    rcases List.mem_append.mp ha with haX | haZ
    · have hrel := (List.pairwise_append.mp hpw).2.2 a haX z (List.mem_cons_self _ _)
      have hze : a.1 = z.1 := le_antisymm hrel.1 (by rw [hae]; exact hzle)
      rw [← hz]
      exact hrel.2 hze hTa
    · rcases List.mem_cons.mp haZ with rfl | haY
      · rw [hz]
      · exact absurd (hY a haY) (by rw [hae]; exact lt_irrefl _)
  have hprefix_sub : List.Sublist
      (if rxing = true then ni.filter (fun r => decide (r.1 ≤ s)) else ni.take 1) ni := by
    split
    · exact List.filter_sublist _
    · exact List.take_sublist _ _
  have hprefix_le : ∀ a ∈ (if rxing = true then ni.filter (fun r => decide (r.1 ≤ s))
      else ni.take 1), a.1 ≤ s := by
    intro a ha
    split at ha
    · simpa using (List.mem_filter.mp ha).2
    · exact upper_bound_take_le ni s a ((List.take_subset_take_left ni hn) ha)
  unfold recordsFromStart
  simp only [hs, he]
  have hmid_mem : ∀ b ∈ (ni.filter (fun r => decide (s < r.1 ∧ r.1 ≤ e))).map
      (fun r => (r.1, r.2.AddPower p)),
      ∃ a ∈ ni, s < a.1 ∧ a.1 ≤ e ∧ b = (a.1, a.2.AddPower p) := by
    intro b hb
    obtain ⟨a, ha, rfl⟩ := List.mem_map.mp hb
    have ha2 := List.mem_filter.mp ha
    have hc : s < a.1 ∧ a.1 ≤ e := by simpa using ha2.2
    exact ⟨a, ha2.1, hc.1, hc.2, rfl⟩
  have hrest_mem : ∀ b ∈ ni.filter (fun r => decide (e < r.1)), e < b.1 := by
    intro b hb
    simpa using (List.mem_filter.mp hb).2
  have htail_ge : ∀ b ∈ (ni.filter (fun r => decide (s < r.1 ∧ r.1 ≤ e))).map
      (fun r => (r.1, r.2.AddPower p)) ++
      (e, ({ m_power := pe, m_event := some event } : NiChange)) ::
        ni.filter (fun r => decide (e < r.1)), s ≤ b.1 := by
    intro b hb
    rcases List.mem_append.mp hb with hb | hb
    · obtain ⟨a, -, hsa, -, rfl⟩ := hmid_mem b hb
      exact le_of_lt hsa
    · rcases List.mem_cons.mp hb with rfl | hb
      · exact hse
      · exact le_trans hse (le_of_lt (hrest_mem b hb))
  rw [List.pairwise_append]
  refine ⟨hR.sublist hprefix_sub, ?_, ?_⟩
  · rw [List.pairwise_cons]
    refine ⟨fun b hb => ⟨htail_ge b hb, fun _ hlt => absurd hlt (lt_irrefl _)⟩, ?_⟩
    rw [List.pairwise_append]
    refine ⟨?_, ?_, ?_⟩
    · rw [List.pairwise_map]
      refine (hR.sublist (List.filter_sublist _)).imp ?_
      intro a b hab
      refine ⟨hab.1, fun hee hlt => ?_⟩
      have := hab.2 hee hlt
      simp only [NiChange.AddPower]
      linarith
    · rw [List.pairwise_cons]
      refine ⟨fun b hb => ⟨le_of_lt (hrest_mem b hb), fun hee _ => ?_⟩,
        hR.sublist (List.filter_sublist _)⟩
      exact absurd (hrest_mem b hb) (by rw [← hee]; exact lt_irrefl _)
    · intro b hb c hc
      obtain ⟨a, ha, hsa, hae, rfl⟩ := hmid_mem b hb
      rcases List.mem_cons.mp hc with rfl | hc
      · refine ⟨hae, fun hee hlt => ?_⟩
        have := hend a ha hee hlt
        simp only [NiChange.AddPower]
        linarith
      · have hlt := hrest_mem c hc
        refine ⟨le_of_lt (lt_of_le_of_lt hae hlt), fun hee _ => ?_⟩
        exact absurd hlt (by rw [← hee]; exact not_lt.mpr hae)
  · intro a ha b hb
    have hale := hprefix_le a ha
    have hble : s ≤ b.1 := by
      rcases List.mem_cons.mp hb with rfl | hb
      · exact le_refl _
      · exact htail_ge b hb
    exact ⟨le_trans hale hble, fun _ hlt => absurd hlt (not_lt.mpr hale)⟩

theorem foldlM_inv_mem {α β : Type} (f : β → α → Option β) (P : β → Prop) :
    ∀ (l : List α), (∀ b a b1, a ∈ l → P b → f b a = some b1 → P b1) →
      ∀ (b b1 : β), P b → l.foldlM f b = some b1 → P b1 := by
  intro l
  induction l with
  | nil =>
    intro _ b b1 hb hfold
    simp only [List.foldlM_nil, pure, Option.some.injEq] at hfold
    exact hfold ▸ hb
  | cons a rest ih =>
    intro hstep b b1 hb hfold
    simp only [List.foldlM_cons, bind, Option.bind_eq_some] at hfold
    obtain ⟨b2, hb2, hrest⟩ := hfold
    exact ih (fun b a1 b1 ha hb hs => hstep b a1 b1 (List.mem_cons_of_mem _ ha) hb hs)
      b2 b1 (hstep b a b2 (List.mem_cons_self _ _) hb hb2) hrest

/-- A record stamped `t`, not later than `T`, inserted at `upper_bound (t)` keeps
`TimelineInv` at `T`. -/
theorem insertAt_TimelineInv (T t : Time) (x : NiChange) (ni : NiChanges)
    (hinv : TimelineInv T ni) (h0 : 0 ≤ t) (htT : t ≤ T) :
    TimelineInv T (insertAt ni (upper_bound ni t) (t, x)) := by
  have hsorted := endOrder_sorted T ni hinv.2
  refine ⟨HeadOK_insertAt ni _ _ hinv.1 (upper_bound_pos ni t hinv.1 h0), ?_⟩
  unfold insertAt
  rw [List.pairwise_append]
  refine ⟨hinv.2.sublist (List.take_sublist _ _), ?_, ?_⟩
  · rw [List.pairwise_cons]
    refine ⟨fun b hb => ?_, hinv.2.sublist (List.drop_sublist _ _)⟩
    have hlt := upper_bound_drop_gt ni t hsorted b hb
    exact ⟨le_of_lt hlt, fun _ hTt => absurd hTt (not_lt.mpr htT)⟩
  · intro a ha b hb
    have hale := upper_bound_take_le ni t a ha
    have hble : t ≤ b.1 := by
      rcases List.mem_cons.mp hb with rfl | hb
      · exact le_refl _
      · exact le_of_lt (upper_bound_drop_gt ni t hsorted b hb)
    exact ⟨le_trans hale hble, fun _ hlt => absurd hlt (not_lt.mpr (le_trans hale htT))⟩

theorem EnergyInv_of_assign (T : Time) (h h1 : InterferenceHelper) (band : WifiSpectrumBand)
    (ni1 : NiChanges) (hinv : EnergyInv T h) (hnew : TimelineInv T ni1)
    (heq : h1.m_niChangesPerBand = mapAssign h.m_niChangesPerBand band ni1) :
    EnergyInv T h1 := by
  refine ⟨hinv.1, ?_⟩
  intro b ni hb
  rw [heq] at hb
  simp only [mapFind_mapAssign] at hb
  by_cases hbb : b = band
  · simp only [hbb, if_true] at hb
    cases hf : mapFind h.m_niChangesPerBand band with
    | none => simp [hf] at hb
    | some old =>
      simp [hf] at hb
      subst hb
      exact hnew
  · simp only [hbb, if_false] at hb
    exact hinv.2 b ni hb

theorem EnergyInv_of_same (T : Time) (h h1 : InterferenceHelper) (hinv : EnergyInv T h)
    (heq : h1.m_niChangesPerBand = h.m_niChangesPerBand) : EnergyInv T h1 := by
  refine ⟨hinv.1, ?_⟩
  intro b ni hb
  rw [heq] at hb
  exact hinv.2 b ni hb

theorem EnergyInv_mono (T T1 : Time) (hT : T ≤ T1) (h : InterferenceHelper)
    (hinv : EnergyInv T h) : EnergyInv T1 h :=
  ⟨le_trans hinv.1 hT, fun b ni hb => TimelineInv_mono T T1 hT ni (hinv.2 b ni hb)⟩

theorem EnergyInv_appendEventBand (T : Time) (event : Event)
    (hs : T = event.GetStartTime) (hse : event.GetStartTime ≤ event.GetEndTime)
    (h : InterferenceHelper) (it : WifiSpectrumBand × ℚ) (h1 : InterferenceHelper)
    (hp : 0 ≤ it.2) (hinv : EnergyInv T h) (happ : appendEventBand event h it = some h1) :
    EnergyInv T h1 := by
  obtain ⟨ni, ni1, ps, hf, hat, -, hni, -⟩ := appendEventBand_spec event h h1 it happ
  have hnew := appendTimeline_TimelineInv T _ event it.2 ni ni1 (hinv.2 it.1 ni hf)
    (hs ▸ hinv.1) (le_of_eq hs) hse hp hat
  rw [← hs] at hnew
  exact EnergyInv_of_assign T h h1 it.1 ni1 hinv hnew hni

theorem EnergyInv_AddBand (T : Time) (h h1 : InterferenceHelper) (band : WifiSpectrumBand)
    (hinv : EnergyInv T h) (hadd : AddBand h band = some h1) : EnergyInv T h1 := by
  refine ⟨hinv.1, ?_⟩
  unfold AddBand at hadd
  cases hf : mapFind h.m_niChangesPerBand band with
  | some x => simp [hf] at hadd
  | none =>
    simp only [hf] at hadd
    have hnew := mapFind_mapInsert_new h.m_niChangesPerBand band ([] : NiChanges) hf
    rw [AddNiChangeEvent_some _ _ _ band [] hnew] at hadd
    simp only [Option.some.injEq] at hadd
    subst hadd
    intro b ni hb
    simp only [mapFind_mapAssign] at hb
    by_cases hbb : b = band
    · simp only [hbb, if_true, hnew, Option.map_some', Option.some.injEq] at hb
      subst hb
      simp [TimelineInv, HeadOK, insertAt, upper_bound]
    · simp only [hbb, if_false] at hb
      rw [mapFind_mapInsert_ne _ _ _ _ hbb] at hb
      exact hinv.2 b ni hb

theorem EnergyInv_eraseEventsBand (T : Time) (h : InterferenceHelper)
    (it : WifiSpectrumBand × NiChanges) (h1 : InterferenceHelper) (hinv : EnergyInv T h)
    (he : eraseEventsBand h it = some h1) : EnergyInv T h1 := by
  unfold eraseEventsBand at he
  simp only [] at he
  cases hadd : AddNiChangeEvent h 0 { m_power := 0, m_event := none } it.1 with
  | none => simp [hadd] at he
  | some r =>
    obtain ⟨h2, pos⟩ := r
    simp only [hadd] at he
    obtain ⟨ni, hf, hpos, h2eq⟩ := AddNiChangeEvent_eq h h2 0 _ it.1 pos hadd
    have h2inv : EnergyInv T h2 := by
      apply EnergyInv_of_assign T h h2 it.1 (insertAt ni pos (0, { m_power := 0, m_event := none }))
        hinv
      · rw [hpos]
        exact insertAt_TimelineInv T 0 _ ni (hinv.2 it.1 ni hf) (le_refl _) hinv.1
      · rw [h2eq]
    cases hfp : mapFind h2.m_firstPowerPerBand it.1 with
    | none => simp [hfp] at he
    | some f =>
      simp only [hfp, Option.some.injEq] at he
      subst he
      exact EnergyInv_of_same T h2 _ h2inv rfl

theorem EnergyInv_notifyRxEndBand (T now : Time) (h : InterferenceHelper)
    (ni : WifiSpectrumBand × NiChanges) (h1 : InterferenceHelper) (hinv : EnergyInv T h)
    (he : notifyRxEndBand now h ni = some h1) : EnergyInv T h1 := by
  unfold notifyRxEndBand at he
  simp only [] at he
  split at he
  · simp at he
  · split at he
    · simp only [Option.some.injEq] at he
      subst he
      exact EnergyInv_of_same T h _ hinv rfl
    · simp at he

/-- Every state reached at time `T` satisfies `EnergyInv` at `T`. -/
theorem ReachableAt_EnergyInv (T : Time) (h : InterferenceHelper) (hr : ReachableAt T h) :
    EnergyInv T h := by
  induction hr with
  | create noiseFigure =>
    refine ⟨le_refl _, ?_⟩
    intro b x hx
    simp [InterferenceHelper.create, mapFind] at hx
  | wait h T T1 _ hT ih => exact EnergyInv_mono T T1 hT h ih
  | addBand h h1 T band _ hadd ih => exact EnergyInv_AddBand T h h1 band ih hadd
  | add h h1 T addr ppdu txVector duration rxPowerW event _ hdur hpow hadd ih =>
    unfold InterferenceHelper.Add at hadd
    cases happ : AppendEvent h (Event.create T addr ppdu txVector duration rxPowerW) with
    | none => simp [happ] at hadd
    | some h2 =>
      simp only [happ, Option.some.injEq, Prod.mk.injEq] at hadd
      obtain ⟨rfl, -⟩ := hadd
      unfold AppendEvent at happ
      have hstart : T = (Event.create T addr ppdu txVector duration rxPowerW).GetStartTime :=
        (Event_create_start T addr ppdu txVector duration rxPowerW).symm
      have hse : (Event.create T addr ppdu txVector duration rxPowerW).GetStartTime
          ≤ (Event.create T addr ppdu txVector duration rxPowerW).GetEndTime := by
        rw [Event_create_start, Event_create_end]
        linarith
      have hmem : ∀ it ∈ (Event.create T addr ppdu txVector duration rxPowerW).m_rxPowerW,
          0 ≤ it.2 := hpow
      exact foldlM_inv_mem _ (EnergyInv T)
        (Event.create T addr ppdu txVector duration rxPowerW).m_rxPowerW
        (fun b a b1 ha hb hstep => EnergyInv_appendEventBand T
          (Event.create T addr ppdu txVector duration rxPowerW) hstart hse b a b1
          (hmem a ha) hb hstep)
        h h2 ih happ
  | notifyRxStart h T _ ih => exact EnergyInv_of_same T h _ ih rfl
  | notifyRxEnd h h1 T _ hend ih =>
    unfold NotifyRxEnd at hend
    exact foldlM_inv _ (EnergyInv T) (EnergyInv_notifyRxEndBand T T) _
      { h with m_rxing := false } h1 (EnergyInv_of_same T h _ ih rfl) hend
  | eraseEvents h h1 T _ herase ih =>
    unfold EraseEvents at herase
    cases hfold : List.foldlM eraseEventsBand h h.m_niChangesPerBand with
    | none => simp [hfold] at herase
    | some h2 =>
      simp only [hfold, Option.some.injEq] at herase
      subst herase
      exact EnergyInv_of_same T h2 _
        (foldlM_inv _ (EnergyInv T) (EnergyInv_eraseEventsBand T) _ h h2 ih hfold) rfl

theorem timelinePower_mem (l : NiChanges) (t : Time) (q : ℚ)
    (hq : timelinePower l t = some q) : ∃ z ∈ l, z.2.m_power = q := by
  unfold timelinePower at hq
  split at hq
  · simp at hq
  · obtain ⟨z, hz, hzq⟩ := Option.map_eq_some'.mp hq
    exact ⟨z, List.getElem?_mem (by simpa using hz), hzq⟩

theorem exists_first_below (energyW : ℚ) :
    ∀ (l : NiChanges), (∃ z ∈ l, z.2.m_power < energyW) →
      ∃ pre k suf, l = pre ++ k :: suf ∧ (∀ r ∈ pre, energyW ≤ r.2.m_power) ∧
        k.2.m_power < energyW := by
  intro l
  induction l with
  | nil =>
    intro hz
    obtain ⟨z, hz, -⟩ := hz
    simp at hz
  | cons x rest ih =>
    intro hz
    by_cases hx : x.2.m_power < energyW
    · exact ⟨[], x, rest, rfl, by simp, hx⟩
    · obtain ⟨z, hzmem, hzlt⟩ := hz
      rcases List.mem_cons.mp hzmem with rfl | hzr
      · exact absurd hzlt hx
      · obtain ⟨pre, k, suf, hsplit, hpre, hk⟩ := ih ⟨z, hzr, hzlt⟩
        refine ⟨x :: pre, k, suf, by rw [hsplit]; rfl, ?_, hk⟩
        intro r hr
        rcases List.mem_cons.mp hr with rfl | hr
        · exact not_lt.mp hx
        · exact hpre r hr

/-- On a timeline that satisfies `TimelineInv` at `T`, the power read at the timestamp of a
record stamped later than `T` is not above the power of that record. -/
theorem timelinePower_le_of_stamp (T : Time) (ni : NiChanges) (hinv : ni.Pairwise (endOrder T))
    (k : Time × NiChange) (hk : k ∈ ni) (hTk : T < k.1) :
    ∃ q, timelinePower ni k.1 = some q ∧ q ≤ k.2.m_power := by
  have hsorted := endOrder_sorted T ni hinv
  have hn : 1 ≤ upper_bound ni k.1 := by
    obtain ⟨A, B, hAB⟩ := List.append_of_mem hk
    rw [hAB]
    have hA : ∀ r ∈ A, r.1 ≤ k.1 := by
      intro r hr
      rw [hAB] at hsorted
      exact (List.pairwise_append.mp hsorted).2.2 r hr k (List.mem_cons_self _ _)
    rw [upper_bound_append A (k :: B) k.1 hA]
    have := upper_bound_cons_pos k B k.1 (le_refl _)
    omega
  obtain ⟨q, hq⟩ := timelinePower_of_pos ni k.1 hn
  refine ⟨q, hq, ?_⟩
  obtain ⟨X, z, Y, hsplit, hz, hX, hzle, hY⟩ := timelinePower_split ni k.1 q hsorted hq
  rw [hsplit] at hk hinv
  rcases List.mem_append.mp hk with hkX | hkZ
  · have hrel := (List.pairwise_append.mp hinv).2.2 k hkX z (List.mem_cons_self _ _)
    rw [← hz]
    exact hrel.2 (le_antisymm hrel.1 hzle) hTk
  · rcases List.mem_cons.mp hkZ with rfl | hkY
    · rw [hz]
    · exact absurd (hY k hkY) (lt_irrefl _)

/-- C19: in every state reached at simulation time now (calls made in time order, events
with durations and powers that are not negative), on every registered band
GetEnergyDuration (E, band) returns a duration that is not negative; it is 0 when the power
in effect at now is below E; otherwise, whenever the power in effect (the power of the last
record with timestamp <= t) is below E at some time t >= now, the power in effect at
now + result is below E and now + result is not later than t, so now + result is the
earliest such time. -/
theorem C19_duration_is_time_until_power_drops_below_threshold (h : InterferenceHelper)
    (now : Time) (energyW : ℚ) (band : WifiSpectrumBand) (ni : NiChanges)
    (hreach : ReachableAt now h)
    (hreg : mapFind h.m_niChangesPerBand band = some ni) :
    ∃ d p, h.GetEnergyDuration now energyW band = some d ∧
      h.previousPower now band = some p ∧ 0 ≤ d ∧
      (p < energyW → d = 0) ∧
      (energyW ≤ p → ∀ t q, now ≤ t → h.previousPower t band = some q → q < energyW →
        (∃ q2, h.previousPower (now + d) band = some q2 ∧ q2 < energyW) ∧ now + d ≤ t) := by
  have hinv := ReachableAt_EnergyInv now h hreach
  have htl := hinv.2 band ni hreg
  have hsorted := endOrder_sorted now ni htl.2
  have hn : 1 ≤ upper_bound ni now := upper_bound_pos ni now htl.1 hinv.1
  obtain ⟨d, p, hd, hp, hzero, hfirst, hlow⟩ :=
    GetEnergyDuration_first_below h now energyW band ni hreg hsorted hn
  obtain ⟨d1, hd1, hnonneg, -⟩ := GetEnergyDuration_above h now energyW band ni hreg hn
  rw [hd] at hd1
  simp only [Option.some.injEq] at hd1
  subst hd1
  refine ⟨d, p, hd, hp, hnonneg, hzero, ?_⟩
  intro hpE t q hnow hq hqE
  refine ⟨?_, hlow t hnow ⟨q, hq, hqE⟩⟩
  obtain ⟨r, hni, hr, hpow, -⟩ := GetEnergyDuration_eq h now energyW band ni hreg hn
  rw [previousPower_eq h now band ni hreg, hpow] at hp
  simp only [Option.some.injEq] at hp
  have hq1 : timelinePower ni t = some q := by
    rw [← previousPower_eq h t band ni hreg]
    exact hq
  have hq2 : timelinePower (r :: ni.drop (upper_bound ni now)) t = some q := by
    rw [hni, timelinePower_append _ _ t ?_
      (upper_bound_cons_pos r _ t (le_trans hr hnow))] at hq1
    · exact hq1
    · intro x hx
      have hx2 : x ∈ ni.take (upper_bound ni now) :=
        (List.take_subset_take_left ni (Nat.sub_le _ _)) hx
      exact le_trans (upper_bound_take_le ni now x hx2) hnow
  obtain ⟨z, hzmem, hzq⟩ := timelinePower_mem _ t q hq2
  have hzB : z ∈ ni.drop (upper_bound ni now) := by
    rcases List.mem_cons.mp hzmem with rfl | hzB
    · rw [hp] at hzq
      rw [hzq] at hpE
      exact absurd hqE (not_lt.mpr hpE)
    · exact hzB
  obtain ⟨pre, k, suf, hsplit, hpre, hk⟩ := exists_first_below energyW _
    ⟨z, hzB, by rw [hzq]; exact hqE⟩
  obtain ⟨hsum, hklt, -⟩ := hfirst hpE pre k suf hsplit hpre hk
  have hkB : k ∈ ni.drop (upper_bound ni now) := by
    rw [hsplit]
    exact List.mem_append_right _ (List.mem_cons_self _ _)
  have hkmem : k ∈ ni := List.mem_of_mem_drop hkB
  obtain ⟨q2, hq2, hq2le⟩ := timelinePower_le_of_stamp now ni htl.2 k hkmem hklt
  refine ⟨q2, ?_, lt_of_le_of_lt hq2le hk⟩
  rw [hsum, previousPower_eq h k.1 band ni hreg]
  exact hq2

/-- Witness of C19: the band is registered, `sampleFirst` is added at time 0, the
reception starts, `sampleSecond` is added at time 10, and the duration is asked at time 12
with threshold 1 W. -/
theorem C19_duration_is_time_until_power_drops_below_threshold_witness :
    ∃ d p, sampleBackToBack.GetEnergyDuration 12 1 sampleBand = some d ∧
      sampleBackToBack.previousPower 12 sampleBand = some p ∧ 0 ≤ d ∧
      (p < 1 → d = 0) ∧
      (1 ≤ p → ∀ t q, 12 ≤ t → sampleBackToBack.previousPower t sampleBand = some q → q < 1 →
        (∃ q2, sampleBackToBack.previousPower (12 + d) sampleBand = some q2 ∧ q2 < 1) ∧
          12 + d ≤ t) :=
  C19_duration_is_time_until_power_drops_below_threshold sampleBackToBack 12 1 sampleBand
    sampleBackToBackTimeline
    (ReachableAt.wait _ 10 12
      (ReachableAt.add sampleAfterFirst.NotifyRxStart sampleBackToBack 10 4 4 { handle := 0 }
        10 [(sampleBand, 4)] sampleSecond
        (ReachableAt.wait _ 0 10
          (ReachableAt.notifyRxStart sampleAfterFirst 0
            (ReachableAt.add sampleFresh sampleAfterFirst 0 3 3 { handle := 0 } 10
              [(sampleBand, 3)] sampleFirst
              (ReachableAt.addBand (InterferenceHelper.create 1) sampleFresh 0 sampleBand
                (ReachableAt.create 1) (by decide))
              (by decide) (by simp) (by decide!)))
          (by decide))
        (by decide) (by simp) (by decide!))
      (by decide))
    (by decide)

theorem mapFind_mapInsert_ne_none {V : Type} (m : List (WifiSpectrumBand × V))
    (b : WifiSpectrumBand) (v : V) : mapFind (mapInsert m b v) b ≠ none := by
  induction m with
  | nil => simp [mapInsert, mapFind]
  | cons x rest ih =>
    obtain ⟨k, u⟩ := x
    by_cases hk : k = b
    · simp [mapInsert, mapFind, hk]
    · by_cases hl : bandLess b k = true
      · simp [mapInsert, mapFind, hk, hl]
      · simp [mapInsert, mapFind, hk, hl, ih]

theorem mapFind_mapAssign_none {V : Type} (m : List (WifiSpectrumBand × V))
    (b b' : WifiSpectrumBand) (v : V) :
    mapFind (mapAssign m b v) b' = none ↔ mapFind m b' = none := by
  rw [mapFind_mapAssign]
  by_cases hb : b' = b
  · subst hb
    simp
  · simp [hb]

theorem SameBands_of_assign (h h1 : InterferenceHelper) (b1 b2 : WifiSpectrumBand)
    (ni : NiChanges) (p : ℚ) (hinv : SameBands h)
    (hni : h1.m_niChangesPerBand = mapAssign h.m_niChangesPerBand b1 ni
      ∨ h1.m_niChangesPerBand = h.m_niChangesPerBand)
    (hfp : h1.m_firstPowerPerBand = mapAssign h.m_firstPowerPerBand b2 p
      ∨ h1.m_firstPowerPerBand = h.m_firstPowerPerBand) : SameBands h1 := by
  intro b
  have h1ni : mapFind h1.m_niChangesPerBand b = none ↔ mapFind h.m_niChangesPerBand b = none := by
    rcases hni with hni | hni
    · rw [hni]
      exact mapFind_mapAssign_none _ _ _ _
    · rw [hni]
  have h1fp : mapFind h1.m_firstPowerPerBand b = none ↔
      mapFind h.m_firstPowerPerBand b = none := by
    rcases hfp with hfp | hfp
    · rw [hfp]
      exact mapFind_mapAssign_none _ _ _ _
    · rw [hfp]
  rw [h1ni, h1fp]
  exact hinv b

theorem AddBand_none_iff (h : InterferenceHelper) (band : WifiSpectrumBand) :
    h.AddBand band = none ↔ ∃ ni, mapFind h.m_niChangesPerBand band = some ni := by
  unfold AddBand
  cases hf : mapFind h.m_niChangesPerBand band with
  | some ni => simp
  | none =>
    have hnew := mapFind_mapInsert_new h.m_niChangesPerBand band ([] : NiChanges) hf
    simp only [hf]
    rw [AddNiChangeEvent_some _ _ _ band [] hnew]
    simp

/-- Effect of a successful `AddBand`: the band was in no timeline map, it gets the timeline
made of the zero power record, its first power is 0 when it had none, and nothing else
changes. -/
theorem AddBand_registers (h h1 : InterferenceHelper) (band : WifiSpectrumBand)
    (hadd : h.AddBand band = some h1) :
    mapFind h.m_niChangesPerBand band = none ∧
    mapFind h1.m_niChangesPerBand band = some [(0, { m_power := 0, m_event := none })] ∧
    (∀ b, b ≠ band → mapFind h1.m_niChangesPerBand b = mapFind h.m_niChangesPerBand b) ∧
    (∀ b, b ≠ band → mapFind h1.m_firstPowerPerBand b = mapFind h.m_firstPowerPerBand b) ∧
    mapFind h1.m_firstPowerPerBand band ≠ none ∧
    (mapFind h.m_firstPowerPerBand band = none → mapFind h1.m_firstPowerPerBand band = some 0) ∧
    h1.m_rxing = h.m_rxing ∧ h1.m_noiseFigure = h.m_noiseFigure ∧
    h1.m_numRxAntennas = h.m_numRxAntennas := by
  unfold AddBand at hadd
  cases hf : mapFind h.m_niChangesPerBand band with
  | some x => simp [hf] at hadd
  | none =>
    simp only [hf] at hadd
    have hnew := mapFind_mapInsert_new h.m_niChangesPerBand band ([] : NiChanges) hf
    rw [AddNiChangeEvent_some _ _ _ band [] hnew] at hadd
    simp only [Option.some.injEq] at hadd
    subst hadd
    refine ⟨rfl, ?_, ?_, ?_, ?_, ?_, rfl, rfl, rfl⟩
    · simp only [mapFind_mapAssign, if_true, hnew, Option.map_some']
      simp [insertAt, upper_bound]
    · intro b hb
      simp only [mapFind_mapAssign, hb, if_false]
      exact mapFind_mapInsert_ne _ _ _ _ hb
    · intro b hb
      exact mapFind_mapInsert_ne _ _ _ _ hb
    · exact mapFind_mapInsert_ne_none _ _ _
    · intro hfp
      exact mapFind_mapInsert_new _ _ _ hfp

theorem SameBands_appendEventBand (event : Event) (h : InterferenceHelper)
    (it : WifiSpectrumBand × ℚ) (h1 : InterferenceHelper) (hinv : SameBands h)
    (happ : appendEventBand event h it = some h1) : SameBands h1 := by
  obtain ⟨ni, ni1, ps, -, -, -, hni, hfp, -⟩ := appendEventBand_spec event h h1 it happ
  refine SameBands_of_assign h h1 it.1 it.1 ni1 ps hinv (Or.inl hni) ?_
  cases hrx : h.m_rxing with
  | true =>
    rw [hrx] at hfp
    exact Or.inr (by simpa using hfp)
  | false =>
    rw [hrx] at hfp
    exact Or.inl (by simpa using hfp)

theorem SameBands_notifyRxEndBand (now : Time) (h : InterferenceHelper)
    (ni : WifiSpectrumBand × NiChanges) (h1 : InterferenceHelper) (hinv : SameBands h)
    (he : notifyRxEndBand now h ni = some h1) : SameBands h1 := by
  unfold notifyRxEndBand at he
  simp only [] at he
  split at he
  · simp at he
  · split at he
    · simp only [Option.some.injEq] at he
      subst he
      exact SameBands_of_assign h _ ni.1 ni.1 [] _ hinv (Or.inr rfl) (Or.inl rfl)
    · simp at he

theorem SameBands_eraseEventsBand (h : InterferenceHelper) (it : WifiSpectrumBand × NiChanges)
    (h1 : InterferenceHelper) (hinv : SameBands h) (he : eraseEventsBand h it = some h1) :
    SameBands h1 := by
  unfold eraseEventsBand at he
  simp only [] at he
  cases hadd : AddNiChangeEvent h 0 { m_power := 0, m_event := none } it.1 with
  | none => simp [hadd] at he
  | some r =>
    obtain ⟨h2, pos⟩ := r
    simp only [hadd] at he
    obtain ⟨ni, hf, hpos, h2eq⟩ := AddNiChangeEvent_eq h h2 0 _ it.1 pos hadd
    cases hfp : mapFind h2.m_firstPowerPerBand it.1 with
    | none => simp [hfp] at he
    | some f =>
      simp only [hfp, Option.some.injEq] at he
      subst he
      refine SameBands_of_assign h _ it.1 it.1
        (insertAt ni pos (0, { m_power := 0, m_event := none })) 0 hinv (Or.inl ?_) (Or.inl ?_)
      · rw [h2eq]
      · rw [h2eq]

/-- In every state of a helper the two maps have the same keys. -/
theorem Constructed_SameBands (h : InterferenceHelper) (hc : Constructed h) : SameBands h := by
  induction hc with
  | create noiseFigure =>
    intro b
    simp [InterferenceHelper.create, mapFind]
  | removeBands h _ _ =>
    intro b
    simp [RemoveBands, mapFind]
  | addBand h h1 band _ hadd ih =>
    obtain ⟨hnone, hni, hother, hfother, hfp, -⟩ := AddBand_registers h h1 band hadd
    intro b
    by_cases hb : b = band
    · subst hb
      rw [hni]
      simp [hfp]
    · rw [hother b hb, hfother b hb]
      exact ih b
  | setNoiseFigure h value _ ih => exact ih
  | setNumberOfReceiveAntennas h rx _ ih => exact ih
  | add h h1 now addr ppdu txVector duration rxPowerW event _ hadd ih =>
    unfold InterferenceHelper.Add at hadd
    cases happ : AppendEvent h (Event.create now addr ppdu txVector duration rxPowerW) with
    | none => simp [happ] at hadd
    | some h2 =>
      simp only [happ, Option.some.injEq, Prod.mk.injEq] at hadd
      obtain ⟨rfl, -⟩ := hadd
      unfold AppendEvent at happ
      exact foldlM_inv _ SameBands
        (fun b a b1 hb hstep => SameBands_appendEventBand _ b a b1 hb hstep) _ h h2 ih happ
  | notifyRxStart h _ ih => exact ih
  | notifyRxEnd h h1 now _ hend ih =>
    unfold NotifyRxEnd at hend
    exact foldlM_inv _ SameBands (SameBands_notifyRxEndBand now) _
      { h with m_rxing := false } h1 ih hend
  | eraseEvents h h1 _ herase ih =>
    unfold EraseEvents at herase
    cases hfold : List.foldlM eraseEventsBand h h.m_niChangesPerBand with
    | none => simp [hfold] at herase
    | some h2 =>
      simp only [hfold, Option.some.injEq] at herase
      subst herase
      exact foldlM_inv _ SameBands SameBands_eraseEventsBand _ h h2 ih hfold

/-- C22: in every state of a helper, AddBand of a band that is not registered succeeds;
afterwards the timeline of the band is exactly the record (timestamp 0, power 0, no event)
and its first power is 0, while the timelines and first powers of all other bands, the
reception flag, the noise figure and the number of antennas are unchanged. -/
theorem C22_AddBand_registers_band_with_sentinel (h : InterferenceHelper)
    (band : WifiSpectrumBand) (hc : Constructed h)
    (hnew : mapFind h.m_niChangesPerBand band = none) :
    ∃ h1, h.AddBand band = some h1 ∧
      mapFind h1.m_niChangesPerBand band = some [(0, { m_power := 0, m_event := none })] ∧
      mapFind h1.m_firstPowerPerBand band = some 0 ∧
      (∀ b, b ≠ band → mapFind h1.m_niChangesPerBand b = mapFind h.m_niChangesPerBand b ∧
        mapFind h1.m_firstPowerPerBand b = mapFind h.m_firstPowerPerBand b) ∧
      h1.m_rxing = h.m_rxing ∧ h1.m_noiseFigure = h.m_noiseFigure ∧
      h1.m_numRxAntennas = h.m_numRxAntennas := by
  have hfp : mapFind h.m_firstPowerPerBand band = none :=
    (Constructed_SameBands h hc band).mp hnew
  cases hadd : h.AddBand band with
  | none =>
    obtain ⟨ni, hni⟩ := (AddBand_none_iff h band).mp hadd
    rw [hnew] at hni
    simp at hni
  | some h1 =>
    obtain ⟨-, hni, hother, hfother, -, hzero, hrx, hnf, hant⟩ :=
      AddBand_registers h h1 band hadd
    exact ⟨h1, rfl, hni, hzero hfp, fun b hb => ⟨hother b hb, hfother b hb⟩, hrx, hnf, hant⟩

/-- Witness of C22: a second band registered on the sample helper. -/
theorem C22_AddBand_registers_band_with_sentinel_witness :
    ∃ h1, sampleFresh.AddBand (2, 3) = some h1 ∧
      mapFind h1.m_niChangesPerBand (2, 3) = some [(0, { m_power := 0, m_event := none })] ∧
      mapFind h1.m_firstPowerPerBand (2, 3) = some 0 ∧
      (∀ b, b ≠ (2, 3) →
        mapFind h1.m_niChangesPerBand b = mapFind sampleFresh.m_niChangesPerBand b ∧
        mapFind h1.m_firstPowerPerBand b = mapFind sampleFresh.m_firstPowerPerBand b) ∧
      h1.m_rxing = sampleFresh.m_rxing ∧ h1.m_noiseFigure = sampleFresh.m_noiseFigure ∧
      h1.m_numRxAntennas = sampleFresh.m_numRxAntennas :=
  C22_AddBand_registers_band_with_sentinel sampleFresh (2, 3)
    (Constructed.addBand (InterferenceHelper.create 1) sampleFresh sampleBand
      (Constructed.create 1) (by decide))
    (by decide)

/-- C23: AddBand fails exactly when the band is already registered; hence a second
AddBand of the same band right after a successful one fails, and after RemoveBands
AddBand succeeds for every band. -/
theorem C23_AddBand_fails_iff_band_registered (h : InterferenceHelper)
    (band : WifiSpectrumBand) :
    (h.AddBand band = none ↔ ∃ ni, mapFind h.m_niChangesPerBand band = some ni) ∧
    (∀ h1, h.AddBand band = some h1 → h1.AddBand band = none) ∧
    (∀ b, ∃ h1, h.RemoveBands.AddBand b = some h1) := by
  refine ⟨AddBand_none_iff h band, ?_, ?_⟩
  · intro h1 hadd
    rw [AddBand_none_iff]
    exact ⟨_, (AddBand_registers h h1 band hadd).2.1⟩
  · intro b
    cases hadd : h.RemoveBands.AddBand b with
    | none =>
      obtain ⟨ni, hni⟩ := (AddBand_none_iff _ b).mp hadd
      simp [RemoveBands, mapFind] at hni
    | some h1 => exact ⟨h1, rfl⟩

/-- The loop of `AppendEvent` fails as soon as one band of the power map has no timeline:
the passes before it keep the set of registered bands. -/
theorem AppendEvent_fold_unregistered (event : Event) :
    ∀ (l : RxPowerWattPerChannelBand) (h : InterferenceHelper),
      (∃ it ∈ l, mapFind h.m_niChangesPerBand it.1 = none) →
      l.foldlM (appendEventBand event) h = none := by
  intro l
  induction l with
  | nil =>
    intro h hex
    obtain ⟨it, hit, -⟩ := hex
    simp at hit
  | cons a rest ih =>
    intro h hex
    simp only [List.foldlM_cons, bind]
    cases hstep : appendEventBand event h a with
    | none => rfl
    | some h2 =>
      obtain ⟨ni, ni1, ps, hf, -, -, hni, -⟩ := appendEventBand_spec event h h2 a hstep
      show List.foldlM (appendEventBand event) h2 rest = none
      apply ih h2
      obtain ⟨it, hit, hnone⟩ := hex
      rcases List.mem_cons.mp hit with rfl | hrest
      · rw [hf] at hnone
        simp at hnone
      · refine ⟨it, hrest, ?_⟩
        rw [hni]
        exact (mapFind_mapAssign_none _ _ _ _).mpr hnone

/-- C24: every operation that looks a band up fails when the band is not registered: Add of
an event whose power map contains an unregistered band, GetEnergyDuration for an
unregistered band and CalculateNoiseInterferenceW for an unregistered band return
nothing, whatever their other arguments. -/
theorem C24_lookup_of_unregistered_band_fails (h : InterferenceHelper)
    (band : WifiSpectrumBand) (hunreg : mapFind h.m_niChangesPerBand band = none) :
    (∀ now addr ppdu txVector duration (rxPowerW : RxPowerWattPerChannelBand),
      (∃ it ∈ rxPowerW, it.1 = band) →
      h.Add now addr ppdu txVector duration rxPowerW = none) ∧
    (∀ now energyW, h.GetEnergyDuration now energyW band = none) ∧
    (∀ now event nis, h.CalculateNoiseInterferenceW now event nis band = none) := by
  refine ⟨?_, ?_, ?_⟩
  · intro now addr ppdu txVector duration rxPowerW hex
    obtain ⟨it, hit, hband⟩ := hex
    have hfold := AppendEvent_fold_unregistered
      (Event.create now addr ppdu txVector duration rxPowerW) rxPowerW h
      ⟨it, hit, by rw [hband]; exact hunreg⟩
    have hpow : (Event.create now addr ppdu txVector duration rxPowerW).m_rxPowerW
        = rxPowerW := rfl
    unfold InterferenceHelper.Add AppendEvent
    simp only [hpow, hfold]
  · intro now energyW
    unfold GetEnergyDuration GetPreviousPosition GetNextPosition
    simp [hunreg]
  · intro now event nis
    unfold CalculateNoiseInterferenceW
    simp only [hunreg]
    cases mapFind h.m_firstPowerPerBand band with
    | none => rfl
    | some f => rfl

/-- Witness of C24: the band (2, 3) is not registered on the sample helper. -/
theorem C24_lookup_of_unregistered_band_fails_witness :
    (∀ now addr ppdu txVector duration (rxPowerW : RxPowerWattPerChannelBand),
      (∃ it ∈ rxPowerW, it.1 = (2, 3)) →
      sampleFresh.Add now addr ppdu txVector duration rxPowerW = none) ∧
    (∀ now energyW, sampleFresh.GetEnergyDuration now energyW (2, 3) = none) ∧
    (∀ now event nis, sampleFresh.CalculateNoiseInterferenceW now event nis (2, 3) = none) :=
  C24_lookup_of_unregistered_band_fails sampleFresh (2, 3) (by decide)

theorem usableWidthLoop_eq_find (phy : PhyView) (width : Nat) :
    usableWidthLoop phy width = ((halvingSequence width).find?
      (fun w => decide (phy.GetDelaySinceChannelIsIdle w ≥ phy.GetPifs))).getD 20 := by
  induction width using Nat.strong_induction_on with
  | _ width ih =>
    rw [usableWidthLoop, halvingSequence]
    by_cases hw : width > 20
    · simp only [hw, if_true]
      by_cases hd : phy.GetDelaySinceChannelIsIdle width ≥ phy.GetPifs
      · simp [hd]
      · simp only [hd, if_false]
        rw [ih (width / 2) (by omega)]
        simp [hd]
    · simp [hw]

/-- C26: GetUsableChannelWidth returns the width of the PHY when it is below 40 MHz and
otherwise the first width of the halving sequence (width, width / 2, ... while above 20)
for which the channel has been idle for at least PIFS, 20 when there is none; a 40 MHz PHY
gets 40 exactly when the delay since its 40 MHz channel is idle is at least PIFS, and 20
otherwise. -/
theorem C26_usable_width_is_first_idle_width_of_halving_sequence (phy : PhyView) :
    GetUsableChannelWidth phy = usableWidthSpec phy ∧
    (phy.GetChannelWidth < 40 → GetUsableChannelWidth phy = phy.GetChannelWidth) ∧
    (phy.GetChannelWidth = 40 →
      (phy.GetDelaySinceChannelIsIdle 40 ≥ phy.GetPifs → GetUsableChannelWidth phy = 40) ∧
      (¬ phy.GetDelaySinceChannelIsIdle 40 ≥ phy.GetPifs → GetUsableChannelWidth phy = 20)) := by
  refine ⟨?_, ?_, ?_⟩
  · unfold GetUsableChannelWidth usableWidthSpec
    rw [usableWidthLoop_eq_find]
  · intro hlt
    simp [GetUsableChannelWidth, hlt]
  · intro h40
    unfold GetUsableChannelWidth
    rw [h40]
    constructor
    · intro hd
      rw [usableWidthLoop]
      simp [hd]
    · intro hd
      rw [usableWidthLoop]
      simp only [hd, if_false]
      rw [usableWidthLoop]
      simp

/-- A pass of the loop of `AppendEvent` keeps the noise figure and the number of antennas,
and so does the whole loop. -/
theorem appendEventBand_fold_params (event : Event) (l : RxPowerWattPerChannelBand)
    (h h1 : InterferenceHelper) (hfold : l.foldlM (appendEventBand event) h = some h1) :
    h1.m_noiseFigure = h.m_noiseFigure ∧ h1.m_numRxAntennas = h.m_numRxAntennas := by
  refine foldlM_inv (appendEventBand event)
    (fun x => x.m_noiseFigure = h.m_noiseFigure ∧ x.m_numRxAntennas = h.m_numRxAntennas)
    ?_ l h h1 ⟨rfl, rfl⟩ hfold
  intro b a b1 hb hstep
  obtain ⟨ni, ni1, ps, -, -, -, -, -, -, hnf, hant, -⟩ := appendEventBand_spec event b b1 a hstep
  exact ⟨hnf.trans hb.1, hant.trans hb.2⟩

theorem CalculateSnr_congr (h h1 : InterferenceHelper)
    (hnf : h1.m_noiseFigure = h.m_noiseFigure) (signal noise : ℚ) (channelWidth : Nat) :
    h1.CalculateSnr signal noise channelWidth = h.CalculateSnr signal noise channelWidth := by
  unfold CalculateSnr
  rw [hnf]

theorem CalculatePayloadChunkSuccessRate_congr (h h1 : InterferenceHelper)
    (hant : h1.m_numRxAntennas = h.m_numRxAntennas) (c : Collaborators) (snir : ℚ)
    (duration : Time) (txVector : WifiTxVector) (staId : Nat) :
    h1.CalculatePayloadChunkSuccessRate c snir duration txVector staId =
      h.CalculatePayloadChunkSuccessRate c snir duration txVector staId := by
  unfold CalculatePayloadChunkSuccessRate
  rw [hant]

theorem payloadPerLoop_congr (h h1 : InterferenceHelper)
    (hnf : h1.m_noiseFigure = h.m_noiseFigure) (hant : h1.m_numRxAntennas = h.m_numRxAntennas)
    (c : Collaborators) (txVector : WifiTxVector) (staId channelWidth : Nat)
    (windowStart windowEnd : Time) (powerW : ℚ) :
    ∀ (l : NiChanges) (previous : Time) (noise psr : ℚ),
      h1.payloadPerLoop c txVector staId channelWidth windowStart windowEnd powerW l previous
          noise psr =
        h.payloadPerLoop c txVector staId channelWidth windowStart windowEnd powerW l previous
          noise psr := by
  intro l
  induction l with
  | nil =>
    intro previous noise psr
    rfl
  | cons j rest ih =>
    intro previous noise psr
    unfold payloadPerLoop
    simp only [CalculateSnr_congr h h1 hnf, CalculatePayloadChunkSuccessRate_congr h h1 hant, ih]

theorem phyHeaderPerLoop_congr (h h1 : InterferenceHelper)
    (hnf : h1.m_noiseFigure = h.m_noiseFigure)
    (c : Collaborators) (txVector : WifiTxVector) (channelWidth : Nat) (powerW : ℚ)
    (chunks : Time → Time → Option (List (Time × WifiMode))) :
    ∀ (l : NiChanges) (previous : Time) (noise psr : ℚ),
      h1.phyHeaderPerLoop c txVector channelWidth powerW chunks l previous noise psr =
        h.phyHeaderPerLoop c txVector channelWidth powerW chunks l previous noise psr := by
  intro l
  induction l with
  | nil =>
    intro previous noise psr
    rfl
  | cons j rest ih =>
    intro previous noise psr
    unfold phyHeaderPerLoop
    simp only [CalculateSnr_congr h h1 hnf, ih]
    rfl

/-- The queries on a band read the helper only through the timeline and the first power
of the band, the noise figure and the number of antennas. -/
theorem band_queries_congr (h h1 : InterferenceHelper) (band : WifiSpectrumBand)
    (hni : mapFind h1.m_niChangesPerBand band = mapFind h.m_niChangesPerBand band)
    (hfp : mapFind h1.m_firstPowerPerBand band = mapFind h.m_firstPowerPerBand band)
    (hnf : h1.m_noiseFigure = h.m_noiseFigure)
    (hant : h1.m_numRxAntennas = h.m_numRxAntennas) :
    (∀ now energyW, h1.GetEnergyDuration now energyW band = h.GetEnergyDuration now energyW band) ∧
    (∀ now event nis, h1.CalculateNoiseInterferenceW now event nis band =
      h.CalculateNoiseInterferenceW now event nis band) ∧
    (∀ c event nis staId window, h1.CalculatePayloadPer c event nis band staId window =
      h.CalculatePayloadPer c event nis band staId window) ∧
    (∀ c m event nis, h1.CalculateLegacyPhyHeaderPer c m event nis band =
      h.CalculateLegacyPhyHeaderPer c m event nis band) ∧
    (∀ c m event nis, h1.CalculateNonLegacyPhyHeaderPer c m event nis band =
      h.CalculateNonLegacyPhyHeaderPer c m event nis band) := by
  refine ⟨?_, ?_, ?_, ?_, ?_⟩
  · intro now energyW
    unfold GetEnergyDuration GetPreviousPosition GetNextPosition
    rw [hni]
  · intro now event nis
    unfold CalculateNoiseInterferenceW
    rw [hni, hfp]
  · intro c event nis staId window
    unfold CalculatePayloadPer
    simp only [hfp, payloadPerLoop_congr h h1 hnf hant]
  · intro c m event nis
    unfold CalculateLegacyPhyHeaderPer
    simp only [hfp, phyHeaderPerLoop_congr h h1 hnf]
  · intro c m event nis
    unfold CalculateNonLegacyPhyHeaderPer
    simp only [hfp, phyHeaderPerLoop_congr h h1 hnf]

/-- C25: an Add of an event whose power map does not contain the band leaves the timeline
and the first power of the band unchanged, so that GetEnergyDuration,
CalculateNoiseInterferenceW, the three PER functions and the SNR and PER entry points
return for that band, for all their other arguments, what they returned before the Add. -/
theorem C25_bands_are_accounted_independently (h h1 : InterferenceHelper) (now : Time)
    (addr ppdu : Nat) (txVector : WifiTxVector) (duration : Time)
    (rxPowerW : RxPowerWattPerChannelBand) (event : Event) (band : WifiSpectrumBand)
    (hadd : h.Add now addr ppdu txVector duration rxPowerW = some (h1, event))
    (hband : ∀ it ∈ rxPowerW, it.1 ≠ band) :
    mapFind h1.m_niChangesPerBand band = mapFind h.m_niChangesPerBand band ∧
    mapFind h1.m_firstPowerPerBand band = mapFind h.m_firstPowerPerBand band ∧
    (∀ t energyW, h1.GetEnergyDuration t energyW band = h.GetEnergyDuration t energyW band) ∧
    (∀ t ev nis, h1.CalculateNoiseInterferenceW t ev nis band =
      h.CalculateNoiseInterferenceW t ev nis band) ∧
    (∀ c ev nis staId window, h1.CalculatePayloadPer c ev nis band staId window =
      h.CalculatePayloadPer c ev nis band staId window) ∧
    (∀ c m ev nis, h1.CalculateLegacyPhyHeaderPer c m ev nis band =
      h.CalculateLegacyPhyHeaderPer c m ev nis band) ∧
    (∀ c m ev nis, h1.CalculateNonLegacyPhyHeaderPer c m ev nis band =
      h.CalculateNonLegacyPhyHeaderPer c m ev nis band) ∧
    (∀ c t ev channelWidth staId window,
      h1.CalculatePayloadSnrPer c t ev channelWidth band staId window =
        h.CalculatePayloadSnrPer c t ev channelWidth band staId window) ∧
    (∀ t ev channelWidth, h1.CalculateSnrOfEvent t ev channelWidth band =
      h.CalculateSnrOfEvent t ev channelWidth band) ∧
    (∀ c m t ev, h1.CalculateLegacyPhyHeaderSnrPer c m t ev band =
      h.CalculateLegacyPhyHeaderSnrPer c m t ev band) ∧
    (∀ c m t ev, h1.CalculateNonLegacyPhyHeaderSnrPer c m t ev band =
      h.CalculateNonLegacyPhyHeaderSnrPer c m t ev band) := by
  unfold InterferenceHelper.Add at hadd
  cases happ : h.AppendEvent (Event.create now addr ppdu txVector duration rxPowerW) with
  | none => simp [happ] at hadd
  | some h2 =>
    simp only [happ, Option.some.injEq, Prod.mk.injEq] at hadd
    obtain ⟨rfl, -⟩ := hadd
    unfold AppendEvent at happ
    have hpow : (Event.create now addr ppdu txVector duration rxPowerW).m_rxPowerW
        = rxPowerW := rfl
    rw [hpow] at happ
    obtain ⟨hni, hfp, -⟩ := appendEventBand_fold_frame _ band rxPowerW h h2 hband happ
    obtain ⟨hnf, hant⟩ := appendEventBand_fold_params _ rxPowerW h h2 happ
    obtain ⟨hq1, hq2, hq3, hq4, hq5⟩ := band_queries_congr h h2 band hni hfp hnf hant
    refine ⟨hni, hfp, hq1, hq2, hq3, hq4, hq5, ?_, ?_, ?_, ?_⟩
    · intro c t ev channelWidth staId window
      unfold CalculatePayloadSnrPer
      simp only [hq2, hq3, CalculateSnr_congr h h2 hnf]
    · intro t ev channelWidth
      unfold CalculateSnrOfEvent
      simp only [hq2, CalculateSnr_congr h h2 hnf]
    · intro c m t ev
      unfold CalculateLegacyPhyHeaderSnrPer
      simp only [hq2, hq4, CalculateSnr_congr h h2 hnf]
    · intro c m t ev
      unfold CalculateNonLegacyPhyHeaderSnrPer
      simp only [hq2, hq5, CalculateSnr_congr h h2 hnf]

/-- Witness of C25: `samplePpdu` has power on `sampleBand` only; the band (2, 3) is not
affected by its Add. -/
theorem C25_bands_are_accounted_independently_witness :
    mapFind sampleTwoBandsInFlight.m_niChangesPerBand (2, 3) =
      mapFind sampleTwoBands.m_niChangesPerBand (2, 3) ∧
    mapFind sampleTwoBandsInFlight.m_firstPowerPerBand (2, 3) =
      mapFind sampleTwoBands.m_firstPowerPerBand (2, 3) ∧
    (∀ t energyW, sampleTwoBandsInFlight.GetEnergyDuration t energyW (2, 3) =
      sampleTwoBands.GetEnergyDuration t energyW (2, 3)) ∧
    (∀ t ev nis, sampleTwoBandsInFlight.CalculateNoiseInterferenceW t ev nis (2, 3) =
      sampleTwoBands.CalculateNoiseInterferenceW t ev nis (2, 3)) ∧
    (∀ c ev nis staId window,
      sampleTwoBandsInFlight.CalculatePayloadPer c ev nis (2, 3) staId window =
        sampleTwoBands.CalculatePayloadPer c ev nis (2, 3) staId window) ∧
    (∀ c m ev nis, sampleTwoBandsInFlight.CalculateLegacyPhyHeaderPer c m ev nis (2, 3) =
      sampleTwoBands.CalculateLegacyPhyHeaderPer c m ev nis (2, 3)) ∧
    (∀ c m ev nis, sampleTwoBandsInFlight.CalculateNonLegacyPhyHeaderPer c m ev nis (2, 3) =
      sampleTwoBands.CalculateNonLegacyPhyHeaderPer c m ev nis (2, 3)) ∧
    (∀ c t ev channelWidth staId window,
      sampleTwoBandsInFlight.CalculatePayloadSnrPer c t ev channelWidth (2, 3) staId window =
        sampleTwoBands.CalculatePayloadSnrPer c t ev channelWidth (2, 3) staId window) ∧
    (∀ t ev channelWidth, sampleTwoBandsInFlight.CalculateSnrOfEvent t ev channelWidth (2, 3) =
      sampleTwoBands.CalculateSnrOfEvent t ev channelWidth (2, 3)) ∧
    (∀ c m t ev, sampleTwoBandsInFlight.CalculateLegacyPhyHeaderSnrPer c m t ev (2, 3) =
      sampleTwoBands.CalculateLegacyPhyHeaderSnrPer c m t ev (2, 3)) ∧
    (∀ c m t ev, sampleTwoBandsInFlight.CalculateNonLegacyPhyHeaderSnrPer c m t ev (2, 3) =
      sampleTwoBands.CalculateNonLegacyPhyHeaderSnrPer c m t ev (2, 3)) :=
  C25_bands_are_accounted_independently sampleTwoBands sampleTwoBandsInFlight 0 7 7
    { handle := 0 } 100 [(sampleBand, 3)] samplePpdu (2, 3) (by decide!) (by decide)

theorem insertAt_upper_bound_sorted (ni : NiChanges) (x : Time × NiChange)
    (hsorted : ni.Pairwise (fun a b => a.1 ≤ b.1)) :
    (insertAt ni (upper_bound ni x.1) x).Pairwise (fun a b => a.1 ≤ b.1) := by
  unfold insertAt
  rw [List.pairwise_append]
  refine ⟨hsorted.sublist (List.take_sublist _ _), ?_, ?_⟩
  · rw [List.pairwise_cons]
    exact ⟨fun b hb => le_of_lt (upper_bound_drop_gt ni x.1 hsorted b hb),
      hsorted.sublist (List.drop_sublist _ _)⟩
  · intro a ha b hb
    have hale := upper_bound_take_le ni x.1 a ha
    rcases List.mem_cons.mp hb with rfl | hb
    · exact hale
    · exact le_trans hale (le_of_lt (upper_bound_drop_gt ni x.1 hsorted b hb))

theorem insertAt_ne_nil (ni : NiChanges) (pos : Nat) (x : Time × NiChange) :
    insertAt ni pos x ≠ [] := by
  unfold insertAt
  simp

theorem copyUntilEvent_sorted (event : Event) :
    ∀ (rest ni : NiChanges), ni.Pairwise (fun a b => a.1 ≤ b.1) →
      (copyUntilEvent event rest ni).Pairwise (fun a b => a.1 ≤ b.1) := by
  intro rest
  induction rest with
  | nil =>
    intro ni hni
    exact hni
  | cons it rest ih =>
    intro ni hni
    unfold copyUntilEvent
    split
    · exact hni
    · exact ih _ (insertAt_upper_bound_sorted ni it hni)

/-- The local timeline, when it is built, is not empty and ordered by timestamp, whatever
the order of the timeline of the band: its records go through `std::multimap::insert`. -/
theorem localTimeline_sorted (event : Event) (niBand ni : NiChanges)
    (hl : localTimeline event niBand = some ni) :
    ni ≠ [] ∧ ni.Pairwise (fun a b => a.1 ≤ b.1) := by
  unfold localTimeline at hl
  simp only [] at hl
  split at hl
  · simp at hl
  · split at hl
    · simp at hl
    · rename_i rest hrest
      simp only [Option.some.injEq] at hl
      subst hl
      refine ⟨insertAt_ne_nil _ _ _, ?_⟩
      apply insertAt_upper_bound_sorted _ (event.GetEndTime, _)
      apply copyUntilEvent_sorted
      apply insertAt_upper_bound_sorted [] (event.GetStartTime, _)
      exact List.Pairwise.nil

theorem multimapFind_mem (ni : NiChanges) (t : Time) :
    ∀ r ∈ ni, r.1 = t → multimapFind ni t < ni.length ∧ r ∈ ni.drop (multimapFind ni t) := by
  induction ni with
  | nil =>
    intro r hr
    simp at hr
  | cons x rest ih =>
    intro r hr hrt
    by_cases hx : x.1 = t
    · simp only [multimapFind, hx, if_true, List.drop_zero]
      exact ⟨by simp, hr⟩
    · rcases List.mem_cons.mp hr with rfl | hrest
      · exact absurd hrt hx
      · obtain ⟨hlt, hmem⟩ := ih r hrest hrt
        simp only [multimapFind, hx, if_false, List.length_cons, List.drop_succ_cons]
        exact ⟨by omega, hmem⟩

theorem skipToEvent_some (event : Event) :
    ∀ (l : NiChanges), (∃ r ∈ l, sameEvent r.2 event = true) →
      ∃ rest, skipToEvent event l = some rest := by
  intro l
  induction l with
  | nil =>
    intro hex
    obtain ⟨r, hr, -⟩ := hex
    simp at hr
  | cons x rest ih =>
    intro hex
    unfold skipToEvent
    by_cases hx : sameEvent x.2 event = true
    · simp [hx]
    · simp only [hx]
      obtain ⟨r, hr, hre⟩ := hex
      rcases List.mem_cons.mp hr with rfl | hrest
      · exact absurd hre hx
      · simpa using ih ⟨r, hrest, hre⟩

/-- The local timeline is built whenever the timeline of the band holds a record of the
event stamped with its start time. -/
theorem localTimeline_some (event : Event) (niBand : NiChanges)
    (hstart : ∃ r ∈ niBand, r.1 = event.GetStartTime ∧ sameEvent r.2 event = true) :
    ∃ ni, localTimeline event niBand = some ni := by
  obtain ⟨r, hr, hrt, hre⟩ := hstart
  obtain ⟨hlt, hmem⟩ := multimapFind_mem niBand event.GetStartTime r hr hrt
  obtain ⟨rest, hrest⟩ := skipToEvent_some event _ ⟨r, hmem, hre⟩
  unfold localTimeline
  have hne : ¬ multimapFind niBand event.GetStartTime = niBand.length := by omega
  simp only [hne, if_false, hrest]
  exact ⟨_, rfl⟩

/-- On a local timeline ordered by timestamp the ordering assertion of the three PER
functions never fails: `CalculatePayloadPer` returns, and each header function returns
unless an assertion on the preamble fails in the body of its loop. -/
theorem per_functions_return_on_sorted (h : InterferenceHelper) (c : Collaborators)
    (m : PhyHeaderModes) (event : Event) (nis : NiChangesPerBand) (band : WifiSpectrumBand)
    (j : Time × NiChange) (rest : NiChanges) (f powerW : ℚ)
    (hnis : mapFind nis band = some (j :: rest))
    (hsorted : (j :: rest).Pairwise (fun a b => a.1 ≤ b.1))
    (hfp : mapFind h.m_firstPowerPerBand band = some f)
    (hpow : event.GetRxPowerW band = some powerW) :
    (∀ staId window, ∃ per, h.CalculatePayloadPer c event nis band staId window = some per) ∧
    ((∀ previous current, previous ≤ current →
        ∃ l, legacyHeaderChunks (c.GetPreambleType event.GetTxVector)
          (m.GetPlcpHeaderMode event.GetTxVector)
          (j.1 + c.GetPlcpPreambleDuration event.GetTxVector)
          (sigStart c event.GetTxVector j.1) (trainingStart c event.GetTxVector j.1)
          (payloadStart c event.GetTxVector j.1) previous current = some l) →
      ∃ per, h.CalculateLegacyPhyHeaderPer c m event nis band = some per) ∧
    ((∀ previous current, previous ≤ current →
        ∃ l, nonLegacyHeaderChunks m (c.GetPreambleType event.GetTxVector)
          (selectMcsHeaderMode m (c.GetPreambleType event.GetTxVector))
          (m.GetPlcpHeaderMode event.GetTxVector)
          (j.1 + c.GetPlcpPreambleDuration event.GetTxVector)
          (sigStart c event.GetTxVector j.1) (trainingStart c event.GetTxVector j.1)
          (payloadStart c event.GetTxVector j.1) previous current = some l) →
      ∃ per, h.CalculateNonLegacyPhyHeaderPer c m event nis band = some per) := by
  rw [List.pairwise_cons] at hsorted
  refine ⟨?_, ?_, ?_⟩
  · intro staId window
    obtain ⟨w, hw⟩ := payloadPerWalk_total h (c.GetChannelWidth event.GetTxVector)
      (payloadStart c event.GetTxVector j.1 + window.1)
      (payloadStart c event.GetTxVector j.1 + window.2) powerW rest j.1 f hsorted.1
      hsorted.2
    have hq : h.payloadPerQueries c event nis band window = some w := by
      unfold payloadPerQueries
      simp only [hnis, hfp, hpow]
      exact hw
    rw [CalculatePayloadPer_eq_queries, hq]
    exact ⟨_, rfl⟩
  · intro hbody
    obtain ⟨gs, -, hgw, -⟩ := phyHeaderWalk_groups h
      (if c.GetChannelWidth event.GetTxVector ≥ 40 then 20
        else c.GetChannelWidth event.GetTxVector) powerW _ (fun _ _ _ => True)
      (fun previous current hpc => by
        obtain ⟨l, hl⟩ := hbody previous current hpc
        exact ⟨l, hl, trivial⟩)
      rest j.1 f hsorted.1 hsorted.2
    have hq : h.legacyHeaderQueries c m event nis band = some (gs.flatMap groupQueries) := by
      unfold legacyHeaderQueries
      simp only [hnis, hfp, hpow]
      exact hgw
    rw [CalculateLegacyPhyHeaderPer_eq_queries, hq]
    exact ⟨_, rfl⟩
  · intro hbody
    obtain ⟨gs, -, hgw, -⟩ := phyHeaderWalk_groups h
      (if c.GetChannelWidth event.GetTxVector ≥ 40 then 20
        else c.GetChannelWidth event.GetTxVector) powerW _ (fun _ _ _ => True)
      (fun previous current hpc => by
        obtain ⟨l, hl⟩ := hbody previous current hpc
        exact ⟨l, hl, trivial⟩)
      rest j.1 f hsorted.1 hsorted.2
    have hq : h.nonLegacyHeaderQueries c m event nis band
        = some (gs.flatMap groupQueries) := by
      unfold nonLegacyHeaderQueries
      simp only [hnis, hfp, hpow]
      exact hgw
    rw [CalculateNonLegacyPhyHeaderPer_eq_queries, hq]
    exact ⟨_, rfl⟩

/-- C21: whenever the timeline of the band holds the start record of the event,
CalculateNoiseInterferenceW builds a local timeline that is not empty and ordered by
timestamp (its records are inserted into a multimap), and this is the timeline stored under
the band in the map it fills. On it the ordering assertion (current >= previous) of the PER
functions never fails: CalculatePayloadPer returns, and each header function returns
unless an assertion on the preamble fails in the body of its loop. -/
theorem C21_local_timeline_is_ordered_by_timestamp (h : InterferenceHelper)
    (c : Collaborators) (m : PhyHeaderModes) (now : Time) (event : Event)
    (band : WifiSpectrumBand) (niBand : NiChanges)
    (hreg : mapFind h.m_niChangesPerBand band = some niBand)
    (hstart : ∃ r ∈ niBand, r.1 = event.GetStartTime ∧ sameEvent r.2 event = true) :
    ∃ j rest, localTimeline event niBand = some (j :: rest) ∧
      (j :: rest).Pairwise (fun a b => a.1 ≤ b.1) ∧
      (∀ noise nis1, h.CalculateNoiseInterferenceW now event [] band = some (noise, nis1) →
        nis1 = [(band, j :: rest)]) ∧
      (∀ f powerW, mapFind h.m_firstPowerPerBand band = some f →
        event.GetRxPowerW band = some powerW →
        (∀ staId window, ∃ per,
          h.CalculatePayloadPer c event [(band, j :: rest)] band staId window = some per) ∧
        ((∀ previous current, previous ≤ current →
            ∃ l, legacyHeaderChunks (c.GetPreambleType event.GetTxVector)
              (m.GetPlcpHeaderMode event.GetTxVector)
              (j.1 + c.GetPlcpPreambleDuration event.GetTxVector)
              (sigStart c event.GetTxVector j.1) (trainingStart c event.GetTxVector j.1)
              (payloadStart c event.GetTxVector j.1) previous current = some l) →
          ∃ per, h.CalculateLegacyPhyHeaderPer c m event [(band, j :: rest)] band = some per) ∧
        ((∀ previous current, previous ≤ current →
            ∃ l, nonLegacyHeaderChunks m (c.GetPreambleType event.GetTxVector)
              (selectMcsHeaderMode m (c.GetPreambleType event.GetTxVector))
              (m.GetPlcpHeaderMode event.GetTxVector)
              (j.1 + c.GetPlcpPreambleDuration event.GetTxVector)
              (sigStart c event.GetTxVector j.1) (trainingStart c event.GetTxVector j.1)
              (payloadStart c event.GetTxVector j.1) previous current = some l) →
          ∃ per,
            h.CalculateNonLegacyPhyHeaderPer c m event [(band, j :: rest)] band = some per)) := by
  obtain ⟨ni, hni⟩ := localTimeline_some event niBand hstart
  obtain ⟨hne, hsorted⟩ := localTimeline_sorted event niBand ni hni
  cases ni with
  | nil => exact absurd rfl hne
  | cons j rest =>
    refine ⟨j, rest, hni, hsorted, ?_, ?_⟩
    · intro noise nis1 hcalc
      unfold CalculateNoiseInterferenceW at hcalc
      simp only [hreg, hni] at hcalc
      cases hfp : mapFind h.m_firstPowerPerBand band with
      | none => simp [hfp] at hcalc
      | some f =>
        simp only [hfp] at hcalc
        cases hscan : noiseScan now event band
            (niBand.drop (multimapFind niBand event.GetStartTime)) f with
        | none => simp [hscan] at hcalc
        | some x =>
          simp only [hscan] at hcalc
          split at hcalc
          · simp only [Option.some.injEq, Prod.mk.injEq] at hcalc
            rw [← hcalc.2]
            rfl
          · simp at hcalc
    · intro f powerW hfp hpow
      exact per_functions_return_on_sorted h c m event [(band, j :: rest)] band j rest f powerW
        (by simp [mapFind]) hsorted hfp hpow

/-- Witness of C21: the local timeline of `samplePpdu` while `sampleInterferer` overlaps
it, asked at time 50. -/
theorem C21_local_timeline_is_ordered_by_timestamp_witness :
    ∃ j rest, localTimeline samplePpdu sampleInterferedTimeline = some (j :: rest) ∧
      (j :: rest).Pairwise (fun a b => a.1 ≤ b.1) ∧
      (∀ noise nis1,
        sampleInterfered.CalculateNoiseInterferenceW 50 samplePpdu [] sampleBand
          = some (noise, nis1) →
        nis1 = [(sampleBand, j :: rest)]) ∧
      (∀ f powerW, mapFind sampleInterfered.m_firstPowerPerBand sampleBand = some f →
        samplePpdu.GetRxPowerW sampleBand = some powerW →
        (∀ staId window, ∃ per,
          sampleInterfered.CalculatePayloadPer sampleCollaborators samplePpdu
            [(sampleBand, j :: rest)] sampleBand staId window = some per) ∧
        ((∀ previous current, previous ≤ current →
            ∃ l, legacyHeaderChunks (sampleCollaborators.GetPreambleType samplePpdu.GetTxVector)
              (sampleModes.GetPlcpHeaderMode samplePpdu.GetTxVector)
              (j.1 + sampleCollaborators.GetPlcpPreambleDuration samplePpdu.GetTxVector)
              (sigStart sampleCollaborators samplePpdu.GetTxVector j.1)
              (trainingStart sampleCollaborators samplePpdu.GetTxVector j.1)
              (payloadStart sampleCollaborators samplePpdu.GetTxVector j.1) previous current
              = some l) →
          ∃ per, sampleInterfered.CalculateLegacyPhyHeaderPer sampleCollaborators sampleModes
            samplePpdu [(sampleBand, j :: rest)] sampleBand = some per) ∧
        ((∀ previous current, previous ≤ current →
            ∃ l, nonLegacyHeaderChunks sampleModes
              (sampleCollaborators.GetPreambleType samplePpdu.GetTxVector)
              (selectMcsHeaderMode sampleModes
                (sampleCollaborators.GetPreambleType samplePpdu.GetTxVector))
              (sampleModes.GetPlcpHeaderMode samplePpdu.GetTxVector)
              (j.1 + sampleCollaborators.GetPlcpPreambleDuration samplePpdu.GetTxVector)
              (sigStart sampleCollaborators samplePpdu.GetTxVector j.1)
              (trainingStart sampleCollaborators samplePpdu.GetTxVector j.1)
              (payloadStart sampleCollaborators samplePpdu.GetTxVector j.1) previous current
              = some l) →
          ∃ per, sampleInterfered.CalculateNonLegacyPhyHeaderPer sampleCollaborators
            sampleModes samplePpdu [(sampleBand, j :: rest)] sampleBand = some per)) :=
  C21_local_timeline_is_ordered_by_timestamp sampleInterfered sampleCollaborators sampleModes
    50 samplePpdu sampleBand sampleInterferedTimeline (by decide)
    ⟨(0, { m_power := 3, m_event := some samplePpdu }), by decide, by decide, by decide⟩

theorem legacy_shape_one (d e : Time) (hdr : WifiMode) (h : e = d) :
    [(d, hdr)].filter nonZeroChunk = [(e, hdr)].filter nonZeroChunk := by
  rw [h]

theorem legacy_shape_none (e : Time) (hdr : WifiMode) (h : e = 0) :
    ([] : List (Time × WifiMode)).filter nonZeroChunk = [(e, hdr)].filter nonZeroChunk := by
  rw [h]
  simp [List.filter, nonZeroChunk]

set_option maxHeartbeats 4000000 in
/-- The body of the loop of `CalculateLegacyPhyHeaderPer` charges the interval
[previous, current) one chunk at the header mode for its overlap with [H, S), the L-SIG
phase, and nothing when the overlap is empty. A LONG or SHORT preamble has no phase after
the L-SIG (S = T = P) and a greenfield preamble no L-SIG (H = S). -/
theorem legacyHeaderChunks_overlap (preamble : WifiPreamble) (hdr : WifiMode)
    (H S T P previous current : Time)
    (hls : isLongOrShort preamble = true → S = T ∧ T = P)
    (hgf : preamble = WifiPreamble.WIFI_PREAMBLE_HT_GF → H = S)
    (hHS : H ≤ S) (hST : S ≤ T) (hTP : T ≤ P) (hpc : previous ≤ current) :
    ∃ l, legacyHeaderChunks preamble hdr H S T P previous current = some l ∧
      l.filter nonZeroChunk = [(overlap previous current H S, hdr)].filter nonZeroChunk := by
  unfold legacyHeaderChunks
  split_ifs <;> first
    | (exfalso; have := hgf (by assumption); linarith)
    | (exfalso; have h3 := hls (by assumption); linarith [h3.1, h3.2])
    | exact ⟨_, rfl, legacy_shape_one _ _ _
        (by unfold overlap; simp only [max_def, min_def]; split_ifs <;> linarith)⟩
    | exact ⟨_, rfl, legacy_shape_none _ _
        (by unfold overlap; simp only [max_def, min_def]; split_ifs <;> linarith)⟩

/-- C30: on a local timeline ordered by timestamp, with field durations that are not
negative, no field after the L-SIG for a LONG or SHORT preamble and no L-SIG for a
greenfield one, CalculateLegacyPhyHeaderPer does not abort and evaluates, for each interval
[previous, current) of the timeline, at most one chunk of duration different from zero: a
chunk at the legacy header mode whose duration is the overlap of the interval with
[L-SIG start, L-SIG end), at the SNR of the interval. The SNR of the first interval is
computed from the first power of the band, the SNR of a later interval from the power of
the record at its start minus the power of the event. When the timeline spans the header
the overlaps add up to the L-SIG duration. -/
theorem C30_legacy_header_charges_lsig_overlap (h : InterferenceHelper)
    (c : Collaborators) (m : PhyHeaderModes) (event : Event) (nis : NiChangesPerBand)
    (band : WifiSpectrumBand) (j : Time × NiChange) (rest : NiChanges) (f powerW : ℚ)
    (hls : isLongOrShort (c.GetPreambleType event.GetTxVector) = true →
      c.GetPlcpHtSigHeaderDuration (c.GetPreambleType event.GetTxVector)
        + c.GetPlcpSigA1Duration (c.GetPreambleType event.GetTxVector)
        + c.GetPlcpSigA2Duration (c.GetPreambleType event.GetTxVector) = 0 ∧
      c.GetPlcpTrainingSymbolDuration event.GetTxVector
        + c.GetPlcpSigBDuration event.GetTxVector = 0)
    (hgf : c.GetPreambleType event.GetTxVector = WifiPreamble.WIFI_PREAMBLE_HT_GF →
      c.GetPlcpHeaderDuration event.GetTxVector = 0)
    (hPre : 0 ≤ c.GetPlcpPreambleDuration event.GetTxVector)
    (hHdr : 0 ≤ c.GetPlcpHeaderDuration event.GetTxVector)
    (hSig : 0 ≤ c.GetPlcpHtSigHeaderDuration (c.GetPreambleType event.GetTxVector)
      + c.GetPlcpSigA1Duration (c.GetPreambleType event.GetTxVector)
      + c.GetPlcpSigA2Duration (c.GetPreambleType event.GetTxVector))
    (hTr : 0 ≤ c.GetPlcpTrainingSymbolDuration event.GetTxVector
      + c.GetPlcpSigBDuration event.GetTxVector)
    (hnis : mapFind nis band = some (j :: rest))
    (hsorted : (j :: rest).Pairwise (fun a b => a.1 ≤ b.1))
    (hfp : mapFind h.m_firstPowerPerBand band = some f)
    (hpow : event.GetRxPowerW band = some powerW) :
    ∃ gs : List ((Time × Time × ℚ) × List (Time × WifiMode)),
      gs.map Prod.fst = h.walkIntervals
        (if c.GetChannelWidth event.GetTxVector ≥ 40 then 20
          else c.GetChannelWidth event.GetTxVector) powerW rest j.1 f ∧
      h.legacyHeaderQueries c m event nis band = some (gs.flatMap groupQueries) ∧
      h.CalculateLegacyPhyHeaderPer c m event nis band =
        some (1 - ((gs.flatMap groupQueries).map (fun q =>
          h.CalculateChunkSuccessRate c q.1 q.2.1 q.2.2 event.GetTxVector)).prod) ∧
      (∀ g ∈ gs, g.2.filter nonZeroChunk =
        [(overlap g.1.1 g.1.2.1 (j.1 + c.GetPlcpPreambleDuration event.GetTxVector)
            (sigStart c event.GetTxVector j.1),
          m.GetPlcpHeaderMode event.GetTxVector)].filter nonZeroChunk) ∧
      (∀ k rest1, rest = k :: rest1 →
        h.walkIntervals
            (if c.GetChannelWidth event.GetTxVector ≥ 40 then 20
              else c.GetChannelWidth event.GetTxVector) powerW rest j.1 f =
          (j.1, k.1, h.CalculateSnr powerW f
              (if c.GetChannelWidth event.GetTxVector ≥ 40 then 20
                else c.GetChannelWidth event.GetTxVector)) ::
            h.walkIntervals
              (if c.GetChannelWidth event.GetTxVector ≥ 40 then 20
                else c.GetChannelWidth event.GetTxVector) powerW rest1 k.1
              (k.2.GetPower - powerW)) ∧
      (∀ last, (j :: rest).getLast? = some last →
        sigStart c event.GetTxVector j.1 ≤ last.1 →
        ((gs.map Prod.fst).map (fun iv => overlap iv.1 iv.2.1
            (j.1 + c.GetPlcpPreambleDuration event.GetTxVector)
            (sigStart c event.GetTxVector j.1))).sum
          = c.GetPlcpHeaderDuration event.GetTxVector) := by
  have hjH : j.1 ≤ j.1 + c.GetPlcpPreambleDuration event.GetTxVector := by linarith
  have hHS : j.1 + c.GetPlcpPreambleDuration event.GetTxVector
      ≤ sigStart c event.GetTxVector j.1 := by
    unfold sigStart
    linarith
  have hST : sigStart c event.GetTxVector j.1 ≤ trainingStart c event.GetTxVector j.1 := by
    unfold trainingStart
    linarith
  have hTP : trainingStart c event.GetTxVector j.1 ≤ payloadStart c event.GetTxVector j.1 := by
    unfold payloadStart
    linarith
  have hgf2 : c.GetPreambleType event.GetTxVector = WifiPreamble.WIFI_PREAMBLE_HT_GF →
      j.1 + c.GetPlcpPreambleDuration event.GetTxVector = sigStart c event.GetTxVector j.1 := by
    intro hp
    unfold sigStart
    rw [hgf hp, add_zero]
  have hls2 : isLongOrShort (c.GetPreambleType event.GetTxVector) = true →
      sigStart c event.GetTxVector j.1 = trainingStart c event.GetTxVector j.1 ∧
      trainingStart c event.GetTxVector j.1 = payloadStart c event.GetTxVector j.1 := by
    intro hp
    obtain ⟨h1, h2⟩ := hls hp
    constructor
    · unfold trainingStart
      linarith
    · unfold payloadStart
      linarith
  have hs := List.pairwise_cons.mp hsorted
  obtain ⟨gs, hgi, hgw, hgR⟩ := phyHeaderWalk_groups h
    (if c.GetChannelWidth event.GetTxVector ≥ 40 then 20
      else c.GetChannelWidth event.GetTxVector) powerW
    (legacyHeaderChunks (c.GetPreambleType event.GetTxVector)
      (m.GetPlcpHeaderMode event.GetTxVector)
      (j.1 + c.GetPlcpPreambleDuration event.GetTxVector)
      (sigStart c event.GetTxVector j.1) (trainingStart c event.GetTxVector j.1)
      (payloadStart c event.GetTxVector j.1))
    (fun previous current l =>
      l.filter nonZeroChunk =
        [(overlap previous current (j.1 + c.GetPlcpPreambleDuration event.GetTxVector)
            (sigStart c event.GetTxVector j.1),
          m.GetPlcpHeaderMode event.GetTxVector)].filter nonZeroChunk)
    (fun previous current hpc => legacyHeaderChunks_overlap _ _ _ _ _ _ previous current
      hls2 hgf2 hHS hST hTP hpc)
    rest j.1 f hs.1 hs.2
  have hq : h.legacyHeaderQueries c m event nis band = some (gs.flatMap groupQueries) := by
    unfold legacyHeaderQueries
    simp only [hnis, hfp, hpow]
    exact hgw
  refine ⟨gs, hgi, hq, ?_, hgR, ?_, ?_⟩
  · rw [CalculateLegacyPhyHeaderPer_eq_queries, hq]
    rfl
  · intro k rest1 hrest
    subst hrest
    rfl
  · intro last hlast hS
    rw [hgi, walkIntervals_overlap_span h _ powerW _ _ hHS j last rest f hsorted hlast hjH hS]
    unfold sigStart
    ring

/-- Witness of C30: the sample PPDU (LONG preamble of 16 ticks, L-SIG on [16, 20)) with
the sample interferer from 30 on. -/
theorem C30_legacy_header_charges_lsig_overlap_witness :
    ∃ gs : List ((Time × Time × ℚ) × List (Time × WifiMode)),
      gs.map Prod.fst = sampleInterfered.walkIntervals
        (if sampleCollaborators.GetChannelWidth samplePpdu.GetTxVector ≥ 40 then 20
          else sampleCollaborators.GetChannelWidth samplePpdu.GetTxVector) 3
        [(30, { m_power := 5, m_event := some sampleInterferer }),
         (60, { m_power := 3, m_event := some sampleInterferer }),
         (100, { m_power := 0, m_event := some samplePpdu })]
        (0 : Time) 0 ∧
      sampleInterfered.legacyHeaderQueries sampleCollaborators sampleModes samplePpdu
        sampleLocalSplit sampleBand = some (gs.flatMap groupQueries) ∧
      sampleInterfered.CalculateLegacyPhyHeaderPer sampleCollaborators sampleModes samplePpdu
          sampleLocalSplit sampleBand =
        some (1 - ((gs.flatMap groupQueries).map (fun q =>
          sampleInterfered.CalculateChunkSuccessRate sampleCollaborators q.1 q.2.1 q.2.2
            samplePpdu.GetTxVector)).prod) ∧
      (∀ g ∈ gs, g.2.filter nonZeroChunk =
        [(overlap g.1.1 g.1.2.1
            (0 + sampleCollaborators.GetPlcpPreambleDuration samplePpdu.GetTxVector)
            (sigStart sampleCollaborators samplePpdu.GetTxVector 0),
          sampleModes.GetPlcpHeaderMode samplePpdu.GetTxVector)].filter nonZeroChunk) ∧
      (∀ k rest1,
        [((30 : Time), ({ m_power := 5, m_event := some sampleInterferer } : NiChange)),
         (60, { m_power := 3, m_event := some sampleInterferer }),
         (100, { m_power := 0, m_event := some samplePpdu })] = k :: rest1 →
        sampleInterfered.walkIntervals
            (if sampleCollaborators.GetChannelWidth samplePpdu.GetTxVector ≥ 40 then 20
              else sampleCollaborators.GetChannelWidth samplePpdu.GetTxVector) 3
            [(30, { m_power := 5, m_event := some sampleInterferer }),
             (60, { m_power := 3, m_event := some sampleInterferer }),
             (100, { m_power := 0, m_event := some samplePpdu })]
            (0 : Time) 0 =
          ((0 : Time), k.1, sampleInterfered.CalculateSnr 3 0
              (if sampleCollaborators.GetChannelWidth samplePpdu.GetTxVector ≥ 40 then 20
                else sampleCollaborators.GetChannelWidth samplePpdu.GetTxVector)) ::
            sampleInterfered.walkIntervals
              (if sampleCollaborators.GetChannelWidth samplePpdu.GetTxVector ≥ 40 then 20
                else sampleCollaborators.GetChannelWidth samplePpdu.GetTxVector) 3 rest1 k.1
              (k.2.GetPower - 3)) ∧
      (∀ last,
        [((0 : Time), ({ m_power := 0, m_event := some samplePpdu } : NiChange)),
         (30, { m_power := 5, m_event := some sampleInterferer }),
         (60, { m_power := 3, m_event := some sampleInterferer }),
         (100, { m_power := 0, m_event := some samplePpdu })].getLast? = some last →
        sigStart sampleCollaborators samplePpdu.GetTxVector 0 ≤ last.1 →
        ((gs.map Prod.fst).map (fun iv => overlap iv.1 iv.2.1
            (0 + sampleCollaborators.GetPlcpPreambleDuration samplePpdu.GetTxVector)
            (sigStart sampleCollaborators samplePpdu.GetTxVector 0))).sum
          = sampleCollaborators.GetPlcpHeaderDuration samplePpdu.GetTxVector) :=
  C30_legacy_header_charges_lsig_overlap sampleInterfered sampleCollaborators sampleModes
    samplePpdu sampleLocalSplit sampleBand
    (0, { m_power := 0, m_event := some samplePpdu })
    [(30, { m_power := 5, m_event := some sampleInterferer }),
     (60, { m_power := 3, m_event := some sampleInterferer }),
     (100, { m_power := 0, m_event := some samplePpdu })] 0 3
    (by intro _; exact ⟨by decide, by decide⟩) (by decide) (by decide) (by decide) (by decide)
    (by decide) (by decide) (by decide) (by decide) (by decide)

theorem timelinePower_eq_lastPower (l : NiChanges) (t : Time)
    (hsorted : l.Pairwise (fun a b => a.1 ≤ b.1)) :
    timelinePower l t = lastPower (l.filter (fun r => decide (r.1 ≤ t))) := by
  rw [← take_upper_bound_eq_filter l t hsorted]
  unfold timelinePower lastPower
  rw [List.getLast?_take]
  by_cases h0 : upper_bound l t = 0
  · simp [h0]
  · have hlen := upper_bound_le_length l t
    have hi : upper_bound l t - 1 < l.length := by omega
    simp only [h0, if_false, List.get?_eq_getElem?]
    rw [List.getElem?_eq_getElem hi]
    simp [NiChange.GetPower]

theorem filter_le_split (l : NiChanges) (a b : Time) (hab : a ≤ b)
    (hsorted : l.Pairwise (fun x y => x.1 ≤ y.1)) :
    l.filter (fun r => decide (r.1 ≤ b)) =
      l.filter (fun r => decide (r.1 ≤ a)) ++ l.filter (fun r => decide (a < r.1 ∧ r.1 ≤ b)) := by
  induction l with
  | nil => simp
  | cons x rest ih =>
    rw [List.pairwise_cons] at hsorted
    by_cases hxa : x.1 ≤ a
    · have hxb : x.1 ≤ b := le_trans hxa hab
      have hna : ¬ (a < x.1 ∧ x.1 ≤ b) := fun h => absurd h.1 (not_lt.mpr hxa)
      simp [List.filter_cons, hxa, hxb, hna, ih hsorted.2]
    · have hax : a < x.1 := not_le.mp hxa
      have hrest : rest.filter (fun r => decide (r.1 ≤ a)) = [] := by
        rw [List.filter_eq_nil_iff]
        intro r hr
        have := hsorted.1 r hr
        simp only [decide_eq_true_eq, not_le]
        linarith
      have hcongr : rest.filter (fun r => decide (r.1 ≤ b)) =
          rest.filter (fun r => decide (a < r.1 ∧ r.1 ≤ b)) := by
        apply List.filter_congr
        intro r hr
        have h1 := hsorted.1 r hr
        have h2 : a < r.1 := lt_of_lt_of_le hax h1
        simp [h2]
      by_cases hxb : x.1 ≤ b
      · simp [List.filter_cons, hxa, hxb, hax, hrest, hcongr]
      · simp [List.filter_cons, hxa, hxb, hrest, hcongr]

theorem lastPower_append (X Y : NiChanges) :
    lastPower (X ++ Y) = if Y = [] then lastPower X else lastPower Y := by
  unfold lastPower
  cases Y with
  | nil => simp
  | cons y rest =>
    rw [List.getLast?_append]
    have : (y :: rest).getLast? = some ((y :: rest).getLast (by simp)) :=
      List.getLast?_eq_getLast _ _
    rw [this]
    simp

theorem lastPower_map_add (l : NiChanges) (p : ℚ) :
    lastPower (l.map (fun r => (r.1, r.2.AddPower p))) = (lastPower l).map (fun q => q + p) := by
  unfold lastPower
  rw [List.getLast?_map]
  cases l.getLast? with
  | none => rfl
  | some r => simp [NiChange.AddPower]

theorem lastPower_cons (x : Time × NiChange) (Y : NiChanges) :
    lastPower (x :: Y) = if Y = [] then some x.2.m_power else lastPower Y := by
  have := lastPower_append [x] Y
  simp only [List.singleton_append] at this
  rw [this]
  split
  · simp [lastPower]
  · rfl

theorem lastPower_append_cons (A : NiChanges) (x : Time × NiChange) (B : NiChanges) :
    lastPower (A ++ x :: B) = lastPower (x :: B) := by
  rw [lastPower_append]
  simp

theorem filter_map_addPower (l : NiChanges) (p : ℚ) (t : Time) :
    (l.map (fun r => (r.1, r.2.AddPower p))).filter (fun r => decide (r.1 ≤ t)) =
      (l.filter (fun r => decide (r.1 ≤ t))).map (fun r => (r.1, r.2.AddPower p)) := by
  rw [List.filter_map]
  rfl

theorem filter_le_cons_pos (x : Time × NiChange) (l : NiChanges) (t : Time) (h : x.1 ≤ t) :
    (x :: l).filter (fun r => decide (r.1 ≤ t)) = x :: l.filter (fun r => decide (r.1 ≤ t)) := by
  simp [List.filter_cons, h]

theorem filter_le_cons_neg (x : Time × NiChange) (l : NiChanges) (t : Time) (h : t < x.1) :
    (x :: l).filter (fun r => decide (r.1 ≤ t)) = l.filter (fun r => decide (r.1 ≤ t)) := by
  simp [List.filter_cons, not_le.mpr h]

/-- Power read after one pass of the loop of `AppendEvent` on a timeline ordered by
timestamp: at every time not earlier than the start of the event (at every time when the
flag is set, so that nothing is erased) it is the power read before, plus the power of the
event while the event is in flight. -/
theorem appendTimeline_power (rxing : Bool) (event : Event) (p : ℚ) (ni ni1 : NiChanges)
    (hse : event.GetStartTime ≤ event.GetEndTime)
    (hsorted : ni.Pairwise (fun a b => a.1 ≤ b.1))
    (happ : appendTimeline rxing event p ni = some ni1) (t : Time)
    (ht : rxing = true ∨ event.GetStartTime ≤ t) :
    lastPower (ni1.filter (fun r => decide (r.1 ≤ t))) =
      (timelinePower ni t).map (fun q =>
        q + (if event.GetStartTime ≤ t ∧ t < event.GetEndTime then p else 0)) := by
  obtain ⟨ps, pe, hps, hpe, rfl⟩ := appendTimeline_sorted rxing event p ni ni1 hse hsorted happ
  have hn : 1 ≤ upper_bound ni event.GetStartTime := (timelinePower_some_pos ni _ ps hps).1
  rw [timelinePower_eq_lastPower ni _ hsorted] at hps hpe
  rw [timelinePower_eq_lastPower ni t hsorted]
  clear happ
  unfold recordsFromStart
  generalize event.GetStartTime = s at *
  generalize event.GetEndTime = e at *
  generalize hP0 : (if rxing = true then ni.filter (fun r => decide (r.1 ≤ s))
    else ni.take 1) = P
  have hprefix_le : ∀ a ∈ P, a.1 ≤ s := by
    intro a ha
    rw [← hP0] at ha
    split at ha
    · simpa using (List.mem_filter.mp ha).2
    · exact upper_bound_take_le ni s a ((List.take_subset_take_left ni hn) ha)
  by_cases hst : s ≤ t
  · have hP : P.filter (fun r => decide (r.1 ≤ t)) = P := by
      rw [List.filter_eq_self]
      intro a ha
      simpa using le_trans (hprefix_le a ha) hst
    by_cases het : e ≤ t
    · have hte : ¬ t < e := not_lt.mpr het
      have hM : ((ni.filter (fun r => decide (s < r.1 ∧ r.1 ≤ e))).map
          (fun r => (r.1, r.2.AddPower p))).filter (fun r => decide (r.1 ≤ t)) =
          (ni.filter (fun r => decide (s < r.1 ∧ r.1 ≤ e))).map
            (fun r => (r.1, r.2.AddPower p)) := by
        rw [List.filter_eq_self]
        intro a ha
        obtain ⟨r, hr, rfl⟩ := List.mem_map.mp ha
        have hc : s < r.1 ∧ r.1 ≤ e := by simpa using (List.mem_filter.mp hr).2
        simpa using le_trans hc.2 het
      have hR : (ni.filter (fun r => decide (e < r.1))).filter (fun r => decide (r.1 ≤ t)) =
          ni.filter (fun r => decide (e < r.1 ∧ r.1 ≤ t)) := by
        rw [List.filter_filter]
        apply List.filter_congr
        intro r _
        simp [Bool.and_comm, Bool.decide_and]
      rw [List.filter_append, filter_le_cons_pos _ _ t hst, List.filter_append,
        filter_le_cons_pos _ _ t het, hP, hM, hR, lastPower_append_cons,
        ← List.cons_append, lastPower_append_cons, lastPower_cons,
        filter_le_split ni e t het hsorted, lastPower_append]
      have hd : (if s ≤ t ∧ t < e then p else 0) = 0 := by simp [hte]
      rw [hd]
      by_cases hX : ni.filter (fun r => decide (e < r.1 ∧ r.1 ≤ t)) = []
      · simp [hX, hpe]
      · simp only [hX, if_false]
        cases lastPower (ni.filter (fun r => decide (e < r.1 ∧ r.1 ≤ t))) with
        | none => rfl
        | some q => simp
    · have hte : t < e := not_le.mp het
      have hR : (ni.filter (fun r => decide (e < r.1))).filter (fun r => decide (r.1 ≤ t)) =
          [] := by
        rw [List.filter_eq_nil_iff]
        intro r hr
        have hc : e < r.1 := by simpa using (List.mem_filter.mp hr).2
        simpa using lt_trans hte hc
      have hM : ((ni.filter (fun r => decide (s < r.1 ∧ r.1 ≤ e))).map
          (fun r => (r.1, r.2.AddPower p))).filter (fun r => decide (r.1 ≤ t)) =
          (ni.filter (fun r => decide (s < r.1 ∧ r.1 ≤ t))).map
            (fun r => (r.1, r.2.AddPower p)) := by
        rw [filter_map_addPower, List.filter_filter]
        congr 1
        apply List.filter_congr
        intro r _
        by_cases hr : s < r.1
        · by_cases hrt : r.1 ≤ t
          · have : r.1 ≤ e := le_trans hrt (le_of_lt hte)
            simp [hr, hrt, this]
          · simp [hr, hrt]
        · simp [hr]
      rw [List.filter_append, filter_le_cons_pos _ _ t hst, List.filter_append,
        filter_le_cons_neg _ _ t hte, hP, hM, hR, List.append_nil, lastPower_append_cons,
        lastPower_cons, lastPower_map_add, filter_le_split ni s t hst hsorted,
        lastPower_append]
      have hd : (if s ≤ t ∧ t < e then p else 0) = p := by simp [hst, hte]
      rw [hd]
      by_cases hY : ni.filter (fun r => decide (s < r.1 ∧ r.1 ≤ t)) = []
      · rw [hY, List.map_nil, if_pos rfl, if_pos rfl, hps]
        rfl
      · have hY2 : (ni.filter (fun r => decide (s < r.1 ∧ r.1 ≤ t))).map
            (fun r => (r.1, r.2.AddPower p)) ≠ [] := by
          intro hnil
          exact hY (List.map_eq_nil_iff.mp hnil)
        rw [if_neg hY2, if_neg hY]
  · have hts : t < s := not_le.mp hst
    have hrx : rxing = true := by
      rcases ht with h | h
      · exact h
      · exact absurd h hst
    have hP : P.filter (fun r => decide (r.1 ≤ t)) = ni.filter (fun r => decide (r.1 ≤ t)) := by
      rw [← hP0, if_pos hrx, List.filter_filter]
      apply List.filter_congr
      intro r _
      by_cases hr : r.1 ≤ t
      · have : r.1 ≤ s := le_trans hr (le_of_lt hts)
        simp [hr, this]
      · simp [hr]
    have hM : ((ni.filter (fun r => decide (s < r.1 ∧ r.1 ≤ e))).map
        (fun r => (r.1, r.2.AddPower p))).filter (fun r => decide (r.1 ≤ t)) = [] := by
      rw [List.filter_eq_nil_iff]
      intro a ha
      obtain ⟨r, hr, rfl⟩ := List.mem_map.mp ha
      have hc : s < r.1 ∧ r.1 ≤ e := by simpa using (List.mem_filter.mp hr).2
      simpa using lt_trans hts hc.1
    have hR : (ni.filter (fun r => decide (e < r.1))).filter (fun r => decide (r.1 ≤ t)) =
        [] := by
      rw [List.filter_eq_nil_iff]
      intro r hr
      have hc : e < r.1 := by simpa using (List.mem_filter.mp hr).2
      simpa using lt_trans (lt_of_lt_of_le hts hse) hc
    rw [List.filter_append, filter_le_cons_neg _ _ t hts, List.filter_append,
      filter_le_cons_neg _ _ t (lt_of_lt_of_le hts hse), hP, hM, hR, List.append_nil,
      List.append_nil]
    have hd : (if s ≤ t ∧ t < e then p else 0) = 0 := by simp [hst]
    rw [hd]
    cases lastPower (ni.filter (fun r => decide (r.1 ≤ t))) with
    | none => rfl
    | some q => simp

/-- Shape of the timeline after one pass of the loop of `AppendEvent`, used to follow the
records: it is ordered by timestamp, holds the start record of the event, keeps the
timestamp and the event of every old record when the flag is set, and its powers are not
negative when the old ones and the power of the event are not. -/
theorem appendTimeline_records (rxing : Bool) (event : Event) (p : ℚ) (ni ni1 : NiChanges)
    (hse : event.GetStartTime ≤ event.GetEndTime)
    (hsorted : ni.Pairwise (fun a b => a.1 ≤ b.1))
    (happ : appendTimeline rxing event p ni = some ni1) :
    ni1.Pairwise (fun a b => a.1 ≤ b.1) ∧
    (∃ r ∈ ni1, r.1 = event.GetStartTime ∧ r.2.m_event = some event) ∧
    (rxing = true → ∀ r ∈ ni, ∃ r1 ∈ ni1, r1.1 = r.1 ∧ r1.2.m_event = r.2.m_event) ∧
    ((∀ r ∈ ni, 0 ≤ r.2.m_power) → 0 ≤ p → ∀ r ∈ ni1, 0 ≤ r.2.m_power) := by
  obtain ⟨ps, pe, hps, hpe, rfl⟩ := appendTimeline_sorted rxing event p ni ni1 hse hsorted happ
  have hn : 1 ≤ upper_bound ni event.GetStartTime := (timelinePower_some_pos ni _ ps hps).1
  obtain ⟨zs, hzs, hzsp⟩ := timelinePower_mem ni _ ps hps
  obtain ⟨ze, hze, hzep⟩ := timelinePower_mem ni _ pe hpe
  clear happ hps hpe
  unfold recordsFromStart
  generalize event.GetStartTime = s at *
  generalize event.GetEndTime = e at *
  generalize hP0 : (if rxing = true then ni.filter (fun r => decide (r.1 ≤ s))
    else ni.take 1) = P
  have hP_sub : List.Sublist P ni := by
    rw [← hP0]
    split
    · exact List.filter_sublist _
    · exact List.take_sublist _ _
  have hprefix_le : ∀ a ∈ P, a.1 ≤ s := by
    intro a ha
    rw [← hP0] at ha
    split at ha
    · simpa using (List.mem_filter.mp ha).2
    · exact upper_bound_take_le ni s a ((List.take_subset_take_left ni hn) ha)
  have hmid_mem : ∀ b ∈ (ni.filter (fun r => decide (s < r.1 ∧ r.1 ≤ e))).map
      (fun r => (r.1, r.2.AddPower p)),
      ∃ a ∈ ni, s < a.1 ∧ a.1 ≤ e ∧ b = (a.1, a.2.AddPower p) := by
    intro b hb
    obtain ⟨a, ha, rfl⟩ := List.mem_map.mp hb
    have ha2 := List.mem_filter.mp ha
    have hc : s < a.1 ∧ a.1 ≤ e := by simpa using ha2.2
    exact ⟨a, ha2.1, hc.1, hc.2, rfl⟩
  have hrest_mem : ∀ b ∈ ni.filter (fun r => decide (e < r.1)), e < b.1 := by
    intro b hb
    simpa using (List.mem_filter.mp hb).2
  have htail_ge : ∀ b ∈ (ni.filter (fun r => decide (s < r.1 ∧ r.1 ≤ e))).map
      (fun r => (r.1, r.2.AddPower p)) ++
      (e, ({ m_power := pe, m_event := some event } : NiChange)) ::
        ni.filter (fun r => decide (e < r.1)), s ≤ b.1 := by
    intro b hb
    rcases List.mem_append.mp hb with hb | hb
    · obtain ⟨a, -, hsa, -, rfl⟩ := hmid_mem b hb
      exact le_of_lt hsa
    · rcases List.mem_cons.mp hb with rfl | hb
      · exact hse
      · exact le_trans hse (le_of_lt (hrest_mem b hb))
  refine ⟨?_, ?_, ?_, ?_⟩
  · rw [List.pairwise_append]
    refine ⟨hsorted.sublist hP_sub, ?_, ?_⟩
    · rw [List.pairwise_cons]
      refine ⟨fun b hb => htail_ge b hb, ?_⟩
      rw [List.pairwise_append]
      refine ⟨?_, ?_, ?_⟩
      · rw [List.pairwise_map]
        exact hsorted.sublist (List.filter_sublist _)
      · rw [List.pairwise_cons]
        exact ⟨fun b hb => le_of_lt (hrest_mem b hb), hsorted.sublist (List.filter_sublist _)⟩
      · intro b hb c hc
        obtain ⟨a, ha, hsa, hae, rfl⟩ := hmid_mem b hb
        rcases List.mem_cons.mp hc with rfl | hc
        · exact hae
        · exact le_of_lt (lt_of_le_of_lt hae (hrest_mem c hc))
    · intro a ha b hb
      have hale := hprefix_le a ha
      rcases List.mem_cons.mp hb with rfl | hb
      · exact hale
      · exact le_trans hale (htail_ge b hb)
  · exact ⟨(s, { m_power := ps + p, m_event := some event }),
      List.mem_append_right _ (List.mem_cons_self _ _), rfl, rfl⟩
  · intro hrx r hr
    rw [← hP0, if_pos hrx]
    by_cases h1 : r.1 ≤ s
    · exact ⟨r, List.mem_append_left _ (List.mem_filter.mpr ⟨hr, by simpa using h1⟩), rfl, rfl⟩
    · have hsr : s < r.1 := not_le.mp h1
      by_cases h2 : r.1 ≤ e
      · refine ⟨(r.1, r.2.AddPower p), ?_, rfl, rfl⟩
        apply List.mem_append_right
        apply List.mem_cons_of_mem
        apply List.mem_append_left
        exact List.mem_map.mpr ⟨r, List.mem_filter.mpr ⟨hr, by simpa using ⟨hsr, h2⟩⟩, rfl⟩
      · refine ⟨r, ?_, rfl, rfl⟩
        apply List.mem_append_right
        apply List.mem_cons_of_mem
        apply List.mem_append_right
        apply List.mem_cons_of_mem
        exact List.mem_filter.mpr ⟨hr, by simpa using not_le.mp h2⟩
  · intro hnn hp r hr
    rcases List.mem_append.mp hr with hr | hr
    · exact hnn r (hP_sub.subset hr)
    · rcases List.mem_cons.mp hr with rfl | hr
      · show 0 ≤ ps + p
        have := hnn zs hzs
        rw [hzsp] at this
        linarith
      · rcases List.mem_append.mp hr with hr | hr
        · obtain ⟨a, ha, -, -, rfl⟩ := hmid_mem r hr
          show 0 ≤ a.2.m_power + p
          have := hnn a ha
          linarith
        · rcases List.mem_cons.mp hr with rfl | hr
          · show 0 ≤ pe
            have := hnn ze hze
            rw [hzep] at this
            exact this
          · exact hnn r (List.mem_filter.mp hr).1

theorem mapFind_mem {V : Type} (m : List (WifiSpectrumBand × V)) (b : WifiSpectrumBand) (v : V)
    (hf : mapFind m b = some v) : (b, v) ∈ m := by
  induction m with
  | nil => simp [mapFind] at hf
  | cons x rest ih =>
    obtain ⟨k, w⟩ := x
    by_cases hk : k = b
    · simp only [mapFind, hk, if_true, Option.some.injEq] at hf
      rw [hk, hf]
      exact List.mem_cons_self _ _
    · simp only [mapFind, hk, if_false] at hf
      exact List.mem_cons_of_mem _ (ih hf)

theorem mapFind_none_keys {V : Type} (m : List (WifiSpectrumBand × V)) (b : WifiSpectrumBand)
    (hf : mapFind m b = none) : ∀ entry ∈ m, entry.1 ≠ b := by
  induction m with
  | nil => simp
  | cons x rest ih =>
    obtain ⟨k, w⟩ := x
    by_cases hk : k = b
    · simp [mapFind, hk] at hf
    · simp only [mapFind, hk, if_false] at hf
      intro entry hentry
      rcases List.mem_cons.mp hentry with rfl | hrest
      · exact hk
      · exact ih hf entry hrest

theorem mapFind_nodup_mem (m : RxPowerWattPerChannelBand) (b : WifiSpectrumBand) (p : ℚ)
    (hkeys : (m.map Prod.fst).Nodup) (hmem : (b, p) ∈ m) : mapFind m b = some p := by
  induction m with
  | nil => simp at hmem
  | cons x rest ih =>
    obtain ⟨k, w⟩ := x
    simp only [List.map_cons, List.nodup_cons] at hkeys
    rcases List.mem_cons.mp hmem with heq | hrest
    · simp only [Prod.mk.injEq] at heq
      simp [mapFind, heq.1, heq.2]
    · have hk : ¬ k = b := by
        intro hkb
        apply hkeys.1
        rw [hkb]
        exact List.mem_map.mpr ⟨(b, p), hrest, rfl⟩
      simp only [mapFind, hk, if_false]
      exact ih hkeys.2 hrest

theorem mem_mapAssign {V : Type} (m : List (WifiSpectrumBand × V)) (b : WifiSpectrumBand)
    (v : V) : ∀ entry ∈ mapAssign m b v, entry ∈ m ∨ entry = (b, v) := by
  induction m with
  | nil => simp [mapAssign]
  | cons x rest ih =>
    obtain ⟨k, w⟩ := x
    intro entry hentry
    by_cases hk : k = b
    · simp only [mapAssign, hk, if_true] at hentry
      rcases List.mem_cons.mp hentry with rfl | hrest
      · exact Or.inr rfl
      · exact Or.inl (List.mem_cons_of_mem _ hrest)
    · simp only [mapAssign, hk, if_false] at hentry
      rcases List.mem_cons.mp hentry with rfl | hrest
      · exact Or.inl (List.mem_cons_self _ _)
      · rcases ih entry hrest with h1 | h1
        · exact Or.inl (List.mem_cons_of_mem _ h1)
        · exact Or.inr h1

theorem mem_mapInsert {V : Type} (m : List (WifiSpectrumBand × V)) (b : WifiSpectrumBand)
    (v : V) : ∀ entry ∈ mapInsert m b v, entry ∈ m ∨ entry = (b, v) := by
  induction m with
  | nil =>
    intro entry hentry
    simp only [mapInsert, List.mem_singleton] at hentry
    exact Or.inr hentry
  | cons x rest ih =>
    obtain ⟨k, w⟩ := x
    intro entry hentry
    by_cases hk : k = b
    · simp only [mapInsert, hk, if_true] at hentry
      rw [hk]
      exact Or.inl hentry
    · by_cases hl : bandLess b k = true
      · simp only [mapInsert, hk, if_false, hl, if_true] at hentry
        rcases List.mem_cons.mp hentry with rfl | hrest
        · exact Or.inr rfl
        · exact Or.inl hrest
      · simp only [mapInsert, hk, if_false, hl] at hentry
        rcases List.mem_cons.mp hentry with rfl | hrest
        · exact Or.inl (List.mem_cons_self _ _)
        · rcases ih entry hrest with h1 | h1
          · exact Or.inl (List.mem_cons_of_mem _ h1)
          · exact Or.inr h1

theorem activePower_cons (e : Event) (log : List Event) (band : WifiSpectrumBand) (t : Time) :
    activePower (e :: log) band t =
      activePower log band t +
        (if e.GetStartTime ≤ t ∧ t < e.GetEndTime then bandPower e band else 0) := by
  unfold activePower
  rw [List.map_cons, List.sum_cons]
  ring

theorem activePower_nonneg (log : List Event) (band : WifiSpectrumBand) (t : Time)
    (hnn : ∀ e ∈ log, 0 ≤ bandPower e band) : 0 ≤ activePower log band t := by
  unfold activePower
  apply List.sum_nonneg
  intro x hx
  obtain ⟨e, he, rfl⟩ := List.mem_map.mp hx
  split
  · exact hnn e he
  · exact le_refl _

theorem Add_event_eq (h h1 : InterferenceHelper) (now duration : Time) (addr ppdu : Nat)
    (txVector : WifiTxVector) (rxPowerW : RxPowerWattPerChannelBand) (event : Event)
    (hadd : h.Add now addr ppdu txVector duration rxPowerW = some (h1, event)) :
    event = Event.create now addr ppdu txVector duration rxPowerW ∧
    rxPowerW.foldlM (appendEventBand event) h = some h1 := by
  unfold InterferenceHelper.Add at hadd
  simp only [] at hadd
  cases happ : h.AppendEvent (Event.create now addr ppdu txVector duration rxPowerW) with
  | none => rw [happ] at hadd; simp at hadd
  | some h2 =>
    rw [happ] at hadd
    simp only [Option.some.injEq, Prod.mk.injEq] at hadd
    refine ⟨hadd.2.symm, ?_⟩
    rw [← hadd.2, ← hadd.1]
    exact happ

/-- An Add with power on the band keeps what a run keeps true of the band: with the flag
set the horizon stays, otherwise it moves to the time of the Add. -/
theorem BandInv_add (band : WifiSpectrumBand) (T S : Time) (log kept : List Event)
    (h h1 : InterferenceHelper) (addr ppdu : Nat) (txVector : WifiTxVector) (duration : Time)
    (rxPowerW : RxPowerWattPerChannelBand) (event : Event) (p : ℚ)
    (hinv : BandInv band T S log kept h) (hdur : 0 ≤ duration)
    (hkeys : (rxPowerW.map Prod.fst).Nodup) (hmem : (band, p) ∈ rxPowerW)
    (hadd : h.Add T addr ppdu txVector duration rxPowerW = some (h1, event)) :
    (h.m_rxing = true → BandInv band T S (event :: log) (event :: kept) h1) ∧
    (h.m_rxing = false → BandInv band T T (event :: log) [event] h1) := by
  obtain ⟨hS0, hST, hhd, ni, f, hni, hf, hhead, hsorted, hpow, hkept⟩ := hinv
  obtain ⟨hev, ni1, ps, happ, hps, hni1, hf1⟩ :=
    Add_band_effect h h1 T duration addr ppdu txVector rxPowerW event band p ni hadd hkeys
      hmem hni
  have hs : event.GetStartTime = T := by rw [hev]; rfl
  have he : event.GetEndTime = T + duration := by rw [hev]; rfl
  have hse : event.GetStartTime ≤ event.GetEndTime := by rw [hs, he]; linarith
  have hrx : event.GetRxPowerW band = some p := by
    rw [hev]
    exact mapFind_nodup_mem rxPowerW band p hkeys hmem
  have hbp : bandPower event band = p := by
    unfold bandPower
    rw [hrx]
    rfl
  obtain ⟨hsorted1, hstartrec, hold, -⟩ :=
    appendTimeline_records h.m_rxing event p ni ni1 hse hsorted happ
  have hhead1 : HeadOK ni1 :=
    HeadOK_appendTimeline h.m_rxing event p ni ni1 hhead (by rw [hs]; linarith) happ
  have hpow1 : ∀ t, (h.m_rxing = true ∨ T ≤ t) → S ≤ t →
      timelinePower ni1 t = some (activePower (event :: log) band t) := by
    intro t ht hSt
    rw [timelinePower_eq_lastPower ni1 t hsorted1,
      appendTimeline_power h.m_rxing event p ni ni1 hse hsorted happ t (by rw [hs]; exact ht),
      hpow t hSt, Option.map_some', activePower_cons, hbp]
  constructor
  · intro hrxing
    refine ⟨hS0, hST, ?_, ni1, f, hni1, ?_, hhead1, hsorted1, ?_, ?_⟩
    · exact Or.inr ⟨event, rfl, by rw [hs]; exact hST⟩
    · rw [hf1, hrxing]
      exact hf
    · intro t hSt
      exact hpow1 t (Or.inl hrxing) hSt
    · intro e hek
      rcases List.mem_cons.mp hek with rfl | hek1
      · exact ⟨List.mem_cons_self _ _, by rw [hs]; exact hST, ⟨p, hrx⟩, hstartrec⟩
      · obtain ⟨hel, hSe, hpe, r, hr, hr1, hr2⟩ := hkept e hek1
        obtain ⟨r1, hr1m, hr1s, hr1e⟩ := hold hrxing r hr
        exact ⟨List.mem_cons_of_mem _ hel, hSe, hpe, r1, hr1m, by rw [hr1s, hr1],
          by rw [hr1e, hr2]⟩
  · intro hrxing
    refine ⟨le_trans hS0 hST, le_refl _, ?_, ni1, ps, hni1, ?_, hhead1, hsorted1, ?_, ?_⟩
    · exact Or.inr ⟨event, rfl, by rw [hs]⟩
    · rw [hf1, hrxing]
      rfl
    · intro t hTt
      exact hpow1 t (Or.inr hTt) (le_trans hST hTt)
    · intro e hek
      rw [List.mem_singleton] at hek
      rw [hek]
      exact ⟨List.mem_cons_self _ _, by rw [hs], ⟨p, hrx⟩, hstartrec⟩

/-- An Add without power on the band keeps what a run keeps true of the band. -/
theorem BandInv_addOther (band : WifiSpectrumBand) (T S : Time) (log kept : List Event)
    (h h1 : InterferenceHelper) (addr ppdu : Nat) (txVector : WifiTxVector) (duration : Time)
    (rxPowerW : RxPowerWattPerChannelBand) (event : Event)
    (hinv : BandInv band T S log kept h)
    (hother : ∀ it ∈ rxPowerW, it.1 ≠ band)
    (hadd : h.Add T addr ppdu txVector duration rxPowerW = some (h1, event)) :
    BandInv band T S (event :: log) kept h1 := by
  obtain ⟨hS0, hST, hhd, ni, f, hni, hf, hhead, hsorted, hpow, hkept⟩ := hinv
  obtain ⟨hev, hfold⟩ := Add_event_eq h h1 T duration addr ppdu txVector rxPowerW event hadd
  obtain ⟨hni1, hf1, -⟩ := appendEventBand_fold_frame event band rxPowerW h h1 hother hfold
  have hs : event.GetStartTime = T := by rw [hev]; rfl
  have hnone : mapFind rxPowerW band = none := by
    cases hm : mapFind rxPowerW band with
    | none => rfl
    | some v => exact absurd rfl (hother (band, v) (mapFind_mem rxPowerW band v hm))
  have hbp : bandPower event band = 0 := by
    unfold bandPower
    rw [hev]
    show (mapFind rxPowerW band).getD 0 = 0
    rw [hnone]
    rfl
  refine ⟨hS0, hST, ?_, ni, f, by rw [hni1]; exact hni, by rw [hf1]; exact hf, hhead, hsorted,
    ?_, ?_⟩
  · exact Or.inr ⟨event, rfl, by rw [hs]; exact hST⟩
  · intro t hSt
    rw [hpow t hSt, activePower_cons, hbp]
    simp
  · intro e hek
    obtain ⟨hel, hrest⟩ := hkept e hek
    exact ⟨List.mem_cons_of_mem _ hel, hrest⟩

theorem notifyRxEndBand_eq (now : Time) (h : InterferenceHelper)
    (ni : WifiSpectrumBand × NiChanges) (h1 : InterferenceHelper)
    (he : notifyRxEndBand now h ni = some h1) :
    ∃ r ∈ ni.2, h1 = { h with
      m_firstPowerPerBand := mapAssign h.m_firstPowerPerBand ni.1 r.2.GetPower } := by
  unfold notifyRxEndBand at he
  simp only [] at he
  split at he
  · simp at he
  · split at he
    · rename_i r x hr hx
      simp only [Option.some.injEq] at he
      exact ⟨r, List.getElem?_mem (by simpa using hr), he.symm⟩
    · simp at he

/-- What a run keeps true of a band depends on the helper through the timeline of the band
and through the presence of its first power only. -/
theorem BandInv_of_same (band : WifiSpectrumBand) (T S : Time) (log kept : List Event)
    (h h1 : InterferenceHelper) (hinv : BandInv band T S log kept h)
    (hni : mapFind h1.m_niChangesPerBand band = mapFind h.m_niChangesPerBand band)
    (hfp : mapFind h1.m_firstPowerPerBand band ≠ none) : BandInv band T S log kept h1 := by
  obtain ⟨hS0, hST, hhd, ni, f, hni0, hf, hrest⟩ := hinv
  cases hf1 : mapFind h1.m_firstPowerPerBand band with
  | none => exact absurd hf1 hfp
  | some f1 => exact ⟨hS0, hST, hhd, ni, f1, by rw [hni]; exact hni0, hf1, hrest⟩

theorem BandInv_notifyRxEnd (band : WifiSpectrumBand) (T S : Time) (log kept : List Event)
    (h h1 : InterferenceHelper) (now : Time) (hinv : BandInv band T S log kept h)
    (hend : h.NotifyRxEnd now = some h1) : BandInv band T S log kept h1 := by
  have hfold := foldlM_inv (notifyRxEndBand now)
    (fun x => mapFind x.m_niChangesPerBand band = mapFind h.m_niChangesPerBand band ∧
      mapFind x.m_firstPowerPerBand band ≠ none)
    (by
      intro b a b1 hP hstep
      obtain ⟨r, -, hb1⟩ := notifyRxEndBand_eq now b a b1 hstep
      rw [hb1]
      refine ⟨hP.1, ?_⟩
      show mapFind (mapAssign b.m_firstPowerPerBand a.1 r.2.GetPower) band ≠ none
      rw [Ne, mapFind_mapAssign_none]
      exact hP.2)
    h.m_niChangesPerBand { h with m_rxing := false } h1
    (by
      obtain ⟨-, -, -, ni, f, -, hf, -⟩ := hinv
      refine ⟨rfl, ?_⟩
      show mapFind h.m_firstPowerPerBand band ≠ none
      rw [hf]
      simp)
    hend
  exact BandInv_of_same band T S log kept h h1 hinv hfold.1 hfold.2

theorem AddBand_entries (h h1 : InterferenceHelper) (band : WifiSpectrumBand)
    (hadd : h.AddBand band = some h1) :
    ∀ entry ∈ h1.m_niChangesPerBand,
      entry ∈ h.m_niChangesPerBand ∨ entry = (band, [(0, { m_power := 0, m_event := none })])
        ∨ entry = (band, []) := by
  unfold AddBand at hadd
  cases hf : mapFind h.m_niChangesPerBand band with
  | some x => simp [hf] at hadd
  | none =>
    simp only [hf] at hadd
    have hnew := mapFind_mapInsert_new h.m_niChangesPerBand band ([] : NiChanges) hf
    rw [AddNiChangeEvent_some _ _ _ band [] hnew] at hadd
    simp only [Option.some.injEq] at hadd
    subst hadd
    intro entry hentry
    rcases mem_mapAssign _ _ _ entry hentry with h1 | h1
    · rcases mem_mapInsert _ _ _ entry h1 with h2 | h2
      · exact Or.inl h2
      · exact Or.inr (Or.inr h2)
    · refine Or.inr (Or.inl ?_)
      rw [h1]
      simp [insertAt, upper_bound]

theorem BandInv_start (band : WifiSpectrumBand) (h0 h : InterferenceHelper)
    (hc : Constructed h0) (hadd : h0.AddBand band = some h) :
    BandInv band 0 0 [] [] h ∧ NonNegInv band h := by
  obtain ⟨hnone, hni, -, -, -, hfp, -⟩ := AddBand_registers h0 h band hadd
  have hfp0 := hfp ((Constructed_SameBands h0 hc band).mp hnone)
  constructor
  · refine ⟨le_refl _, le_refl _, ?_, _, 0, hni, hfp0, rfl, ?_, ?_, ?_⟩
    · exact Or.inl rfl
    · simp
    · intro t ht
      have hlt : ¬ t < 0 := not_lt.mpr ht
      simp [timelinePower, upper_bound, hlt, activePower, NiChange.GetPower]
    · intro e he
      simp at he
  · refine ⟨?_, ?_, ?_⟩
    · intro entry hentry hkey r hr
      rcases AddBand_entries h0 h band hadd entry hentry with h1 | h1 | h1
      · exact absurd hkey (mapFind_none_keys _ band hnone entry h1)
      · rw [h1] at hr
        simp only [List.mem_singleton] at hr
        rw [hr]
      · rw [h1] at hr
        simp at hr
    · intro f hf
      rw [hfp0] at hf
      simp only [Option.some.injEq] at hf
      rw [← hf]
    · intro ni hni1
      rw [hni] at hni1
      simp only [Option.some.injEq] at hni1
      rw [← hni1]
      simp

theorem BandInv_addBand (band : WifiSpectrumBand) (T S : Time) (log kept : List Event)
    (h h1 : InterferenceHelper) (b : WifiSpectrumBand) (hinv : BandInv band T S log kept h)
    (hadd : h.AddBand b = some h1) :
    b ≠ band ∧ BandInv band T S log kept h1 ∧ (NonNegInv band h → NonNegInv band h1) := by
  obtain ⟨hnone, -, hniother, hfpother, -, -, -⟩ := AddBand_registers h h1 b hadd
  have hb : b ≠ band := by
    intro hb
    obtain ⟨-, -, -, ni, f, hni0, -⟩ := hinv
    rw [hb, hni0] at hnone
    simp at hnone
  have hni := hniother band (Ne.symm hb)
  have hfp := hfpother band (Ne.symm hb)
  refine ⟨hb, ?_, ?_⟩
  · refine BandInv_of_same band T S log kept h h1 hinv hni ?_
    obtain ⟨-, -, -, ni, f, -, hf, -⟩ := hinv
    rw [hfp, hf]
    simp
  · intro hnn
    obtain ⟨hentries, hf, hsorted⟩ := hnn
    refine ⟨?_, ?_, ?_⟩
    · intro entry hentry hkey r hr
      rcases AddBand_entries h h1 b hadd entry hentry with h2 | h2 | h2
      · exact hentries entry h2 hkey r hr
      · rw [h2] at hkey
        exact absurd hkey hb
      · rw [h2] at hkey
        exact absurd hkey hb
    · intro f1 hf1
      rw [hfp] at hf1
      exact hf f1 hf1
    · intro ni hni1
      rw [hni] at hni1
      exact hsorted ni hni1

theorem NonNegInv_appendEventBand (event : Event) (band : WifiSpectrumBand)
    (h : InterferenceHelper) (it : WifiSpectrumBand × ℚ) (h1 : InterferenceHelper)
    (hse : event.GetStartTime ≤ event.GetEndTime) (hnn : NonNegInv band h)
    (hp : it.1 = band → 0 ≤ it.2) (happ : appendEventBand event h it = some h1) :
    NonNegInv band h1 := by
  obtain ⟨ni, ni1, ps, hf, hat, hps, hni, hfp, -⟩ := appendEventBand_spec event h h1 it happ
  obtain ⟨hentries, hfnn, hsorted⟩ := hnn
  by_cases hk : it.1 = band
  · have hk1 : band = it.1 := hk.symm
    rw [hk] at hf
    have hnisorted := hsorted ni hf
    have hninn := hentries (band, ni) (mapFind_mem _ _ _ hf) rfl
    obtain ⟨hs1, -, -, hnn1⟩ :=
      appendTimeline_records h.m_rxing event it.2 ni ni1 hse hnisorted hat
    have hni1nn := hnn1 hninn (hp hk)
    refine ⟨?_, ?_, ?_⟩
    · intro entry hentry hkey r hr
      rw [hni] at hentry
      rcases mem_mapAssign _ _ _ entry hentry with h2 | h2
      · exact hentries entry h2 hkey r hr
      · rw [h2] at hr
        exact hni1nn r hr
    · intro f1 hf1
      rw [hfp] at hf1
      cases hrx : h.m_rxing with
      | true =>
        rw [hrx] at hf1
        exact hfnn f1 (by simpa using hf1)
      | false =>
        rw [hrx] at hf1
        simp only [Bool.false_eq_true, if_false] at hf1
        rw [mapFind_mapAssign, if_pos hk1] at hf1
        cases hold : mapFind h.m_firstPowerPerBand it.1 with
        | none => rw [hold] at hf1; simp at hf1
        | some x =>
          rw [hold] at hf1
          simp only [Option.map_some', Option.some.injEq] at hf1
          obtain ⟨z, hz, hzp⟩ := timelinePower_mem ni event.GetStartTime ps hps
          rw [← hf1, ← hzp]
          exact hninn z hz
    · intro ni2 hni2
      rw [hni, mapFind_mapAssign, if_pos hk1, hk, hf] at hni2
      simp only [Option.map_some', Option.some.injEq] at hni2
      rw [← hni2]
      exact hs1
  · have hk1 : ¬ band = it.1 := fun hb => hk hb.symm
    refine ⟨?_, ?_, ?_⟩
    · intro entry hentry hkey r hr
      rw [hni] at hentry
      rcases mem_mapAssign _ _ _ entry hentry with h2 | h2
      · exact hentries entry h2 hkey r hr
      · rw [h2] at hkey
        exact absurd hkey hk
    · intro f1 hf1
      rw [hfp] at hf1
      cases hrx : h.m_rxing with
      | true =>
        rw [hrx] at hf1
        exact hfnn f1 (by simpa using hf1)
      | false =>
        rw [hrx] at hf1
        simp only [Bool.false_eq_true, if_false] at hf1
        rw [mapFind_mapAssign, if_neg hk1] at hf1
        exact hfnn f1 hf1
    · intro ni2 hni2
      rw [hni, mapFind_mapAssign, if_neg hk1] at hni2
      exact hsorted ni2 hni2

theorem NonNegInv_add (band : WifiSpectrumBand) (h h1 : InterferenceHelper) (T : Time)
    (addr ppdu : Nat) (txVector : WifiTxVector) (duration : Time)
    (rxPowerW : RxPowerWattPerChannelBand) (event : Event)
    (hnn : NonNegInv band h) (hdur : 0 ≤ duration)
    (hp : ∀ it ∈ rxPowerW, it.1 = band → 0 ≤ it.2)
    (hadd : h.Add T addr ppdu txVector duration rxPowerW = some (h1, event)) :
    NonNegInv band h1 := by
  obtain ⟨hev, hfold⟩ := Add_event_eq h h1 T duration addr ppdu txVector rxPowerW event hadd
  have hse : event.GetStartTime ≤ event.GetEndTime := by
    rw [hev, Event_create_start, Event_create_end]
    linarith
  exact foldlM_inv_mem (appendEventBand event) (NonNegInv band) rxPowerW
    (fun b a b1 ha hP hstep =>
      NonNegInv_appendEventBand event band b a b1 hse hP (hp a ha) hstep)
    h h1 hnn hfold

theorem NonNegInv_notifyRxEnd (band : WifiSpectrumBand) (h h1 : InterferenceHelper)
    (now : Time) (hnn : NonNegInv band h) (hend : h.NotifyRxEnd now = some h1) :
    NonNegInv band h1 := by
  have hfold := foldlM_inv_mem (notifyRxEndBand now)
    (fun x => x.m_niChangesPerBand = h.m_niChangesPerBand ∧ NonNegInv band x)
    h.m_niChangesPerBand
    (by
      intro b a b1 ha hP hstep
      obtain ⟨r, hr, hb1⟩ := notifyRxEndBand_eq now b a b1 hstep
      obtain ⟨hsame, hentries, hfnn, hsorted⟩ := hP
      rw [hb1]
      refine ⟨hsame, hentries, ?_, hsorted⟩
      intro f1 hf1
      have hf2 : mapFind (mapAssign b.m_firstPowerPerBand a.1 r.2.GetPower) band = some f1 :=
        hf1
      rw [mapFind_mapAssign] at hf2
      by_cases hk : band = a.1
      · rw [if_pos hk] at hf2
        cases hold : mapFind b.m_firstPowerPerBand a.1 with
        | none => rw [hold] at hf2; simp at hf2
        | some x =>
          rw [hold] at hf2
          simp only [Option.map_some', Option.some.injEq] at hf2
          rw [← hf2]
          exact hentries a (by rw [hsame]; exact ha) hk.symm r hr
      · rw [if_neg hk] at hf2
        exact hfnn f1 hf2)
    { h with m_rxing := false } h1 ⟨rfl, hnn⟩ hend
  exact hfold.2

/-- What a run keeps true of the band it is about. -/
theorem BandRun_inv (band : WifiSpectrumBand) (T S : Time) (log kept : List Event)
    (h : InterferenceHelper) (hrun : BandRun band T S log kept h) :
    BandInv band T S log kept h ∧
    ((∀ e ∈ log, 0 ≤ bandPower e band) → NonNegInv band h) := by
  induction hrun with
  | start h0 h hc hadd =>
    have hst := BandInv_start band h0 h hc hadd
    exact ⟨hst.1, fun _ => hst.2⟩
  | wait h T T1 S log kept _ hT ih =>
    obtain ⟨⟨hS0, hST, hrest⟩, hnn⟩ := ih
    exact ⟨⟨hS0, le_trans hST hT, hrest⟩, hnn⟩
  | addBand h h1 T S log kept b _ hadd ih =>
    obtain ⟨-, hinv, hnn⟩ := BandInv_addBand band T S log kept h h1 b ih.1 hadd
    exact ⟨hinv, fun hl => hnn (ih.2 hl)⟩
  | addOther h h1 T S log kept addr ppdu txVector duration rxPowerW event _ hdur hother hadd ih =>
    refine ⟨BandInv_addOther band T S log kept h h1 addr ppdu txVector duration rxPowerW
      event ih.1 hother hadd, ?_⟩
    intro hl
    refine NonNegInv_add band h h1 T addr ppdu txVector duration rxPowerW event
      (ih.2 (fun e he => hl e (List.mem_cons_of_mem _ he))) hdur ?_ hadd
    intro it hit hk
    exact absurd hk (hother it hit)
  | addKeep h h1 T S log kept addr ppdu txVector duration rxPowerW event p _ hdur hkeys hmem
      hrx hadd ih =>
    refine ⟨(BandInv_add band T S log kept h h1 addr ppdu txVector duration rxPowerW event p
      ih.1 hdur hkeys hmem hadd).1 hrx, ?_⟩
    intro hl
    refine NonNegInv_add band h h1 T addr ppdu txVector duration rxPowerW event
      (ih.2 (fun e he => hl e (List.mem_cons_of_mem _ he))) hdur ?_ hadd
    intro it hit hk
    have hev := (Add_event_eq h h1 T duration addr ppdu txVector rxPowerW event hadd).1
    have hfind : mapFind rxPowerW band = some it.2 :=
      mapFind_nodup_mem rxPowerW band it.2 hkeys (by rw [← hk]; exact hit)
    have hbp := hl event (List.mem_cons_self _ _)
    unfold bandPower at hbp
    rw [hev] at hbp
    change 0 ≤ (mapFind rxPowerW band).getD 0 at hbp
    rw [hfind] at hbp
    exact hbp
  | addPrune h h1 T S log kept addr ppdu txVector duration rxPowerW event p _ hdur hkeys hmem
      hrx hadd ih =>
    refine ⟨(BandInv_add band T S log kept h h1 addr ppdu txVector duration rxPowerW event p
      ih.1 hdur hkeys hmem hadd).2 hrx, ?_⟩
    intro hl
    refine NonNegInv_add band h h1 T addr ppdu txVector duration rxPowerW event
      (ih.2 (fun e he => hl e (List.mem_cons_of_mem _ he))) hdur ?_ hadd
    intro it hit hk
    have hev := (Add_event_eq h h1 T duration addr ppdu txVector rxPowerW event hadd).1
    have hfind : mapFind rxPowerW band = some it.2 :=
      mapFind_nodup_mem rxPowerW band it.2 hkeys (by rw [← hk]; exact hit)
    have hbp := hl event (List.mem_cons_self _ _)
    unfold bandPower at hbp
    rw [hev] at hbp
    change 0 ≤ (mapFind rxPowerW band).getD 0 at hbp
    rw [hfind] at hbp
    exact hbp
  | notifyRxStart h T S log kept _ ih =>
    exact ⟨BandInv_of_same band T S log kept h h.NotifyRxStart ih.1 rfl
      (by
        obtain ⟨-, -, -, ni, f, -, hf, -⟩ := ih.1
        show mapFind h.m_firstPowerPerBand band ≠ none
        rw [hf]
        simp), fun hl => ih.2 hl⟩
  | notifyRxEnd h h1 T S log kept _ hend ih =>
    exact ⟨BandInv_notifyRxEnd band T S log kept h h1 T ih.1 hend,
      fun hl => NonNegInv_notifyRxEnd band h h1 T (ih.2 hl) hend⟩

/-- Reading of the power of a band after a run: from the horizon on it is the sum of the
powers of the events in flight. -/
theorem BandRun_power (band : WifiSpectrumBand) (T S : Time) (log kept : List Event)
    (h : InterferenceHelper) (hrun : BandRun band T S log kept h) (t : Time) (ht0 : 0 ≤ t)
    (hlast : ∀ e, log.head? = some e → e.GetStartTime ≤ t) :
    h.previousPower t band = some (activePower log band t) ∧
    ∃ ni, mapFind h.m_niChangesPerBand band = some ni ∧
      ni.Pairwise (fun a b => a.1 ≤ b.1) ∧
      lastPower (ni.filter (fun r => decide (r.1 ≤ t))) = some (activePower log band t) := by
  obtain ⟨hS0, hST, hhd, ni, f, hni, hf, hhead, hsorted, hpow, hkept⟩ :=
    (BandRun_inv band T S log kept h hrun).1
  have hSt : S ≤ t := by
    rcases hhd with h0 | ⟨e, he, hSe⟩
    · rw [h0]
      exact ht0
    · exact le_trans hSe (hlast e he)
  refine ⟨?_, ni, hni, hsorted, ?_⟩
  · rw [previousPower_eq h t band ni hni]
    exact hpow t hSt
  · rw [← timelinePower_eq_lastPower ni t hsorted]
    exact hpow t hSt

theorem noiseScan_eq (now : Time) (event : Event) (band : WifiSpectrumBand) (powerW : ℚ)
    (hpow : event.GetRxPowerW band = some powerW) :
    ∀ (l : NiChanges) (f : ℚ),
      noiseScan now event band l f =
        some (match timelinePower l (now - 1) with
          | none => f
          | some q => q - powerW) := by
  intro l
  induction l with
  | nil =>
    intro f
    simp [noiseScan, timelinePower, upper_bound]
  | cons x rest ih =>
    intro f
    by_cases hx : x.1 < now
    · have hx1 : ¬ now - 1 < x.1 := fun hc => absurd (Int.sub_one_lt_iff.mp hc) (not_le.mpr hx)
      rw [noiseScan, if_pos hx, hpow]
      simp only []
      rw [ih]
      unfold timelinePower
      by_cases hz : upper_bound rest (now - 1) = 0
      · simp [upper_bound, hx1, hz]
      · obtain ⟨k, hk⟩ := Nat.exists_eq_succ_of_ne_zero hz
        have hlen := upper_bound_le_length rest (now - 1)
        have hklt : k < rest.length := by omega
        simp [upper_bound, hx1, hz, hk, List.getElem?_eq_getElem hklt]
    · have hx1 : now - 1 < x.1 := Int.sub_one_lt_iff.mpr (not_lt.mp hx)
      rw [noiseScan, if_neg hx]
      simp [timelinePower, upper_bound, hx1]

theorem multimapFind_drop (ni : NiChanges) (t : Time) :
    multimapFind ni t < ni.length →
      ∃ x rest, ni.drop (multimapFind ni t) = x :: rest ∧ x.1 = t := by
  induction ni with
  | nil => intro hlt; simp at hlt
  | cons y l ih =>
    intro hlt
    by_cases hy : y.1 = t
    · exact ⟨y, l, by simp [multimapFind, hy], hy⟩
    · simp only [multimapFind, hy, if_false, List.length_cons, Nat.add_lt_add_iff_right] at hlt
      obtain ⟨x, rest, hdrop, hx⟩ := ih hlt
      exact ⟨x, rest, by simp [multimapFind, hy, hdrop], hx⟩

theorem activePower_pred (log : List Event) (band : WifiSpectrumBand) (now : Time) :
    activePower log band (now - 1) = activeBefore log band now := by
  unfold activePower activeBefore
  congr 1
  apply List.map_congr_left
  intro e _
  have hiff : (e.GetStartTime ≤ now - 1 ∧ now - 1 < e.GetEndTime) ↔
      (e.GetStartTime < now ∧ now ≤ e.GetEndTime) :=
    and_congr Int.le_sub_one_iff Int.sub_one_lt_iff
  by_cases hc : e.GetStartTime < now ∧ now ≤ e.GetEndTime
  · rw [if_pos hc, if_pos (hiff.mpr hc)]
  · rw [if_neg hc, if_neg (fun hd => hc (hiff.mp hd))]

theorem activeBefore_erase (log : List Event) (band : WifiSpectrumBand) (now : Time)
    (A : Event) (hA : A ∈ log) (hs : A.GetStartTime < now) (he : now ≤ A.GetEndTime) :
    activeBefore log band now = bandPower A band + activeBefore (log.erase A) band now := by
  unfold activeBefore
  rw [← List.sum_map_erase _ hA, if_pos ⟨hs, he⟩]

theorem activeBefore_nonneg (log : List Event) (band : WifiSpectrumBand) (now : Time)
    (hnn : ∀ e ∈ log, 0 ≤ bandPower e band) : 0 ≤ activeBefore log band now := by
  unfold activeBefore
  apply List.sum_nonneg
  intro x hx
  obtain ⟨e, he, rfl⟩ := List.mem_map.mp hx
  split
  · exact hnn e he
  · exact le_refl _

/-- Value of `CalculateNoiseInterferenceW` at the current time of a run, for an event whose
records were kept: after the start of the event it is the sum of the band powers of the
other events that started before and have not ended before, at the start it is the first
power of the band. -/
theorem BandRun_noise (band : WifiSpectrumBand) (now S : Time) (log kept : List Event)
    (h : InterferenceHelper) (A : Event) (hrun : BandRun band now S log kept h)
    (hnn : ∀ e ∈ log, 0 ≤ bandPower e band) (hA : A ∈ kept) (hend : now ≤ A.GetEndTime) :
    (A.GetStartTime < now →
      (h.CalculateNoiseInterferenceW now A [] band).map Prod.fst =
        some (activeBefore (log.erase A) band now)) ∧
    (A.GetStartTime = now →
      ∃ f, mapFind h.m_firstPowerPerBand band = some f ∧
        (h.CalculateNoiseInterferenceW now A [] band).map Prod.fst = some f) := by
  obtain ⟨hinv, hnninv⟩ := BandRun_inv band now S log kept h hrun
  obtain ⟨hS0, hST, hhd, ni, f, hni, hf, hhead, hsorted, hpow, hkept⟩ := hinv
  obtain ⟨-, hfnn, -⟩ := hnninv hnn
  obtain ⟨hAlog, hSA, ⟨pA, hpA⟩, r, hr, hrs, hre⟩ := hkept A hA
  have hsame : sameEvent r.2 A = true := by
    unfold sameEvent NiChange.GetEvent
    rw [hre]
    simp
  obtain ⟨lt, hlt⟩ := localTimeline_some A ni ⟨r, hr, hrs, hsame⟩
  obtain ⟨hklt, -⟩ := multimapFind_mem ni A.GetStartTime r hr hrs
  obtain ⟨x, rest, hdrop, hx⟩ := multimapFind_drop ni A.GetStartTime hklt
  have hscan := noiseScan_eq now A band pA hpA (ni.drop (multimapFind ni A.GetStartTime)) f
  have hbp : bandPower A band = pA := by
    unfold bandPower
    rw [hpA]
    rfl
  constructor
  · intro hs
    have hsplit : ni = ni.take (multimapFind ni A.GetStartTime) ++ x :: rest := by
      rw [← hdrop, List.take_append_drop]
    have hsorted2 := hsorted
    rw [hsplit, List.pairwise_append] at hsorted2
    have hxle : x.1 ≤ now - 1 := by
      rw [hx]
      exact Int.le_sub_one_iff.mpr hs
    have hX : ∀ z ∈ ni.take (multimapFind ni A.GetStartTime), z.1 ≤ now - 1 := by
      intro z hz
      exact le_trans (hsorted2.2.2 z hz x (List.mem_cons_self _ _)) hxle
    have hY : 1 ≤ upper_bound (x :: rest) (now - 1) := by
      simp [upper_bound, not_lt.mpr hxle]
    have hpw : timelinePower (ni.drop (multimapFind ni A.GetStartTime)) (now - 1) =
        some (activePower log band (now - 1)) := by
      rw [hdrop, ← timelinePower_append _ _ _ hX hY, ← hsplit]
      exact hpow (now - 1) (le_trans hSA (by rw [← hx]; exact hxle))
    rw [hpw] at hscan
    simp only [] at hscan
    have hval : activePower log band (now - 1) - pA = activeBefore (log.erase A) band now := by
      rw [activePower_pred, activeBefore_erase log band now A hAlog hs hend, hbp]
      ring
    rw [hval] at hscan
    have hge : activeBefore (log.erase A) band now ≥ 0 :=
      activeBefore_nonneg _ band now (fun e he => hnn e (List.mem_of_mem_erase he))
    unfold InterferenceHelper.CalculateNoiseInterferenceW
    rw [hf, hni]
    simp only []
    rw [hscan, hlt]
    simp only []
    rw [if_pos hge]
    rfl
  · intro hs
    refine ⟨f, hf, ?_⟩
    have hlt1 : now - 1 < x.1 := by
      rw [hx, hs]
      exact Int.sub_one_lt_iff.mpr (le_refl _)
    have hpw : timelinePower (ni.drop (multimapFind ni A.GetStartTime)) (now - 1) = none := by
      rw [hdrop]
      simp [timelinePower, upper_bound, hlt1]
    rw [hpw] at hscan
    simp only [] at hscan
    have hge : f ≥ 0 := hfnn f hf
    unfold InterferenceHelper.CalculateNoiseInterferenceW
    rw [hf, hni]
    simp only []
    rw [hscan, hlt]
    simp only []
    rw [if_pos hge]
    rfl

/-- Sample run on `sampleBand`: the band is registered, `samplePpdu` is added at time 0,
the reception starts, and `sampleInterferer` is added at time 30. -/
theorem sampleInterfered_run :
    BandRun sampleBand 30 0 [sampleInterferer, samplePpdu] [sampleInterferer, samplePpdu]
      sampleInterfered :=
  BandRun.addKeep sampleInFlight.NotifyRxStart sampleInterfered 30 0 [samplePpdu] [samplePpdu]
    8 8 { handle := 0 } 30 [(sampleBand, 2)] sampleInterferer 2
    (BandRun.wait _ 0 30 0 _ _
      (BandRun.notifyRxStart sampleInFlight 0 0 _ _
        (BandRun.addPrune sampleFresh sampleInFlight 0 0 [] [] 7 7 { handle := 0 } 100
          [(sampleBand, 3)] samplePpdu 3
          (BandRun.start (InterferenceHelper.create 1) sampleFresh (Constructed.create 1)
            (by decide))
          (by decide) (by simp) (by simp) (by decide) (by decide!)))
      (by decide))
    (by decide) (by simp) (by simp) (by decide) (by decide!)

theorem sample_powers_nonneg :
    ∀ e ∈ [sampleInterferer, samplePpdu], 0 ≤ bandPower e sampleBand := by
  intro e he
  simp only [List.mem_cons, List.mem_singleton, List.not_mem_nil, or_false] at he
  rcases he with rfl | rfl <;> decide!

/-- C28: superposition. After a run on a registered band (Add calls at non-decreasing times
not before 0 with durations that are not negative, interleaved with `NotifyRxStart`,
`NotifyRxEnd` and `AddBand` of other bands), for every time `t` not before 0 and not
earlier than the latest Add, the timeline of the band is ordered by timestamp and the
power of its last record with timestamp `≤ t`, which is what `GetPreviousPosition (t)`
reads, equals the sum of the band powers of the added events with start `≤ t <` end. -/
theorem C28_power_is_sum_of_events_in_flight (band : WifiSpectrumBand) (T S : Time)
    (log kept : List Event) (h : InterferenceHelper) (hrun : BandRun band T S log kept h)
    (t : Time) (ht0 : 0 ≤ t) (hlast : ∀ e, log.head? = some e → e.GetStartTime ≤ t) :
    h.previousPower t band = some (activePower log band t) ∧
    ∃ ni, mapFind h.m_niChangesPerBand band = some ni ∧
      ni.Pairwise (fun a b => a.1 ≤ b.1) ∧
      lastPower (ni.filter (fun r => decide (r.1 ≤ t))) = some (activePower log band t) :=
  BandRun_power band T S log kept h hrun t ht0 hlast

/-- Witness of C28: `samplePpdu` (3 W during [0, 100)) and `sampleInterferer` (2 W during
[30, 60)) were added; the power is read at time 40. -/
theorem C28_power_is_sum_of_events_in_flight_witness :
    sampleInterfered.previousPower 40 sampleBand =
      some (activePower [sampleInterferer, samplePpdu] sampleBand 40) ∧
    ∃ ni, mapFind sampleInterfered.m_niChangesPerBand sampleBand = some ni ∧
      ni.Pairwise (fun a b => a.1 ≤ b.1) ∧
      lastPower (ni.filter (fun r => decide (r.1 ≤ 40))) =
        some (activePower [sampleInterferer, samplePpdu] sampleBand 40) :=
  C28_power_is_sum_of_events_in_flight sampleBand 30 0 [sampleInterferer, samplePpdu]
    [sampleInterferer, samplePpdu] sampleInterfered sampleInterfered_run 40 (by decide)
    (by
      intro e he
      simp only [List.head?_cons, Option.some.injEq] at he
      rw [← he]
      decide)

/-- C29: the noise returned by `CalculateNoiseInterferenceW` is the interference of the
other signals at the instant of the query. After a run that has reached time `now`, with
band powers that are not negative, for an event `A` with power on the band whose records
were kept (every later Add with power on the band was made with the flag set) and that
has not ended before `now`: when `A` started before `now` the call returns the sum of the
band powers of the other added events with start `< now ≤` end, and when `A` starts at
`now` the call returns the first power (the baseline) of the band. -/
theorem C29_noise_is_interference_at_query_instant (band : WifiSpectrumBand) (now S : Time)
    (log kept : List Event) (h : InterferenceHelper) (A : Event)
    (hrun : BandRun band now S log kept h)
    (hnn : ∀ e ∈ log, 0 ≤ bandPower e band) (hA : A ∈ kept) (hend : now ≤ A.GetEndTime) :
    (A.GetStartTime < now →
      (h.CalculateNoiseInterferenceW now A [] band).map Prod.fst =
        some (activeBefore (log.erase A) band now)) ∧
    (A.GetStartTime = now →
      ∃ f, mapFind h.m_firstPowerPerBand band = some f ∧
        (h.CalculateNoiseInterferenceW now A [] band).map Prod.fst = some f) :=
  BandRun_noise band now S log kept h A hrun hnn hA hend

/-- Witness of C29: `samplePpdu` (3 W during [0, 100)) and `sampleInterferer` (2 W during
[30, 60)) were added while receiving; the noise of `samplePpdu` is asked at time 50. -/
theorem C29_noise_is_interference_at_query_instant_witness :
    (sampleInterfered.CalculateNoiseInterferenceW 50 samplePpdu [] sampleBand).map Prod.fst =
      some (activeBefore ([sampleInterferer, samplePpdu].erase samplePpdu) sampleBand 50) :=
  (C29_noise_is_interference_at_query_instant sampleBand 50 0 [sampleInterferer, samplePpdu]
    [sampleInterferer, samplePpdu] sampleInterfered samplePpdu
    (BandRun.wait _ 30 50 0 _ _ sampleInterfered_run (by decide))
    sample_powers_nonneg (by simp) (by decide)).1 (by decide)

theorem pow2_pos (q : Int) : 0 < pow2 q := by
  unfold pow2
  split_ifs <;> positivity

/-- The rational `pow2 q` is the power of two with exponent `q`. -/
theorem pow2_eq_zpow (q : Int) : pow2 q = (2 : ℚ) ^ q := by
  unfold pow2
  split_ifs with hq
  · obtain ⟨n, rfl⟩ := Int.eq_ofNat_of_zero_le hq
    simp
  · obtain ⟨n, hn⟩ := Int.eq_ofNat_of_zero_le (by omega : 0 ≤ -q)
    have hq2 : q = -(n : Int) := by omega
    subst hq2
    simp

/-- The position of the leading bit: `2 ^ bitLog n n ≤ n < 2 ^ (bitLog n n + 1)`. -/
theorem bitLog_spec : ∀ (fuel n : Nat), n ≤ fuel → 0 < n →
    2 ^ bitLog fuel n ≤ n ∧ n < 2 ^ (bitLog fuel n + 1) := by
  intro fuel
  induction fuel with
  | zero =>
    intro n h1 h2
    omega
  | succ k ih =>
    intro n h1 h2
    unfold bitLog
    split_ifs with h
    · have : n = 1 := by omega
      subst this
      simp
    · have h3 := ih (n / 2) (by omega) (by omega)
      rw [pow_succ, pow_succ]
      rw [pow_succ] at h3
      omega

/-- The binary exponent of a positive rational: `2 ^ e ≤ a < 2 ^ (e + 1)`. -/
theorem log2Floor_spec (a : ℚ) (ha : 0 < a) :
    pow2 (log2Floor a) ≤ a ∧ a < pow2 (log2Floor a + 1) := by
  have hnum : 0 < a.num := Rat.num_pos.mpr ha
  have hden : 0 < a.den := a.den_pos
  obtain ⟨n, hn⟩ := Int.eq_ofNat_of_zero_le (le_of_lt hnum)
  have hnabs : a.num.natAbs = n := by rw [hn]; simp
  have hnpos : 0 < n := by omega
  obtain ⟨hp1, hp2⟩ := bitLog_spec n n (le_refl _) hnpos
  obtain ⟨hd1, hd2⟩ := bitLog_spec a.den a.den (le_refl _) hden
  have hmul : a * (a.den : ℚ) = (n : ℚ) := by
    rw [Rat.mul_den_eq_num, hn]
    simp
  have hdq : (0 : ℚ) < (a.den : ℚ) := by exact_mod_cast hden
  have h1 : ((n : ℚ)) < (2 : ℚ) ^ (bitLog n n + 1) := by exact_mod_cast hp2
  have h2 : (2 : ℚ) ^ (bitLog a.den a.den) ≤ (a.den : ℚ) := by exact_mod_cast hd1
  have h4 : (2 : ℚ) ^ (bitLog n n) ≤ (n : ℚ) := by exact_mod_cast hp1
  have h5 : (a.den : ℚ) < (2 : ℚ) ^ (bitLog a.den a.den + 1) := by exact_mod_cast hd2
  have hupper : a < pow2 ((bitLog n n : Int) - (bitLog a.den a.den : Int) + 1) := by
    have h3 : (2 : ℚ) ^ ((bitLog n n : Int) - (bitLog a.den a.den : Int) + 1)
        = (2 : ℚ) ^ (bitLog n n + 1) / (2 : ℚ) ^ (bitLog a.den a.den) := by
      rw [show ((bitLog n n : Int) - (bitLog a.den a.den : Int) + 1)
        = ((bitLog n n + 1 : Nat) : Int) - ((bitLog a.den a.den : Nat) : Int) by push_cast; ring]
      rw [zpow_sub₀ (by norm_num), zpow_natCast, zpow_natCast]
    rw [pow2_eq_zpow, h3, lt_div_iff₀ (by positivity)]
    calc a * 2 ^ bitLog a.den a.den ≤ a * a.den :=
          mul_le_mul_of_nonneg_left h2 (le_of_lt ha)
      _ < 2 ^ (bitLog n n + 1) := by rw [hmul]; exact h1
  have hlower : pow2 ((bitLog n n : Int) - (bitLog a.den a.den : Int) - 1) ≤ a := by
    have h3 : (2 : ℚ) ^ ((bitLog n n : Int) - (bitLog a.den a.den : Int) - 1)
        = (2 : ℚ) ^ (bitLog n n) / (2 : ℚ) ^ (bitLog a.den a.den + 1) := by
      rw [show ((bitLog n n : Int) - (bitLog a.den a.den : Int) - 1)
        = ((bitLog n n : Nat) : Int) - ((bitLog a.den a.den + 1 : Nat) : Int) by push_cast; ring]
      rw [zpow_sub₀ (by norm_num), zpow_natCast, zpow_natCast]
    rw [pow2_eq_zpow, h3, div_le_iff₀ (by positivity)]
    calc (2 : ℚ) ^ bitLog n n ≤ a * a.den := by rw [hmul]; exact h4
      _ ≤ a * 2 ^ (bitLog a.den a.den + 1) :=
          mul_le_mul_of_nonneg_left (le_of_lt h5) (le_of_lt ha)
  unfold log2Floor
  simp only [hnabs]
  split_ifs with hc
  · exact ⟨hc, hupper⟩
  · refine ⟨hlower, ?_⟩
    rw [sub_add_cancel]
    exact not_le.mp hc

/-- What `roundDouble` returns for a real `x` that is not 0: with `e` the binary exponent
of the magnitude of `x` and `q = max (e - 52) (-1074)` the exponent of the unit in the last
place, the magnitude of the result is `n * 2 ^ q` for an integer `n` with
`0 ≤ n ≤ 2 ^ 53`, the result has the sign of `x`, and it is a nearest such multiple:
it differs from `x` by at most half a unit in the last place, and `n` is even when it
differs by exactly half a unit (a tie). -/
theorem roundDouble_nearest (x : ℚ) (hx : x ≠ 0) :
    pow2 (log2Floor |x|) ≤ |x| ∧ |x| < pow2 (log2Floor |x| + 1) ∧
    ∃ n : Int, 0 ≤ n ∧ n ≤ 2 ^ 53 ∧
      |roundDouble x| = (n : ℚ) * pow2 (max (log2Floor |x| - 52) (-1074)) ∧
      (0 ≤ x → 0 ≤ roundDouble x) ∧ (x < 0 → roundDouble x ≤ 0) ∧
      |roundDouble x - x| ≤ pow2 (max (log2Floor |x| - 52) (-1074)) / 2 ∧
      (|roundDouble x - x| = pow2 (max (log2Floor |x| - 52) (-1074)) / 2 → n % 2 = 0) := by
  have habs : (if x < 0 then -x else x) = |x| := by
    split_ifs with h
    · exact (abs_of_neg h).symm
    · exact (abs_of_nonneg (not_lt.mp h)).symm
  have hapos : 0 < |x| := abs_pos.mpr hx
  obtain ⟨hlo, hhi⟩ := log2Floor_spec |x| hapos
  refine ⟨hlo, hhi, ?_⟩
  have hq := pow2_pos (max (log2Floor |x| - 52) (-1074))
  have hfl : (Rat.floor (|x| / pow2 (max (log2Floor |x| - 52) (-1074))) : ℚ)
      ≤ |x| / pow2 (max (log2Floor |x| - 52) (-1074)) := Int.floor_le _
  have hfu : |x| / pow2 (max (log2Floor |x| - 52) (-1074))
      < (Rat.floor (|x| / pow2 (max (log2Floor |x| - 52) (-1074))) : ℚ) + 1 :=
    Int.lt_floor_add_one _
  have hm0 : 0 ≤ Rat.floor (|x| / pow2 (max (log2Floor |x| - 52) (-1074))) :=
    Rat.le_floor.mpr (by rw [Int.cast_zero]; exact div_nonneg (le_of_lt hapos) (le_of_lt hq))
  have hscaled : |x| / pow2 (max (log2Floor |x| - 52) (-1074)) < 2 ^ 53 := by
    rw [div_lt_iff₀ hq]
    refine lt_of_lt_of_le hhi ?_
    rw [pow2_eq_zpow, pow2_eq_zpow, ← zpow_natCast, ← zpow_add₀ (by norm_num)]
    apply zpow_le_zpow_right₀ (by norm_num)
    have := le_max_left (log2Floor |x| - 52) (-1074)
    push_cast
    omega
  have hm53 : Rat.floor (|x| / pow2 (max (log2Floor |x| - 52) (-1074))) + 1 ≤ 2 ^ 53 := by
    have h1 : ((Rat.floor (|x| / pow2 (max (log2Floor |x| - 52) (-1074))) : Int) : ℚ)
        < ((2 ^ 53 : Int) : ℚ) := by
      push_cast
      exact lt_of_le_of_lt hfl hscaled
    have h2 := Int.cast_lt.mp h1
    omega
  obtain ⟨n, hn0, hn53, hnS, heven, hdef⟩ : ∃ n : Int, 0 ≤ n ∧ n ≤ 2 ^ 53 ∧
      |(n : ℚ) - |x| / pow2 (max (log2Floor |x| - 52) (-1074))| ≤ 1 / 2 ∧
      (|(n : ℚ) - |x| / pow2 (max (log2Floor |x| - 52) (-1074))| = 1 / 2 → n % 2 = 0) ∧
      (if |x| / pow2 (max (log2Floor |x| - 52) (-1074))
            - (Rat.floor (|x| / pow2 (max (log2Floor |x| - 52) (-1074))) : ℚ) < 1 / 2 then
          Rat.floor (|x| / pow2 (max (log2Floor |x| - 52) (-1074)))
        else if 1 / 2 < |x| / pow2 (max (log2Floor |x| - 52) (-1074))
            - (Rat.floor (|x| / pow2 (max (log2Floor |x| - 52) (-1074))) : ℚ) then
          Rat.floor (|x| / pow2 (max (log2Floor |x| - 52) (-1074))) + 1
        else if Rat.floor (|x| / pow2 (max (log2Floor |x| - 52) (-1074))) % 2 = 0 then
          Rat.floor (|x| / pow2 (max (log2Floor |x| - 52) (-1074)))
        else Rat.floor (|x| / pow2 (max (log2Floor |x| - 52) (-1074))) + 1) = n := by
    split_ifs with c1 c2 c3
    · refine ⟨_, hm0, by omega, by rw [abs_le]; constructor <;> linarith, ?_, rfl⟩
      intro h
      rw [abs_sub_comm, abs_of_nonneg (by linarith)] at h
      linarith
    · refine ⟨_, by omega, hm53, by rw [abs_le]; constructor <;> push_cast <;> linarith,
        ?_, rfl⟩
      intro h
      rw [abs_of_nonneg (by push_cast; linarith)] at h
      push_cast at h
      linarith
    · exact ⟨_, hm0, by omega, by rw [abs_le]; constructor <;> linarith, fun _ => c3, rfl⟩
    · exact ⟨_, by omega, hm53, by rw [abs_le]; constructor <;> push_cast <;> linarith,
        fun _ => by omega, rfl⟩
  have hxS : |x| = |x| / pow2 (max (log2Floor |x| - 52) (-1074))
      * pow2 (max (log2Floor |x| - 52) (-1074)) := by
    field_simp
  have hnq : (0 : ℚ) ≤ (n : ℚ) := by exact_mod_cast hn0
  have hprod : 0 ≤ (n : ℚ) * pow2 (max (log2Floor |x| - 52) (-1074)) :=
    mul_nonneg hnq (le_of_lt hq)
  have hscale : abs ((n : ℚ) * pow2 (max (log2Floor |x| - 52) (-1074)) - abs x)
      = abs ((n : ℚ) - |x| / pow2 (max (log2Floor |x| - 52) (-1074)))
        * pow2 (max (log2Floor |x| - 52) (-1074)) := by
    have h1 : (n : ℚ) * pow2 (max (log2Floor |x| - 52) (-1074)) - |x|
        = ((n : ℚ) - |x| / pow2 (max (log2Floor |x| - 52) (-1074)))
          * pow2 (max (log2Floor |x| - 52) (-1074)) := by
      field_simp
    rw [h1, abs_mul, abs_of_pos hq]
  have hdist : abs ((n : ℚ) * pow2 (max (log2Floor |x| - 52) (-1074)) - abs x)
      ≤ pow2 (max (log2Floor |x| - 52) (-1074)) / 2 := by
    rw [hscale]
    calc |(n : ℚ) - |x| / pow2 (max (log2Floor |x| - 52) (-1074))|
          * pow2 (max (log2Floor |x| - 52) (-1074))
        ≤ 1 / 2 * pow2 (max (log2Floor |x| - 52) (-1074)) :=
          mul_le_mul_of_nonneg_right hnS (le_of_lt hq)
      _ = pow2 (max (log2Floor |x| - 52) (-1074)) / 2 := by ring
  have htie : abs ((n : ℚ) * pow2 (max (log2Floor |x| - 52) (-1074)) - abs x)
      = pow2 (max (log2Floor |x| - 52) (-1074)) / 2 → n % 2 = 0 := by
    intro h
    apply heven
    rw [hscale] at h
    have h2 : abs ((n : ℚ) - |x| / pow2 (max (log2Floor |x| - 52) (-1074)))
        * pow2 (max (log2Floor |x| - 52) (-1074))
        = 1 / 2 * pow2 (max (log2Floor |x| - 52) (-1074)) := by
      rw [h]
      ring
    exact mul_right_cancel₀ (ne_of_gt hq) h2
  have hsigned : abs (roundDouble x - x)
      = abs ((n : ℚ) * pow2 (max (log2Floor |x| - 52) (-1074)) - abs x) := by
    unfold roundDouble
    rw [if_neg hx]
    simp only [habs]
    rw [hdef]
    split_ifs with hneg
    · have : -((n : ℚ) * pow2 (max (log2Floor |x| - 52) (-1074))) - x
          = -((n : ℚ) * pow2 (max (log2Floor |x| - 52) (-1074)) - |x|) := by
        rw [abs_of_neg hneg]
        ring
      rw [this, abs_neg]
    · rw [abs_of_nonneg (not_lt.mp hneg)]
  have hval : roundDouble x = if x < 0 then
      -((n : ℚ) * pow2 (max (log2Floor |x| - 52) (-1074)))
      else (n : ℚ) * pow2 (max (log2Floor |x| - 52) (-1074)) := by
    unfold roundDouble
    rw [if_neg hx]
    simp only [habs]
    rw [hdef]
  refine ⟨n, hn0, hn53, ?_, ?_, ?_, ?_, ?_⟩
  · rw [hval]
    split_ifs
    · rw [abs_neg, abs_of_nonneg hprod]
    · rw [abs_of_nonneg hprod]
  · intro h0
    rw [hval, if_neg (not_lt.mpr h0)]
    exact hprod
  · intro h0
    rw [hval, if_pos h0]
    linarith
  · rw [hsigned]
    exact hdist
  · rw [hsigned]
    exact htie

/-- Values of `roundDouble`: small integers and 1/2 are doubles, 1/10 is rounded to
3602879701896397 / 2^55 (the double 0x3FB999999999999A), 7/100000 is rounded down, and
2^64 - 1 is rounded up to 2^64. -/
theorem roundDouble_values :
    roundDouble 385 = 385 ∧ roundDouble (1 / 2) = 1 / 2 ∧
    roundDouble (1 / 10) = 3602879701896397 / 36028797018963968 ∧
    roundDouble (7 / 100000) = 2582544170319337 / 36893488147419103232 ∧
    roundDouble (7 / 100000) < 7 / 100000 ∧
    roundDouble 18446744073709551615 = 18446744073709551616 := by
  refine ⟨?_, ?_, ?_, ?_, ?_, ?_⟩ <;> decide!

theorem energyScan_ge (energyW : ℚ) :
    ∀ (l : NiChanges) (e0 : Time), (∀ r ∈ l, e0 ≤ r.1) →
      l.Pairwise (fun a b => a.1 ≤ b.1) → e0 ≤ energyScan energyW l e0 := by
  intro l
  induction l with
  | nil =>
    intro e0 _ _
    simp [energyScan]
  | cons i rest ih =>
    intro e0 hall hsorted
    have hi : e0 ≤ i.1 := hall i (List.mem_cons_self _ _)
    rw [List.pairwise_cons] at hsorted
    unfold energyScan
    simp only []
    split
    · exact hi
    · exact le_trans hi (ih i.1 hsorted.1 hsorted.2)

theorem energyScan_antitone (E1 E2 : ℚ) (hE : E1 ≤ E2) :
    ∀ (l : NiChanges) (e0 : Time), (∀ r ∈ l, e0 ≤ r.1) →
      l.Pairwise (fun a b => a.1 ≤ b.1) → energyScan E2 l e0 ≤ energyScan E1 l e0 := by
  intro l
  induction l with
  | nil =>
    intro e0 _ _
    simp [energyScan]
  | cons i rest ih =>
    intro e0 hall hsorted
    rw [List.pairwise_cons] at hsorted
    by_cases h2 : i.2.GetPower < E2
    · have hl : energyScan E2 (i :: rest) e0 = i.1 := by
        unfold energyScan
        simp only []
        rw [if_pos h2]
      rw [hl]
      by_cases h1 : i.2.GetPower < E1
      · have hr : energyScan E1 (i :: rest) e0 = i.1 := by
          unfold energyScan
          simp only []
          rw [if_pos h1]
        rw [hr]
      · have hr : energyScan E1 (i :: rest) e0 = energyScan E1 rest i.1 := by
          conv_lhs => unfold energyScan
          simp only []
          rw [if_neg h1]
        rw [hr]
        exact energyScan_ge E1 rest i.1 hsorted.1 hsorted.2
    · have h1 : ¬ i.2.GetPower < E1 := fun hc => h2 (lt_of_lt_of_le hc hE)
      have hl : energyScan E2 (i :: rest) e0 = energyScan E2 rest i.1 := by
        conv_lhs => unfold energyScan
        simp only []
        rw [if_neg h2]
      have hr : energyScan E1 (i :: rest) e0 = energyScan E1 rest i.1 := by
        conv_lhs => unfold energyScan
        simp only []
        rw [if_neg h1]
      rw [hl, hr]
      exact ih i.1 hsorted.1 hsorted.2

/-- C39: `GetEnergyDuration` is antitone in the threshold. For a registered band whose
timeline is ordered by timestamp and has a record not later than the current time (the
zero power record at time 0 in every reachable state), and thresholds `E1 ≤ E2`, both calls
return and the duration for `E2` is not longer than the duration for `E1`. -/
theorem C39_energy_duration_is_antitone_in_threshold (h : InterferenceHelper) (now : Time)
    (E1 E2 : ℚ) (band : WifiSpectrumBand) (ni : NiChanges)
    (hreg : mapFind h.m_niChangesPerBand band = some ni)
    (hsorted : ni.Pairwise (fun a b => a.1 ≤ b.1))
    (hn : 1 ≤ upper_bound ni now) (hE : E1 ≤ E2) :
    ∃ d1 d2, h.GetEnergyDuration now E1 band = some d1 ∧
      h.GetEnergyDuration now E2 band = some d2 ∧ d2 ≤ d1 := by
  obtain ⟨r1, hni1, -, -, hd1⟩ := GetEnergyDuration_eq h now E1 band ni hreg hn
  obtain ⟨r2, hni2, -, -, hd2⟩ := GetEnergyDuration_eq h now E2 band ni hreg hn
  have hr : r1 = r2 := by
    have heq := List.append_cancel_left (hni1.symm.trans hni2)
    exact (List.cons.inj heq).1
  subst hr
  have hs2 : (r1 :: ni.drop (upper_bound ni now)).Pairwise (fun a b => a.1 ≤ b.1) := by
    rw [hni1, List.pairwise_append] at hsorted
    exact hsorted.2.1
  have hall : ∀ r ∈ r1 :: ni.drop (upper_bound ni now), r1.1 ≤ r.1 := by
    intro r hr
    rcases List.mem_cons.mp hr with rfl | hr1
    · exact le_refl _
    · exact (List.pairwise_cons.mp hs2).1 r hr1
  have hle := energyScan_antitone E1 E2 hE _ r1.1 hall hs2
  refine ⟨_, _, hd1, hd2, ?_⟩
  split_ifs <;> linarith

/-- Witness of C39: the timeline of `sampleBackToBack` queried at time 12 with the
thresholds 1 W and 5 W. -/
theorem C39_energy_duration_is_antitone_in_threshold_witness :
    ∃ d1 d2, sampleBackToBack.GetEnergyDuration 12 1 sampleBand = some d1 ∧
      sampleBackToBack.GetEnergyDuration 12 5 sampleBand = some d2 ∧ d2 ≤ d1 :=
  C39_energy_duration_is_antitone_in_threshold sampleBackToBack 12 1 5 sampleBand
    sampleBackToBackTimeline (by decide) (by decide) (by decide) (by norm_num)

/-- A header walk that does not abort visits the intervals of `walkIntervals` in order:
its queries are, interval by interval, the chunks of the body of the loop for the
interval, each at the SNR of the interval. -/
theorem phyHeaderWalk_some_groups (h : InterferenceHelper) (channelWidth : Nat) (powerW : ℚ)
    (chunks : Time → Time → Option (List (Time × WifiMode))) :
    ∀ (rest : NiChanges) (previous : Time) (noise : ℚ) (w : List (ℚ × Time × WifiMode)),
      h.phyHeaderWalk channelWidth powerW chunks rest previous noise = some w →
      ∃ gs : List ((Time × Time × ℚ) × List (Time × WifiMode)),
        gs.map Prod.fst = h.walkIntervals channelWidth powerW rest previous noise ∧
        w = gs.flatMap groupQueries ∧
        ∀ g ∈ gs, chunks g.1.1 g.1.2.1 = some g.2 := by
  intro rest
  induction rest with
  | nil =>
    intro previous noise w hw
    simp only [phyHeaderWalk, Option.some.injEq] at hw
    exact ⟨[], rfl, by rw [← hw]; rfl, by simp⟩
  | cons j rest ih =>
    intro previous noise w hw
    unfold phyHeaderWalk at hw
    simp only [] at hw
    split at hw
    · simp at hw
    · split at hw
      · simp at hw
      · split at hw
        · simp at hw
        · rename_i l hl _ w1 hw1
          simp only [Option.some.injEq] at hw
          obtain ⟨gs, hgi, hgw, hgc⟩ := ih j.1 (j.2.GetPower - powerW) w1 hw1
          refine ⟨((previous, j.1, h.CalculateSnr powerW noise channelWidth), l) :: gs,
            ?_, ?_, ?_⟩
          · simp only [List.map_cons, walkIntervals, hgi]
          · rw [← hw, hgw]
            simp only [List.flatMap_cons, groupQueries]
          · intro g hg
            rcases List.mem_cons.mp hg with rfl | hg
            · exact hl
            · exact hgc g hg

/-- The queries of `CalculateLegacyPhyHeaderPer` are grouped by the intervals of the local
timeline of the band, and the SNR of every interval is computed with the width 20 when the
channel width of the transmission is at least 40 and with that width otherwise. -/
theorem legacyHeaderQueries_groups (h : InterferenceHelper) (c : Collaborators)
    (m : PhyHeaderModes) (event : Event) (nis : NiChangesPerBand) (band : WifiSpectrumBand)
    (powerW : ℚ) (w : List (ℚ × Time × WifiMode))
    (hp : event.GetRxPowerW band = some powerW)
    (hq : h.legacyHeaderQueries c m event nis band = some w) :
    ∃ (j : Time × NiChange) (rest : NiChanges) (f : ℚ)
        (gs : List ((Time × Time × ℚ) × List (Time × WifiMode))),
      mapFind nis band = some (j :: rest) ∧ mapFind h.m_firstPowerPerBand band = some f ∧
      gs.map Prod.fst = h.walkIntervals
        (if c.GetChannelWidth event.GetTxVector ≥ 40 then 20
         else c.GetChannelWidth event.GetTxVector) powerW rest j.1 f ∧
      w = gs.flatMap groupQueries := by
  unfold legacyHeaderQueries at hq
  simp only [hp] at hq
  split at hq
  · rename_i j rest f p1 hn hf hp1
    simp only [Option.some.injEq] at hp1
    rw [← hp1] at hq
    obtain ⟨gs, hgi, hgw, -⟩ := phyHeaderWalk_some_groups h _ powerW _ rest j.1 f w hq
    exact ⟨j, rest, f, gs, hn, hf, hgi, hgw⟩
  · simp at hq

/-- The queries of `CalculateNonLegacyPhyHeaderPer` are grouped by the intervals of the
local timeline of the band, with the same width as for the legacy header. -/
theorem nonLegacyHeaderQueries_groups (h : InterferenceHelper) (c : Collaborators)
    (m : PhyHeaderModes) (event : Event) (nis : NiChangesPerBand) (band : WifiSpectrumBand)
    (powerW : ℚ) (w : List (ℚ × Time × WifiMode))
    (hp : event.GetRxPowerW band = some powerW)
    (hq : h.nonLegacyHeaderQueries c m event nis band = some w) :
    ∃ (j : Time × NiChange) (rest : NiChanges) (f : ℚ)
        (gs : List ((Time × Time × ℚ) × List (Time × WifiMode))),
      mapFind nis band = some (j :: rest) ∧ mapFind h.m_firstPowerPerBand band = some f ∧
      gs.map Prod.fst = h.walkIntervals
        (if c.GetChannelWidth event.GetTxVector ≥ 40 then 20
         else c.GetChannelWidth event.GetTxVector) powerW rest j.1 f ∧
      w = gs.flatMap groupQueries := by
  unfold nonLegacyHeaderQueries at hq
  simp only [hp] at hq
  split at hq
  · rename_i j rest f p1 hn hf hp1
    simp only [Option.some.injEq] at hp1
    rw [← hp1] at hq
    obtain ⟨gs, hgi, hgw, -⟩ := phyHeaderWalk_some_groups h _ powerW _ rest j.1 f w hq
    exact ⟨j, rest, f, gs, hn, hf, hgi, hgw⟩
  · simp at hq

theorem option_pair_eq {α β : Type} (x : Option (α × β)) (a : α) (b : β)
    (h1 : x.map Prod.fst = some a) (h2 : x.map Prod.snd = some b) : x = some (a, b) := by
  cases x with
  | none => simp at h1
  | some v =>
    simp only [Option.map_some', Option.some.injEq] at h1 h2
    rw [← h1, ← h2]

/-- The noise of `samplePpdu` asked at time 50 on `sampleInterfered`: 2 W, with the local
timeline `sampleLocalSplit`. -/
theorem sampleInterfered_noise :
    sampleInterfered.CalculateNoiseInterferenceW 50 samplePpdu [] sampleBand =
      some (2, sampleLocalSplit) :=
  option_pair_eq _ 2 sampleLocalSplit (by decide!) (by decide!)

/-- C36: PHY headers are evaluated on the 20 MHz primary channel. There is one width `W`,
20 when the channel width of the transmission is at least 40 and the width of the
transmission otherwise, such that `CalculateLegacyPhyHeaderSnrPer` and
`CalculateNonLegacyPhyHeaderSnrPer` report the SNR computed with `W` from the noise
returned by `CalculateNoiseInterferenceW`, and their PER is computed from a walk over the
local timeline `j :: rest` of the band in which the SNR of every interval is the one of
`walkIntervals` at the same `W`: `CalculateSnr (powerW, n, W)` with `n` the first power
of the band for the first interval and the power of the record that opens the interval,
less the power of the event, for every later one. Every query that the walk passes to
`CalculateChunkSuccessRate` carries the SNR of its interval. -/
theorem C36_headers_use_primary_channel_width (h : InterferenceHelper) (c : Collaborators)
    (m : PhyHeaderModes) (now : Time) (event : Event) (band : WifiSpectrumBand)
    (noise : ℚ) (nis : NiChangesPerBand) (powerW : ℚ)
    (hn : h.CalculateNoiseInterferenceW now event [] band = some (noise, nis))
    (hp : event.GetRxPowerW band = some powerW) :
    ∃ W : Nat, (40 ≤ c.GetChannelWidth event.GetTxVector → W = 20) ∧
      (c.GetChannelWidth event.GetTxVector < 40 → W = c.GetChannelWidth event.GetTxVector) ∧
      h.CalculateLegacyPhyHeaderSnrPer c m now event band =
        (h.legacyHeaderQueries c m event nis band).map (fun w =>
          (h.CalculateSnr powerW noise W, 1 - (w.map (fun q =>
            h.CalculateChunkSuccessRate c q.1 q.2.1 q.2.2 event.GetTxVector)).prod)) ∧
      (∀ w, h.legacyHeaderQueries c m event nis band = some w →
        ∃ (j : Time × NiChange) (rest : NiChanges) (f : ℚ)
            (gs : List ((Time × Time × ℚ) × List (Time × WifiMode))),
          mapFind nis band = some (j :: rest) ∧
          mapFind h.m_firstPowerPerBand band = some f ∧
          gs.map Prod.fst = h.walkIntervals W powerW rest j.1 f ∧
          w = gs.flatMap groupQueries) ∧
      h.CalculateNonLegacyPhyHeaderSnrPer c m now event band =
        (h.nonLegacyHeaderQueries c m event nis band).map (fun w =>
          (h.CalculateSnr powerW noise W, 1 - (w.map (fun q =>
            h.CalculateChunkSuccessRate c q.1 q.2.1 q.2.2 event.GetTxVector)).prod)) ∧
      (∀ w, h.nonLegacyHeaderQueries c m event nis band = some w →
        ∃ (j : Time × NiChange) (rest : NiChanges) (f : ℚ)
            (gs : List ((Time × Time × ℚ) × List (Time × WifiMode))),
          mapFind nis band = some (j :: rest) ∧
          mapFind h.m_firstPowerPerBand band = some f ∧
          gs.map Prod.fst = h.walkIntervals W powerW rest j.1 f ∧
          w = gs.flatMap groupQueries) := by
  refine ⟨if c.GetChannelWidth event.GetTxVector ≥ 40 then 20
    else c.GetChannelWidth event.GetTxVector, ?_, ?_, ?_, ?_, ?_, ?_⟩
  · intro hw
    rw [if_pos hw]
  · intro hw
    rw [if_neg (not_le.mpr hw)]
  · unfold CalculateLegacyPhyHeaderSnrPer
    simp only [hn, hp]
    rw [CalculateLegacyPhyHeaderPer_eq_queries]
    cases h.legacyHeaderQueries c m event nis band with
    | none => rfl
    | some w => rfl
  · intro w hw
    exact legacyHeaderQueries_groups h c m event nis band powerW w hp hw
  · unfold CalculateNonLegacyPhyHeaderSnrPer
    simp only [hn, hp]
    rw [CalculateNonLegacyPhyHeaderPer_eq_queries]
    cases h.nonLegacyHeaderQueries c m event nis band with
    | none => rfl
    | some w => rfl
  · intro w hw
    exact nonLegacyHeaderQueries_groups h c m event nis band powerW w hp hw

/-- Witness of C36: the headers of `samplePpdu`, a VHT transmission over 80 MHz, evaluated
at time 50 while `sampleInterferer` is in flight. Both reported SNRs are computed from the
noise 2 W at 20 MHz; the walk of the legacy header asks about L-SIG (4 ticks) in the
interval [0, 30) at the SNR of the noise 0 at 20 MHz, the walk of the other headers asks
about three chunks, two in [0, 30) and one in [30, 60) where the noise is 2 W, each at
20 MHz; the SNR at 80 MHz is a different number in both cases. -/
theorem C36_headers_use_primary_channel_width_witness :
    (sampleInterfered.CalculateLegacyPhyHeaderSnrPer sampleWideCollaborators sampleModes 50
        samplePpdu sampleBand).map Prod.fst = some (sampleInterfered.CalculateSnr 3 2 20) ∧
    (sampleInterfered.CalculateNonLegacyPhyHeaderSnrPer sampleWideCollaborators sampleModes 50
        samplePpdu sampleBand).map Prod.fst = some (sampleInterfered.CalculateSnr 3 2 20) ∧
    sampleInterfered.legacyHeaderQueries sampleWideCollaborators sampleModes samplePpdu
        sampleLocalSplit sampleBand =
      some [(sampleInterfered.CalculateSnr 3 0 20, 4, { handle := 1 })] ∧
    sampleInterfered.nonLegacyHeaderQueries sampleWideCollaborators sampleModes samplePpdu
        sampleLocalSplit sampleBand =
      some [(sampleInterfered.CalculateSnr 3 0 20, 2, { handle := 3 }),
            (sampleInterfered.CalculateSnr 3 0 20, 8, { handle := 1 }),
            (sampleInterfered.CalculateSnr 3 2 20, 10, { handle := 3 })] ∧
    sampleInterfered.walkIntervals 20 3
        [(30, { m_power := 5, m_event := some sampleInterferer }),
         (60, { m_power := 3, m_event := some sampleInterferer }),
         (100, { m_power := 0, m_event := some samplePpdu })] 0 0 =
      [(0, 30, sampleInterfered.CalculateSnr 3 0 20),
       (30, 60, sampleInterfered.CalculateSnr 3 2 20),
       (60, 100, sampleInterfered.CalculateSnr 3 0 20)] ∧
    sampleInterfered.CalculateSnr 3 0 20 ≠ sampleInterfered.CalculateSnr 3 0 80 ∧
    sampleInterfered.CalculateSnr 3 2 20 ≠ sampleInterfered.CalculateSnr 3 2 80 := by
  obtain ⟨W, h40, -, hleg, -, hnon, -⟩ :=
    C36_headers_use_primary_channel_width sampleInterfered sampleWideCollaborators sampleModes
      50 samplePpdu sampleBand 2 sampleLocalSplit 3 sampleInterfered_noise (by decide)
  have hW : W = 20 := h40 (by decide)
  subst hW
  have hq1 : sampleInterfered.legacyHeaderQueries sampleWideCollaborators sampleModes
      samplePpdu sampleLocalSplit sampleBand =
      some [(sampleInterfered.CalculateSnr 3 0 20, 4, { handle := 1 })] := by decide!
  have hq2 : sampleInterfered.nonLegacyHeaderQueries sampleWideCollaborators sampleModes
      samplePpdu sampleLocalSplit sampleBand =
      some [(sampleInterfered.CalculateSnr 3 0 20, 2, { handle := 3 }),
            (sampleInterfered.CalculateSnr 3 0 20, 8, { handle := 1 }),
            (sampleInterfered.CalculateSnr 3 2 20, 10, { handle := 3 })] := by decide!
  refine ⟨?_, ?_, hq1, hq2, by decide!, by decide!, by decide!⟩
  · rw [hleg, hq1]
    rfl
  · rw [hnon, hq2]
    rfl

set_option maxHeartbeats 4000000 in
theorem legacyHeaderChunks_some (preamble : WifiPreamble) (headerMode : WifiMode)
    (H S T P previous current : Time)
    (hls : isLongOrShort preamble = true → S = T ∧ T = P)
    (hgf : preamble = WifiPreamble.WIFI_PREAMBLE_HT_GF → H = S) :
    ∃ l, legacyHeaderChunks preamble headerMode H S T P previous current = some l := by
  cases hnl : isLongOrShort preamble
  all_goals
    unfold legacyHeaderChunks
    simp only [hnl, if_true, if_false, Bool.false_eq_true]
    split_ifs <;> first
      | exact ⟨_, rfl⟩
      | (exfalso; have h3 := hls hnl; linarith [h3.1, h3.2])
      | (exfalso; have h4 := hgf (by assumption); linarith)

set_option maxHeartbeats 4000000 in
theorem nonLegacyHeaderChunks_some (m : PhyHeaderModes) (preamble : WifiPreamble)
    (mcsHeaderMode headerMode : WifiMode) (H S T P previous current : Time)
    (hls : isLongOrShort preamble = true → S = T ∧ T = P)
    (hgf : preamble = WifiPreamble.WIFI_PREAMBLE_HT_GF → H = S) :
    ∃ l, nonLegacyHeaderChunks m preamble mcsHeaderMode headerMode H S T P previous current
      = some l := by
  cases hv : (m.IsVht preamble || m.IsHe preamble) <;> cases hnl : isLongOrShort preamble
  all_goals
    unfold nonLegacyHeaderChunks
    simp only [hv, hnl, if_true, if_false, Bool.false_eq_true]
    split_ifs <;> first
      | exact ⟨_, rfl⟩
      | (exfalso; have h3 := hls hnl; linarith [h3.1, h3.2])
      | (exfalso; have h4 := hgf (by assumption); linarith)

/-- C35: the assertions on the preamble inside the header walks cannot fail. When a LONG or
SHORT preamble has no HT-SIG, SIG-A, training and SIG-B field (durations adding up to 0)
and a greenfield preamble has no L-SIG, the body of the loop of
`CalculateLegacyPhyHeaderPer` and of `CalculateNonLegacyPhyHeaderPer` passes every
`NS_ASSERT` on the preamble for every start of the PPDU and every interval
[previous, current), and on every local timeline ordered by timestamp both functions
return. -/
theorem C35_preamble_assertions_cannot_fail (c : Collaborators) (m : PhyHeaderModes)
    (event : Event)
    (hls : isLongOrShort (c.GetPreambleType event.GetTxVector) = true →
      c.GetPlcpHtSigHeaderDuration (c.GetPreambleType event.GetTxVector)
        + c.GetPlcpSigA1Duration (c.GetPreambleType event.GetTxVector)
        + c.GetPlcpSigA2Duration (c.GetPreambleType event.GetTxVector) = 0 ∧
      c.GetPlcpTrainingSymbolDuration event.GetTxVector
        + c.GetPlcpSigBDuration event.GetTxVector = 0)
    (hgf : c.GetPreambleType event.GetTxVector = WifiPreamble.WIFI_PREAMBLE_HT_GF →
      c.GetPlcpHeaderDuration event.GetTxVector = 0) :
    (∀ start previous current : Time,
      (∃ l, legacyHeaderChunks (c.GetPreambleType event.GetTxVector)
          (m.GetPlcpHeaderMode event.GetTxVector)
          (start + c.GetPlcpPreambleDuration event.GetTxVector)
          (sigStart c event.GetTxVector start) (trainingStart c event.GetTxVector start)
          (payloadStart c event.GetTxVector start) previous current = some l) ∧
      (∃ l, nonLegacyHeaderChunks m (c.GetPreambleType event.GetTxVector)
          (selectMcsHeaderMode m (c.GetPreambleType event.GetTxVector))
          (m.GetPlcpHeaderMode event.GetTxVector)
          (start + c.GetPlcpPreambleDuration event.GetTxVector)
          (sigStart c event.GetTxVector start) (trainingStart c event.GetTxVector start)
          (payloadStart c event.GetTxVector start) previous current = some l)) ∧
    (∀ (h : InterferenceHelper) (nis : NiChangesPerBand) (band : WifiSpectrumBand)
      (j : Time × NiChange) (rest : NiChanges) (f powerW : ℚ),
      mapFind nis band = some (j :: rest) →
      (j :: rest).Pairwise (fun a b => a.1 ≤ b.1) →
      mapFind h.m_firstPowerPerBand band = some f →
      event.GetRxPowerW band = some powerW →
      (∃ per, h.CalculateLegacyPhyHeaderPer c m event nis band = some per) ∧
      (∃ per, h.CalculateNonLegacyPhyHeaderPer c m event nis band = some per)) := by
  have hls2 : ∀ start : Time, isLongOrShort (c.GetPreambleType event.GetTxVector) = true →
      sigStart c event.GetTxVector start = trainingStart c event.GetTxVector start ∧
      trainingStart c event.GetTxVector start = payloadStart c event.GetTxVector start := by
    intro start hp
    obtain ⟨h1, h2⟩ := hls hp
    constructor
    · unfold trainingStart
      linarith
    · unfold payloadStart
      linarith
  have hgf2 : ∀ start : Time,
      c.GetPreambleType event.GetTxVector = WifiPreamble.WIFI_PREAMBLE_HT_GF →
      start + c.GetPlcpPreambleDuration event.GetTxVector
        = sigStart c event.GetTxVector start := by
    intro start hp
    unfold sigStart
    rw [hgf hp, add_zero]
  have hbody : ∀ start previous current : Time,
      (∃ l, legacyHeaderChunks (c.GetPreambleType event.GetTxVector)
          (m.GetPlcpHeaderMode event.GetTxVector)
          (start + c.GetPlcpPreambleDuration event.GetTxVector)
          (sigStart c event.GetTxVector start) (trainingStart c event.GetTxVector start)
          (payloadStart c event.GetTxVector start) previous current = some l) ∧
      (∃ l, nonLegacyHeaderChunks m (c.GetPreambleType event.GetTxVector)
          (selectMcsHeaderMode m (c.GetPreambleType event.GetTxVector))
          (m.GetPlcpHeaderMode event.GetTxVector)
          (start + c.GetPlcpPreambleDuration event.GetTxVector)
          (sigStart c event.GetTxVector start) (trainingStart c event.GetTxVector start)
          (payloadStart c event.GetTxVector start) previous current = some l) :=
    fun start previous current =>
      ⟨legacyHeaderChunks_some _ _ _ _ _ _ previous current (hls2 start) (hgf2 start),
        nonLegacyHeaderChunks_some m _ _ _ _ _ _ _ previous current (hls2 start) (hgf2 start)⟩
  refine ⟨hbody, ?_⟩
  intro h nis band j rest f powerW hnis hsorted hfp hpow
  obtain ⟨-, hleg, hnon⟩ :=
    per_functions_return_on_sorted h c m event nis band j rest f powerW hnis hsorted hfp hpow
  exact ⟨hleg (fun previous current _ => (hbody j.1 previous current).1),
    hnon (fun previous current _ => (hbody j.1 previous current).2)⟩

/-- Witness of C35: the sample PPDU (LONG preamble, no field after the L-SIG) on its local
timeline with the interferer. -/
theorem C35_preamble_assertions_cannot_fail_witness :
    (∃ per, sampleInterfered.CalculateLegacyPhyHeaderPer sampleCollaborators sampleModes
      samplePpdu sampleLocalSplit sampleBand = some per) ∧
    (∃ per, sampleInterfered.CalculateNonLegacyPhyHeaderPer sampleCollaborators sampleModes
      samplePpdu sampleLocalSplit sampleBand = some per) :=
  (C35_preamble_assertions_cannot_fail sampleCollaborators sampleModes samplePpdu
    (by intro _; decide) (by intro hp; exact absurd hp (by decide))).2
    sampleInterfered sampleLocalSplit sampleBand
    (0, { m_power := 0, m_event := some samplePpdu })
    [(30, { m_power := 5, m_event := some sampleInterferer }),
     (60, { m_power := 3, m_event := some sampleInterferer }),
     (100, { m_power := 0, m_event := some samplePpdu })] 0 3
    (by decide) (by decide) (by decide) (by decide)

theorem upper_bound_append_lt (X Y : NiChanges) (r : Time × NiChange) (t : Time)
    (ht : t < r.1) : upper_bound (X ++ r :: Y) t ≤ X.length := by
  induction X with
  | nil => simp [upper_bound, ht]
  | cons x X ih =>
    by_cases hx : t < x.1
    · simp [upper_bound, hx]
    · have hstep : upper_bound (x :: (X ++ r :: Y)) t = upper_bound (X ++ r :: Y) t + 1 := by
        simp [upper_bound, hx]
      rw [List.cons_append, hstep, List.length_cons]
      omega

/-- A pass of the loop of `AppendEvent` that returns was made for an event that does not
end before it starts: otherwise the end record lands before the start record and the
loop over the records between them runs off the timeline. -/
theorem appendTimeline_some_le (rxing : Bool) (event : Event) (p : ℚ) (ni ni1 : NiChanges)
    (happ : appendTimeline rxing event p ni = some ni1) :
    event.GetStartTime ≤ event.GetEndTime := by
  by_contra hlt
  have hlt1 : event.GetEndTime < event.GetStartTime := not_le.mp hlt
  unfold appendTimeline at happ
  cases hps : timelinePower ni event.GetStartTime with
  | none => simp [hps] at happ
  | some ps =>
    cases hpe : timelinePower ni event.GetEndTime with
    | none => simp [hps, hpe] at happ
    | some pe =>
      simp only [hps, hpe] at happ
      split at happ <;> split at happ <;>
        first
        | (simp at happ
           done)
        | (rename_i hnot
           apply hnot
           unfold insertAt
           refine le_trans (upper_bound_append_lt _ _ _ _ hlt1) ?_
           rw [List.length_take]
           exact min_le_left _ _)

theorem eraseEventsBand_eq (h : InterferenceHelper) (it : WifiSpectrumBand × NiChanges)
    (h1 : InterferenceHelper) (he : eraseEventsBand h it = some h1) :
    ∃ ni, mapFind h.m_niChangesPerBand it.1 = some ni ∧
      h1 = { h with
        m_niChangesPerBand := mapAssign h.m_niChangesPerBand it.1
          (insertAt ni (upper_bound ni 0) (0, { m_power := 0, m_event := none }))
        m_firstPowerPerBand := mapAssign h.m_firstPowerPerBand it.1 0 } := by
  unfold eraseEventsBand at he
  simp only [] at he
  cases hadd : AddNiChangeEvent h 0 { m_power := 0, m_event := none } it.1 with
  | none => simp [hadd] at he
  | some r =>
    obtain ⟨h2, pos⟩ := r
    simp only [hadd] at he
    obtain ⟨ni, hf, hpos, h2eq⟩ := AddNiChangeEvent_eq h h2 0 _ it.1 pos hadd
    cases hfp : mapFind h2.m_firstPowerPerBand it.1 with
    | none => simp [hfp] at he
    | some x =>
      simp only [hfp, Option.some.injEq] at he
      refine ⟨ni, hf, ?_⟩
      rw [← he, h2eq, hpos]

theorem OrderedInv_appendEventBand (event : Event) (h : InterferenceHelper)
    (it : WifiSpectrumBand × ℚ) (h1 : InterferenceHelper) (hinv : OrderedInv h)
    (happ : appendEventBand event h it = some h1) : OrderedInv h1 := by
  obtain ⟨ni, ni1, ps, hf, hat, -, hni, -⟩ := appendEventBand_spec event h h1 it happ
  have hse := appendTimeline_some_le h.m_rxing event it.2 ni ni1 hat
  have hs := hinv (it.1, ni) (mapFind_mem _ _ _ hf)
  have hs1 := (appendTimeline_records h.m_rxing event it.2 ni ni1 hse hs hat).1
  intro entry hentry
  rw [hni] at hentry
  rcases mem_mapAssign _ _ _ entry hentry with h2 | h2
  · exact hinv entry h2
  · rw [h2]
    exact hs1

theorem OrderedInv_eraseEventsBand (h : InterferenceHelper)
    (it : WifiSpectrumBand × NiChanges) (h1 : InterferenceHelper) (hinv : OrderedInv h)
    (he : eraseEventsBand h it = some h1) : OrderedInv h1 := by
  obtain ⟨ni, hf, h1eq⟩ := eraseEventsBand_eq h it h1 he
  intro entry hentry
  rw [h1eq] at hentry
  rcases mem_mapAssign _ _ _ entry hentry with h2 | h2
  · exact hinv entry h2
  · rw [h2]
    exact insertAt_upper_bound_sorted ni (0, { m_power := 0, m_event := none })
      (hinv (it.1, ni) (mapFind_mem _ _ _ hf))

theorem notifyRxEnd_timelines (h h1 : InterferenceHelper) (now : Time)
    (hend : h.NotifyRxEnd now = some h1) :
    h1.m_niChangesPerBand = h.m_niChangesPerBand :=
  foldlM_inv (notifyRxEndBand now)
    (fun x => x.m_niChangesPerBand = h.m_niChangesPerBand)
    (by
      intro b a b1 hP hstep
      obtain ⟨r, -, hb1⟩ := notifyRxEndBand_eq now b a b1 hstep
      rw [hb1]
      exact hP)
    h.m_niChangesPerBand { h with m_rxing := false } h1 rfl hend

/-- Every state of a helper has its timelines ordered by timestamp. -/
theorem Constructed_OrderedInv (h : InterferenceHelper) (hc : Constructed h) :
    OrderedInv h := by
  induction hc with
  | create noiseFigure =>
    intro entry hentry
    simp [InterferenceHelper.create] at hentry
  | removeBands h _ _ =>
    intro entry hentry
    simp [RemoveBands] at hentry
  | addBand h h1 band _ hadd ih =>
    intro entry hentry
    rcases AddBand_entries h h1 band hadd entry hentry with h2 | h2 | h2
    · exact ih entry h2
    · rw [h2]
      simp
    · rw [h2]
      simp
  | setNoiseFigure h value _ ih => exact ih
  | setNumberOfReceiveAntennas h rx _ ih => exact ih
  | add h h1 now addr ppdu txVector duration rxPowerW event _ hadd ih =>
    obtain ⟨-, hfold⟩ := Add_event_eq h h1 now duration addr ppdu txVector rxPowerW event hadd
    exact foldlM_inv (appendEventBand event) OrderedInv
      (OrderedInv_appendEventBand event) rxPowerW h h1 ih hfold
  | notifyRxStart h _ ih => exact ih
  | notifyRxEnd h h1 now _ hend ih =>
    intro entry hentry
    rw [notifyRxEnd_timelines h h1 now hend] at hentry
    exact ih entry hentry
  | eraseEvents h h1 _ he ih =>
    unfold EraseEvents at he
    cases hfold : h.m_niChangesPerBand.foldlM eraseEventsBand h with
    | none => simp [hfold] at he
    | some h2 =>
      simp only [hfold, Option.some.injEq] at he
      have h2inv := foldlM_inv eraseEventsBand OrderedInv OrderedInv_eraseEventsBand
        h.m_niChangesPerBand h h2 ih hfold
      rw [← he]
      exact h2inv

theorem pruneBeforeStart_eq (h : InterferenceHelper) (event : Event)
    (band : WifiSpectrumBand) (ps : ℚ) (h1 : InterferenceHelper)
    (hp : pruneBeforeStart h event band ps = some h1) :
    ∃ ni, mapFind h.m_niChangesPerBand band = some ni ∧
      1 ≤ upper_bound ni event.GetStartTime ∧
      mapFind h1.m_niChangesPerBand band =
        some (ni.take 1 ++ ni.drop (upper_bound ni event.GetStartTime)) := by
  unfold pruneBeforeStart GetNextPosition at hp
  cases hfp : mapFind h.m_firstPowerPerBand band with
  | none => simp [hfp] at hp
  | some f =>
    cases hni : mapFind h.m_niChangesPerBand band with
    | none => simp [hfp, hni] at hp
    | some ni =>
      simp only [hfp, hni] at hp
      split at hp
      · simp at hp
      · rename_i hcond
        simp only [Option.some.injEq] at hp
        refine ⟨ni, rfl, ?_, ?_⟩
        · by_contra hlt
          exact hcond (Or.inr (by omega))
        · rw [← hp]
          show mapFind (mapAssign h.m_niChangesPerBand band _) band = _
          rw [mapFind_mapAssign, if_pos rfl, hni]
          rfl

theorem sampleInterfered_constructed : Constructed sampleInterfered :=
  Constructed.add sampleInFlight.NotifyRxStart sampleInterfered 30 8 8 { handle := 0 } 30
    [(sampleBand, 2)] sampleInterferer
    (Constructed.notifyRxStart sampleInFlight
      (Constructed.add sampleFresh sampleInFlight 0 7 7 { handle := 0 } 100
        [(sampleBand, 3)] samplePpdu
        (Constructed.addBand (InterferenceHelper.create 1) sampleFresh sampleBand
          (Constructed.create 1) (by decide))
        (by decide!)))
    (by decide!)

/-- C34: every operation keeps the timeline of each band ordered by timestamp. In every
state of a helper the timeline of every registered band has timestamps that do not
decrease; `AddNiChangeEvent` places the new record after all records with a timestamp not
later than its own and before all later ones; the pruning in `Add` removes one contiguous
range of records (those after the first record, up to the first record stamped later than
the start of the event). -/
theorem C34_timelines_stay_ordered_by_timestamp (h : InterferenceHelper)
    (hc : Constructed h) :
    (∀ band ni, mapFind h.m_niChangesPerBand band = some ni →
      ni.Pairwise (fun a b => a.1 ≤ b.1)) ∧
    (∀ moment change band h1 pos,
      h.AddNiChangeEvent moment change band = some (h1, pos) →
      ∃ ni, mapFind h.m_niChangesPerBand band = some ni ∧
        mapFind h1.m_niChangesPerBand band =
          some (ni.filter (fun r => decide (r.1 ≤ moment)) ++
            (moment, change) :: ni.filter (fun r => decide (moment < r.1)))) ∧
    (∀ event band ps h1, pruneBeforeStart h event band ps = some h1 →
      ∃ ni, mapFind h.m_niChangesPerBand band = some ni ∧
        ni = ni.take 1 ++ prunedRecords ni event.GetStartTime
          ++ ni.drop (upper_bound ni event.GetStartTime) ∧
        mapFind h1.m_niChangesPerBand band =
          some (ni.take 1 ++ ni.drop (upper_bound ni event.GetStartTime))) := by
  have hinv := Constructed_OrderedInv h hc
  refine ⟨?_, ?_, ?_⟩
  · intro band ni hni
    exact hinv (band, ni) (mapFind_mem _ _ _ hni)
  · intro moment change band h1 pos hadd
    obtain ⟨ni, hf, hpos, h1eq⟩ := AddNiChangeEvent_eq h h1 moment change band pos hadd
    have hs := hinv (band, ni) (mapFind_mem _ _ _ hf)
    refine ⟨ni, hf, ?_⟩
    rw [h1eq]
    show mapFind (mapAssign h.m_niChangesPerBand band _) band = _
    rw [mapFind_mapAssign, if_pos rfl, hf, hpos]
    unfold insertAt
    rw [take_upper_bound_eq_filter ni moment hs, drop_upper_bound_eq_filter ni moment hs]
    rfl
  · intro event band ps h1 hp
    obtain ⟨ni, hf, hn, h1ni⟩ := pruneBeforeStart_eq h event band ps h1 hp
    exact ⟨ni, hf, pruned_decomposition ni event.GetStartTime hn, h1ni⟩

/-- Witness of C34: the state after the band was registered, `samplePpdu` was added and,
while receiving, `sampleInterferer` was added. -/
theorem C34_timelines_stay_ordered_by_timestamp_witness :
    sampleInterferedTimeline.Pairwise (fun a b => a.1 ≤ b.1) :=
  (C34_timelines_stay_ordered_by_timestamp sampleInterfered sampleInterfered_constructed).1
    sampleBand sampleInterferedTimeline (by decide)

theorem ReachedNonNeg_Constructed (h : InterferenceHelper) (hr : ReachedNonNeg h) :
    Constructed h := by
  induction hr with
  | create noiseFigure => exact Constructed.create noiseFigure
  | addBand h h1 band _ hadd ih => exact Constructed.addBand h h1 band ih hadd
  | add h h1 now addr ppdu txVector duration rxPowerW event _ _ hadd ih =>
    exact Constructed.add h h1 now addr ppdu txVector duration rxPowerW event ih hadd
  | notifyRxStart h _ ih => exact Constructed.notifyRxStart h ih
  | notifyRxEnd h h1 now _ hend ih => exact Constructed.notifyRxEnd h h1 now ih hend
  | eraseEvents h h1 _ he ih => exact Constructed.eraseEvents h h1 ih he

theorem AddBand_firstPower_entries (h h1 : InterferenceHelper) (band : WifiSpectrumBand)
    (hadd : h.AddBand band = some h1) :
    ∀ entry ∈ h1.m_firstPowerPerBand, entry ∈ h.m_firstPowerPerBand ∨ entry = (band, 0) := by
  unfold AddBand at hadd
  cases hf : mapFind h.m_niChangesPerBand band with
  | some x => simp [hf] at hadd
  | none =>
    simp only [hf] at hadd
    have hnew := mapFind_mapInsert_new h.m_niChangesPerBand band ([] : NiChanges) hf
    rw [AddNiChangeEvent_some _ _ _ band [] hnew] at hadd
    simp only [Option.some.injEq] at hadd
    subst hadd
    intro entry hentry
    exact mem_mapInsert _ _ _ entry hentry

theorem NonNegPowers_appendEventBand (event : Event) (h : InterferenceHelper)
    (it : WifiSpectrumBand × ℚ) (h1 : InterferenceHelper)
    (hinv : OrderedInv h ∧ NonNegPowers h) (hp : 0 ≤ it.2)
    (happ : appendEventBand event h it = some h1) : OrderedInv h1 ∧ NonNegPowers h1 := by
  refine ⟨OrderedInv_appendEventBand event h it h1 hinv.1 happ, ?_⟩
  obtain ⟨ni, ni1, ps, hf, hat, hps, hni, hfp, -⟩ := appendEventBand_spec event h h1 it happ
  obtain ⟨hord, hrec, hfirst⟩ := hinv
  have hmem := mapFind_mem _ _ _ hf
  have hse := appendTimeline_some_le h.m_rxing event it.2 ni ni1 hat
  have hnn1 := (appendTimeline_records h.m_rxing event it.2 ni ni1 hse (hord _ hmem) hat).2.2.2
    (hrec _ hmem) hp
  constructor
  · intro entry hentry r hr
    rw [hni] at hentry
    rcases mem_mapAssign _ _ _ entry hentry with h2 | h2
    · exact hrec entry h2 r hr
    · rw [h2] at hr
      exact hnn1 r hr
  · intro entry hentry
    rw [hfp] at hentry
    cases hrx : h.m_rxing with
    | true =>
      rw [hrx] at hentry
      exact hfirst entry (by simpa using hentry)
    | false =>
      rw [hrx] at hentry
      simp only [Bool.false_eq_true, if_false] at hentry
      rcases mem_mapAssign _ _ _ entry hentry with h2 | h2
      · exact hfirst entry h2
      · obtain ⟨z, hz, hzp⟩ := timelinePower_mem ni event.GetStartTime ps hps
        rw [h2]
        show 0 ≤ ps
        rw [← hzp]
        exact hrec _ hmem z hz

theorem NonNegPowers_eraseEventsBand (h : InterferenceHelper)
    (it : WifiSpectrumBand × NiChanges) (h1 : InterferenceHelper) (hinv : NonNegPowers h)
    (he : eraseEventsBand h it = some h1) : NonNegPowers h1 := by
  obtain ⟨ni, hf, h1eq⟩ := eraseEventsBand_eq h it h1 he
  obtain ⟨hrec, hfirst⟩ := hinv
  rw [h1eq]
  constructor
  · intro entry hentry r hr
    rcases mem_mapAssign _ _ _ entry hentry with h2 | h2
    · exact hrec entry h2 r hr
    · rw [h2] at hr
      unfold insertAt at hr
      rcases List.mem_append.mp hr with h3 | h3
      · exact hrec _ (mapFind_mem _ _ _ hf) r (List.mem_of_mem_take h3)
      · rcases List.mem_cons.mp h3 with h4 | h4
        · rw [h4]
        · exact hrec _ (mapFind_mem _ _ _ hf) r (List.mem_of_mem_drop h4)
  · intro entry hentry
    rcases mem_mapAssign _ _ _ entry hentry with h2 | h2
    · exact hfirst entry h2
    · rw [h2]

theorem NonNegPowers_notifyRxEnd (h h1 : InterferenceHelper) (now : Time)
    (hinv : NonNegPowers h) (hend : h.NotifyRxEnd now = some h1) : NonNegPowers h1 := by
  have hfold := foldlM_inv_mem (notifyRxEndBand now)
    (fun x => x.m_niChangesPerBand = h.m_niChangesPerBand ∧ NonNegPowers x)
    h.m_niChangesPerBand
    (by
      intro b a b1 ha hP hstep
      obtain ⟨r, hr, hb1⟩ := notifyRxEndBand_eq now b a b1 hstep
      obtain ⟨hsame, hrec, hfirst⟩ := hP
      rw [hb1]
      refine ⟨hsame, hrec, ?_⟩
      intro entry hentry
      rcases mem_mapAssign _ _ _ entry hentry with h2 | h2
      · exact hfirst entry h2
      · rw [h2]
        exact hrec a (by rw [hsame]; exact ha) r hr)
    { h with m_rxing := false } h1 ⟨rfl, hinv⟩ hend
  exact hfold.2

/-- States reached with powers that are not negative hold no negative power. -/
theorem ReachedNonNeg_NonNegPowers (h : InterferenceHelper) (hr : ReachedNonNeg h) :
    NonNegPowers h := by
  induction hr with
  | create noiseFigure =>
    constructor
    · intro entry hentry
      simp [InterferenceHelper.create] at hentry
    · intro entry hentry
      simp [InterferenceHelper.create] at hentry
  | addBand h h1 band _ hadd ih =>
    constructor
    · intro entry hentry r hr
      rcases AddBand_entries h h1 band hadd entry hentry with h2 | h2 | h2
      · exact ih.1 entry h2 r hr
      · rw [h2] at hr
        simp only [List.mem_singleton] at hr
        rw [hr]
      · rw [h2] at hr
        simp at hr
    · intro entry hentry
      rcases AddBand_firstPower_entries h h1 band hadd entry hentry with h2 | h2
      · exact ih.2 entry h2
      · rw [h2]
  | add h h1 now addr ppdu txVector duration rxPowerW event hprev hpow hadd ih =>
    obtain ⟨-, hfold⟩ := Add_event_eq h h1 now duration addr ppdu txVector rxPowerW event hadd
    exact (foldlM_inv_mem (appendEventBand event)
      (fun x => OrderedInv x ∧ NonNegPowers x) rxPowerW
      (fun b a b1 ha hP hstep => NonNegPowers_appendEventBand event b a b1 hP (hpow a ha) hstep)
      h h1 ⟨Constructed_OrderedInv h (ReachedNonNeg_Constructed h hprev), ih⟩ hfold).2
  | notifyRxStart h _ ih => exact ih
  | notifyRxEnd h h1 now _ hend ih => exact NonNegPowers_notifyRxEnd h h1 now ih hend
  | eraseEvents h h1 _ he ih =>
    unfold EraseEvents at he
    cases hfold : h.m_niChangesPerBand.foldlM eraseEventsBand h with
    | none => simp [hfold] at he
    | some h2 =>
      simp only [hfold, Option.some.injEq] at he
      have h2inv := foldlM_inv eraseEventsBand NonNegPowers NonNegPowers_eraseEventsBand
        h.m_niChangesPerBand h h2 ih hfold
      rw [← he]
      exact h2inv

theorem sampleInterfered_reached : ReachedNonNeg sampleInterfered :=
  ReachedNonNeg.add sampleInFlight.NotifyRxStart sampleInterfered 30 8 8 { handle := 0 } 30
    [(sampleBand, 2)] sampleInterferer
    (ReachedNonNeg.notifyRxStart sampleInFlight
      (ReachedNonNeg.add sampleFresh sampleInFlight 0 7 7 { handle := 0 } 100
        [(sampleBand, 3)] samplePpdu
        (ReachedNonNeg.addBand (InterferenceHelper.create 1) sampleFresh sampleBand
          (ReachedNonNeg.create 1) (by decide))
        (by simp) (by decide!)))
    (by simp) (by decide!)

/-- C33: cumulative power is never negative. In every state reached from a new helper by
`AddBand`, `Add`, `NotifyRxStart`, `NotifyRxEnd` and `EraseEvents`, where every added event
has a power that is not negative in every band, the power of every record of the timeline
of every registered band and the first power (baseline) of every band are not negative. -/
theorem C33_powers_and_baselines_are_not_negative (h : InterferenceHelper)
    (hr : ReachedNonNeg h) :
    (∀ band ni, mapFind h.m_niChangesPerBand band = some ni → ∀ r ∈ ni, 0 ≤ r.2.GetPower) ∧
    (∀ band f, mapFind h.m_firstPowerPerBand band = some f → 0 ≤ f) := by
  obtain ⟨hrec, hfirst⟩ := ReachedNonNeg_NonNegPowers h hr
  constructor
  · intro band ni hni r hr1
    exact hrec (band, ni) (mapFind_mem _ _ _ hni) r hr1
  · intro band f hf
    exact hfirst (band, f) (mapFind_mem _ _ _ hf)

/-- Witness of C33: the state after the band was registered, `samplePpdu` was added and,
while receiving, `sampleInterferer` was added. -/
theorem C33_powers_and_baselines_are_not_negative_witness :
    (∀ band ni, mapFind sampleInterfered.m_niChangesPerBand band = some ni →
      ∀ r ∈ ni, 0 ≤ r.2.GetPower) ∧
    (∀ band f, mapFind sampleInterfered.m_firstPowerPerBand band = some f → 0 ≤ f) :=
  C33_powers_and_baselines_are_not_negative sampleInterfered sampleInterfered_reached

theorem multimapFind_append_le (X rest : NiChanges) (r : Time × NiChange) (t : Time)
    (hr : r.1 = t) : multimapFind (X ++ r :: rest) t ≤ X.length := by
  induction X with
  | nil => simp [multimapFind, hr]
  | cons x X ih =>
    by_cases hx : x.1 = t
    · simp [multimapFind, hx]
    · have hstep : multimapFind (x :: (X ++ r :: rest)) t
          = multimapFind (X ++ r :: rest) t + 1 := by
        simp [multimapFind, hx]
      rw [List.cons_append, hstep, List.length_cons]
      omega

theorem skipToEvent_split (event : Event) :
    ∀ (X : NiChanges) (sa : Time × NiChange) (rest : NiChanges),
      (∀ r ∈ X, sameEvent r.2 event = false) → sameEvent sa.2 event = true →
      skipToEvent event (X ++ sa :: rest) = some rest := by
  intro X
  induction X with
  | nil =>
    intro sa rest _ hsa
    simp [skipToEvent, hsa]
  | cons x X ih =>
    intro sa rest hX hsa
    have hx : sameEvent x.2 event = false := hX x (List.mem_cons_self _ _)
    rw [List.cons_append, skipToEvent, hx]
    simp only [Bool.false_eq_true, if_false]
    exact ih sa rest (fun r hr => hX r (List.mem_cons_of_mem _ hr)) hsa

theorem insertAt_length (acc : NiChanges) (x : Time × NiChange) :
    insertAt acc acc.length x = acc ++ [x] := by
  simp [insertAt]

theorem copyUntilEvent_split (event : Event) :
    ∀ (M : NiChanges) (ea : Time × NiChange) (Y acc : NiChanges),
      (∀ r ∈ M, sameEvent r.2 event = false) → sameEvent ea.2 event = true →
      (acc ++ M).Pairwise (fun a b => a.1 ≤ b.1) →
      copyUntilEvent event (M ++ ea :: Y) acc = acc ++ M := by
  intro M
  induction M with
  | nil =>
    intro ea Y acc _ hea _
    simp [copyUntilEvent, hea]
  | cons r M ih =>
    intro ea Y acc hM hea hsorted
    have hr : sameEvent r.2 event = false := hM r (List.mem_cons_self _ _)
    have hall : ∀ z ∈ acc, z.1 ≤ r.1 := by
      intro z hz
      exact (List.pairwise_append.mp hsorted).2.2 z hz r (List.mem_cons_self _ _)
    rw [List.cons_append, copyUntilEvent, hr]
    simp only [Bool.false_eq_true, if_false]
    rw [upper_bound_all_le acc r.1 hall, insertAt_length,
      ih ea Y (acc ++ [r]) (fun z hz => hM z (List.mem_cons_of_mem _ hz)) hea
        (by simpa using hsorted)]
    simp

/-- The local timeline of an event whose start record and end record are in an ordered
timeline: a zero power record at the start of the event, the records between the start
record and the end record as they are, a zero power record at the end of the event. -/
theorem localTimeline_split (event : Event) (ni X M Y : NiChanges)
    (sa ea : Time × NiChange)
    (hdec : ni = X ++ sa :: (M ++ ea :: Y))
    (hsorted : ni.Pairwise (fun a b => a.1 ≤ b.1))
    (hsa1 : sa.1 = event.GetStartTime) (hea1 : ea.1 = event.GetEndTime)
    (hsa : sameEvent sa.2 event = true) (hea : sameEvent ea.2 event = true)
    (hX : ∀ r ∈ X, sameEvent r.2 event = false)
    (hM : ∀ r ∈ M, sameEvent r.2 event = false) :
    localTimeline event ni =
      some ((event.GetStartTime, { m_power := 0, m_event := some event }) ::
        (M ++ [(event.GetEndTime, { m_power := 0, m_event := some event })])) := by
  have hk := multimapFind_append_le X (M ++ ea :: Y) sa event.GetStartTime hsa1
  rw [← hdec] at hk
  have hs2 : (sa :: (M ++ ea :: Y)).Pairwise (fun a b => a.1 ≤ b.1) := by
    rw [hdec] at hsorted
    exact (List.pairwise_append.mp hsorted).2.1
  have hsaM : ∀ z ∈ M, sa.1 ≤ z.1 := fun z hz =>
    (List.pairwise_cons.mp hs2).1 z (List.mem_append_left _ hz)
  have hs3 : (M ++ ea :: Y).Pairwise (fun a b => a.1 ≤ b.1) := (List.pairwise_cons.mp hs2).2
  have hMs : M.Pairwise (fun a b => a.1 ≤ b.1) := (List.pairwise_append.mp hs3).1
  have hMea : ∀ z ∈ M, z.1 ≤ ea.1 := fun z hz =>
    (List.pairwise_append.mp hs3).2.2 z hz ea (List.mem_cons_self _ _)
  have hsaea : sa.1 ≤ ea.1 :=
    (List.pairwise_cons.mp hs2).1 ea (List.mem_append_right _ (List.mem_cons_self _ _))
  have hdrop : ni.drop (multimapFind ni event.GetStartTime) =
      X.drop (multimapFind ni event.GetStartTime) ++ sa :: (M ++ ea :: Y) := by
    have hgen : ∀ k, k ≤ X.length → ni.drop k = X.drop k ++ sa :: (M ++ ea :: Y) := by
      intro k hkk
      rw [hdec]
      exact List.drop_append_of_le_length hkk
    exact hgen _ hk
  have hlen : multimapFind ni event.GetStartTime ≠ ni.length := by
    have hl : ni.length = X.length + (M.length + Y.length + 1) + 1 := by
      rw [hdec]
      simp
      omega
    omega
  have hcopy := copyUntilEvent_split event M ea Y
    [(event.GetStartTime, { m_power := 0, m_event := some event })] hM hea
    (by
      rw [List.singleton_append, List.pairwise_cons]
      exact ⟨fun z hz => by rw [← hsa1]; exact hsaM z hz, hMs⟩)
  have hall : ∀ z ∈ (event.GetStartTime, ({ m_power := 0, m_event := some event } : NiChange))
      :: M, z.1 ≤ event.GetEndTime := by
    intro z hz
    rcases List.mem_cons.mp hz with rfl | hz1
    · rw [← hsa1, ← hea1]
      exact hsaea
    · rw [← hea1]
      exact hMea z hz1
  unfold localTimeline
  simp only []
  rw [if_neg hlen, hdrop,
    skipToEvent_split event _ sa (M ++ ea :: Y)
      (fun r hr => hX r (List.mem_of_mem_drop hr)) hsa]
  simp only []
  have hfirst : insertAt ([] : NiChanges) (upper_bound [] event.GetStartTime)
      (event.GetStartTime, { m_power := 0, m_event := some event }) =
      [(event.GetStartTime, { m_power := 0, m_event := some event })] := by
    simp [insertAt, upper_bound]
  rw [hfirst, hcopy, List.singleton_append, upper_bound_all_le _ _ hall, insertAt_length]
  rfl

/-- C31: the local timeline of an event. When the timeline of the band is ordered by
timestamp and holds the start record and the end record of the event (the first two
records that refer to the event, stamped with its start and end), the local timeline built
by `CalculateNoiseInterferenceW` is the record (start, 0, event), then the records of the
timeline of the band located strictly between the start record and the end record, in the
same order and with the same powers, then the record (end, 0, event); so it has at least
two records. The call returns this timeline under the band together with the noise,
unless the assertion that the noise is not negative fails. The method is `const`: it
returns the noise and fills `*nis`, and the timelines and first powers of the helper stay
as they are. -/
theorem C31_local_timeline_is_records_between_start_and_end (h : InterferenceHelper)
    (now : Time) (event : Event) (band : WifiSpectrumBand) (ni X M Y : NiChanges)
    (sa ea : Time × NiChange)
    (hreg : mapFind h.m_niChangesPerBand band = some ni)
    (hdec : ni = X ++ sa :: (M ++ ea :: Y))
    (hsorted : ni.Pairwise (fun a b => a.1 ≤ b.1))
    (hsa1 : sa.1 = event.GetStartTime) (hea1 : ea.1 = event.GetEndTime)
    (hsa : sameEvent sa.2 event = true) (hea : sameEvent ea.2 event = true)
    (hX : ∀ r ∈ X, sameEvent r.2 event = false)
    (hM : ∀ r ∈ M, sameEvent r.2 event = false) :
    localTimeline event ni =
      some ((event.GetStartTime, { m_power := 0, m_event := some event }) ::
        (M ++ [(event.GetEndTime, { m_power := 0, m_event := some event })])) ∧
    2 ≤ ((event.GetStartTime, ({ m_power := 0, m_event := some event } : NiChange)) ::
        (M ++ [(event.GetEndTime, { m_power := 0, m_event := some event })])).length ∧
    (∀ noise nis1, h.CalculateNoiseInterferenceW now event [] band = some (noise, nis1) →
      nis1 = [(band, (event.GetStartTime, { m_power := 0, m_event := some event }) ::
        (M ++ [(event.GetEndTime, { m_power := 0, m_event := some event })]))]) ∧
    (∀ f powerW, mapFind h.m_firstPowerPerBand band = some f →
      event.GetRxPowerW band = some powerW →
      ∃ noise, (0 ≤ noise →
          h.CalculateNoiseInterferenceW now event [] band =
            some (noise, [(band, (event.GetStartTime, { m_power := 0, m_event := some event })
              :: (M ++ [(event.GetEndTime, { m_power := 0, m_event := some event })]))])) ∧
        (noise < 0 → h.CalculateNoiseInterferenceW now event [] band = none)) := by
  have hl := localTimeline_split event ni X M Y sa ea hdec hsorted hsa1 hea1 hsa hea hX hM
  refine ⟨hl, by simp, ?_, ?_⟩
  · intro noise nis1 hres
    unfold InterferenceHelper.CalculateNoiseInterferenceW at hres
    rw [hreg] at hres
    cases hfp : mapFind h.m_firstPowerPerBand band with
    | none => simp [hfp] at hres
    | some f =>
      simp only [hfp, hl] at hres
      split at hres
      · simp at hres
      · split at hres
        · simp only [Option.some.injEq, Prod.mk.injEq] at hres
          rw [← hres.2]
          rfl
        · simp at hres
  · intro f powerW hfp hpow
    obtain ⟨noise, hscan⟩ : ∃ noise, noiseScan now event band
        (ni.drop (multimapFind ni event.GetStartTime)) f = some noise :=
      ⟨_, noiseScan_eq now event band powerW hpow
        (ni.drop (multimapFind ni event.GetStartTime)) f⟩
    refine ⟨noise, ?_, ?_⟩
    · intro hge
      unfold InterferenceHelper.CalculateNoiseInterferenceW
      rw [hfp, hreg]
      simp only []
      rw [hscan, hl]
      simp only []
      rw [if_pos hge]
      rfl
    · intro hlt
      unfold InterferenceHelper.CalculateNoiseInterferenceW
      rw [hfp, hreg]
      simp only []
      rw [hscan, hl]
      simp only []
      rw [if_neg (not_le.mpr hlt)]

/-- Witness of C31: the local timeline of `samplePpdu` on the timeline of
`sampleInterfered`, where the two records of `sampleInterferer` lie between the start
record and the end record of `samplePpdu`. -/
theorem C31_local_timeline_is_records_between_start_and_end_witness :
    localTimeline samplePpdu sampleInterferedTimeline =
      some ((samplePpdu.GetStartTime, { m_power := 0, m_event := some samplePpdu }) ::
        ([(30, { m_power := 5, m_event := some sampleInterferer }),
          (60, { m_power := 3, m_event := some sampleInterferer })] ++
          [(samplePpdu.GetEndTime, { m_power := 0, m_event := some samplePpdu })])) :=
  (C31_local_timeline_is_records_between_start_and_end sampleInterfered 50 samplePpdu
    sampleBand sampleInterferedTimeline [(0, { m_power := 0, m_event := none })]
    [(30, { m_power := 5, m_event := some sampleInterferer }),
     (60, { m_power := 3, m_event := some sampleInterferer })] []
    (0, { m_power := 3, m_event := some samplePpdu })
    (100, { m_power := 0, m_event := some samplePpdu })
    (by decide) (by decide) (by decide) (by decide) (by decide) (by decide) (by decide)
    (by decide) (by decide)).1

theorem filter_le_all (l : NiChanges) (t : Time) (h : ∀ r ∈ l, r.1 ≤ t) :
    l.filter (fun r => decide (r.1 ≤ t)) = l := by
  rw [List.filter_eq_self]
  intro r hr
  simpa using h r hr

theorem filter_le_none (l : NiChanges) (t : Time) (h : ∀ r ∈ l, t < r.1) :
    l.filter (fun r => decide (r.1 ≤ t)) = [] := by
  rw [List.filter_eq_nil_iff]
  intro r hr
  simpa using h r hr

theorem filter_mid_none (l : NiChanges) (s e : Time) (h : ∀ r ∈ l, r.1 ≤ s ∨ e < r.1) :
    l.filter (fun r => decide (s < r.1 ∧ r.1 ≤ e)) = [] := by
  rw [List.filter_eq_nil_iff]
  intro r hr
  simp only [decide_eq_true_eq, not_and, not_le]
  intro hs
  rcases h r hr with h1 | h1
  · exact absurd hs (not_lt.mpr h1)
  · exact h1

theorem filter_mid_cons_pos (x : Time × NiChange) (l : NiChanges) (s e : Time)
    (h1 : s < x.1) (h2 : x.1 ≤ e) :
    (x :: l).filter (fun r => decide (s < r.1 ∧ r.1 ≤ e)) =
      x :: l.filter (fun r => decide (s < r.1 ∧ r.1 ≤ e)) := by
  simp [List.filter_cons, h1, h2]

theorem filter_mid_cons_neg (x : Time × NiChange) (l : NiChanges) (s e : Time)
    (h : x.1 ≤ s ∨ e < x.1) :
    (x :: l).filter (fun r => decide (s < r.1 ∧ r.1 ≤ e)) =
      l.filter (fun r => decide (s < r.1 ∧ r.1 ≤ e)) := by
  have hn : ¬ (s < x.1 ∧ x.1 ≤ e) := by
    intro hc
    rcases h with h1 | h1
    · exact absurd hc.1 (not_lt.mpr h1)
    · exact absurd hc.2 (not_le.mpr h1)
  simp [List.filter_cons, hn]

theorem filter_late_all (l : NiChanges) (e : Time) (h : ∀ r ∈ l, e < r.1) :
    l.filter (fun r => decide (e < r.1)) = l := by
  rw [List.filter_eq_self]
  intro r hr
  simpa using h r hr

theorem filter_late_none (l : NiChanges) (e : Time) (h : ∀ r ∈ l, r.1 ≤ e) :
    l.filter (fun r => decide (e < r.1)) = [] := by
  rw [List.filter_eq_nil_iff]
  intro r hr
  simpa using h r hr

theorem filter_late_cons_pos (x : Time × NiChange) (l : NiChanges) (e : Time) (h : e < x.1) :
    (x :: l).filter (fun r => decide (e < r.1)) = x :: l.filter (fun r => decide (e < r.1)) := by
  simp [List.filter_cons, h]

theorem filter_late_cons_neg (x : Time × NiChange) (l : NiChanges) (e : Time) (h : x.1 ≤ e) :
    (x :: l).filter (fun r => decide (e < r.1)) = l.filter (fun r => decide (e < r.1)) := by
  simp [List.filter_cons, not_lt.mpr h]

theorem lastPower_mem (l : NiChanges) (q : ℚ) (h : lastPower l = some q) :
    ∃ z ∈ l, z.2.m_power = q := by
  unfold lastPower at h
  cases hl : l.getLast? with
  | none => rw [hl] at h; simp at h
  | some z =>
    rw [hl] at h
    simp only [Option.map_some', Option.some.injEq] at h
    exact ⟨z, List.mem_of_getLast?_eq_some hl, h⟩

/-- The records of an event that one pass of the loop of `AppendEvent` inserts: the new
timeline holds the start record, then old records with the power of the event added,
then the end record; no other record refers to the event, and the powers from the start
record up to the end record are at least the power of the event. -/
theorem appendTimeline_span_new (rxing : Bool) (event : Event) (p : ℚ) (ni ni1 : NiChanges)
    (hse : event.GetStartTime ≤ event.GetEndTime)
    (hsorted : ni.Pairwise (fun a b => a.1 ≤ b.1))
    (happ : appendTimeline rxing event p ni = some ni1)
    (hnn : ∀ r ∈ ni, 0 ≤ r.2.m_power)
    (hev : ∀ r ∈ ni, r.2.m_event ≠ some event) :
    (∀ r ∈ ni1, r.2.m_event = some event ∨ ∃ r0 ∈ ni, r.2.m_event = r0.2.m_event) ∧
    ∃ X sa M ea Y, ni1 = X ++ sa :: (M ++ ea :: Y) ∧ sa.1 = event.GetStartTime ∧
      ea.1 = event.GetEndTime ∧ sa.2.m_event = some event ∧ ea.2.m_event = some event ∧
      (∀ r ∈ X, r.2.m_event ≠ some event) ∧ (∀ r ∈ M, r.2.m_event ≠ some event) ∧
      p ≤ sa.2.m_power ∧ ∀ r ∈ M, p ≤ r.2.m_power := by
  obtain ⟨ps, pe, hps, hpe, rfl⟩ := appendTimeline_sorted rxing event p ni ni1 hse hsorted happ
  obtain ⟨zs, hzs, hzsp⟩ := timelinePower_mem ni _ ps hps
  have hP_sub : List.Sublist (if rxing = true
      then ni.filter (fun r => decide (r.1 ≤ event.GetStartTime)) else ni.take 1) ni := by
    split
    · exact List.filter_sublist _
    · exact List.take_sublist _ _
  have hmid : ∀ b ∈ (ni.filter (fun r => decide (event.GetStartTime < r.1 ∧
      r.1 ≤ event.GetEndTime))).map (fun r => (r.1, r.2.AddPower p)),
      ∃ a ∈ ni, b = (a.1, a.2.AddPower p) := by
    intro b hb
    obtain ⟨a, ha, rfl⟩ := List.mem_map.mp hb
    exact ⟨a, (List.mem_filter.mp ha).1, rfl⟩
  constructor
  · intro r hr
    unfold recordsFromStart at hr
    rcases List.mem_append.mp hr with hr | hr
    · exact Or.inr ⟨r, hP_sub.subset hr, rfl⟩
    · rcases List.mem_cons.mp hr with rfl | hr
      · exact Or.inl rfl
      · rcases List.mem_append.mp hr with hr | hr
        · obtain ⟨a, ha, rfl⟩ := hmid r hr
          exact Or.inr ⟨a, ha, rfl⟩
        · rcases List.mem_cons.mp hr with rfl | hr
          · exact Or.inl rfl
          · exact Or.inr ⟨r, (List.mem_filter.mp hr).1, rfl⟩
  · refine ⟨_, (event.GetStartTime, { m_power := ps + p, m_event := some event }), _,
      (event.GetEndTime, { m_power := pe, m_event := some event }), _, rfl, rfl, rfl, rfl, rfl,
      ?_, ?_, ?_, ?_⟩
    · intro r hr
      exact hev r (hP_sub.subset hr)
    · intro r hr
      obtain ⟨a, ha, rfl⟩ := hmid r hr
      exact hev a ha
    · show p ≤ ps + p
      have := hnn zs hzs
      rw [hzsp] at this
      linarith
    · intro r hr
      obtain ⟨a, ha, rfl⟩ := hmid r hr
      show p ≤ a.2.m_power + p
      have := hnn a ha
      linarith

/-- The records of an event already in the timeline, after one pass of the loop of
`AppendEvent` made with the flag set for a later event: the start record and the records
before it are as they were, the end record keeps its timestamp and its event, and every
record between them has a power that is at least any bound `q` that held for the start
record and the records between before. -/
theorem appendTimeline_span_keep (event : Event) (p : ℚ) (ni ni1 X M Y : NiChanges)
    (sa ea : Time × NiChange) (q : ℚ) (A : Event)
    (hse : event.GetStartTime ≤ event.GetEndTime)
    (hsorted : ni.Pairwise (fun a b => a.1 ≤ b.1))
    (happ : appendTimeline true event p ni = some ni1)
    (hdec : ni = X ++ sa :: (M ++ ea :: Y))
    (hsas : sa.1 ≤ event.GetStartTime) (hp : 0 ≤ p) (hCA : event ≠ A)
    (hqsa : q ≤ sa.2.m_power) (hqM : ∀ r ∈ M, q ≤ r.2.m_power)
    (hMA : ∀ r ∈ M, r.2.m_event ≠ some A) :
    ∃ M1 ea1 Y1, ni1 = X ++ sa :: (M1 ++ ea1 :: Y1) ∧ ea1.1 = ea.1 ∧
      ea1.2.m_event = ea.2.m_event ∧ (∀ r ∈ M1, q ≤ r.2.m_power) ∧
      (∀ r ∈ M1, r.2.m_event ≠ some A) := by
  obtain ⟨ps, pe, hps, hpe, rfl⟩ := appendTimeline_sorted true event p ni ni1 hse hsorted happ
  rw [timelinePower_eq_lastPower ni _ hsorted] at hps hpe
  clear happ
  rw [if_pos rfl]
  unfold recordsFromStart
  generalize event.GetStartTime = s at *
  generalize event.GetEndTime = e at *
  have hCA2 : some event ≠ some A := fun hc => hCA (Option.some.inj hc)
  subst hdec
  have hs0 := hsorted
  rw [List.pairwise_append, List.pairwise_cons, List.pairwise_append, List.pairwise_cons] at hs0
  obtain ⟨-, ⟨hsaR, -, ⟨heaY, -⟩, hMR⟩, hXR⟩ := hs0
  have hXs : ∀ r ∈ X, r.1 ≤ s := fun r hr =>
    le_trans (hXR r hr sa (List.mem_cons_self _ _)) hsas
  have hMea : ∀ r ∈ M, r.1 ≤ ea.1 := fun r hr => hMR r hr ea (List.mem_cons_self _ _)
  have hMfle : ∀ (t : Time), ∀ r ∈ M.filter (fun r => decide (r.1 ≤ t)), r ∈ M :=
    fun t r hr => (List.mem_filter.mp hr).1
  have hbound : ∀ (t : Time) (v : ℚ),
      lastPower (X ++ sa :: M.filter (fun r => decide (r.1 ≤ t))) = some v → q ≤ v := by
    intro t v hv
    rw [lastPower_append_cons] at hv
    obtain ⟨z, hz, hzv⟩ := lastPower_mem _ v hv
    rw [← hzv]
    rcases List.mem_cons.mp hz with rfl | hz1
    · exact hqsa
    · exact hqM z (hMfle t z hz1)
  have hmapM : ∀ r ∈ (M.filter (fun r => decide (s < r.1 ∧ r.1 ≤ e))).map
      (fun r => (r.1, r.2.AddPower p)), q ≤ r.2.m_power ∧ r.2.m_event ≠ some A := by
    intro r hr
    obtain ⟨a, ha, rfl⟩ := List.mem_map.mp hr
    have haM := (List.mem_filter.mp ha).1
    constructor
    · show q ≤ a.2.m_power + p
      have := hqM a haM
      linarith
    · exact hMA a haM
  by_cases hA : ea.1 ≤ s
  · have hF : (X ++ sa :: (M ++ ea :: Y)).filter (fun r => decide (r.1 ≤ s)) =
        X ++ sa :: (M ++ ea :: Y.filter (fun r => decide (r.1 ≤ s))) := by
      rw [List.filter_append, filter_le_all X s hXs, filter_le_cons_pos sa _ s hsas,
        List.filter_append, filter_le_all M s (fun r hr => le_trans (hMea r hr) hA),
        filter_le_cons_pos ea _ s hA]
    rw [hF]
    refine ⟨M, ea, Y.filter (fun r => decide (r.1 ≤ s)) ++
        (s, { m_power := ps + p, m_event := some event }) ::
          (((X ++ sa :: (M ++ ea :: Y)).filter
              (fun r => decide (s < r.1 ∧ r.1 ≤ e))).map (fun r => (r.1, r.2.AddPower p)) ++
            (e, { m_power := pe, m_event := some event }) ::
              (X ++ sa :: (M ++ ea :: Y)).filter (fun r => decide (e < r.1))),
      ?_, rfl, rfl, hqM, hMA⟩
    simp only [List.append_assoc, List.cons_append]
  · have hsea : s < ea.1 := not_le.mp hA
    have hYs : ∀ r ∈ Y, s < r.1 := fun r hr => lt_of_lt_of_le hsea (heaY r hr)
    have hF : (X ++ sa :: (M ++ ea :: Y)).filter (fun r => decide (r.1 ≤ s)) =
        X ++ sa :: M.filter (fun r => decide (r.1 ≤ s)) := by
      rw [List.filter_append, filter_le_all X s hXs, filter_le_cons_pos sa _ s hsas,
        List.filter_append, filter_le_cons_neg ea _ s hsea, filter_le_none Y s hYs,
        List.append_nil]
    rw [hF] at hps
    have hps1 : q ≤ ps + p := by
      have := hbound s ps hps
      linarith
    by_cases hB : ea.1 ≤ e
    · have hFm : (X ++ sa :: (M ++ ea :: Y)).filter (fun r => decide (s < r.1 ∧ r.1 ≤ e)) =
          M.filter (fun r => decide (s < r.1 ∧ r.1 ≤ e)) ++
            ea :: Y.filter (fun r => decide (s < r.1 ∧ r.1 ≤ e)) := by
        rw [List.filter_append, filter_mid_none X s e (fun r hr => Or.inl (hXs r hr)),
          filter_mid_cons_neg sa _ s e (Or.inl hsas), List.filter_append,
          filter_mid_cons_pos ea _ s e hsea hB, List.nil_append]
      have hFl : (X ++ sa :: (M ++ ea :: Y)).filter (fun r => decide (e < r.1)) =
          Y.filter (fun r => decide (e < r.1)) := by
        rw [List.filter_append, filter_late_none X e (fun r hr => le_trans (hXs r hr) hse),
          filter_late_cons_neg sa _ e (le_trans hsas hse), List.filter_append,
          filter_late_none M e (fun r hr => le_trans (hMea r hr) hB),
          filter_late_cons_neg ea _ e hB, List.nil_append, List.nil_append]
      rw [hF, hFm, hFl]
      refine ⟨M.filter (fun r => decide (r.1 ≤ s)) ++
          (s, { m_power := ps + p, m_event := some event }) ::
            (M.filter (fun r => decide (s < r.1 ∧ r.1 ≤ e))).map
              (fun r => (r.1, r.2.AddPower p)),
        (ea.1, ea.2.AddPower p),
        (Y.filter (fun r => decide (s < r.1 ∧ r.1 ≤ e))).map
            (fun r => (r.1, r.2.AddPower p)) ++
          (e, { m_power := pe, m_event := some event }) ::
            Y.filter (fun r => decide (e < r.1)),
        ?_, rfl, rfl, ?_, ?_⟩
      · simp only [List.append_assoc, List.cons_append, List.map_append, List.map_cons]
      · intro r hr
        rcases List.mem_append.mp hr with hr | hr
        · exact hqM r (hMfle s r hr)
        · rcases List.mem_cons.mp hr with rfl | hr
          · exact hps1
          · exact (hmapM r hr).1
      · intro r hr
        rcases List.mem_append.mp hr with hr | hr
        · exact hMA r (hMfle s r hr)
        · rcases List.mem_cons.mp hr with rfl | hr
          · exact hCA2
          · exact (hmapM r hr).2
    · have heea : e < ea.1 := not_le.mp hB
      have hYe : ∀ r ∈ Y, e < r.1 := fun r hr => lt_of_lt_of_le heea (heaY r hr)
      have hFm : (X ++ sa :: (M ++ ea :: Y)).filter (fun r => decide (s < r.1 ∧ r.1 ≤ e)) =
          M.filter (fun r => decide (s < r.1 ∧ r.1 ≤ e)) := by
        rw [List.filter_append, filter_mid_none X s e (fun r hr => Or.inl (hXs r hr)),
          filter_mid_cons_neg sa _ s e (Or.inl hsas), List.filter_append,
          filter_mid_cons_neg ea _ s e (Or.inr heea),
          filter_mid_none Y s e (fun r hr => Or.inr (hYe r hr)), List.nil_append,
          List.append_nil]
      have hFl : (X ++ sa :: (M ++ ea :: Y)).filter (fun r => decide (e < r.1)) =
          M.filter (fun r => decide (e < r.1)) ++ ea :: Y := by
        rw [List.filter_append, filter_late_none X e (fun r hr => le_trans (hXs r hr) hse),
          filter_late_cons_neg sa _ e (le_trans hsas hse), List.filter_append,
          filter_late_cons_pos ea _ e heea, filter_late_all Y e hYe, List.nil_append]
      have hFe : (X ++ sa :: (M ++ ea :: Y)).filter (fun r => decide (r.1 ≤ e)) =
          X ++ sa :: M.filter (fun r => decide (r.1 ≤ e)) := by
        rw [List.filter_append, filter_le_all X e (fun r hr => le_trans (hXs r hr) hse),
          filter_le_cons_pos sa _ e (le_trans hsas hse), List.filter_append,
          filter_le_cons_neg ea _ e heea, filter_le_none Y e hYe, List.append_nil]
      rw [hFe] at hpe
      have hpe1 : q ≤ pe := hbound e pe hpe
      rw [hF, hFm, hFl]
      refine ⟨M.filter (fun r => decide (r.1 ≤ s)) ++
          (s, { m_power := ps + p, m_event := some event }) ::
            ((M.filter (fun r => decide (s < r.1 ∧ r.1 ≤ e))).map
                (fun r => (r.1, r.2.AddPower p)) ++
              (e, { m_power := pe, m_event := some event }) ::
                M.filter (fun r => decide (e < r.1))),
        ea, Y, ?_, rfl, rfl, ?_, ?_⟩
      · simp only [List.append_assoc, List.cons_append]
      · intro r hr
        rcases List.mem_append.mp hr with hr | hr
        · exact hqM r (hMfle s r hr)
        · rcases List.mem_cons.mp hr with rfl | hr
          · exact hps1
          · rcases List.mem_append.mp hr with hr | hr
            · exact (hmapM r hr).1
            · rcases List.mem_cons.mp hr with rfl | hr
              · exact hpe1
              · exact hqM r (List.mem_filter.mp hr).1
      · intro r hr
        rcases List.mem_append.mp hr with hr | hr
        · exact hMA r (hMfle s r hr)
        · rcases List.mem_cons.mp hr with rfl | hr
          · exact hCA2
          · rcases List.mem_append.mp hr with hr | hr
            · exact (hmapM r hr).2
            · rcases List.mem_cons.mp hr with rfl | hr
              · exact hCA2
              · exact hMA r (List.mem_filter.mp hr).1

theorem TimelineSpan_add (band : WifiSpectrumBand) (T S : Time) (log kept : List Event)
    (h h1 : InterferenceHelper) (addr ppdu : Nat) (txVector : WifiTxVector) (duration : Time)
    (rxPowerW : RxPowerWattPerChannelBand) (event : Event) (p : ℚ) (ni : NiChanges)
    (hprev : BandRun band T S log kept h) (hdur : 0 ≤ duration)
    (hkeys : (rxPowerW.map Prod.fst).Nodup) (hmem : (band, p) ∈ rxPowerW)
    (hadd : h.Add T addr ppdu txVector duration rxPowerW = some (h1, event))
    (hnn : ∀ e ∈ event :: log, 0 ≤ bandPower e band)
    (haddr : ((event :: log).map Event.addr).Nodup)
    (hni : mapFind h.m_niChangesPerBand band = some ni)
    (hspan : TimelineSpan band T log kept ni) :
    ∃ ni1, mapFind h1.m_niChangesPerBand band = some ni1 ∧
      (h.m_rxing = true → TimelineSpan band T (event :: log) (event :: kept) ni1) ∧
      TimelineSpan band T (event :: log) [event] ni1 := by
  obtain ⟨hinv, hnninv⟩ := BandRun_inv band T S log kept h hprev
  obtain ⟨hS0, hST, hhd, ni0, f, hni0, hf, hhead, hsorted, hpow, hkept⟩ := hinv
  rw [hni] at hni0
  simp only [Option.some.injEq] at hni0
  subst hni0
  obtain ⟨hentries, -, -⟩ := hnninv (fun e he => hnn e (List.mem_cons_of_mem _ he))
  have hrec : ∀ r ∈ ni, 0 ≤ r.2.m_power := hentries (band, ni) (mapFind_mem _ _ _ hni) rfl
  obtain ⟨hev, ni1, ps, happ, hps, hni1, hf1⟩ :=
    Add_band_effect h h1 T duration addr ppdu txVector rxPowerW event band p ni hadd hkeys
      hmem hni
  have hs : event.GetStartTime = T := by rw [hev]; rfl
  have he : event.GetEndTime = T + duration := by rw [hev]; rfl
  have hse : event.GetStartTime ≤ event.GetEndTime := by rw [hs, he]; linarith
  have hrx : event.GetRxPowerW band = some p := by
    rw [hev]
    exact mapFind_nodup_mem rxPowerW band p hkeys hmem
  have hbp : bandPower event band = p := by
    unfold bandPower
    rw [hrx]
    rfl
  have hp : 0 ≤ p := by
    have := hnn event (List.mem_cons_self _ _)
    rw [hbp] at this
    exact this
  rw [List.map_cons, List.nodup_cons] at haddr
  have hnotin : event ∉ log := fun hc => haddr.1 (List.mem_map.mpr ⟨event, hc, rfl⟩)
  have hevni : ∀ r ∈ ni, r.2.m_event ≠ some event :=
    fun r hr hc => hnotin (hspan.1 r hr event hc)
  obtain ⟨hfrom, X, sa, M, ea, Y, hdec, hsa1, hea1, hsae, heae, hXe, hMe, hpsa, hpM⟩ :=
    appendTimeline_span_new h.m_rxing event p ni ni1 hse hsorted happ hrec hevni
  have hlog : ∀ r ∈ ni1, ∀ e, r.2.m_event = some e → e ∈ event :: log := by
    intro r hr e hre
    rcases hfrom r hr with h2 | ⟨r0, hr0, h2⟩
    · rw [h2] at hre
      rw [← Option.some.inj hre]
      exact List.mem_cons_self _ _
    · rw [h2] at hre
      exact List.mem_cons_of_mem _ (hspan.1 r0 hr0 e hre)
  have hspanC : event.GetStartTime ≤ T ∧
      ∃ X sa M ea Y, ni1 = X ++ sa :: (M ++ ea :: Y) ∧
        sa.1 = event.GetStartTime ∧ ea.1 = event.GetEndTime ∧
        sa.2.m_event = some event ∧ ea.2.m_event = some event ∧
        (∀ r ∈ X, r.2.m_event ≠ some event) ∧ (∀ r ∈ M, r.2.m_event ≠ some event) ∧
        bandPower event band ≤ sa.2.m_power ∧ ∀ r ∈ M, bandPower event band ≤ r.2.m_power := by
    rw [hbp]
    exact ⟨by rw [hs], X, sa, M, ea, Y, hdec, hsa1, hea1, hsae, heae, hXe, hMe, hpsa, hpM⟩
  refine ⟨ni1, hni1, ?_, ?_⟩
  · intro hrxing
    refine ⟨hlog, ?_⟩
    intro A hA
    rcases List.mem_cons.mp hA with hAe | hA1
    · rw [hAe]
      exact hspanC
    · obtain ⟨hAT, X0, sa0, M0, ea0, Y0, hdec0, hsa10, hea10, hsae0, heae0, hX0, hM0, hpsa0,
        hpM0⟩ := hspan.2 A hA1
      have hAlog := (hkept A hA1).1
      have hCA : event ≠ A := fun hc => hnotin (by rw [hc]; exact hAlog)
      rw [hrxing] at happ
      obtain ⟨M1, ea1, Y1, hdec1, hea11, hea1e, hqM1, hMA1⟩ :=
        appendTimeline_span_keep event p ni ni1 X0 M0 Y0 sa0 ea0 (bandPower A band) A hse
          hsorted happ hdec0 (by rw [hsa10, hs]; exact hAT) hp hCA hpsa0 hpM0 hM0
      exact ⟨hAT, X0, sa0, M1, ea1, Y1, hdec1, hsa10, by rw [hea11, hea10], hsae0,
        by rw [hea1e, heae0], hX0, hMA1, hpsa0, hqM1⟩
  · refine ⟨hlog, ?_⟩
    intro A hA
    rw [List.mem_singleton] at hA
    rw [hA]
    exact hspanC

/-- What a run keeps true of the records of the band, when the powers of the added events
on the band are not negative and the added events are distinct objects. -/
theorem BandRun_span (band : WifiSpectrumBand) (T S : Time) (log kept : List Event)
    (h : InterferenceHelper) (hrun : BandRun band T S log kept h) :
    (∀ e ∈ log, 0 ≤ bandPower e band) → (log.map Event.addr).Nodup →
    ∃ ni, mapFind h.m_niChangesPerBand band = some ni ∧ TimelineSpan band T log kept ni := by
  induction hrun with
  | start h0 h hc hadd =>
    intro _ _
    obtain ⟨-, hni, -⟩ := AddBand_registers h0 h band hadd
    refine ⟨_, hni, ?_, ?_⟩
    · intro r hr e hre
      simp only [List.mem_singleton] at hr
      rw [hr] at hre
      simp at hre
    · intro A hA
      simp at hA
  | wait h T T1 S log kept _ hT ih =>
    intro hnn haddr
    obtain ⟨ni, hni, hlog, hspan⟩ := ih hnn haddr
    refine ⟨ni, hni, hlog, ?_⟩
    intro A hA
    obtain ⟨hAT, hrest⟩ := hspan A hA
    exact ⟨le_trans hAT hT, hrest⟩
  | addBand h h1 T S log kept b hprev hadd ih =>
    intro hnn haddr
    obtain ⟨ni, hni, hspan⟩ := ih hnn haddr
    obtain ⟨hb, -, -⟩ := BandInv_addBand band T S log kept h h1 b
      (BandRun_inv band T S log kept h hprev).1 hadd
    obtain ⟨-, -, hniother, -⟩ := AddBand_registers h h1 b hadd
    exact ⟨ni, by rw [hniother band (Ne.symm hb)]; exact hni, hspan⟩
  | addOther h h1 T S log kept addr ppdu txVector duration rxPowerW event _ hdur hother hadd ih =>
    intro hnn haddr
    rw [List.map_cons, List.nodup_cons] at haddr
    obtain ⟨ni, hni, hlog, hspan⟩ :=
      ih (fun e he => hnn e (List.mem_cons_of_mem _ he)) haddr.2
    obtain ⟨-, hfold⟩ := Add_event_eq h h1 T duration addr ppdu txVector rxPowerW event hadd
    obtain ⟨hni1, -, -⟩ := appendEventBand_fold_frame event band rxPowerW h h1 hother hfold
    refine ⟨ni, by rw [hni1]; exact hni, ?_, hspan⟩
    intro r hr e hre
    exact List.mem_cons_of_mem _ (hlog r hr e hre)
  | addKeep h h1 T S log kept addr ppdu txVector duration rxPowerW event p hprev hdur hkeys hmem
      hrx hadd ih =>
    intro hnn haddr
    obtain ⟨ni, hni, hspan⟩ := ih (fun e he => hnn e (List.mem_cons_of_mem _ he))
      (by rw [List.map_cons, List.nodup_cons] at haddr; exact haddr.2)
    obtain ⟨ni1, hni1, hkeep, -⟩ := TimelineSpan_add band T S log kept h h1 addr ppdu txVector
      duration rxPowerW event p ni hprev hdur hkeys hmem hadd hnn haddr hni hspan
    exact ⟨ni1, hni1, hkeep hrx⟩
  | addPrune h h1 T S log kept addr ppdu txVector duration rxPowerW event p hprev hdur hkeys
      hmem hrx hadd ih =>
    intro hnn haddr
    obtain ⟨ni, hni, hspan⟩ := ih (fun e he => hnn e (List.mem_cons_of_mem _ he))
      (by rw [List.map_cons, List.nodup_cons] at haddr; exact haddr.2)
    obtain ⟨ni1, hni1, -, hnew⟩ := TimelineSpan_add band T S log kept h h1 addr ppdu txVector
      duration rxPowerW event p ni hprev hdur hkeys hmem hadd hnn haddr hni hspan
    exact ⟨ni1, hni1, hnew⟩
  | notifyRxStart h T S log kept _ ih =>
    intro hnn haddr
    exact ih hnn haddr
  | notifyRxEnd h h1 T S log kept _ hend ih =>
    intro hnn haddr
    obtain ⟨ni, hni, hspan⟩ := ih hnn haddr
    exact ⟨ni, by rw [notifyRxEnd_timelines h h1 T hend]; exact hni, hspan⟩

theorem mem_dropLast_cons (j : Time × NiChange) (rest : NiChanges) (r : Time × NiChange)
    (hr : r ∈ rest.dropLast) : r ∈ (j :: rest).dropLast := by
  cases rest with
  | nil => simp at hr
  | cons k rest1 =>
    rw [List.dropLast_cons₂]
    exact List.mem_cons_of_mem _ hr

theorem phyHeaderWalk_noise (h : InterferenceHelper) (channelWidth : Nat) (powerW : ℚ)
    (chunks : Time → Time → Option (List (Time × WifiMode))) :
    ∀ (rest : NiChanges) (previous : Time) (noise : ℚ) (w : List (ℚ × Time × WifiMode)),
      h.phyHeaderWalk channelWidth powerW chunks rest previous noise = some w →
      ∀ q ∈ w, ∃ n, q.1 = h.CalculateSnr powerW n channelWidth ∧
        (n = noise ∨ ∃ r ∈ rest.dropLast, n = r.2.GetPower - powerW) := by
  intro rest
  induction rest with
  | nil =>
    intro previous noise w hw q hq
    simp only [phyHeaderWalk, Option.some.injEq] at hw
    rw [← hw] at hq
    simp at hq
  | cons j rest ih =>
    intro previous noise w hw q hq
    unfold phyHeaderWalk at hw
    simp only [] at hw
    split at hw
    · simp at hw
    · split at hw
      · simp at hw
      · split at hw
        · simp at hw
        · rename_i l hl w1 hw1
          simp only [Option.some.injEq] at hw
          rw [← hw] at hq
          rcases List.mem_append.mp hq with hq1 | hq1
          · obtain ⟨ch, -, hch⟩ := List.mem_map.mp hq1
            exact ⟨noise, by rw [← hch], Or.inl rfl⟩
          · obtain ⟨n, hn, hcase⟩ := ih j.1 (j.2.GetPower - powerW) w1 hw1 q hq1
            refine ⟨n, hn, Or.inr ?_⟩
            rcases hcase with h1 | ⟨r, hr, h1⟩
            · cases rest with
              | nil =>
                simp only [phyHeaderWalk, Option.some.injEq] at hw1
                rw [← hw1] at hq1
                simp at hq1
              | cons k rest1 =>
                exact ⟨j, by rw [List.dropLast_cons₂]; exact List.mem_cons_self _ _, h1⟩
            · exact ⟨r, mem_dropLast_cons j rest r hr, h1⟩

theorem payloadPerWalk_noise (h : InterferenceHelper) (channelWidth : Nat)
    (windowStart windowEnd : Time) (powerW : ℚ) :
    ∀ (rest : NiChanges) (previous : Time) (noise : ℚ) (w : List (ℚ × Time)),
      h.payloadPerWalk channelWidth windowStart windowEnd powerW rest previous noise = some w →
      ∀ q ∈ w, ∃ n, q.1 = h.CalculateSnr powerW n channelWidth ∧
        (n = noise ∨ ∃ r ∈ rest.dropLast, n = r.2.GetPower - powerW) := by
  intro rest
  induction rest with
  | nil =>
    intro previous noise w hw q hq
    simp only [payloadPerWalk, Option.some.injEq] at hw
    rw [← hw] at hq
    simp at hq
  | cons j rest ih =>
    intro previous noise w hw q hq
    unfold payloadPerWalk at hw
    simp only [] at hw
    have hhere : ∀ q ∈ (if previous ≥ windowStart then
          [(h.CalculateSnr powerW noise channelWidth, j.1 - previous)]
        else if j.1 ≥ windowStart then
          [(h.CalculateSnr powerW noise channelWidth, j.1 - windowStart)]
        else ([] : List (ℚ × Time))), q.1 = h.CalculateSnr powerW noise channelWidth := by
      intro q1 hq1
      split at hq1
      · simp only [List.mem_singleton] at hq1
        rw [hq1]
      · split at hq1
        · simp only [List.mem_singleton] at hq1
          rw [hq1]
        · simp at hq1
    split at hw
    · simp at hw
    · split at hw
      · simp only [Option.some.injEq] at hw
        rw [← hw] at hq
        exact ⟨noise, hhere q hq, Or.inl rfl⟩
      · split at hw
        · simp at hw
        · rename_i w1 hw1
          simp only [Option.some.injEq] at hw
          rw [← hw] at hq
          rcases List.mem_append.mp hq with hq1 | hq1
          · exact ⟨noise, hhere q hq1, Or.inl rfl⟩
          · obtain ⟨n, hn, hcase⟩ := ih j.1 (j.2.GetPower - powerW) w1 hw1 q hq1
            refine ⟨n, hn, Or.inr ?_⟩
            rcases hcase with h1 | ⟨r, hr, h1⟩
            · cases rest with
              | nil =>
                simp only [payloadPerWalk, Option.some.injEq] at hw1
                rw [← hw1] at hq1
                simp at hq1
              | cons k rest1 =>
                exact ⟨j, by rw [List.dropLast_cons₂]; exact List.mem_cons_self _ _, h1⟩
            · exact ⟨r, mem_dropLast_cons j rest r hr, h1⟩

theorem sameEvent_of_event (r : NiChange) (A : Event) (hr : r.m_event = some A) :
    sameEvent r A = true := by
  unfold sameEvent NiChange.GetEvent
  rw [hr]
  simp

theorem sameEvent_false_of_ne (r : NiChange) (A : Event) (log : List Event)
    (hlog : ∀ e, r.m_event = some e → e ∈ log) (hA : A ∈ log)
    (haddr : (log.map Event.addr).Nodup) (hne : r.m_event ≠ some A) :
    sameEvent r A = false := by
  unfold sameEvent NiChange.GetEvent
  cases hev : r.m_event with
  | none => rfl
  | some e =>
    simp only [decide_eq_false_iff_not]
    intro hc
    have heq := List.inj_on_of_nodup_map haddr (hlog e hev) hA hc
    rw [heq] at hev
    exact hne hev

/-- On a local timeline made of a first record, records whose powers are at least the
power of the event, and a last record, with a first power that is not negative, every SNR
that the three walks pass to the error rate model is computed from a noise plus
interference value that is not negative. -/
theorem walks_noise_nonneg (h : InterferenceHelper) (c : Collaborators) (m : PhyHeaderModes)
    (A : Event) (band : WifiSpectrumBand) (M : NiChanges) (s0 e0 : Time × NiChange)
    (f pA : ℚ) (hf : mapFind h.m_firstPowerPerBand band = some f)
    (hpA : A.GetRxPowerW band = some pA) (hf0 : 0 ≤ f)
    (hM : ∀ r ∈ M, pA ≤ r.2.GetPower) :
    (∀ window w, h.payloadPerQueries c A [(band, s0 :: (M ++ [e0]))] band window = some w →
      ∀ q ∈ w, ∃ n, 0 ≤ n ∧
        q.1 = h.CalculateSnr pA n (c.GetChannelWidth A.GetTxVector)) ∧
    (∀ w, h.legacyHeaderQueries c m A [(band, s0 :: (M ++ [e0]))] band = some w →
      ∀ q ∈ w, ∃ n, 0 ≤ n ∧ q.1 = h.CalculateSnr pA n
        (if c.GetChannelWidth A.GetTxVector ≥ 40 then 20
         else c.GetChannelWidth A.GetTxVector)) ∧
    (∀ w, h.nonLegacyHeaderQueries c m A [(band, s0 :: (M ++ [e0]))] band = some w →
      ∀ q ∈ w, ∃ n, 0 ≤ n ∧ q.1 = h.CalculateSnr pA n
        (if c.GetChannelWidth A.GetTxVector ≥ 40 then 20
         else c.GetChannelWidth A.GetTxVector)) := by
  have hfind : mapFind [(band, s0 :: (M ++ [e0]))] band = some (s0 :: (M ++ [e0])) := by
    simp [mapFind]
  have hcase : ∀ n : ℚ, (n = f ∨ ∃ r ∈ (M ++ [e0]).dropLast, n = r.2.GetPower - pA) →
      0 ≤ n := by
    intro n hn
    rcases hn with h1 | ⟨r, hr, h1⟩
    · rw [h1]
      exact hf0
    · rw [List.dropLast_concat] at hr
      have := hM r hr
      rw [h1]
      linarith
  refine ⟨?_, ?_, ?_⟩
  · intro window w hw q hq
    unfold payloadPerQueries at hw
    simp only [hfind, hf, hpA] at hw
    obtain ⟨n, hn, hc⟩ := payloadPerWalk_noise h _ _ _ pA _ _ f w hw q hq
    exact ⟨n, hcase n hc, hn⟩
  · intro w hw q hq
    unfold legacyHeaderQueries at hw
    simp only [hfind, hf, hpA] at hw
    obtain ⟨n, hn, hc⟩ := phyHeaderWalk_noise h _ pA _ _ _ f w hw q hq
    exact ⟨n, hcase n hc, hn⟩
  · intro w hw q hq
    unfold nonLegacyHeaderQueries at hw
    simp only [hfind, hf, hpA] at hw
    obtain ⟨n, hn, hc⟩ := phyHeaderWalk_noise h _ pA _ _ _ f w hw q hq
    exact ⟨n, hcase n hc, hn⟩

/-- Records of a kept event after a run: the decomposition of the timeline of the band
around the start record and the end record of the event, with the bounds on the powers. -/
theorem BandRun_between (band : WifiSpectrumBand) (T S : Time) (log kept : List Event)
    (h : InterferenceHelper) (A : Event) (hrun : BandRun band T S log kept h)
    (hnn : ∀ e ∈ log, 0 ≤ bandPower e band) (haddr : (log.map Event.addr).Nodup)
    (hA : A ∈ kept) :
    ∃ ni X sa M ea Y pA f, mapFind h.m_niChangesPerBand band = some ni ∧
      A.GetRxPowerW band = some pA ∧ mapFind h.m_firstPowerPerBand band = some f ∧ 0 ≤ f ∧
      ni.Pairwise (fun a b => a.1 ≤ b.1) ∧
      ni = X ++ sa :: (M ++ ea :: Y) ∧ sa.1 = A.GetStartTime ∧ ea.1 = A.GetEndTime ∧
      sameEvent sa.2 A = true ∧ sameEvent ea.2 A = true ∧
      (∀ r ∈ X, sameEvent r.2 A = false) ∧ (∀ r ∈ M, sameEvent r.2 A = false) ∧
      pA ≤ sa.2.GetPower ∧ (∀ r ∈ M, pA ≤ r.2.GetPower) := by
  obtain ⟨hinv, hnninv⟩ := BandRun_inv band T S log kept h hrun
  obtain ⟨-, -, -, ni0, f, hni0, hf, -, hsorted, -, hkept⟩ := hinv
  obtain ⟨-, hfnn, -⟩ := hnninv hnn
  obtain ⟨ni, hni, hlog, hspan⟩ := BandRun_span band T S log kept h hrun hnn haddr
  rw [hni] at hni0
  simp only [Option.some.injEq] at hni0
  subst hni0
  obtain ⟨hAlog, -, ⟨pA, hpA⟩, -⟩ := hkept A hA
  obtain ⟨-, X, sa, M, ea, Y, hdec, hsa1, hea1, hsae, heae, hX, hM, hpsa, hpM⟩ := hspan A hA
  have hbp : bandPower A band = pA := by
    unfold bandPower
    rw [hpA]
    rfl
  rw [hbp] at hpsa hpM
  have hmemX : ∀ r ∈ X, r ∈ ni := fun r hr => by
    rw [hdec]
    exact List.mem_append_left _ hr
  have hmemM : ∀ r ∈ M, r ∈ ni := fun r hr => by
    rw [hdec]
    exact List.mem_append_right _ (List.mem_cons_of_mem _ (List.mem_append_left _ hr))
  exact ⟨ni, X, sa, M, ea, Y, pA, f, hni, hpA, hf, hfnn f hf, hsorted, hdec, hsa1, hea1,
    sameEvent_of_event sa.2 A hsae, sameEvent_of_event ea.2 A heae,
    fun r hr => sameEvent_false_of_ne r.2 A log (hlog r (hmemX r hr)) hAlog haddr (hX r hr),
    fun r hr => sameEvent_false_of_ne r.2 A log (hlog r (hmemM r hr)) hAlog haddr (hM r hr),
    hpsa, hpM⟩

/-- C32: own power is contained in the records an event spans. After a run on a registered
band (as for C28), with band powers that are not negative and added events that are
distinct objects, for an event `A` with power `pA` on the band whose records were kept
(every later Add with power on the band was made with the flag set): the timeline of the
band is `X ++ sa :: (M ++ ea :: Y)` with `sa` the start record and `ea` the end record of
`A`, the only records of `A` up to `ea`; every record of `M`, the records strictly between
them, has a power that is at least `pA`; the local timeline of `A` is its start record,
`M` and its end record; and every SNR that the walks of `CalculatePayloadPer`,
`CalculateLegacyPhyHeaderPer` and `CalculateNonLegacyPhyHeaderPer` over this local
timeline pass to the error rate model is computed from a noise plus interference value
(the first power of the band, or the power of a record of `M` minus `pA`) that is not
negative. -/
theorem C32_records_between_own_records_hold_own_power (band : WifiSpectrumBand)
    (T S : Time) (log kept : List Event) (h : InterferenceHelper) (A : Event)
    (c : Collaborators) (m : PhyHeaderModes) (hrun : BandRun band T S log kept h)
    (hnn : ∀ e ∈ log, 0 ≤ bandPower e band) (haddr : (log.map Event.addr).Nodup)
    (hA : A ∈ kept) :
    ∃ ni X sa M ea Y pA f, mapFind h.m_niChangesPerBand band = some ni ∧
      A.GetRxPowerW band = some pA ∧ mapFind h.m_firstPowerPerBand band = some f ∧ 0 ≤ f ∧
      ni = X ++ sa :: (M ++ ea :: Y) ∧ sa.1 = A.GetStartTime ∧ ea.1 = A.GetEndTime ∧
      sameEvent sa.2 A = true ∧ sameEvent ea.2 A = true ∧
      (∀ r ∈ X, sameEvent r.2 A = false) ∧ (∀ r ∈ M, sameEvent r.2 A = false) ∧
      (∀ r ∈ M, pA ≤ r.2.GetPower) ∧
      localTimeline A ni =
        some ((A.GetStartTime, { m_power := 0, m_event := some A }) ::
          (M ++ [(A.GetEndTime, { m_power := 0, m_event := some A })])) ∧
      (∀ window w, h.payloadPerQueries c A
          [(band, (A.GetStartTime, { m_power := 0, m_event := some A }) ::
            (M ++ [(A.GetEndTime, { m_power := 0, m_event := some A })]))] band window
          = some w →
        ∀ q ∈ w, ∃ n, 0 ≤ n ∧
          q.1 = h.CalculateSnr pA n (c.GetChannelWidth A.GetTxVector)) ∧
      (∀ w, h.legacyHeaderQueries c m A
          [(band, (A.GetStartTime, { m_power := 0, m_event := some A }) ::
            (M ++ [(A.GetEndTime, { m_power := 0, m_event := some A })]))] band = some w →
        ∀ q ∈ w, ∃ n, 0 ≤ n ∧ q.1 = h.CalculateSnr pA n
          (if c.GetChannelWidth A.GetTxVector ≥ 40 then 20
           else c.GetChannelWidth A.GetTxVector)) ∧
      (∀ w, h.nonLegacyHeaderQueries c m A
          [(band, (A.GetStartTime, { m_power := 0, m_event := some A }) ::
            (M ++ [(A.GetEndTime, { m_power := 0, m_event := some A })]))] band = some w →
        ∀ q ∈ w, ∃ n, 0 ≤ n ∧ q.1 = h.CalculateSnr pA n
          (if c.GetChannelWidth A.GetTxVector ≥ 40 then 20
           else c.GetChannelWidth A.GetTxVector)) := by
  obtain ⟨ni, X, sa, M, ea, Y, pA, f, hni, hpA, hf, hf0, hsorted, hdec, hsa1, hea1, hsa, hea,
    hX, hM, -, hpM⟩ := BandRun_between band T S log kept h A hrun hnn haddr hA
  obtain ⟨hw1, hw2, hw3⟩ := walks_noise_nonneg h c m A band M
    (A.GetStartTime, { m_power := 0, m_event := some A })
    (A.GetEndTime, { m_power := 0, m_event := some A }) f pA hf hpA hf0 hpM
  exact ⟨ni, X, sa, M, ea, Y, pA, f, hni, hpA, hf, hf0, hdec, hsa1, hea1, hsa, hea, hX, hM,
    hpM, localTimeline_split A ni X M Y sa ea hdec hsorted hsa1 hea1 hsa hea hX hM,
    hw1, hw2, hw3⟩

/-- Witness of C32: `samplePpdu` (3 W) after `sampleInterferer` (2 W) was added while
receiving; the records of the interferer, between the two records of `samplePpdu`, hold
5 W and 3 W. -/
theorem C32_records_between_own_records_hold_own_power_witness :
    ∃ ni X sa M ea Y pA f, mapFind sampleInterfered.m_niChangesPerBand sampleBand = some ni ∧
      samplePpdu.GetRxPowerW sampleBand = some pA ∧
      mapFind sampleInterfered.m_firstPowerPerBand sampleBand = some f ∧ 0 ≤ f ∧
      ni = X ++ sa :: (M ++ ea :: Y) ∧ sa.1 = samplePpdu.GetStartTime ∧
      ea.1 = samplePpdu.GetEndTime ∧
      sameEvent sa.2 samplePpdu = true ∧ sameEvent ea.2 samplePpdu = true ∧
      (∀ r ∈ X, sameEvent r.2 samplePpdu = false) ∧
      (∀ r ∈ M, sameEvent r.2 samplePpdu = false) ∧
      (∀ r ∈ M, pA ≤ r.2.GetPower) ∧
      localTimeline samplePpdu ni =
        some ((samplePpdu.GetStartTime, { m_power := 0, m_event := some samplePpdu }) ::
          (M ++ [(samplePpdu.GetEndTime, { m_power := 0, m_event := some samplePpdu })])) ∧
      (∀ window w, sampleInterfered.payloadPerQueries sampleCollaborators samplePpdu
          [(sampleBand, (samplePpdu.GetStartTime, { m_power := 0, m_event := some samplePpdu })
            :: (M ++ [(samplePpdu.GetEndTime, { m_power := 0, m_event := some samplePpdu })]))]
          sampleBand window = some w →
        ∀ q ∈ w, ∃ n, 0 ≤ n ∧
          q.1 = sampleInterfered.CalculateSnr pA n
            (sampleCollaborators.GetChannelWidth samplePpdu.GetTxVector)) ∧
      (∀ w, sampleInterfered.legacyHeaderQueries sampleCollaborators sampleModes samplePpdu
          [(sampleBand, (samplePpdu.GetStartTime, { m_power := 0, m_event := some samplePpdu })
            :: (M ++ [(samplePpdu.GetEndTime, { m_power := 0, m_event := some samplePpdu })]))]
          sampleBand = some w →
        ∀ q ∈ w, ∃ n, 0 ≤ n ∧ q.1 = sampleInterfered.CalculateSnr pA n
          (if sampleCollaborators.GetChannelWidth samplePpdu.GetTxVector ≥ 40 then 20
           else sampleCollaborators.GetChannelWidth samplePpdu.GetTxVector)) ∧
      (∀ w, sampleInterfered.nonLegacyHeaderQueries sampleCollaborators sampleModes samplePpdu
          [(sampleBand, (samplePpdu.GetStartTime, { m_power := 0, m_event := some samplePpdu })
            :: (M ++ [(samplePpdu.GetEndTime, { m_power := 0, m_event := some samplePpdu })]))]
          sampleBand = some w →
        ∀ q ∈ w, ∃ n, 0 ≤ n ∧ q.1 = sampleInterfered.CalculateSnr pA n
          (if sampleCollaborators.GetChannelWidth samplePpdu.GetTxVector ≥ 40 then 20
           else sampleCollaborators.GetChannelWidth samplePpdu.GetTxVector)) :=
  C32_records_between_own_records_hold_own_power sampleBand 30 0
    [sampleInterferer, samplePpdu] [sampleInterferer, samplePpdu] sampleInterfered samplePpdu
    sampleCollaborators sampleModes sampleInterfered_run sample_powers_nonneg (by decide)
    (by simp)

end ns3
